import Mathlib

/-!
# Courier dispatch service: assignment coordination

A shallow embedding of the assignment core of `go-courier-service`:

* `internal/model` (courier and delivery records, the delivery time factory),
* `internal/repository/courier` and `internal/repository/delivery` (the SQL statements,
  read as functions on the two tables),
* `internal/infra/postgres` (`TxManager.WithTx`),
* `internal/usecase/delivery` (`Assign`, `Unassign`, `Complete`, `ProcessExpiredDeliveries`),
  on the store and over the interfaces of `contract.go`,
* `internal/usecase/order_event` (`Processor.Handle`, the handler factory and the handlers),
* `internal/gateway/orderhttp` (`fetchStatus`, the retry classification and the retry loop of
  `GetOrderStatus`),
* `internal/worker` (`OrderAssigner.processTick` and its watermark),
* `internal/usecase/courier` (`validatePhone` and the checks of `Create`, `Update`,
  `GetOneById`),
* `internal/handler/delivery` (`DeliveryHandler.Assign`),
* `internal/ratelimit` (`TokenBucketLimiter`).

Conventions.

* A `time.Time` is an integer number of ticks counted from the zero `time.Time`, so the zero
  value of the Go type is `0`; a `time.Duration` is an integer number of ticks and
  `Time.Add` is integer addition.
* Go's `int` and the `BIGINT`/`BIGSERIAL` columns are `Int`.  A statement that the database
  rejects (lost connection, value out of range, over-long text, ...) is a statement failure:
  each call carries a `Faults` record saying which of its statements fail that way.
* The tables are lists of rows in physical order; `QueryRow(...).Scan` reads the first row
  a statement returns.
* Calls are executed one after another (no interleaving of transactions), so no row is ever
  locked by another transaction when a statement runs.
* Code written against an interface is given over arbitrary implementations acting on a
  state `σ`; which calls it makes is read off a log that `logged` implementations keep.
* In the worker and the rate limiter the ticks are nanoseconds.  The rate limiter computes in
  `float64`: every operation is rounded to nearest, ties to even, and `Time.Sub` stops at the
  largest and at the smallest `time.Duration`.
-/

namespace CourierService

/-! ## internal/model -/

/-- `model.CourierStatusAvailable`. -/
def CourierStatusAvailable : String := "available"

/-- `model.CourierStatusBusy`. -/
def CourierStatusBusy : String := "busy"

/-- `model.CourierStatusPaused`. -/
def CourierStatusPaused : String := "paused"

/-- `model.CourierStatusActive`. -/
def CourierStatusActive : String := "active"

/-- `model.TransportOnFoot`. -/
def TransportOnFoot : String := "on_foot"

/-- `model.TransportScooter`. -/
def TransportScooter : String := "scooter"

/-- `model.TransportCar`. -/
def TransportCar : String := "car"

/-- `model.CourierModel`; also the shape of a row of table `couriers`. -/
structure CourierModel where
  ID : Int
  Name : String
  Phone : String
  Status : String
  TransportType : String
  AssignmentsCount : Int
  CreatedAt : Int
  UpdatedAt : Int
  deriving DecidableEq, Repr

/-- `model.DeliveryModel`; also the shape of a row of table `delivery`. -/
structure DeliveryModel where
  ID : Int
  CourierId : Int
  OrderId : String
  AssignedAt : Int
  Deadline : Int
  deriving DecidableEq, Repr

/-- `model.fixedDurationPolicy`, the only implementation of `model.DeliveryPolicy`. -/
structure fixedDurationPolicy where
  duration : Int
  deriving DecidableEq, Repr

/-- `fixedDurationPolicy.Deadline`: `now.Add(p.duration)`. -/
def fixedDurationPolicy.Deadline (p : fixedDurationPolicy) (now : Int) : Int :=
  now + p.duration

/-- `model.DeliveryTimeFactory`; the Go map is an association list with distinct keys. -/
structure DeliveryTimeFactory where
  defaultPolicy : fixedDurationPolicy
  policies : List (String × fixedDurationPolicy)
  deriving DecidableEq, Repr

/-- `model.NewDeliveryTimeFactory`. -/
def NewDeliveryTimeFactory (onFoot scooter car : Int) : DeliveryTimeFactory :=
  { defaultPolicy := { duration := onFoot }
    policies :=
      [ (TransportOnFoot, { duration := onFoot }),
        (TransportScooter, { duration := scooter }),
        (TransportCar, { duration := car }) ] }

/-- `DeliveryTimeFactory.ForTransport`: the map entry when there is one, else the default. -/
def DeliveryTimeFactory.ForTransport (f : DeliveryTimeFactory) (transport : String) :
    fixedDurationPolicy :=
  match f.policies.lookup transport with
  | some policy => policy
  | none => f.defaultPolicy

/-! ## Errors -/

/-- Go `error` values met in the core: the sentinels of the two repository packages, an
error handed up by the database driver, an error made from a text alone (`errors.New`,
`fmt.Errorf` without `%w`), an error of the HTTP client, which is a `net.Error` with the
given `Timeout()`, and `fmt.Errorf("<msg>: %w", inner)`. -/
inductive Err where
  | courierErrPhoneExists
  | courierErrCourierNotFound
  | courierErrDatabaseInternal
  | courierErrReadingData
  | deliveryErrDeliveryNotFound
  | deliveryErrDeliveryTableMissing
  | deliveryErrDatabaseInternal
  | driver (what : String)
  | text (what : String)
  | net (what : String) (timeout : Bool)
  | wrap (msg : String) (inner : Err)
  deriving DecidableEq, Repr

deriving instance DecidableEq for Except

/-- `errors.Is(err, target)` for the errors above: compare, then walk the `%w` chain.  The
targets used are the sentinels, for which Go's `==` is equality of the values here. -/
def errorsIs : Err → Err → Bool
  | .wrap msg inner, target =>
      decide (Err.wrap msg inner = target) || errorsIs inner target
  | e, target => decide (e = target)

/-- What the database reports when a statement fails: SQLSTATE `42P01` or anything else. -/
inductive PgFailure where
  | undefinedTable
  | other
  deriving DecidableEq, Repr

/-! ## The store -/

/-- The two tables and the `BIGSERIAL` sequence of `delivery.id`. -/
structure Store where
  couriers : List CourierModel
  deliveries : List DeliveryModel
  deliverySeq : Int
  deriving DecidableEq, Repr

/-- Which statements of one call fail, and whether acquiring the connection, `BEGIN` or
`COMMIT` fails. -/
structure Faults where
  acquire : Bool := false
  begin : Bool := false
  commit : Bool := false
  selector : Bool := false
  insert : Bool := false
  markAssigned : Bool := false
  delete : Bool := false
  lookup : Bool := false
  setStatus : Bool := false
  release : Option PgFailure := none
  deriving DecidableEq, Repr

/-- No statement fails. -/
def noFaults : Faults := {}

/-! ## internal/repository/courier -/

/-- What `Scan` fills in from the six selected columns; the two timestamps stay zero. -/
def scanCourier (r : CourierModel) : CourierModel :=
  { r with CreatedAt := 0, UpdatedAt := 0 }

/-- Row order of `ORDER BY assignments_count ASC, id ASC`. -/
def orderedBefore (a b : CourierModel) : Bool :=
  decide (a.AssignmentsCount < b.AssignmentsCount) ||
    (decide (a.AssignmentsCount = b.AssignmentsCount) && decide (a.ID ≤ b.ID))

/-- `ORDER BY assignments_count ASC, id ASC LIMIT 1` over the given rows. -/
def firstByLoad : List CourierModel → Option CourierModel
  | [] => none
  | c :: cs =>
    match firstByLoad cs with
    | none => some c
    | some m => if orderedBefore c m then some c else some m

/-- The rows with `status = 'available'`. -/
def availableRows (s : Store) : List CourierModel :=
  s.couriers.filter (fun c => decide (c.Status = CourierStatusAvailable))

/-- `CourierRepository.GetAvailableLeastDelivered`. -/
def CourierRepository.GetAvailableLeastDelivered (fault : Bool) (s : Store) :
    Except Err CourierModel :=
  if fault then .error .courierErrDatabaseInternal
  else
    match firstByLoad (availableRows s) with
    | none => .error .courierErrCourierNotFound
    | some c => .ok (scanCourier c)

/-- Table `couriers` after `SET status=$1 WHERE id=$2`. -/
def setStatusRows (status : String) (id : Int) (rows : List CourierModel) :
    List CourierModel :=
  rows.map (fun c => if c.ID = id then { c with Status := status } else c)

/-- `CourierRepository.UpdateStatus`: `UPDATE couriers SET status=$1 WHERE id=$2 RETURNING id`;
no returned row is `pgx.ErrNoRows`. -/
def CourierRepository.UpdateStatus (fault : Bool) (status : String) (id : Int) (s : Store) :
    Option Err × Store :=
  if fault then (some .courierErrDatabaseInternal, s)
  else if s.couriers.any (fun c => decide (c.ID = id)) then
    (none, { s with couriers := setStatusRows status id s.couriers })
  else (some .courierErrCourierNotFound, s)

/-- A courier row after `SET status='busy', assignments_count=assignments_count+1`. -/
def assignedRow (c : CourierModel) : CourierModel :=
  { c with Status := CourierStatusBusy, AssignmentsCount := c.AssignmentsCount + 1 }

/-- Table `couriers` after the statement of `MarkAssigned` for `id`. -/
def markAssignedRows (id : Int) (rows : List CourierModel) : List CourierModel :=
  rows.map (fun c => if c.ID = id then assignedRow c else c)

/-- `CourierRepository.MarkAssigned`:
`UPDATE couriers SET status='busy', assignments_count=assignments_count+1 WHERE id=$2
RETURNING id`; no returned row is `pgx.ErrNoRows`. -/
def CourierRepository.MarkAssigned (fault : Bool) (id : Int) (s : Store) :
    Option Err × Store :=
  if fault then (some .courierErrDatabaseInternal, s)
  else if s.couriers.any (fun c => decide (c.ID = id)) then
    (none, { s with couriers := markAssignedRows id s.couriers })
  else (some .courierErrCourierNotFound, s)

/-- `CourierRepository.GetOneById`: `SELECT ... FROM couriers WHERE id=$1`. -/
def CourierRepository.GetOneById (fault : Bool) (id : Int) (s : Store) :
    Except Err CourierModel :=
  if fault then .error .courierErrDatabaseInternal
  else
    match s.couriers.find? (fun c => decide (c.ID = id)) with
    | none => .error .courierErrCourierNotFound
    | some c => .ok (scanCourier c)

/-! ## internal/repository/delivery -/

/-- The row `INSERT INTO delivery(courier_id,order_id,deadline)` adds: `id` is the next
value of the sequence, `assigned_at` the column default `NOW()`. -/
def insertedRow (s : Store) (dbNow : Int) (delivery : DeliveryModel) : DeliveryModel :=
  { ID := s.deliverySeq + 1, CourierId := delivery.CourierId, OrderId := delivery.OrderId,
    AssignedAt := dbNow, Deadline := delivery.Deadline }

/-- `DeliveryRepository.Create`: `INSERT INTO delivery(courier_id,order_id,deadline)`; `id`
comes from the sequence and `assigned_at` from the column default `NOW()`. -/
def DeliveryRepository.Create (fault : Bool) (dbNow : Int) (delivery : DeliveryModel)
    (s : Store) : Option Err × Store :=
  if fault then (some .deliveryErrDatabaseInternal, s)
  else
    (none,
      { s with
        deliveries := s.deliveries ++ [insertedRow s dbNow delivery]
        deliverySeq := s.deliverySeq + 1 })

/-- The rows of `delivery` with `order_id = orderId`. -/
def rowsOfOrder (s : Store) (orderId : String) : List DeliveryModel :=
  s.deliveries.filter (fun d => decide (d.OrderId = orderId))

/-- Table `delivery` without the rows with `order_id = orderId`. -/
def rowsNotOfOrder (s : Store) (orderId : String) : List DeliveryModel :=
  s.deliveries.filter (fun d => !decide (d.OrderId = orderId))

/-- `DeliveryRepository.Delete`: `DELETE FROM delivery WHERE order_id=$1 RETURNING courier_id`,
the first returned row scanned. -/
def DeliveryRepository.Delete (fault : Bool) (orderId : String) (s : Store) :
    (Int × Option Err) × Store :=
  if fault then ((0, some .deliveryErrDatabaseInternal), s)
  else
    match rowsOfOrder s orderId with
    | [] => ((0, some .deliveryErrDeliveryNotFound), s)
    | d :: _ => ((d.CourierId, none), { s with deliveries := rowsNotOfOrder s orderId })

/-- `DeliveryRepository.GetCourierID`: `SELECT courier_id FROM delivery WHERE order_id=$1`. -/
def DeliveryRepository.GetCourierID (fault : Bool) (orderId : String) (s : Store) :
    Int × Option Err :=
  if fault then (0, some .deliveryErrDatabaseInternal)
  else
    match rowsOfOrder s orderId with
    | [] => (0, some .deliveryErrDeliveryNotFound)
    | d :: _ => (d.CourierId, none)

/-- The `WHERE` clause of the release statement for one courier row. -/
def releasable (s : Store) (dbNow : Int) (c : CourierModel) : Bool :=
  decide (c.Status = CourierStatusBusy) &&
    s.deliveries.any (fun d => decide (d.CourierId = c.ID) && decide (d.Deadline < dbNow)) &&
    !s.deliveries.any (fun d => decide (d.CourierId = c.ID) && decide (d.Deadline ≥ dbNow))

/-- Table `couriers` after the release statement. -/
def releasedRows (s : Store) (dbNow : Int) : List CourierModel :=
  s.couriers.map (fun c =>
    if releasable s dbNow c then { c with Status := CourierStatusAvailable } else c)

/-- `DeliveryRepository.ReleaseExpiredCouriers`: one `UPDATE ... RETURNING id`, the returned
rows counted. -/
def DeliveryRepository.ReleaseExpiredCouriers (fault : Option PgFailure) (dbNow : Int)
    (s : Store) : (Int × Option Err) × Store :=
  match fault with
  | some .undefinedTable => ((0, some .deliveryErrDeliveryTableMissing), s)
  | some .other => ((0, some .deliveryErrDatabaseInternal), s)
  | none =>
    (((s.couriers.filter (releasable s dbNow)).length, none),
      { s with couriers := releasedRows s dbNow })

/-! ## internal/infra/postgres -/

/-- What survives `ROLLBACK`: the rows as they were at `BEGIN`; sequence values are not
given back. -/
def rollback (before during : Store) : Store :=
  { before with deliverySeq := during.deliverySeq }

/-- `TxManager.WithTx`.  `init` is the value the variables captured by the closure hold
before it runs; the closure returns its error together with their new value. -/
def TxManager.WithTx {β : Type} (f : Faults) (s : Store) (init : β)
    (fn : Store → (Option Err × β) × Store) : (Option Err × β) × Store :=
  if f.acquire then ((some (.driver "acquire"), init), s)
  else if f.begin then ((some (.driver "begin"), init), s)
  else
    match fn s with
    | ((some err, v), s1) => ((some err, v), rollback s s1)
    | ((none, v), s1) =>
      if f.commit then ((some (.driver "commit"), v), rollback s s1)
      else ((none, v), s1)

/-! ## internal/usecase/delivery -/

/-- `usecase/delivery.DeliveryUsecase`; the repositories and the transaction manager are the
ones above, the clock reading `uc.now()` is an argument of each call. -/
structure DeliveryUsecase where
  timeFactory : DeliveryTimeFactory
  deriving DecidableEq, Repr

/-- The `DeliveryModel` that `Assign` builds for the chosen courier: `ID` and `AssignedAt` are
left at their zero values. -/
def DeliveryUsecase.newDelivery (uc : DeliveryUsecase) (now : Int) (order_id : String)
    (courier : CourierModel) : DeliveryModel :=
  { ID := 0, CourierId := courier.ID, OrderId := order_id, AssignedAt := 0,
    Deadline := (uc.timeFactory.ForTransport courier.TransportType).Deadline now }

/-- The `DeliveryModel` that `Unassign` and `Complete` return. -/
def orderResult (orderId : String) (courierId : Int) : DeliveryModel :=
  { ID := 0, CourierId := courierId, OrderId := orderId, AssignedAt := 0, Deadline := 0 }

/-- The closure `Assign` hands to `WithTx`. -/
def DeliveryUsecase.assignBody (uc : DeliveryUsecase) (now dbNow : Int) (f : Faults)
    (order_id : String) (s : Store) :
    (Option Err × (Option DeliveryModel × Option CourierModel)) × Store :=
  match CourierRepository.GetAvailableLeastDelivered f.selector s with
  | .error err => ((some (.wrap "get available courier" err), (none, none)), s)
  | .ok courier =>
    match DeliveryRepository.Create f.insert dbNow (uc.newDelivery now order_id courier) s with
    | (some err, s1) => ((some (.wrap "create delivery" err), (none, none)), s1)
    | (none, s1) =>
      match CourierRepository.MarkAssigned f.markAssigned courier.ID s1 with
      | (some err, s2) => ((some (.wrap "mark courier assigned" err), (none, none)), s2)
      | (none, s2) => ((none, (some (uc.newDelivery now order_id courier), some courier)), s2)

/-- `DeliveryUsecase.Assign`. -/
def DeliveryUsecase.Assign (uc : DeliveryUsecase) (now dbNow : Int) (f : Faults)
    (order_id : String) (s : Store) :
    (Option DeliveryModel × Option CourierModel × Option Err) × Store :=
  match TxManager.WithTx f s (none, none) (uc.assignBody now dbNow f order_id) with
  | ((some err, _), s1) => ((none, none, some err), s1)
  | ((none, (createdDelivery, assignedCourier)), s1) =>
    ((createdDelivery, assignedCourier, none), s1)

/-- The closure `Unassign` hands to `WithTx`. -/
def DeliveryUsecase.unassignBody (f : Faults) (orderId : String) (s : Store) :
    (Option Err × Int) × Store :=
  match DeliveryRepository.Delete f.delete orderId s with
  | ((_, some err), s1) => ((some (.wrap "delete delivery" err), 0), s1)
  | ((cid, none), s1) =>
    match CourierRepository.UpdateStatus f.setStatus CourierStatusAvailable cid s1 with
    | (some err, s2) => ((some (.wrap "update courier status" err), cid), s2)
    | (none, s2) => ((none, cid), s2)

/-- `DeliveryUsecase.Unassign`. -/
def DeliveryUsecase.Unassign (_uc : DeliveryUsecase) (f : Faults) (orderId : String)
    (s : Store) : (Option DeliveryModel × Option Err) × Store :=
  match TxManager.WithTx f s 0 (DeliveryUsecase.unassignBody f orderId) with
  | ((some err, _), s1) => ((none, some err), s1)
  | ((none, courierId), s1) =>
    ((some (orderResult orderId courierId), none), s1)

/-- The closure `Complete` hands to `WithTx`. -/
def DeliveryUsecase.completeBody (f : Faults) (orderId : String) (s : Store) :
    (Option Err × Int) × Store :=
  match DeliveryRepository.GetCourierID f.lookup orderId s with
  | (_, some err) => ((some (.wrap "get delivery courier" err), 0), s)
  | (cid, none) =>
    match CourierRepository.UpdateStatus f.setStatus CourierStatusAvailable cid s with
    | (some err, s2) => ((some (.wrap "update courier status" err), cid), s2)
    | (none, s2) => ((none, cid), s2)

/-- `DeliveryUsecase.Complete`. -/
def DeliveryUsecase.Complete (_uc : DeliveryUsecase) (f : Faults) (orderId : String)
    (s : Store) : (Option DeliveryModel × Option Err) × Store :=
  match TxManager.WithTx f s 0 (DeliveryUsecase.completeBody f orderId) with
  | ((some err, _), s1) => ((none, some err), s1)
  | ((none, courierId), s1) =>
    ((some (orderResult orderId courierId), none), s1)

/-- The closure `ProcessExpiredDeliveries` hands to `WithTx`. -/
def DeliveryUsecase.processExpiredBody (dbNow : Int) (f : Faults) (s : Store) :
    (Option Err × Int) × Store :=
  match DeliveryRepository.ReleaseExpiredCouriers f.release dbNow s with
  | ((_, some err), s1) => ((some (.wrap "release expired couriers" err), 0), s1)
  | ((count, none), s1) => ((none, count), s1)

/-- `DeliveryUsecase.ProcessExpiredDeliveries`: returns `updated, err`. -/
def DeliveryUsecase.ProcessExpiredDeliveries (_uc : DeliveryUsecase) (dbNow : Int) (f : Faults)
    (s : Store) : (Int × Option Err) × Store :=
  match TxManager.WithTx f s 0 (DeliveryUsecase.processExpiredBody dbNow f) with
  | ((err, updated), s1) => ((updated, err), s1)

/-! ## Sequences of calls -/

/-- The four entry points that touch the two tables. -/
inductive Op where
  | assign (orderId : String)
  | unassign (orderId : String)
  | complete (orderId : String)
  | releaseExpired
  deriving DecidableEq, Repr

/-- One call: the entry point, the reading of the coordinator's clock, the database's
`NOW()`, and the statement failures met. -/
structure Call where
  op : Op
  now : Int
  dbNow : Int
  faults : Faults
  deriving DecidableEq, Repr

/-- The store after one call. -/
def DeliveryUsecase.step (uc : DeliveryUsecase) (s : Store) (c : Call) : Store :=
  match c.op with
  | .assign o => (uc.Assign c.now c.dbNow c.faults o s).2
  | .unassign o => (uc.Unassign c.faults o s).2
  | .complete o => (uc.Complete c.faults o s).2
  | .releaseExpired => (uc.ProcessExpiredDeliveries c.dbNow c.faults s).2

/-- The store after a sequence of calls, run one after another. -/
def DeliveryUsecase.run (uc : DeliveryUsecase) (s : Store) (cs : List Call) : Store :=
  cs.foldl uc.step s

/-! ## Well-formed stores and call sequences used in the statements -/

/-- The primary key of `couriers`: no two rows share an `id`. -/
def primaryKey (s : Store) : Prop :=
  (s.couriers.map CourierModel.ID).Nodup

instance (s : Store) : Decidable (primaryKey s) := by
  unfold primaryKey
  infer_instance

/-- The results of a series of `Assign` calls made one after another with no statement
failure; each call gives its order id, the coordinator's clock and the database's `NOW()`. -/
def DeliveryUsecase.assignEach (uc : DeliveryUsecase) :
    Store → List (String × Int × Int) →
      List (Option DeliveryModel × Option CourierModel × Option Err)
  | _, [] => []
  | s, (o, now, dbNow) :: rest =>
    (uc.Assign now dbNow noFaults o s).1 ::
      DeliveryUsecase.assignEach uc (uc.Assign now dbNow noFaults o s).2 rest

/-- The courier ids handed out by a list of `Assign` results. -/
def assignedIds (rs : List (Option DeliveryModel × Option CourierModel × Option Err)) :
    List Int :=
  rs.filterMap (fun r => r.2.1.map CourierModel.ID)

/-- Every `Assign(o)` of the sequence is issued when table `delivery` has no row for `o`. -/
def DeliveryUsecase.freshAssigns (uc : DeliveryUsecase) : Store → List Call → Bool
  | _, [] => true
  | s, c :: cs =>
    (match c.op with
      | .assign o => (rowsOfOrder s o).isEmpty
      | _ => true) &&
    DeliveryUsecase.freshAssigns uc (uc.step s c) cs

/-- The sequence holds `Assign` and `Unassign` calls only. -/
def onlyAssignUnassign (cs : List Call) : Bool :=
  cs.all (fun c =>
    match c.op with
    | .assign _ => true
    | .unassign _ => true
    | _ => false)

/-- A store holding the single courier `c`, no delivery row, and sequence value `q`. -/
def soloStore (c : CourierModel) (q : Int) : Store :=
  { couriers := [c], deliveries := [], deliverySeq := q }

/-- The store after `Assign(o)` then `Unassign(o)` for each listed order id, no statement
failing, together with whether every call returned a nil error. -/
def DeliveryUsecase.assignUnassignPairs (uc : DeliveryUsecase) :
    Store → List (String × Int × Int) → Bool × Store
  | s, [] => (true, s)
  | s, (o, now, dbNow) :: rest =>
    let a := uc.Assign now dbNow noFaults o s
    let u := uc.Unassign noFaults o a.2
    let r := DeliveryUsecase.assignUnassignPairs uc u.2 rest
    (decide (a.1.2.2 = none) && decide (u.1.2 = none) && r.1, r.2)

/-! ## Concrete inputs -/

/-- The offsets of the unit tests: 30, 15 and 5 minutes, in seconds. -/
def exampleUsecase : DeliveryUsecase :=
  { timeFactory := NewDeliveryTimeFactory 1800 900 300 }

/-- An available courier travelling by car. -/
def alice : CourierModel :=
  { ID := 7, Name := "Alice", Phone := "+79990000001", Status := CourierStatusAvailable,
    TransportType := TransportCar, AssignmentsCount := 0, CreatedAt := 5, UpdatedAt := 5 }

/-- An available courier travelling by scooter. -/
def bob : CourierModel :=
  { ID := 8, Name := "Bob", Phone := "+79990000002", Status := CourierStatusAvailable,
    TransportType := TransportScooter, AssignmentsCount := 0, CreatedAt := 6, UpdatedAt := 6 }

/-- One available courier, no delivery. -/
def oneCourierStore : Store :=
  { couriers := [alice], deliveries := [], deliverySeq := 0 }

/-- Two available couriers, no delivery. -/
def twoCourierStore : Store :=
  { couriers := [alice, bob], deliveries := [], deliverySeq := 0 }

/-- The store `twoCourierStore` after `Assign("o1")` at time `900`: courier 7 is busy and
owns the row of order `o1`, courier 8 is available. -/
def storeWithOrder : Store :=
  (exampleUsecase.Assign 900 901 noFaults "o1" twoCourierStore).2

/-! ## internal/repository/courier: `Update` -/

/-- Table `couriers` after `SET name=$1, phone=$2, status=$3, transport_type=$4,
updated_at=NOW() WHERE id=$5`. -/
def updatedRows (dbNow : Int) (courier : CourierModel) (rows : List CourierModel) :
    List CourierModel :=
  rows.map (fun c =>
    if c.ID = courier.ID then
      { c with Name := courier.Name, Phone := courier.Phone, Status := courier.Status,
               TransportType := courier.TransportType, UpdatedAt := dbNow }
    else c)

/-- `CourierRepository.Update`: no returned row is `pgx.ErrNoRows`; a phone held by another
row violates `phone UNIQUE` ("duplicate key value"). -/
def CourierRepository.Update (fault : Bool) (dbNow : Int) (courier : CourierModel)
    (s : Store) : Option Err × Store :=
  if fault then (some .courierErrDatabaseInternal, s)
  else if s.couriers.any (fun c => decide (c.ID = courier.ID)) then
    if s.couriers.any (fun c => decide (c.ID ≠ courier.ID) && decide (c.Phone = courier.Phone))
    then (some .courierErrPhoneExists, s)
    else (none, { s with couriers := updatedRows dbNow courier s.couriers })
  else (some .courierErrCourierNotFound, s)

/-! ## Relations between a courier row before and after a call -/

/-- Row `y` is the courier of row `x` with an `assignments_count` that is not smaller. -/
def counterKept (x y : CourierModel) : Prop :=
  y.ID = x.ID ∧ x.AssignmentsCount ≤ y.AssignmentsCount

/-- `(a.assignments_count, a.id)` is lexicographically smaller than that of `b`. -/
def lighterThan (a b : CourierModel) : Prop :=
  a.AssignmentsCount < b.AssignmentsCount ∨
    (a.AssignmentsCount = b.AssignmentsCount ∧ a.ID < b.ID)

/-- Courier `c` is busy, owns a delivery whose deadline is before `now`, and owns no delivery
whose deadline is at or after `now`. -/
def expiredOnly (s : Store) (now : Int) (c : CourierModel) : Prop :=
  c.Status = CourierStatusBusy ∧
    (∃ d ∈ s.deliveries, d.CourierId = c.ID ∧ d.Deadline < now) ∧
    ∀ d ∈ s.deliveries, d.CourierId = c.ID → ¬ now ≤ d.Deadline

/-- A courier that has completed order `o1` (deadline 900) and is busy on order `o2`, whose
deadline is 1000. -/
def boundaryStore : Store :=
  { couriers := [{ alice with Status := CourierStatusBusy, AssignmentsCount := 2 }]
    deliveries :=
      [{ ID := 1, CourierId := 7, OrderId := "o1", AssignedAt := 600, Deadline := 900 },
       { ID := 2, CourierId := 7, OrderId := "o2", AssignedAt := 700, Deadline := 1000 }]
    deliverySeq := 2 }

instance (s : Store) (now : Int) (c : CourierModel) : Decidable (expiredOnly s now c) := by
  unfold expiredOnly
  infer_instance

/-- A busy courier whose only delivery has deadline 1000. -/
def pendingStore : Store :=
  { couriers := [{ alice with Status := CourierStatusBusy, AssignmentsCount := 1 }]
    deliveries :=
      [{ ID := 1, CourierId := 7, OrderId := "o1", AssignedAt := 700, Deadline := 1000 }]
    deliverySeq := 1 }

/-! ## internal/usecase/delivery over its interfaces (`contract.go`)

`DeliveryUsecase` is written against the interfaces `courierRepository`, `deliveryRepository`
and `txManager`.  Here its three closures are given over arbitrary implementations of the
store interfaces acting on a state `σ`, and the transaction manager over an arbitrary way of
undoing the closure's effects. -/

/-- A call made on one of the two repository interfaces. -/
inductive StoreCall where
  | GetAvailableLeastDelivered
  | Create (delivery : DeliveryModel)
  | MarkAssigned (id : Int)
  | Delete (orderId : String)
  | GetCourierID (orderId : String)
  | UpdateStatus (status : String) (id : Int)
  deriving DecidableEq, Repr

/-- Implementations of the repository methods the coordinator calls, on a state `σ`. -/
structure Repositories (σ : Type) where
  GetAvailableLeastDelivered : σ → Except Err CourierModel × σ
  Create : DeliveryModel → σ → Option Err × σ
  MarkAssigned : Int → σ → Option Err × σ
  Delete : String → σ → (Int × Option Err) × σ
  GetCourierID : String → σ → (Int × Option Err) × σ
  UpdateStatus : String → Int → σ → Option Err × σ

/-- The repositories of `internal/repository` on the store, with the statement failures `f`
and the database clock `dbNow`. -/
def storeRepositories (f : Faults) (dbNow : Int) : Repositories Store where
  GetAvailableLeastDelivered := fun s =>
    (CourierRepository.GetAvailableLeastDelivered f.selector s, s)
  Create := DeliveryRepository.Create f.insert dbNow
  MarkAssigned := CourierRepository.MarkAssigned f.markAssigned
  Delete := DeliveryRepository.Delete f.delete
  GetCourierID := fun orderId s => (DeliveryRepository.GetCourierID f.lookup orderId s, s)
  UpdateStatus := CourierRepository.UpdateStatus f.setStatus

/-- The same repositories, each call also appended to a log kept beside the state. -/
def Repositories.logged {σ : Type} (r : Repositories σ) :
    Repositories (σ × List StoreCall) where
  GetAvailableLeastDelivered := fun s =>
    ((r.GetAvailableLeastDelivered s.1).1,
      ((r.GetAvailableLeastDelivered s.1).2, s.2 ++ [.GetAvailableLeastDelivered]))
  Create := fun d s => ((r.Create d s.1).1, ((r.Create d s.1).2, s.2 ++ [.Create d]))
  MarkAssigned := fun id s =>
    ((r.MarkAssigned id s.1).1, ((r.MarkAssigned id s.1).2, s.2 ++ [.MarkAssigned id]))
  Delete := fun o s => ((r.Delete o s.1).1, ((r.Delete o s.1).2, s.2 ++ [.Delete o]))
  GetCourierID := fun o s =>
    ((r.GetCourierID o s.1).1, ((r.GetCourierID o s.1).2, s.2 ++ [.GetCourierID o]))
  UpdateStatus := fun st id s =>
    ((r.UpdateStatus st id s.1).1,
      ((r.UpdateStatus st id s.1).2, s.2 ++ [.UpdateStatus st id]))

/-- Undoing a transaction on a logged state: the state is restored, the log of the calls that
were made is kept. -/
def loggedRestore {σ : Type} (restore : σ → σ → σ) (before during : σ × List StoreCall) :
    σ × List StoreCall :=
  (restore before.1 during.1, during.2)

/-- `TxManager.WithTx` on a state `σ` whose rollback is `restore`. -/
def TxManager.WithTxOver {σ β : Type} (restore : σ → σ → σ) (f : Faults) (s : σ) (init : β)
    (fn : σ → (Option Err × β) × σ) : (Option Err × β) × σ :=
  if f.acquire then ((some (.driver "acquire"), init), s)
  else if f.begin then ((some (.driver "begin"), init), s)
  else
    match fn s with
    | ((some err, v), s1) => ((some err, v), restore s s1)
    | ((none, v), s1) =>
      if f.commit then ((some (.driver "commit"), v), restore s s1)
      else ((none, v), s1)

/-- The closure of `Assign` over the interfaces. -/
def DeliveryUsecase.assignOver {σ : Type} (uc : DeliveryUsecase) (r : Repositories σ)
    (now : Int) (order_id : String) (s : σ) :
    (Option Err × (Option DeliveryModel × Option CourierModel)) × σ :=
  match r.GetAvailableLeastDelivered s with
  | (.error err, s0) => ((some (.wrap "get available courier" err), (none, none)), s0)
  | (.ok courier, s0) =>
    match r.Create (uc.newDelivery now order_id courier) s0 with
    | (some err, s1) => ((some (.wrap "create delivery" err), (none, none)), s1)
    | (none, s1) =>
      match r.MarkAssigned courier.ID s1 with
      | (some err, s2) => ((some (.wrap "mark courier assigned" err), (none, none)), s2)
      | (none, s2) => ((none, (some (uc.newDelivery now order_id courier), some courier)), s2)

/-- `DeliveryUsecase.Assign` over the interfaces. -/
def DeliveryUsecase.AssignOver {σ : Type} (uc : DeliveryUsecase) (r : Repositories σ)
    (restore : σ → σ → σ) (now : Int) (f : Faults) (order_id : String) (s : σ) :
    (Option DeliveryModel × Option CourierModel × Option Err) × σ :=
  match TxManager.WithTxOver restore f s (none, none) (uc.assignOver r now order_id) with
  | ((some err, _), s1) => ((none, none, some err), s1)
  | ((none, (createdDelivery, assignedCourier)), s1) =>
    ((createdDelivery, assignedCourier, none), s1)

/-- The closure of `Unassign` over the interfaces. -/
def DeliveryUsecase.unassignOver {σ : Type} (r : Repositories σ) (orderId : String) (s : σ) :
    (Option Err × Int) × σ :=
  match r.Delete orderId s with
  | ((_, some err), s1) => ((some (.wrap "delete delivery" err), 0), s1)
  | ((cid, none), s1) =>
    match r.UpdateStatus CourierStatusAvailable cid s1 with
    | (some err, s2) => ((some (.wrap "update courier status" err), cid), s2)
    | (none, s2) => ((none, cid), s2)

/-- `DeliveryUsecase.Unassign` over the interfaces. -/
def DeliveryUsecase.UnassignOver {σ : Type} (_uc : DeliveryUsecase) (r : Repositories σ)
    (restore : σ → σ → σ) (f : Faults) (orderId : String) (s : σ) :
    (Option DeliveryModel × Option Err) × σ :=
  match TxManager.WithTxOver restore f s 0 (DeliveryUsecase.unassignOver r orderId) with
  | ((some err, _), s1) => ((none, some err), s1)
  | ((none, courierId), s1) => ((some (orderResult orderId courierId), none), s1)

/-- The closure of `Complete` over the interfaces. -/
def DeliveryUsecase.completeOver {σ : Type} (r : Repositories σ) (orderId : String) (s : σ) :
    (Option Err × Int) × σ :=
  match r.GetCourierID orderId s with
  | ((_, some err), s1) => ((some (.wrap "get delivery courier" err), 0), s1)
  | ((cid, none), s1) =>
    match r.UpdateStatus CourierStatusAvailable cid s1 with
    | (some err, s2) => ((some (.wrap "update courier status" err), cid), s2)
    | (none, s2) => ((none, cid), s2)

/-- `DeliveryUsecase.Complete` over the interfaces. -/
def DeliveryUsecase.CompleteOver {σ : Type} (_uc : DeliveryUsecase) (r : Repositories σ)
    (restore : σ → σ → σ) (f : Faults) (orderId : String) (s : σ) :
    (Option DeliveryModel × Option Err) × σ :=
  match TxManager.WithTxOver restore f s 0 (DeliveryUsecase.completeOver r orderId) with
  | ((some err, _), s1) => ((none, some err), s1)
  | ((none, courierId), s1) => ((some (orderResult orderId courierId), none), s1)

/-- The insert into `delivery` fails, nothing else does. -/
def insertFails : Faults :=
  { insert := true }

/-! ## Go's `strings` package -/

/-- `unicode.IsSpace`: tab, line feed, vertical tab, form feed, carriage return, space,
U+0085, U+00A0, and the other code points with the Unicode property White_Space. -/
def isSpace (c : Char) : Bool :=
  c.toNat == 9 || c.toNat == 10 || c.toNat == 11 || c.toNat == 12 || c.toNat == 13 ||
    c.toNat == 32 || c.toNat == 0x85 || c.toNat == 0xA0 || c.toNat == 0x1680 ||
    (decide (0x2000 ≤ c.toNat) && decide (c.toNat ≤ 0x200A)) ||
    c.toNat == 0x2028 || c.toNat == 0x2029 || c.toNat == 0x202F || c.toNat == 0x205F ||
    c.toNat == 0x3000

/-- `strings.TrimSpace`: the string without its leading and trailing white space. -/
def TrimSpace (s : String) : String :=
  String.mk ((s.data.dropWhile isSpace).reverse.dropWhile isSpace).reverse

/-- A string that is empty or holds white space only. -/
def blank (s : String) : Prop :=
  ∀ c ∈ s.data, isSpace c = true

instance (s : String) : Decidable (blank s) := by
  unfold blank
  infer_instance

/-- `strings.ToLower` and `strings.EqualFold`.  Their Unicode case tables belong to the Go
library, so the two functions are parameters of the processor. -/
structure CaseTables where
  ToLower : String → String
  EqualFold : String → String → Bool

/-- Lower case of an ASCII letter; other characters are left as they are. -/
def asciiLower (c : Char) : Char :=
  if 65 ≤ c.toNat ∧ c.toNat ≤ 90 then Char.ofNat (c.toNat + 32) else c

/-- The two functions on ASCII letters only; used for concrete examples. -/
def asciiTables : CaseTables where
  ToLower := fun s => String.mk (s.data.map asciiLower)
  EqualFold := fun a b => decide (a.data.map asciiLower = b.data.map asciiLower)

/-! ## internal/usecase/order_event -/

/-- `model.OrderStatusEvent`. -/
structure OrderStatusEvent where
  OrderID : String
  Status : String
  CreatedAt : Int
  deriving DecidableEq, Repr

/-- `statusCreated`. -/
def statusCreated : String := "created"

/-- `statusCancelled`. -/
def statusCancelled : String := "cancelled"

/-- `statusCanceled`. -/
def statusCanceled : String := "canceled"

/-- `statusCompleted`. -/
def statusCompleted : String := "completed"

/-- `statusDelivered`. -/
def statusDelivered : String := "delivered"

/-- A call made on `orderStatusGateway` or on `deliveryUsecase`. -/
inductive PortCall where
  | GetOrderStatus (orderID : String)
  | Assign (orderID : String)
  | Unassign (orderID : String)
  | Complete (orderID : String)
  deriving DecidableEq, Repr

/-- Implementations of the interfaces `orderStatusGateway` and `deliveryUsecase` on a state
`σ`. -/
structure EventPorts (σ : Type) where
  GetOrderStatus : String → σ → (String × Option Err) × σ
  Assign : String → σ → (Option DeliveryModel × Option CourierModel × Option Err) × σ
  Unassign : String → σ → (Option DeliveryModel × Option Err) × σ
  Complete : String → σ → (Option DeliveryModel × Option Err) × σ

/-- The same implementations, each call also appended to a log kept beside the state. -/
def EventPorts.logged {σ : Type} (p : EventPorts σ) : EventPorts (σ × List PortCall) where
  GetOrderStatus := fun o s =>
    ((p.GetOrderStatus o s.1).1, ((p.GetOrderStatus o s.1).2, s.2 ++ [.GetOrderStatus o]))
  Assign := fun o s => ((p.Assign o s.1).1, ((p.Assign o s.1).2, s.2 ++ [.Assign o]))
  Unassign := fun o s => ((p.Unassign o s.1).1, ((p.Unassign o s.1).2, s.2 ++ [.Unassign o]))
  Complete := fun o s => ((p.Complete o s.1).1, ((p.Complete o s.1).2, s.2 ++ [.Complete o]))

/-- The coordinator of the store behind `deliveryUsecase`, and a status gateway that answers
`gw orderID`; the clocks and the statement failures are those of the one call made. -/
def storePorts (uc : DeliveryUsecase) (now dbNow : Int) (f : Faults)
    (gw : String → String × Option Err) : EventPorts Store where
  GetOrderStatus := fun o s => (gw o, s)
  Assign := fun o s => uc.Assign now dbNow f o s
  Unassign := fun o s => uc.Unassign f o s
  Complete := fun o s => uc.Complete f o s

/-- The three implementations of `Handler`. -/
inductive Handler where
  | createdHandler
  | cancelledHandler
  | completedHandler
  deriving DecidableEq, Repr

/-- `createdHandler.Handle`, `cancelledHandler.Handle` and `completedHandler.Handle`. -/
def Handler.Handle {σ : Type} (h : Handler) (p : EventPorts σ) (event : OrderStatusEvent)
    (s : σ) : Option Err × σ :=
  match h with
  | .createdHandler =>
    match p.Assign event.OrderID s with
    | ((_, _, some err), s1) => (some (.wrap "assign courier" err), s1)
    | ((_, _, none), s1) => (none, s1)
  | .cancelledHandler =>
    match p.Unassign event.OrderID s with
    | ((_, some err), s1) => (some (.wrap "unassign courier" err), s1)
    | ((_, none), s1) => (none, s1)
  | .completedHandler =>
    match p.Complete event.OrderID s with
    | ((_, some err), s1) => (some (.wrap "complete delivery" err), s1)
    | ((_, none), s1) => (none, s1)

/-- `HandlerFactory`; the Go map is an association list with distinct keys. -/
structure HandlerFactory where
  handlers : List (String × Handler)
  deriving DecidableEq, Repr

/-- `NewHandlerFactory`. -/
def NewHandlerFactory : HandlerFactory :=
  { handlers :=
      [ (statusCreated, .createdHandler),
        (statusCancelled, .cancelledHandler),
        (statusCanceled, .cancelledHandler),
        (statusCompleted, .completedHandler),
        (statusDelivered, .completedHandler) ] }

/-- `HandlerFactory.Handler`; the receiver may be nil. -/
def HandlerFactory.Handler (t : CaseTables) (f : Option HandlerFactory) (status : String) :
    Option Handler :=
  match f with
  | none => none
  | some fac => fac.handlers.lookup (t.ToLower (TrimSpace status))

/-- `Processor`; its gateway is among the ports passed to `Handle`. -/
structure Processor where
  factory : Option HandlerFactory
  deriving DecidableEq, Repr

/-- `sameStatus`. -/
def sameStatus (t : CaseTables) (actual event : String) : Bool :=
  t.EqualFold (TrimSpace actual) (TrimSpace event)

/-- `Processor.Handle`. -/
def Processor.Handle {σ : Type} (t : CaseTables) (p : Processor) (ports : EventPorts σ)
    (event : OrderStatusEvent) (s : σ) : Option Err × σ :=
  if TrimSpace event.OrderID = "" ∨ TrimSpace event.Status = "" then
    (some (.text "invalid order event payload"), s)
  else
    match ports.GetOrderStatus event.OrderID s with
    | ((_, some err), s1) => (some (.wrap "fetch order status" err), s1)
    | ((status, none), s1) =>
      if !sameStatus t status event.Status then (none, s1)
      else
        match HandlerFactory.Handler t p.factory event.Status with
        | none => (none, s1)
        | some handler => handler.Handle ports event s1

/-- The processor built by `NewProcessor(NewHandlerFactory(uc), gateway)`. -/
def exampleProcessor : Processor :=
  { factory := some NewHandlerFactory }

/-! ## internal/gateway/orderhttp -/

/-- What `errors.As(err, &netErr)` finds: the `Timeout()` of the first `net.Error` of the
chain, if there is one. -/
def asNetError : Err → Option Bool
  | .net _ timeout => some timeout
  | .wrap _ inner => asNetError inner
  | _ => none

/-- `shouldRetryStatus`. -/
def shouldRetryStatus (code : Int) : Bool :=
  if code = 429 ∨ code = 408 then true
  else decide (code ≥ 500)

/-- `shouldRetryError`. -/
def shouldRetryError (err : Err) : Bool :=
  match asNetError err with
  | some timeout => timeout
  | none => false

/-- `shouldRetry`. -/
def shouldRetry (err : Err) (code : Int) : Bool :=
  if code ≠ 0 then shouldRetryStatus code
  else shouldRetryError err

/-- What happens to one request: building it fails, the client returns an error and no
response, or a response arrives with a status code and a body that either does not decode
or decodes to a payload with the given `status` field. -/
inductive Exchange where
  | requestError (err : Err)
  | transportError (err : Err)
  | response (code : Int) (body : Except Err String)

/-- `OrderGateway.fetchStatus`. -/
def fetchStatus : Exchange → String × Int × Option Err
  | .requestError err => ("", 0, some (.wrap "build request" err))
  | .transportError err => ("", 0, some err)
  | .response code body =>
    if code ≠ 200 then ("", code, some (.text ("order service status " ++ toString code)))
    else
      match body with
      | .error err => ("", code, some (.wrap "decode order response" err))
      | .ok status =>
        if TrimSpace status = "" then ("", code, some (.text "order status is empty"))
        else (TrimSpace status, code, none)

/-! ## internal/gateway/orderhttp: `GetOrderStatus` -/

/-- A signed 64-bit value: the two's-complement reading of an integer modulo 2^64. -/
def wrapInt64 (x : Int) : Int :=
  (x + 2 ^ 63) % 2 ^ 64 - 2 ^ 63

/-- `g.baseDelay * time.Duration(1<<uint(attempt-1))` in `int64`: a shift by 64 bits or more
gives 0, and the product wraps. -/
def retryDelay (baseDelay : Int) (attempt : Nat) : Int :=
  wrapInt64 (baseDelay * (if attempt - 1 < 64 then wrapInt64 (2 ^ (attempt - 1)) else 0))

/-- `OrderGateway`: the fields read by the retry loop. -/
structure OrderGateway where
  maxAttempts : Int
  baseDelay : Int
  deriving DecidableEq, Repr

/-- What surrounds one call of `GetOrderStatus`: `ctx.Err()` at the head of attempt `k`, the
exchange made by attempt `k`, and the answer of `g.wait(ctx, delay)` after attempt `k`. -/
structure Upstream where
  ctxErr : Nat → Option Err
  exchange : Nat → Exchange
  wait : Nat → Int → Option Err

/-- What `GetOrderStatus` returns, with the number of calls of `fetchStatus` it made and the
delays it passed to `g.wait`. -/
structure StatusResult where
  status : String
  err : Option Err
  attempts : Nat
  waits : List Int
  deriving DecidableEq, Repr

/-- The loop of `GetOrderStatus` from `attempt` on; `remaining` is the number of values of
`attempt` up to `g.maxAttempts` still to come, so the loop condition fails when it is 0. -/
def OrderGateway.retryLoop (g : OrderGateway) (w : Upstream) :
    Nat → Nat → Option Err → Nat → List Int → StatusResult
  | 0, _, lastErr, made, waits =>
    match lastErr with
    | some err =>
      { status := "", err := some (.wrap "request order status" err), attempts := made,
        waits := waits }
    | none =>
      { status := "", err := some (.text "request order status: %!w(<nil>)"), attempts := made,
        waits := waits }
  | remaining + 1, attempt, _, made, waits =>
    match w.ctxErr attempt with
    | some cerr => { status := "", err := some cerr, attempts := made, waits := waits }
    | none =>
      match fetchStatus (w.exchange attempt) with
      | (status, _, none) =>
        { status := status, err := none, attempts := made + 1, waits := waits }
      | (_, code, some err) =>
        if !shouldRetry err code ∨ (attempt : Int) = g.maxAttempts then
          { status := "", err := some (.wrap "request order status" err), attempts := made + 1,
            waits := waits }
        else
          match w.wait attempt (retryDelay g.baseDelay attempt) with
          | some werr =>
            { status := "", err := some werr, attempts := made + 1,
              waits := waits ++ [retryDelay g.baseDelay attempt] }
          | none =>
            g.retryLoop w remaining (attempt + 1) (some err) (made + 1)
              (waits ++ [retryDelay g.baseDelay attempt])

/-- `OrderGateway.GetOrderStatus`. -/
def OrderGateway.GetOrderStatus (g : OrderGateway) (w : Upstream) (orderID : String) :
    StatusResult :=
  if orderID = "" then
    { status := "", err := some (.text "order id is empty"), attempts := 0, waits := [] }
  else g.retryLoop w g.maxAttempts.toNat 1 none 0 []

/-- An attempt after which the loop stops whatever the attempt number: it succeeds, or it
fails with an error that `shouldRetry` refuses. -/
def settles (x : Exchange) : Bool :=
  match fetchStatus x with
  | (_, _, none) => true
  | (_, code, some err) => !shouldRetry err code

/-- An uncancelled context: `ctx.Err()` is nil and every wait runs to its end. -/
def uncancelled (w : Upstream) : Prop :=
  (∀ k, w.ctxErr k = none) ∧ (∀ k d, w.wait k d = none)

/-- The gateway of `TestOrderGatewayRetriesOn429`. -/
def testGateway : OrderGateway :=
  { maxAttempts := 3, baseDelay := 0 }

/-- An upstream that answers the attempts with the exchanges of a list, and 503 after them;
the context is never cancelled. -/
def scripted (xs : List Exchange) : Upstream where
  ctxErr := fun _ => none
  exchange := fun k => (xs.get? (k - 1)).getD (.response 503 (.error (.text "no body")))
  wait := fun _ _ => none

/-! ## internal/worker: the order poller -/

/-- `model.Order`: the two fields read by the poller. -/
structure Order where
  ID : String
  CreatedAt : Int
  deriving DecidableEq, Repr

/-- `5 * time.Second`, in nanoseconds. -/
def fiveSeconds : Int := 5000000000

/-- `OrderAssigner`: its watermark, the field `cursor` (nanoseconds). -/
structure OrderAssigner where
  cursor : Int
  deriving DecidableEq, Repr

/-- `NewOrderAssigner` at the clock reading `start`. -/
def NewOrderAssigner (start : Int) : OrderAssigner :=
  { cursor := start - fiveSeconds }

/-- A call made on `orderGateway` or on `deliveryUsecase` by the poller. -/
inductive PollerCall where
  | GetOrders (cursor : Int)
  | Assign (orderID : String)
  deriving DecidableEq, Repr

/-- Implementations of the interfaces `orderGateway` and `deliveryUsecase` of the worker on a
state `σ`. -/
structure PollerPorts (σ : Type) where
  GetOrders : Int → σ → Except Err (List Order) × σ
  Assign : String → σ → (Option DeliveryModel × Option CourierModel × Option Err) × σ

/-- The same implementations, each call also appended to a log kept beside the state. -/
def PollerPorts.logged {σ : Type} (p : PollerPorts σ) : PollerPorts (σ × List PollerCall) where
  GetOrders := fun c s => ((p.GetOrders c s.1).1, ((p.GetOrders c s.1).2, s.2 ++ [.GetOrders c]))
  Assign := fun o s => ((p.Assign o s.1).1, ((p.Assign o s.1).2, s.2 ++ [.Assign o]))

/-- The loop of `processTick` over the batch: `maxCreatedAt` moves up to each later
`CreatedAt`, and every order is handed to `Assign`, whose error is logged and otherwise
ignored (the log line of a successful call reads the delivery and the courier returned). -/
def assignBatch {σ : Type} (ports : PollerPorts σ) : List Order → Int → σ → Int × σ
  | [], maxCreatedAt, s => (maxCreatedAt, s)
  | ord :: rest, maxCreatedAt, s =>
    assignBatch ports rest (if ord.CreatedAt > maxCreatedAt then ord.CreatedAt else maxCreatedAt)
      (ports.Assign ord.ID s).2

/-- The cursor `processTick` sends to the gateway at the clock reading `now`. -/
def OrderAssigner.queryCursor (w : OrderAssigner) (now : Int) : Int :=
  if now - fiveSeconds > w.cursor then now - fiveSeconds else w.cursor

/-- `OrderAssigner.processTick` at the clock reading `now`. -/
def OrderAssigner.processTick {σ : Type} (w : OrderAssigner) (ports : PollerPorts σ)
    (now : Int) (s : σ) : OrderAssigner × σ :=
  match ports.GetOrders (w.queryCursor now) s with
  | (.error _, s1) => (w, s1)
  | (.ok orders, s1) =>
    if orders.length > 0 then
      ({ cursor := (assignBatch ports orders (w.queryCursor now) s1).1 },
        (assignBatch ports orders (w.queryCursor now) s1).2)
    else
      ({ cursor := now - fiveSeconds }, (assignBatch ports orders (w.queryCursor now) s1).2)

/-- One tick as seen from outside: the watermark before it, the clock reading, what the
gateway returned, and the watermark after it. -/
structure TickRecord where
  before : Int
  now : Int
  fetched : Except Err (List Order)
  after : Int
  deriving DecidableEq

/-- The ticks at the clock readings of a list, one after the other. -/
def OrderAssigner.ticks {σ : Type} (w : OrderAssigner) (ports : PollerPorts σ) :
    List Int → σ → List TickRecord
  | [], _ => []
  | now :: rest, s =>
    { before := w.cursor, now := now, fetched := (ports.GetOrders (w.queryCursor now) s).1,
      after := (w.processTick ports now s).1.cursor } ::
      OrderAssigner.ticks (w.processTick ports now s).1 ports rest (w.processTick ports now s).2

/-- The coordinator of the store behind `deliveryUsecase`, and an order gateway that answers
the cursor `c` with `gw c`. -/
def storePollerPorts (uc : DeliveryUsecase) (now dbNow : Int) (f : Faults)
    (gw : Int → Except Err (List Order)) : PollerPorts Store where
  GetOrders := fun c s => (gw c, s)
  Assign := fun o s => uc.Assign now dbNow f o s

/-- A gateway that answers a cursor at or before `limit` with `batch`, and a later cursor
with the empty batch. -/
def batchUpTo (limit : Int) (batch : List Order) (c : Int) : Except Err (List Order) :=
  if c ≤ limit then .ok batch else .ok []

/-! ## Go's `regexp` package, for the pattern of `validatePhone` -/

/-- The regular expressions used: a literal character, a character range, `ab`, `a?` and
`a{min,max}`. -/
inductive Regex where
  | lit (c : Char)
  | range (lo hi : Char)
  | seq (a b : Regex)
  | opt (a : Regex)
  | rep (min max : Nat) (a : Regex)
  deriving Repr

/-- What can be left of a text after `min` to `max` consecutive matches of a step at its
beginning. -/
def repeatRests (step : List Char → List (List Char)) :
    Nat → Nat → List Char → List (List Char)
  | min, 0, s => if min = 0 then [s] else []
  | min, max + 1, s =>
    (if min = 0 then [s] else []) ++ (step s).flatMap (repeatRests step (min - 1) max)

/-- What can be left of a text after a match of the expression at its beginning. -/
def Regex.rests : Regex → List Char → List (List Char)
  | .lit c, s =>
    match s with
    | x :: rest => if x = c then [rest] else []
    | [] => []
  | .range lo hi, s =>
    match s with
    | x :: rest => if lo ≤ x ∧ x ≤ hi then [rest] else []
    | [] => []
  | .seq a b, s => (a.rests s).flatMap (fun rest => b.rests rest)
  | .opt a, s => a.rests s ++ [s]
  | .rep min max a, s => repeatRests (fun t => a.rests t) min max s

/-- `regexp.MustCompile("^r$").MatchString(text)`: without flags `^` matches at the beginning
of the text only and `$` at its end only, so the expression `r` has to match the whole text;
`\d` is the range `0-9`. -/
def Regex.MatchString (r : Regex) (text : String) : Bool :=
  (r.rests text.data).any List.isEmpty

/-- The expression between `^` and `$` in `validatePhone`: `\+?\d{10,15}`. -/
def phonePattern : Regex :=
  .seq (.opt (.lit '+')) (.rep 10 15 (.range '0' '9'))

/-- `validatePhone`. -/
def validatePhone (phone : String) : Bool :=
  phonePattern.MatchString phone

/-! ## internal/usecase/courier -/

/-- `ErrInvalidID`. -/
def ErrInvalidID : Err := .text "invalid id"

/-- `ErrInvalidPhone`. -/
def ErrInvalidPhone : Err := .text "invalid phone"

/-- `ErrInvalidName`. -/
def ErrInvalidName : Err := .text "invalid name"

/-- A call made on `courierRepository`. -/
inductive CourierCall where
  | Create (courier : CourierModel)
  | Update (courier : CourierModel)
  | GetOneById (id : Int)
  | GetAll
  deriving DecidableEq, Repr

/-- Implementations of the interface `courierRepository` on a state `σ`. -/
structure CourierPorts (σ : Type) where
  Create : CourierModel → σ → (Int × Option Err) × σ
  Update : CourierModel → σ → Option Err × σ
  GetOneById : Int → σ → (Option CourierModel × Option Err) × σ
  GetAll : σ → (List CourierModel × Option Err) × σ

/-- The same implementations, each call also appended to a log kept beside the state. -/
def CourierPorts.logged {σ : Type} (p : CourierPorts σ) :
    CourierPorts (σ × List CourierCall) where
  Create := fun c s => ((p.Create c s.1).1, ((p.Create c s.1).2, s.2 ++ [.Create c]))
  Update := fun c s => ((p.Update c s.1).1, ((p.Update c s.1).2, s.2 ++ [.Update c]))
  GetOneById := fun id s =>
    ((p.GetOneById id s.1).1, ((p.GetOneById id s.1).2, s.2 ++ [.GetOneById id]))
  GetAll := fun s => ((p.GetAll s.1).1, ((p.GetAll s.1).2, s.2 ++ [.GetAll]))

/-- `CourierUsecase.GetOneById`. -/
def CourierUsecase.GetOneById {σ : Type} (repo : CourierPorts σ) (id : Int) (s : σ) :
    (Option CourierModel × Option Err) × σ :=
  if id ≤ 0 then ((none, some ErrInvalidID), s)
  else
    match repo.GetOneById id s with
    | ((_, some err), s1) =>
      if errorsIs err .courierErrCourierNotFound then
        ((none, some .courierErrCourierNotFound), s1)
      else ((none, some (.wrap "get courier" err)), s1)
    | ((courier, none), s1) => ((courier, none), s1)

/-- `CourierUsecase.Create`. -/
def CourierUsecase.Create {σ : Type} (repo : CourierPorts σ) (req : CourierModel) (s : σ) :
    (Int × Option Err) × σ :=
  if req.Name = "" then ((0, some ErrInvalidName), s)
  else if !validatePhone req.Phone then ((0, some ErrInvalidPhone), s)
  else
    match repo.Create req s with
    | ((_, some err), s1) =>
      if errorsIs err .courierErrPhoneExists then ((0, some .courierErrPhoneExists), s1)
      else ((0, some (.wrap "create courier" err)), s1)
    | ((id, none), s1) => ((id, none), s1)

/-- `CourierUsecase.Update`. -/
def CourierUsecase.Update {σ : Type} (repo : CourierPorts σ) (req : CourierModel) (s : σ) :
    Option Err × σ :=
  if req.ID ≤ 0 then (some ErrInvalidID, s)
  else if req.Name = "" then (some ErrInvalidName, s)
  else if !validatePhone req.Phone then (some ErrInvalidPhone, s)
  else
    match repo.Update req s with
    | (some err, s1) =>
      if errorsIs err .courierErrCourierNotFound then (some .courierErrCourierNotFound, s1)
      else if errorsIs err .courierErrPhoneExists then (some .courierErrPhoneExists, s1)
      else (some (.wrap "update courier" err), s1)
    | (none, s1) => (none, s1)

/-- The repository of the store behind `courierRepository`, for the two methods modelled on
the store; `Create` and `GetAll` answer with a driver error. -/
def storeCourierPorts (f : Faults) (dbNow : Int) : CourierPorts Store where
  Create := fun _ s => ((0, some (.driver "not connected")), s)
  Update := fun c s => CourierRepository.Update f.setStatus dbNow c s
  GetOneById := fun id s =>
    match CourierRepository.GetOneById f.lookup id s with
    | .ok c => ((some c, none), s)
    | .error e => ((none, some e), s)
  GetAll := fun s => (([], some (.driver "not connected")), s)

/-- A text made of an optional leading `+` followed by 10 to 15 decimal digits and nothing
else. -/
def phoneShape (phone : String) : Prop :=
  ∃ digits : List Char, (phone.data = digits ∨ phone.data = '+' :: digits) ∧
    10 ≤ digits.length ∧ digits.length ≤ 15 ∧ ∀ c ∈ digits, '0' ≤ c ∧ c ≤ '9'

/-! ## internal/handler/delivery -/

/-- `err.Error()`: the texts of the sentinels are those of `errors.New` in the two
repository packages; `fmt.Errorf("<msg>: %w", inner)` reads `<msg>: ` followed by the text of
`inner`. -/
def Err.Error : Err → String
  | .courierErrPhoneExists => "courier with this phone already exists"
  | .courierErrCourierNotFound => "courier not found"
  | .courierErrDatabaseInternal => "database error"
  | .courierErrReadingData => "error reading data"
  | .deliveryErrDeliveryNotFound => "delivery not found"
  | .deliveryErrDeliveryTableMissing => "delivery table is missing"
  | .deliveryErrDatabaseInternal => "database error"
  | .driver what => what
  | .text what => what
  | .net what _ => what
  | .wrap msg inner => msg ++ ": " ++ inner.Error

/-- The value handed to `c.JSON`: `map[string]string{"error": message}` or an
`assignResponse`. -/
inductive ResponseBody where
  | error (message : String)
  | assignResponse (CourierId : Int) (OrderID : String) (TransportType : String)
      (DeliveryDeadline : Int)
  deriving DecidableEq, Repr

/-- The status code and the body of a reply. -/
structure HTTPResponse where
  code : Int
  body : ResponseBody
  deriving DecidableEq, Repr

/-- Implementations of the interface `deliveryUsecase` of the handler on a state `σ`. -/
structure DeliveryPorts (σ : Type) where
  Assign : String → σ → (Option DeliveryModel × Option CourierModel × Option Err) × σ
  Unassign : String → σ → (Option DeliveryModel × Option Err) × σ

/-- `DeliveryHandler.Assign`.  `bound` is what `c.Bind` gives: its error, or the `order_id`
of the request.  `handlerErrors.ErrBadRequest` belongs to a package outside the sources at
hand, so it is a parameter.  The reply is `none` when the handler reads through a nil
delivery or courier returned without an error. -/
def DeliveryHandler.Assign {σ : Type} (ErrBadRequest : Err) (uc : DeliveryPorts σ)
    (bound : Except Err String) (s : σ) : Option HTTPResponse × σ :=
  match bound with
  | .error _ => (some { code := 400, body := .error ErrBadRequest.Error }, s)
  | .ok orderId =>
    if orderId = "" then (some { code := 400, body := .error ErrBadRequest.Error }, s)
    else
      match uc.Assign orderId s with
      | ((_, _, some err), s1) =>
        if errorsIs err .courierErrCourierNotFound || errorsIs err .deliveryErrDeliveryNotFound
        then (some { code := 404, body := .error err.Error }, s1)
        else (some { code := 500, body := .error "internal server error" }, s1)
      | ((some delivery, some courier, none), s1) =>
        (some { code := 200,
                body := .assignResponse courier.ID delivery.OrderId courier.TransportType
                  delivery.Deadline }, s1)
      | ((_, _, none), s1) => (none, s1)

/-- The coordinator of the store behind the handler's `deliveryUsecase`. -/
def storeDeliveryPorts (uc : DeliveryUsecase) (now dbNow : Int) (f : Faults) :
    DeliveryPorts Store where
  Assign := fun o s => uc.Assign now dbNow f o s
  Unassign := fun o s => uc.Unassign f o s

/-- A store with no courier and no delivery. -/
def emptyStore : Store :=
  { couriers := [], deliveries := [], deliverySeq := 0 }

/-! ## Go's `float64`

A `float64` is NaN, an infinity, or a finite number; the finite numbers are the rationals
`m * 2^e` with `|m| < 2^53` and `-1074 <= e <= 971`.  The two zeros are one value: none of
the operations below gives a different number, or a different answer to a comparison, for
the one zero than for the other.  Every operation is rounded on its own, to nearest, ties to
even (the Go specification also lets a compiler fuse `x*y + z`; on amd64 it does not). -/

/-- The rational `2^k`. -/
def pow2 (k : Int) : ℚ :=
  if 0 ≤ k then ((2 ^ k.toNat : Nat) : ℚ) else 1 / ((2 ^ (-k).toNat : Nat) : ℚ)

/-- A `float64` value.  `finite q` is a `float64` when `q` is `representable`; every
operation below returns NaN, an infinity or a `representable` number, and a theorem stated for
every `finite q` holds in particular for every finite `float64`. -/
inductive Float64 where
  | nan
  | inf (negative : Bool)
  | finite (q : ℚ)
  deriving DecidableEq, Repr

/-- The binary logarithm of `n`, rounded down, in at most `fuel` halvings. -/
def log2Fuel : Nat → Nat → Nat
  | 0, _ => 0
  | fuel + 1, n => if 2 ≤ n then log2Fuel fuel (n / 2) + 1 else 0

/-- The binary logarithm of `n`, rounded down (and 0 for 0): `Nat.log2`, by a recursion that
evaluates on large numbers. -/
def log2 (n : Nat) : Nat := log2Fuel n n

/-- The exponent `k` of the unit in the last place of a positive rational `x`: the binade of
`x` is `2^(k+52) <= x < 2^(k+53)`, and `k` is `-1074` in the subnormal range. -/
def ulpExponent (x : ℚ) : Int :=
  max
    (if x < pow2 ((log2 x.num.natAbs : Int) - (log2 x.den : Int)) then
      (log2 x.num.natAbs : Int) - (log2 x.den : Int) - 53
    else (log2 x.num.natAbs : Int) - (log2 x.den : Int) - 52)
    (-1074)

/-- The integer nearest to a rational `y >= 0`, the even one of the two when `y` is half way
between them. -/
def roundHalfEven (y : ℚ) : Int :=
  if y - ⌊y⌋ < 1 / 2 then ⌊y⌋
  else if 1 / 2 < y - ⌊y⌋ then ⌊y⌋ + 1
  else if ⌊y⌋ % 2 = 0 then ⌊y⌋
  else ⌊y⌋ + 1

/-- The `float64` nearest to the rational `x` (ties to even); beyond the largest finite value
the result is an infinity. -/
def Float64.round (x : ℚ) : Float64 :=
  if x = 0 then .finite 0
  else if pow2 1024 ≤ (roundHalfEven (|x| / pow2 (ulpExponent |x|)) : ℚ) * pow2 (ulpExponent |x|)
  then .inf (decide (x < 0))
  else if x < 0 then
    .finite (-((roundHalfEven (|x| / pow2 (ulpExponent |x|)) : ℚ) * pow2 (ulpExponent |x|)))
  else .finite ((roundHalfEven (|x| / pow2 (ulpExponent |x|)) : ℚ) * pow2 (ulpExponent |x|))

/-- `float64(n)` for an integer `n`. -/
def Float64.ofInt (n : Int) : Float64 :=
  Float64.round (n : ℚ)

/-- `x + y`. -/
def Float64.add : Float64 → Float64 → Float64
  | .nan, _ => .nan
  | _, .nan => .nan
  | .inf a, .inf b => if a = b then .inf a else .nan
  | .inf a, .finite _ => .inf a
  | .finite _, .inf b => .inf b
  | .finite x, .finite y => Float64.round (x + y)

/-- `x - y`. -/
def Float64.sub : Float64 → Float64 → Float64
  | .nan, _ => .nan
  | _, .nan => .nan
  | .inf a, .inf b => if a = b then .nan else .inf a
  | .inf a, .finite _ => .inf a
  | .finite _, .inf b => .inf (!b)
  | .finite x, .finite y => Float64.round (x - y)

/-- `x * y`. -/
def Float64.mul : Float64 → Float64 → Float64
  | .nan, _ => .nan
  | _, .nan => .nan
  | .inf a, .inf b => .inf (a != b)
  | .inf a, .finite y => if y = 0 then .nan else .inf (a != decide (y < 0))
  | .finite x, .inf b => if x = 0 then .nan else .inf (decide (x < 0) != b)
  | .finite x, .finite y => Float64.round (x * y)

/-- `x / y` for a divisor that is not a zero; a division by a zero has the sign of that
zero, which this model does not keep, and is given here as for the positive zero. -/
def Float64.div : Float64 → Float64 → Float64
  | .nan, _ => .nan
  | _, .nan => .nan
  | .inf _, .inf _ => .nan
  | .inf a, .finite y => .inf (a != decide (y < 0))
  | .finite _, .inf _ => .finite 0
  | .finite x, .finite y =>
    if y = 0 then (if x = 0 then .nan else .inf (decide (x < 0)))
    else Float64.round (x / y)

/-- `x < y`. -/
def Float64.lt : Float64 → Float64 → Bool
  | .nan, _ => false
  | _, .nan => false
  | .inf a, .inf b => a && !b
  | .inf a, .finite _ => a
  | .finite _, .inf b => !b
  | .finite x, .finite y => decide (x < y)

/-- `x <= y`. -/
def Float64.le : Float64 → Float64 → Bool
  | .nan, _ => false
  | _, .nan => false
  | .inf a, .inf b => a || !b
  | .inf a, .finite _ => a
  | .finite _, .inf b => !b
  | .finite x, .finite y => decide (x ≤ y)

/-- `math.Min(x, y)`: negative infinity if one of the two is, else NaN if one of the two is,
else `x` if `x < y` and `y` if not. -/
def Float64.Min (x y : Float64) : Float64 :=
  if x = .inf true ∨ y = .inf true then .inf true
  else if x = .nan ∨ y = .nan then .nan
  else if x.lt y then x else y

/-- A rational that is a finite `float64`. -/
def representable (q : ℚ) : Prop :=
  ∃ m e : Int, |m| < 2 ^ 53 ∧ -1074 ≤ e ∧ e ≤ 971 ∧ q = m * (2 : ℚ) ^ e

/-- A `float64` that is positive infinity or a finite number not below zero. -/
def Float64.nonneg (x : Float64) : Prop :=
  x = .inf false ∨ ∃ q, x = .finite q ∧ 0 ≤ q ∧ representable q

/-! ## Go's `time` package -/

/-- The largest `time.Duration`: `1<<63 - 1` nanoseconds. -/
def maxDuration : Int := 9223372036854775807

/-- The smallest `time.Duration`: `-1 << 63` nanoseconds. -/
def minDuration : Int := -9223372036854775808

/-- `t.Sub(u)`: the difference of two readings, or the largest or the smallest duration when
the difference is out of the range of `int64`. -/
def timeSub (t u : Int) : Int :=
  if maxDuration < t - u then maxDuration
  else if t - u < minDuration then minDuration
  else t - u

/-- `Duration.Seconds`: `float64(d / Second) + float64(d % Second) / 1e9`, with Go's integer
division, which truncates toward zero. -/
def durationSeconds (d : Int) : Float64 :=
  (Float64.ofInt (d.tdiv 1000000000)).add
    ((Float64.ofInt (d.tmod 1000000000)).div (.finite 1000000000))

/-! ## internal/ratelimit

Times are nanoseconds counted from the zero `time.Time` and durations are nanoseconds.
Readings are wall-clock readings within the range of `time.Time`, where `Time.Add` is exact. -/

/-- `bucket`. -/
structure bucket where
  tokens : Float64
  last : Int
  lastSeen : Int
  deriving DecidableEq, Repr

/-- `TokenBucketLimiter`; the clock reading `l.now()` is an argument of `Allow`, and the map
`buckets` is a function from keys to entries. -/
structure TokenBucketLimiter where
  rate : Float64
  capacity : Float64
  ttl : Int
  cleanupInterval : Int
  buckets : String → Option bucket
  lastCleanup : Int

/-- `time.Minute`, in nanoseconds. -/
def timeMinute : Int := 60000000000

/-- `newTokenBucketLimiter`. -/
def newTokenBucketLimiter (rate : Float64) (burst : Int) (ttl : Int) : TokenBucketLimiter :=
  { rate := rate, capacity := Float64.ofInt burst, ttl := ttl, cleanupInterval := ttl,
    buckets := fun _ => none, lastCleanup := 0 }

/-- `NewTokenBucketLimiter`. -/
def NewTokenBucketLimiter (rate : Float64) (burst : Int) (ttl : Int) : TokenBucketLimiter :=
  newTokenBucketLimiter (if rate.le (.finite 0) then .finite 1 else rate)
    (if burst ≤ 0 then 1 else burst) (if ttl ≤ 0 then timeMinute else ttl)

/-- `TokenBucketLimiter.refillLocked`: the entry after the call. -/
def TokenBucketLimiter.refillLocked (l : TokenBucketLimiter) (entry : bucket) (now : Int) :
    bucket :=
  if ¬ now > entry.last then entry
  else
    { entry with
      tokens :=
        Float64.Min l.capacity
          (entry.tokens.add ((durationSeconds (timeSub now entry.last)).mul l.rate)),
      last := now }

/-- `TokenBucketLimiter.cleanupLocked`. -/
def TokenBucketLimiter.cleanupLocked (l : TokenBucketLimiter) (now : Int) :
    TokenBucketLimiter :=
  if l.lastCleanup = 0 then { l with lastCleanup := now }
  else if timeSub now l.lastCleanup < l.cleanupInterval then l
  else
    { l with
      buckets := fun key =>
        match l.buckets key with
        | some entry => if entry.lastSeen < now + wrapInt64 (-l.ttl) then none else some entry
        | none => none,
      lastCleanup := now }

/-- The map `buckets` with `entry` stored under `key`. -/
def TokenBucketLimiter.store (l : TokenBucketLimiter) (key : String) (entry : bucket) :
    TokenBucketLimiter :=
  { l with buckets := fun k => if k = key then some entry else l.buckets k }

/-- `TokenBucketLimiter.Allow` at the clock reading `now`. -/
def TokenBucketLimiter.Allow (l : TokenBucketLimiter) (now : Int) (key : String) :
    Bool × TokenBucketLimiter :=
  match (l.cleanupLocked now).buckets key with
  | none =>
    (true, (l.cleanupLocked now).store key
      { tokens := (l.cleanupLocked now).capacity.sub (.finite 1), last := now,
        lastSeen := now })
  | some entry =>
    if (((l.cleanupLocked now).refillLocked entry now).tokens.lt (.finite 1)) = true then
      (false, (l.cleanupLocked now).store key
        { (l.cleanupLocked now).refillLocked entry now with lastSeen := now })
    else
      (true, (l.cleanupLocked now).store key
        { (l.cleanupLocked now).refillLocked entry now with
          tokens := ((l.cleanupLocked now).refillLocked entry now).tokens.sub (.finite 1),
          lastSeen := now })

/-- The calls `Allow(key)` of a list, each at its clock reading, one after the other: the
answers and the limiter afterwards. -/
def TokenBucketLimiter.run (l : TokenBucketLimiter) :
    List (Int × String) → List Bool × TokenBucketLimiter
  | [] => ([], l)
  | (now, key) :: rest =>
    ((l.Allow now key).1 :: ((l.Allow now key).2.run rest).1, ((l.Allow now key).2.run rest).2)

/-- The length of the duration `d` in seconds, as a rational number. -/
def exactSeconds (d : Int) : ℚ :=
  (d : ℚ) / 1000000000

/-- A limiter with the finite rate `r`, the finite capacity `c` and the time to live `ttl`
whose buckets all hold a finite number of tokens between 0 and `c`. -/
def TokenBucketLimiter.conforms (l : TokenBucketLimiter) (r c : ℚ) (ttl : Int) : Prop :=
  l.rate = .finite r ∧ l.capacity = .finite c ∧ l.ttl = ttl ∧
    ∀ k b, l.buckets k = some b →
      ∃ q, b.tokens = .finite q ∧ 0 ≤ q ∧ q ≤ c ∧ representable q

/-- The number of calls that returned true, as a rational number. -/
def allowedCount (answers : List Bool) : ℚ :=
  ((answers.count true : Nat) : ℚ)

/-- The value `min(capacity, tokens + elapsed * rate)` in `float64`, where `elapsed` is the
time from the last refill of the entry to `now` in seconds, as `Time.Sub` and
`Duration.Seconds` give it. -/
def refilledTokens (capacity rate : Float64) (entry : bucket) (now : Int) : Float64 :=
  Float64.Min capacity (entry.tokens.add ((durationSeconds (timeSub now entry.last)).mul rate))

/-! ## The transaction boundary -/

theorem WithTx_cases {β : Type} (f : Faults) (s : Store) (init : β)
    (fn : Store → (Option Err × β) × Store) :
    ((TxManager.WithTx f s init fn).1.1 ≠ none ∧
        (TxManager.WithTx f s init fn).2.couriers = s.couriers ∧
        (TxManager.WithTx f s init fn).2.deliveries = s.deliveries) ∨
      (f.acquire = false ∧ f.begin = false ∧ f.commit = false ∧ (fn s).1.1 = none ∧
        TxManager.WithTx f s init fn = fn s) := by
  unfold TxManager.WithTx
  by_cases ha : f.acquire = true
  · simp [ha]
  · by_cases hb : f.begin = true
    · simp [ha, hb]
    · rcases hfn : fn s with ⟨⟨e, v⟩, s1⟩
      cases e with
      | some err => simp [ha, hb, rollback]
      | none =>
        by_cases hc : f.commit = true
        · simp [ha, hb, hc, rollback]
        · simp [ha, hb, hc]

theorem WithTx_commit {β : Type} (f : Faults) (s : Store) (init : β)
    (fn : Store → (Option Err × β) × Store)
    (ha : f.acquire = false) (hb : f.begin = false) (hc : f.commit = false)
    (hfn : (fn s).1.1 = none) : TxManager.WithTx f s init fn = fn s := by
  unfold TxManager.WithTx
  rcases h : fn s with ⟨⟨e, v⟩, s1⟩
  rw [h] at hfn
  simp only at hfn
  subst hfn
  simp [ha, hb, hc]

/-! ## The selector -/

theorem firstByLoad_mem : ∀ (l : List CourierModel) (c : CourierModel),
    firstByLoad l = some c → c ∈ l
  | [], c, h => by simp [firstByLoad] at h
  | x :: xs, c, h => by
    unfold firstByLoad at h
    cases hm : firstByLoad xs with
    | none =>
      rw [hm] at h
      simp only [Option.some.injEq] at h
      simp [h]
    | some m =>
      rw [hm] at h
      have := firstByLoad_mem xs m hm
      by_cases ho : orderedBefore x m = true
      · simp [ho] at h
        simp [h]
      · simp [ho] at h
        subst h
        simp [this]

theorem firstByLoad_none : ∀ (l : List CourierModel), firstByLoad l = none → l = []
  | [], _ => rfl
  | x :: xs, h => by
    unfold firstByLoad at h
    cases hm : firstByLoad xs with
    | none => rw [hm] at h; simp at h
    | some m =>
      rw [hm] at h
      by_cases ho : orderedBefore x m = true <;> simp [ho] at h

theorem mem_availableRows (s : Store) (c : CourierModel) :
    c ∈ availableRows s ↔ c ∈ s.couriers ∧ c.Status = CourierStatusAvailable := by
  simp [availableRows]

/-! ## The closures -/

@[simp] theorem scanCourier_ID (r : CourierModel) : (scanCourier r).ID = r.ID := rfl

@[simp] theorem scanCourier_Status (r : CourierModel) : (scanCourier r).Status = r.Status := rfl

@[simp] theorem scanCourier_TransportType (r : CourierModel) :
    (scanCourier r).TransportType = r.TransportType := rfl

@[simp] theorem scanCourier_AssignmentsCount (r : CourierModel) :
    (scanCourier r).AssignmentsCount = r.AssignmentsCount := rfl

theorem assignBody_ok (uc : DeliveryUsecase) (now dbNow : Int) (f : Faults) (o : String)
    (s : Store) (h : (uc.assignBody now dbNow f o s).1.1 = none) :
    (f.selector = false ∧ f.insert = false ∧ f.markAssigned = false) ∧
    ∃ row, firstByLoad (availableRows s) = some row ∧
      uc.assignBody now dbNow f o s =
        ((none, (some (uc.newDelivery now o (scanCourier row)), some (scanCourier row))),
          { couriers := markAssignedRows row.ID s.couriers
            deliveries := s.deliveries ++
              [insertedRow s dbNow (uc.newDelivery now o (scanCourier row))]
            deliverySeq := s.deliverySeq + 1 }) := by
  unfold DeliveryUsecase.assignBody CourierRepository.GetAvailableLeastDelivered at *
  by_cases hs : f.selector = true
  · simp [hs] at h
  · cases hm : firstByLoad (availableRows s) with
    | none => simp [hs, hm] at h
    | some row =>
      simp only [hs, hm] at h ⊢
      unfold DeliveryRepository.Create CourierRepository.MarkAssigned at *
      by_cases hi : f.insert = true
      · simp [hi] at h
      · by_cases hk : f.markAssigned = true
        · simp [hi, hk] at h
        · by_cases hany : ∃ x ∈ s.couriers, x.ID = row.ID
          · exact ⟨⟨trivial, Bool.eq_false_iff.2 hi, Bool.eq_false_iff.2 hk⟩, row, rfl,
              by simp [hi, hk, hany]⟩
          · simp [hi, hk, hany] at h

theorem assignBody_run (uc : DeliveryUsecase) (now dbNow : Int) (f : Faults) (o : String)
    (s : Store) (row : CourierModel) (hs : f.selector = false) (hi : f.insert = false)
    (hk : f.markAssigned = false) (hrow : firstByLoad (availableRows s) = some row) :
    uc.assignBody now dbNow f o s =
      ((none, (some (uc.newDelivery now o (scanCourier row)), some (scanCourier row))),
        { couriers := markAssignedRows row.ID s.couriers
          deliveries := s.deliveries ++
            [insertedRow s dbNow (uc.newDelivery now o (scanCourier row))]
          deliverySeq := s.deliverySeq + 1 }) := by
  have hmem : ∃ x ∈ s.couriers, x.ID = row.ID :=
    ⟨row, ((mem_availableRows s row).1 (firstByLoad_mem _ _ hrow)).1, rfl⟩
  unfold DeliveryUsecase.assignBody CourierRepository.GetAvailableLeastDelivered
  simp only [hs, hrow]
  unfold DeliveryRepository.Create CourierRepository.MarkAssigned
  simp [hi, hk, hmem]

/-- Outcome of `Assign`: an error with both tables as before, or the chosen row's effects. -/
theorem Assign_cases (uc : DeliveryUsecase) (now dbNow : Int) (f : Faults) (o : String)
    (s : Store) :
    ((∃ e, (uc.Assign now dbNow f o s).1 = (none, none, some e)) ∧
        (uc.Assign now dbNow f o s).2.couriers = s.couriers ∧
        (uc.Assign now dbNow f o s).2.deliveries = s.deliveries) ∨
      (f.acquire = false ∧ f.begin = false ∧ f.commit = false ∧
        (f.selector = false ∧ f.insert = false ∧ f.markAssigned = false) ∧
        ∃ row, firstByLoad (availableRows s) = some row ∧
          uc.Assign now dbNow f o s =
            ((some (uc.newDelivery now o (scanCourier row)), some (scanCourier row), none),
              { couriers := markAssignedRows row.ID s.couriers
                deliveries := s.deliveries ++
                  [insertedRow s dbNow (uc.newDelivery now o (scanCourier row))]
                deliverySeq := s.deliverySeq + 1 })) := by
  rcases WithTx_cases f s (none, none) (uc.assignBody now dbNow f o) with h | h
  · left
    obtain ⟨he, hc, hd⟩ := h
    unfold DeliveryUsecase.Assign
    rcases hw : TxManager.WithTx f s (none, none) (uc.assignBody now dbNow f o) with
      ⟨⟨e, v⟩, s1⟩
    rw [hw] at he hc hd
    cases e with
    | none => simp at he
    | some err => exact ⟨⟨err, rfl⟩, hc, hd⟩
  · right
    obtain ⟨ha, hb, hc, hnone, heq⟩ := h
    obtain ⟨hf, row, hrow, hbody⟩ := assignBody_ok uc now dbNow f o s hnone
    refine ⟨ha, hb, hc, hf, row, hrow, ?_⟩
    unfold DeliveryUsecase.Assign
    rw [heq, hbody]

theorem Assign_run (uc : DeliveryUsecase) (now dbNow : Int) (f : Faults) (o : String)
    (s : Store) (row : CourierModel) (ha : f.acquire = false) (hb : f.begin = false)
    (hc : f.commit = false) (hs : f.selector = false) (hi : f.insert = false)
    (hk : f.markAssigned = false) (hrow : firstByLoad (availableRows s) = some row) :
    uc.Assign now dbNow f o s =
      ((some (uc.newDelivery now o (scanCourier row)), some (scanCourier row), none),
        { couriers := markAssignedRows row.ID s.couriers
          deliveries := s.deliveries ++
            [insertedRow s dbNow (uc.newDelivery now o (scanCourier row))]
          deliverySeq := s.deliverySeq + 1 }) := by
  have hbody := assignBody_run uc now dbNow f o s row hs hi hk hrow
  unfold DeliveryUsecase.Assign
  rw [WithTx_commit f s _ _ ha hb hc (by rw [hbody]), hbody]

theorem unassignBody_ok (f : Faults) (o : String) (s : Store)
    (h : (DeliveryUsecase.unassignBody f o s).1.1 = none) :
    (f.delete = false ∧ f.setStatus = false) ∧
    ∃ d rest, rowsOfOrder s o = d :: rest ∧ (∃ x ∈ s.couriers, x.ID = d.CourierId) ∧
      DeliveryUsecase.unassignBody f o s =
        ((none, d.CourierId),
          { couriers := setStatusRows CourierStatusAvailable d.CourierId s.couriers
            deliveries := rowsNotOfOrder s o
            deliverySeq := s.deliverySeq }) := by
  unfold DeliveryUsecase.unassignBody DeliveryRepository.Delete at *
  by_cases hd : f.delete = true
  · simp [hd] at h
  · cases hm : rowsOfOrder s o with
    | nil => simp [hd, hm] at h
    | cons d rest =>
      simp only [hd, hm] at h ⊢
      unfold CourierRepository.UpdateStatus at *
      by_cases hu : f.setStatus = true
      · simp [hu] at h
      · by_cases hany : ∃ x ∈ s.couriers, x.ID = d.CourierId
        · exact ⟨⟨trivial, Bool.eq_false_iff.2 hu⟩, d, rest, rfl, hany,
            by simp [hu, hany]⟩
        · simp [hu, hany] at h

theorem unassignBody_run (f : Faults) (o : String) (s : Store) (d : DeliveryModel)
    (rest : List DeliveryModel) (hd : f.delete = false) (hu : f.setStatus = false)
    (hrows : rowsOfOrder s o = d :: rest) (hany : ∃ x ∈ s.couriers, x.ID = d.CourierId) :
    DeliveryUsecase.unassignBody f o s =
      ((none, d.CourierId),
        { couriers := setStatusRows CourierStatusAvailable d.CourierId s.couriers
          deliveries := rowsNotOfOrder s o
          deliverySeq := s.deliverySeq }) := by
  unfold DeliveryUsecase.unassignBody DeliveryRepository.Delete
  simp only [hd, hrows]
  unfold CourierRepository.UpdateStatus
  simp [hu, hany]

/-- Outcome of `Unassign`: an error with both tables as before, or the rows of the order
removed and the first one's courier set to `available`. -/
theorem Unassign_cases (uc : DeliveryUsecase) (f : Faults) (o : String) (s : Store) :
    ((∃ e, (uc.Unassign f o s).1 = (none, some e)) ∧
        (uc.Unassign f o s).2.couriers = s.couriers ∧
        (uc.Unassign f o s).2.deliveries = s.deliveries) ∨
      (f.acquire = false ∧ f.begin = false ∧ f.commit = false ∧
        (f.delete = false ∧ f.setStatus = false) ∧
        ∃ d rest, rowsOfOrder s o = d :: rest ∧ (∃ x ∈ s.couriers, x.ID = d.CourierId) ∧
          uc.Unassign f o s =
            ((some (orderResult o d.CourierId), none),
              { couriers := setStatusRows CourierStatusAvailable d.CourierId s.couriers
                deliveries := rowsNotOfOrder s o
                deliverySeq := s.deliverySeq })) := by
  rcases WithTx_cases f s 0 (DeliveryUsecase.unassignBody f o) with h | h
  · left
    obtain ⟨he, hc, hd⟩ := h
    unfold DeliveryUsecase.Unassign
    rcases hw : TxManager.WithTx f s 0 (DeliveryUsecase.unassignBody f o) with ⟨⟨e, v⟩, s1⟩
    rw [hw] at he hc hd
    cases e with
    | none => simp at he
    | some err => exact ⟨⟨err, rfl⟩, hc, hd⟩
  · right
    obtain ⟨ha, hb, hc, hnone, heq⟩ := h
    obtain ⟨hf, d, rest, hrows, hany, hbody⟩ := unassignBody_ok f o s hnone
    refine ⟨ha, hb, hc, hf, d, rest, hrows, hany, ?_⟩
    unfold DeliveryUsecase.Unassign
    rw [heq, hbody]

theorem Unassign_run (uc : DeliveryUsecase) (f : Faults) (o : String) (s : Store)
    (d : DeliveryModel) (rest : List DeliveryModel) (ha : f.acquire = false)
    (hb : f.begin = false) (hc : f.commit = false) (hd : f.delete = false)
    (hu : f.setStatus = false) (hrows : rowsOfOrder s o = d :: rest)
    (hany : ∃ x ∈ s.couriers, x.ID = d.CourierId) :
    uc.Unassign f o s =
      ((some (orderResult o d.CourierId), none),
        { couriers := setStatusRows CourierStatusAvailable d.CourierId s.couriers
          deliveries := rowsNotOfOrder s o
          deliverySeq := s.deliverySeq }) := by
  have hbody := unassignBody_run f o s d rest hd hu hrows hany
  unfold DeliveryUsecase.Unassign
  rw [WithTx_commit f s _ _ ha hb hc (by rw [hbody]), hbody]

theorem completeBody_ok (f : Faults) (o : String) (s : Store)
    (h : (DeliveryUsecase.completeBody f o s).1.1 = none) :
    (f.lookup = false ∧ f.setStatus = false) ∧
    ∃ d rest, rowsOfOrder s o = d :: rest ∧ (∃ x ∈ s.couriers, x.ID = d.CourierId) ∧
      DeliveryUsecase.completeBody f o s =
        ((none, d.CourierId),
          { couriers := setStatusRows CourierStatusAvailable d.CourierId s.couriers
            deliveries := s.deliveries
            deliverySeq := s.deliverySeq }) := by
  unfold DeliveryUsecase.completeBody DeliveryRepository.GetCourierID at *
  by_cases hd : f.lookup = true
  · simp [hd] at h
  · cases hm : rowsOfOrder s o with
    | nil => simp [hd, hm] at h
    | cons d rest =>
      simp only [hd, hm] at h ⊢
      unfold CourierRepository.UpdateStatus at *
      by_cases hu : f.setStatus = true
      · simp [hu] at h
      · by_cases hany : ∃ x ∈ s.couriers, x.ID = d.CourierId
        · exact ⟨⟨trivial, Bool.eq_false_iff.2 hu⟩, d, rest, rfl, hany,
            by simp [hu, hany]⟩
        · simp [hu, hany] at h

theorem completeBody_run (f : Faults) (o : String) (s : Store) (d : DeliveryModel)
    (rest : List DeliveryModel) (hd : f.lookup = false) (hu : f.setStatus = false)
    (hrows : rowsOfOrder s o = d :: rest) (hany : ∃ x ∈ s.couriers, x.ID = d.CourierId) :
    DeliveryUsecase.completeBody f o s =
      ((none, d.CourierId),
        { couriers := setStatusRows CourierStatusAvailable d.CourierId s.couriers
          deliveries := s.deliveries
          deliverySeq := s.deliverySeq }) := by
  unfold DeliveryUsecase.completeBody DeliveryRepository.GetCourierID
  simp only [hd, hrows]
  unfold CourierRepository.UpdateStatus
  simp [hu, hany]

/-- Outcome of `Complete`: an error with both tables as before, or the courier of the first
row of the order set to `available` and table `delivery` as before. -/
theorem Complete_cases (uc : DeliveryUsecase) (f : Faults) (o : String) (s : Store) :
    ((∃ e, (uc.Complete f o s).1 = (none, some e)) ∧
        (uc.Complete f o s).2.couriers = s.couriers ∧
        (uc.Complete f o s).2.deliveries = s.deliveries) ∨
      (f.acquire = false ∧ f.begin = false ∧ f.commit = false ∧
        (f.lookup = false ∧ f.setStatus = false) ∧
        ∃ d rest, rowsOfOrder s o = d :: rest ∧ (∃ x ∈ s.couriers, x.ID = d.CourierId) ∧
          uc.Complete f o s =
            ((some (orderResult o d.CourierId), none),
              { couriers := setStatusRows CourierStatusAvailable d.CourierId s.couriers
                deliveries := s.deliveries
                deliverySeq := s.deliverySeq })) := by
  rcases WithTx_cases f s 0 (DeliveryUsecase.completeBody f o) with h | h
  · left
    obtain ⟨he, hc, hd⟩ := h
    unfold DeliveryUsecase.Complete
    rcases hw : TxManager.WithTx f s 0 (DeliveryUsecase.completeBody f o) with ⟨⟨e, v⟩, s1⟩
    rw [hw] at he hc hd
    cases e with
    | none => simp at he
    | some err => exact ⟨⟨err, rfl⟩, hc, hd⟩
  · right
    obtain ⟨ha, hb, hc, hnone, heq⟩ := h
    obtain ⟨hf, d, rest, hrows, hany, hbody⟩ := completeBody_ok f o s hnone
    refine ⟨ha, hb, hc, hf, d, rest, hrows, hany, ?_⟩
    unfold DeliveryUsecase.Complete
    rw [heq, hbody]

theorem Complete_run (uc : DeliveryUsecase) (f : Faults) (o : String) (s : Store)
    (d : DeliveryModel) (rest : List DeliveryModel) (ha : f.acquire = false)
    (hb : f.begin = false) (hc : f.commit = false) (hd : f.lookup = false)
    (hu : f.setStatus = false) (hrows : rowsOfOrder s o = d :: rest)
    (hany : ∃ x ∈ s.couriers, x.ID = d.CourierId) :
    uc.Complete f o s =
      ((some (orderResult o d.CourierId), none),
        { couriers := setStatusRows CourierStatusAvailable d.CourierId s.couriers
          deliveries := s.deliveries
          deliverySeq := s.deliverySeq }) := by
  have hbody := completeBody_run f o s d rest hd hu hrows hany
  unfold DeliveryUsecase.Complete
  rw [WithTx_commit f s _ _ ha hb hc (by rw [hbody]), hbody]

/-- Outcome of `ProcessExpiredDeliveries`: table `delivery` is as before, and table
`couriers` is as before or as the release statement leaves it. -/
theorem ProcessExpired_cases (uc : DeliveryUsecase) (dbNow : Int) (f : Faults) (s : Store) :
    (uc.ProcessExpiredDeliveries dbNow f s).2.deliveries = s.deliveries ∧
      ((uc.ProcessExpiredDeliveries dbNow f s).2.couriers = s.couriers ∨
        (uc.ProcessExpiredDeliveries dbNow f s).2.couriers = releasedRows s dbNow) := by
  rcases WithTx_cases f s 0 (DeliveryUsecase.processExpiredBody dbNow f) with h | h
  · obtain ⟨_, hc, hd⟩ := h
    unfold DeliveryUsecase.ProcessExpiredDeliveries
    exact ⟨hd, Or.inl hc⟩
  · obtain ⟨_, _, _, _, heq⟩ := h
    unfold DeliveryUsecase.ProcessExpiredDeliveries
    rw [heq]
    unfold DeliveryUsecase.processExpiredBody DeliveryRepository.ReleaseExpiredCouriers
    cases f.release with
    | none => simp
    | some p => cases p <;> simp

/-! ## Lookups by primary key -/

theorem find_of_nodup : ∀ (l : List CourierModel) (row : CourierModel),
    (l.map CourierModel.ID).Nodup → row ∈ l →
      l.find? (fun c => decide (c.ID = row.ID)) = some row
  | [], _, _, h => by simp at h
  | x :: xs, row, hnd, h => by
    simp only [List.map_cons, List.nodup_cons, List.mem_map, not_exists, not_and] at hnd
    by_cases hx : x.ID = row.ID
    · rcases List.mem_cons.1 h with heq | hmem
      · subst heq
        simp
      · exact absurd hx.symm (hnd.1 row hmem)
    · rcases List.mem_cons.1 h with heq | hmem
      · exact absurd (by rw [heq]) hx
      · rw [List.find?_cons_of_neg _ (by simpa using hx)]
        exact find_of_nodup xs row hnd.2 hmem

theorem find_map_of_ID (g : CourierModel → CourierModel) (hg : ∀ c, (g c).ID = c.ID)
    (id : Int) : ∀ (l : List CourierModel),
    (l.map g).find? (fun c => decide (c.ID = id)) =
      (l.find? (fun c => decide (c.ID = id))).map g
  | [] => rfl
  | x :: xs => by
    by_cases hx : x.ID = id
    · simp [List.find?_cons, hg, hx]
    · simp [List.find?_cons, hg, hx, find_map_of_ID g hg id xs]

theorem markAssignedRows_ID (id : Int) (l : List CourierModel) :
    (markAssignedRows id l).map CourierModel.ID = l.map CourierModel.ID := by
  unfold markAssignedRows
  rw [List.map_map]
  apply List.map_congr_left
  intro c _
  by_cases h : c.ID = id <;> simp [h, assignedRow]

theorem setStatusRows_ID (st : String) (id : Int) (l : List CourierModel) :
    (setStatusRows st id l).map CourierModel.ID = l.map CourierModel.ID := by
  unfold setStatusRows
  rw [List.map_map]
  apply List.map_congr_left
  intro c _
  by_cases h : c.ID = id <;> simp [h]

theorem releasedRows_ID (s : Store) (dbNow : Int) :
    (releasedRows s dbNow).map CourierModel.ID = s.couriers.map CourierModel.ID := by
  unfold releasedRows
  rw [List.map_map]
  apply List.map_congr_left
  intro c _
  by_cases h : releasable s dbNow c = true <;> simp [h]

theorem GetOneById_markAssigned (s : Store) (row : CourierModel) (hpk : primaryKey s)
    (hrow : row ∈ s.couriers) :
    CourierRepository.GetOneById false row.ID s = .ok (scanCourier row) ∧
      ∀ (ds : List DeliveryModel) (q : Int),
        CourierRepository.GetOneById false row.ID
            { couriers := markAssignedRows row.ID s.couriers, deliveries := ds,
              deliverySeq := q } =
          .ok (scanCourier (assignedRow row)) := by
  have hfind := find_of_nodup s.couriers row hpk hrow
  constructor
  · simp [CourierRepository.GetOneById, hfind]
  · intro ds q
    have hmap := find_map_of_ID (fun c => if c.ID = row.ID then assignedRow c else c)
      (by intro c; by_cases h : c.ID = row.ID <;> simp [h, assignedRow]) row.ID s.couriers
    simp only [CourierRepository.GetOneById, markAssignedRows, hmap, hfind]
    simp

theorem rowsOfOrder_append (s : Store) (o : String) (d : DeliveryModel) (cs : List CourierModel)
    (q : Int) (hd : d.OrderId = o) :
    rowsOfOrder { couriers := cs, deliveries := s.deliveries ++ [d], deliverySeq := q } o =
      rowsOfOrder s o ++ [d] := by
  simp [rowsOfOrder, List.filter_append, hd]


theorem selector_ok (fault : Bool) (s : Store) (c : CourierModel)
    (h : CourierRepository.GetAvailableLeastDelivered fault s = .ok c) :
    fault = false ∧ ∃ row, firstByLoad (availableRows s) = some row ∧ c = scanCourier row := by
  unfold CourierRepository.GetAvailableLeastDelivered at h
  by_cases hf : fault = true
  · simp [hf] at h
  · cases hm : firstByLoad (availableRows s) with
    | none => simp [hf, hm] at h
    | some row =>
      simp only [hf, hm] at h
      simp only [Bool.false_eq_true, ↓reduceIte, Except.ok.injEq] at h
      exact ⟨Bool.eq_false_iff.2 hf, row, rfl, h.symm⟩

/-! ## C1 -/

/-- C1, as stated, fails on a store that already holds a row for the order: with courier 7
busy on order `o1`, `Assign("o1")` selects courier 8, every step succeeds, and the store then
holds two delivery rows for `o1`, not one. -/
theorem C1_counterexample :
    CourierRepository.GetAvailableLeastDelivered false storeWithOrder = .ok (scanCourier bob) ∧
      (exampleUsecase.Assign 1000 1001 noFaults "o1" storeWithOrder).1.2.2 = none ∧
      (rowsOfOrder storeWithOrder "o1").length = 1 ∧
      (rowsOfOrder (exampleUsecase.Assign 1000 1001 noFaults "o1" storeWithOrder).2 "o1").length
        = 2 := by
  decide

/-- C1 (amended): when the transaction begins and commits, the selector returns courier `c`
and the insert and mark-assigned statements succeed, `Assign(o)` returns `(delivery, c)` with
`delivery.OrderId = o`, `delivery.CourierId = c.ID` and
`delivery.Deadline = now + offset(c.TransportType)`; afterwards table `delivery` is the old
table followed by one new row for `o` (so the number of rows for `o` has grown by exactly one),
and the row of `c` has status `busy` and `assignments_count` increased by exactly 1. -/
theorem C1_Assign_effect (uc : DeliveryUsecase) (now dbNow : Int) (f : Faults) (o : String)
    (s : Store) (c : CourierModel) (hpk : primaryKey s)
    (htx : f.acquire = false ∧ f.begin = false ∧ f.commit = false)
    (hsel : CourierRepository.GetAvailableLeastDelivered f.selector s = .ok c)
    (hins : f.insert = false) (hmark : f.markAssigned = false) :
    (uc.Assign now dbNow f o s).1 =
        (some { ID := 0, CourierId := c.ID, OrderId := o, AssignedAt := 0,
                Deadline := now + (uc.timeFactory.ForTransport c.TransportType).duration },
          some c, none) ∧
      (uc.Assign now dbNow f o s).2.deliveries =
        s.deliveries ++
          [{ ID := s.deliverySeq + 1, CourierId := c.ID, OrderId := o, AssignedAt := dbNow,
             Deadline := now + (uc.timeFactory.ForTransport c.TransportType).duration }] ∧
      (rowsOfOrder (uc.Assign now dbNow f o s).2 o).length = (rowsOfOrder s o).length + 1 ∧
      CourierRepository.GetOneById false c.ID s = .ok c ∧
      CourierRepository.GetOneById false c.ID (uc.Assign now dbNow f o s).2 =
        .ok { c with Status := CourierStatusBusy,
                     AssignmentsCount := c.AssignmentsCount + 1 } := by
  obtain ⟨hs, row, hrow, hc⟩ := selector_ok f.selector s c hsel
  have hmem : row ∈ s.couriers := ((mem_availableRows s row).1 (firstByLoad_mem _ _ hrow)).1
  have hrun := Assign_run uc now dbNow f o s row htx.1 htx.2.1 htx.2.2 hs hins hmark hrow
  obtain ⟨hget, hget2⟩ := GetOneById_markAssigned s row hpk hmem
  subst hc
  rw [hrun]
  refine ⟨rfl, rfl, ?_, hget, ?_⟩
  · rw [rowsOfOrder_append s o _ _ _ rfl]
    simp
  · rw [scanCourier_ID, hget2]
    rfl

/-- C1 (amended), instantiated: one available courier by car, `now = 1000`, offsets of 30, 15
and 5 minutes. -/
theorem C1_Assign_effect_witness :
    (exampleUsecase.Assign 1000 1001 noFaults "o1" oneCourierStore).1 =
        (some { ID := 0, CourierId := 7, OrderId := "o1", AssignedAt := 0, Deadline := 1300 },
          some (scanCourier alice), none) ∧
      (rowsOfOrder (exampleUsecase.Assign 1000 1001 noFaults "o1" oneCourierStore).2 "o1").length
        = 1 ∧
      CourierRepository.GetOneById false 7
          (exampleUsecase.Assign 1000 1001 noFaults "o1" oneCourierStore).2 =
        .ok { scanCourier alice with Status := CourierStatusBusy, AssignmentsCount := 1 } := by
  have h := C1_Assign_effect exampleUsecase 1000 1001 noFaults "o1" oneCourierStore
    (scanCourier alice) (by decide) (by decide) (by decide) (by decide) (by decide)
  exact ⟨h.1, h.2.2.1, h.2.2.2.2⟩

/-! ## C2 -/

/-- C2: for the factory built by `NewDeliveryTimeFactory(onFoot, scooter, car)`, every
transport `t` and every time `now`, `ForTransport(t).Deadline(now)` is `now + onFoot` for
`on_foot`, `now + scooter` for `scooter`, `now + car` for `car`, and `now + onFoot` for every
other transport value, the empty string included. -/
theorem C2_ForTransport_Deadline (onFoot scooter car now : Int) (t : String) :
    ((NewDeliveryTimeFactory onFoot scooter car).ForTransport t).Deadline now =
        (if t = "on_foot" then now + onFoot
         else if t = "scooter" then now + scooter
         else if t = "car" then now + car
         else now + onFoot) ∧
      ((NewDeliveryTimeFactory onFoot scooter car).ForTransport "").Deadline now =
        now + onFoot := by
  constructor
  · unfold DeliveryTimeFactory.ForTransport NewDeliveryTimeFactory fixedDurationPolicy.Deadline
      TransportOnFoot TransportScooter TransportCar
    by_cases h1 : t = "on_foot"
    · subst h1
      simp [List.lookup]
    · by_cases h2 : t = "scooter"
      · subst h2
        simp [List.lookup]
      · by_cases h3 : t = "car"
        · subst h3
          simp [List.lookup]
        · have e1 : (t == "on_foot") = false := by simpa using h1
          have e2 : (t == "scooter") = false := by simpa using h2
          have e3 : (t == "car") = false := by simpa using h3
          simp [List.lookup, e1, e2, e3, h1, h2, h3]
  · simp [DeliveryTimeFactory.ForTransport, NewDeliveryTimeFactory,
      fixedDurationPolicy.Deadline, TransportOnFoot, TransportScooter, TransportCar,
      List.lookup]


/-! ## C3 -/

theorem Assign_proj (uc : DeliveryUsecase) (now dbNow : Int) (f : Faults) (o : String)
    (s : Store) :
    (uc.Assign now dbNow f o s).2 =
        (TxManager.WithTx f s (none, none) (uc.assignBody now dbNow f o)).2 ∧
      (uc.Assign now dbNow f o s).1.2.2 =
        (TxManager.WithTx f s (none, none) (uc.assignBody now dbNow f o)).1.1 := by
  unfold DeliveryUsecase.Assign
  rcases TxManager.WithTx f s (none, none) (uc.assignBody now dbNow f o) with ⟨⟨e, v⟩, s1⟩
  cases e <;> simp

theorem Unassign_proj (uc : DeliveryUsecase) (f : Faults) (o : String) (s : Store) :
    (uc.Unassign f o s).2 = (TxManager.WithTx f s 0 (DeliveryUsecase.unassignBody f o)).2 ∧
      (uc.Unassign f o s).1.2 =
        (TxManager.WithTx f s 0 (DeliveryUsecase.unassignBody f o)).1.1 := by
  unfold DeliveryUsecase.Unassign
  rcases TxManager.WithTx f s 0 (DeliveryUsecase.unassignBody f o) with ⟨⟨e, v⟩, s1⟩
  cases e <;> simp

theorem Complete_proj (uc : DeliveryUsecase) (f : Faults) (o : String) (s : Store) :
    (uc.Complete f o s).2 = (TxManager.WithTx f s 0 (DeliveryUsecase.completeBody f o)).2 ∧
      (uc.Complete f o s).1.2 =
        (TxManager.WithTx f s 0 (DeliveryUsecase.completeBody f o)).1.1 := by
  unfold DeliveryUsecase.Complete
  rcases TxManager.WithTx f s 0 (DeliveryUsecase.completeBody f o) with ⟨⟨e, v⟩, s1⟩
  cases e <;> simp

/-- C3: for each of `Assign`, `Unassign` and `Complete`: if a store step of the closure fails
(selector, insert, mark-assigned; delete, set-status; courier-of-order lookup, set-status) the
operation returns an error and both tables are exactly those before the call; whenever the
operation returns an error both tables are those before the call; and when it returns a nil
error the store is the one the closure left (its effects are committed). -/
theorem C3_atomicity (uc : DeliveryUsecase) (now dbNow : Int) (f : Faults) (o : String)
    (s : Store) :
    (((∃ e, CourierRepository.GetAvailableLeastDelivered f.selector s = .error e) ∨
          f.insert = true ∨ f.markAssigned = true) →
        (∃ e, (uc.Assign now dbNow f o s).1 = (none, none, some e)) ∧
          (uc.Assign now dbNow f o s).2.couriers = s.couriers ∧
          (uc.Assign now dbNow f o s).2.deliveries = s.deliveries) ∧
      ((uc.Assign now dbNow f o s).1.2.2 ≠ none →
        (uc.Assign now dbNow f o s).2.couriers = s.couriers ∧
          (uc.Assign now dbNow f o s).2.deliveries = s.deliveries) ∧
      ((uc.Assign now dbNow f o s).1.2.2 = none →
        (uc.Assign now dbNow f o s).2 = (uc.assignBody now dbNow f o s).2) ∧
      (((DeliveryRepository.Delete f.delete o s).1.2 ≠ none ∨
          (CourierRepository.UpdateStatus f.setStatus CourierStatusAvailable
            (DeliveryRepository.Delete f.delete o s).1.1
            (DeliveryRepository.Delete f.delete o s).2).1 ≠ none) →
        (∃ e, (uc.Unassign f o s).1 = (none, some e)) ∧
          (uc.Unassign f o s).2.couriers = s.couriers ∧
          (uc.Unassign f o s).2.deliveries = s.deliveries) ∧
      ((uc.Unassign f o s).1.2 ≠ none →
        (uc.Unassign f o s).2.couriers = s.couriers ∧
          (uc.Unassign f o s).2.deliveries = s.deliveries) ∧
      ((uc.Unassign f o s).1.2 = none →
        (uc.Unassign f o s).2 = (DeliveryUsecase.unassignBody f o s).2) ∧
      (((DeliveryRepository.GetCourierID f.lookup o s).2 ≠ none ∨
          (CourierRepository.UpdateStatus f.setStatus CourierStatusAvailable
            (DeliveryRepository.GetCourierID f.lookup o s).1 s).1 ≠ none) →
        (∃ e, (uc.Complete f o s).1 = (none, some e)) ∧
          (uc.Complete f o s).2.couriers = s.couriers ∧
          (uc.Complete f o s).2.deliveries = s.deliveries) ∧
      ((uc.Complete f o s).1.2 ≠ none →
        (uc.Complete f o s).2.couriers = s.couriers ∧
          (uc.Complete f o s).2.deliveries = s.deliveries) ∧
      ((uc.Complete f o s).1.2 = none →
        (uc.Complete f o s).2 = (DeliveryUsecase.completeBody f o s).2) := by
  refine ⟨?_, ?_, ?_, ?_, ?_, ?_, ?_, ?_, ?_⟩
  · intro hfail
    rcases Assign_cases uc now dbNow f o s with h | ⟨_, _, _, ⟨hs, hi, hk⟩, row, hrow, _⟩
    · exact h
    · exfalso
      rcases hfail with ⟨e, he⟩ | hi2 | hk2
      · simp [CourierRepository.GetAvailableLeastDelivered, hs, hrow] at he
      · simp [hi] at hi2
      · simp [hk] at hk2
  · intro herr
    rcases Assign_cases uc now dbNow f o s with h | ⟨_, _, _, _, row, _, heq⟩
    · exact h.2
    · rw [heq] at herr
      simp at herr
  · intro hnil
    obtain ⟨hst, her⟩ := Assign_proj uc now dbNow f o s
    rcases WithTx_cases f s (none, none) (uc.assignBody now dbNow f o) with h | h
    · rw [her] at hnil
      exact absurd hnil h.1
    · rw [hst, h.2.2.2.2]
  · intro hfail
    rcases Unassign_cases uc f o s with h | ⟨_, _, _, ⟨hd, hu⟩, d, rest, hrows, hany, _⟩
    · exact h
    · exfalso
      have hdel : DeliveryRepository.Delete f.delete o s =
          ((d.CourierId, none), { s with deliveries := rowsNotOfOrder s o }) := by
        simp [DeliveryRepository.Delete, hd, hrows]
      rw [hdel] at hfail
      rcases hfail with h1 | h2
      · simp at h1
      · simp [CourierRepository.UpdateStatus, hu, hany] at h2
  · intro herr
    rcases Unassign_cases uc f o s with h | ⟨_, _, _, _, d, rest, _, _, heq⟩
    · exact h.2
    · rw [heq] at herr
      simp at herr
  · intro hnil
    obtain ⟨hst, her⟩ := Unassign_proj uc f o s
    rcases WithTx_cases f s 0 (DeliveryUsecase.unassignBody f o) with h | h
    · rw [her] at hnil
      exact absurd hnil h.1
    · rw [hst, h.2.2.2.2]
  · intro hfail
    rcases Complete_cases uc f o s with h | ⟨_, _, _, ⟨hd, hu⟩, d, rest, hrows, hany, _⟩
    · exact h
    · exfalso
      have hget : DeliveryRepository.GetCourierID f.lookup o s = (d.CourierId, none) := by
        simp [DeliveryRepository.GetCourierID, hd, hrows]
      rw [hget] at hfail
      rcases hfail with h1 | h2
      · simp at h1
      · simp [CourierRepository.UpdateStatus, hu, hany] at h2
  · intro herr
    rcases Complete_cases uc f o s with h | ⟨_, _, _, _, d, rest, _, _, heq⟩
    · exact h.2
    · rw [heq] at herr
      simp at herr
  · intro hnil
    obtain ⟨hst, her⟩ := Complete_proj uc f o s
    rcases WithTx_cases f s 0 (DeliveryUsecase.completeBody f o) with h | h
    · rw [her] at hnil
      exact absurd hnil h.1
    · rw [hst, h.2.2.2.2]

/-- C3, instantiated: `Assign` whose mark-assigned statement fails after the insert was
done inside the transaction: an error is returned and both tables are as before, although
the closure had left a delivery row. -/
theorem C3_atomicity_witness :
    (∃ e, (exampleUsecase.Assign 1000 1001 { markAssigned := true } "o1" oneCourierStore).1 =
        (none, none, some e)) ∧
      (exampleUsecase.Assign 1000 1001 { markAssigned := true } "o1" oneCourierStore).2.couriers
        = oneCourierStore.couriers ∧
      (exampleUsecase.Assign 1000 1001 { markAssigned := true } "o1"
        oneCourierStore).2.deliveries = oneCourierStore.deliveries ∧
      (exampleUsecase.assignBody 1000 1001 { markAssigned := true } "o1"
        oneCourierStore).2.deliveries ≠ oneCourierStore.deliveries :=
  ⟨((C3_atomicity exampleUsecase 1000 1001 { markAssigned := true } "o1" oneCourierStore).1
      (Or.inr (Or.inr rfl))).1,
    ((C3_atomicity exampleUsecase 1000 1001 { markAssigned := true } "o1" oneCourierStore).1
      (Or.inr (Or.inr rfl))).2.1,
    ((C3_atomicity exampleUsecase 1000 1001 { markAssigned := true } "o1" oneCourierStore).1
      (Or.inr (Or.inr rfl))).2.2,
    by decide⟩


/-! ## C4 and C5: who gets selected -/

theorem availableRows_markAssigned (id : Int) (l : List CourierModel) :
    (markAssignedRows id l).filter (fun c => decide (c.Status = CourierStatusAvailable)) =
      (l.filter (fun c => decide (c.Status = CourierStatusAvailable))).filter
        (fun c => !decide (c.ID = id)) := by
  induction l with
  | nil => rfl
  | cons x xs ih =>
    have ih2 : List.filter (fun c => decide (c.Status = CourierStatusAvailable))
        (List.map (fun c => if c.ID = id then assignedRow c else c) xs) =
        List.filter (fun c => !decide (c.ID = id))
          (List.filter (fun c => decide (c.Status = CourierStatusAvailable)) xs) := ih
    by_cases hx : x.ID = id
    · have hb : ¬ (assignedRow x).Status = CourierStatusAvailable := by
        simp [assignedRow, CourierStatusBusy, CourierStatusAvailable]
      by_cases ha : x.Status = CourierStatusAvailable
      · simp [markAssignedRows, List.filter_cons, hx, ha, hb, ih2]
      · simp [markAssignedRows, List.filter_cons, hx, ha, hb, ih2]
    · by_cases ha : x.Status = CourierStatusAvailable
      · simp [markAssignedRows, List.filter_cons, hx, ha, ih2]
      · simp [markAssignedRows, List.filter_cons, hx, ha, ih2]

theorem length_filter_ne_of_nodup : ∀ (l : List CourierModel) (id : Int),
    (l.map CourierModel.ID).Nodup →
      l.length ≤ (l.filter (fun c => !decide (c.ID = id))).length + 1
  | [], _, _ => by simp
  | x :: xs, id, hnd => by
    simp only [List.map_cons, List.nodup_cons, List.mem_map, not_exists, not_and] at hnd
    by_cases hx : x.ID = id
    · have hall : xs.filter (fun c => !decide (c.ID = id)) = xs := by
        apply List.filter_eq_self.2
        intro a ha
        have := hnd.1 a ha
        simp only [Bool.not_eq_eq_eq_not, Bool.not_true, decide_eq_false_iff_not]
        intro h
        exact this (h.trans hx.symm)
      simp [List.filter_cons, hx, hall]
    · have ih := length_filter_ne_of_nodup xs id hnd.2
      simp [List.filter_cons, hx]
      omega

theorem availableRows_nodup (s : Store) (hpk : primaryKey s) :
    ((availableRows s).map CourierModel.ID).Nodup :=
  List.Nodup.sublist (List.Sublist.map _ (List.filter_sublist _)) hpk

theorem Assign_noFaults (uc : DeliveryUsecase) (now dbNow : Int) (o : String) (s : Store)
    (row : CourierModel) (hrow : firstByLoad (availableRows s) = some row) :
    uc.Assign now dbNow noFaults o s =
      ((some (uc.newDelivery now o (scanCourier row)), some (scanCourier row), none),
        { couriers := markAssignedRows row.ID s.couriers
          deliveries := s.deliveries ++
            [insertedRow s dbNow (uc.newDelivery now o (scanCourier row))]
          deliverySeq := s.deliverySeq + 1 }) :=
  Assign_run uc now dbNow noFaults o s row rfl rfl rfl rfl rfl rfl hrow

theorem Assign_exhausted (uc : DeliveryUsecase) (now dbNow : Int) (o : String) (s : Store)
    (h : availableRows s = []) :
    (uc.Assign now dbNow noFaults o s).1 =
      (none, none, some (Err.wrap "get available courier" Err.courierErrCourierNotFound)) := by
  simp [DeliveryUsecase.Assign, TxManager.WithTx, DeliveryUsecase.assignBody,
    CourierRepository.GetAvailableLeastDelivered, noFaults, h, firstByLoad]

theorem assignEach_spec (uc : DeliveryUsecase) :
    ∀ (calls : List (String × Int × Int)) (s : Store), primaryKey s →
      calls.length ≤ (availableRows s).length →
        (∀ r ∈ uc.assignEach s calls, ∃ d c, r = (some d, some c, none)) ∧
          (assignedIds (uc.assignEach s calls)).length = calls.length ∧
          (assignedIds (uc.assignEach s calls)).Nodup ∧
          ∀ id ∈ assignedIds (uc.assignEach s calls),
            id ∈ (availableRows s).map CourierModel.ID
  | [], s, _, _ => by simp [DeliveryUsecase.assignEach, assignedIds]
  | (o, now, dbNow) :: rest, s, hpk, hlen => by
    have hne : availableRows s ≠ [] := by
      intro h
      rw [h] at hlen
      simp at hlen
    obtain ⟨row, hrow⟩ : ∃ row, firstByLoad (availableRows s) = some row := by
      cases hm : firstByLoad (availableRows s) with
      | none => exact absurd (firstByLoad_none _ hm) hne
      | some row => exact ⟨row, rfl⟩
    have hrun := Assign_noFaults uc now dbNow o s row hrow
    have hmemA : row ∈ availableRows s := firstByLoad_mem _ _ hrow
    have hpk2 : primaryKey (uc.Assign now dbNow noFaults o s).2 := by
      rw [hrun]
      unfold primaryKey
      simp only
      rw [markAssignedRows_ID]
      exact hpk
    have havail : availableRows (uc.Assign now dbNow noFaults o s).2 =
        (availableRows s).filter (fun c => !decide (c.ID = row.ID)) := by
      rw [hrun]
      exact availableRows_markAssigned row.ID s.couriers
    have hlen2 : rest.length ≤ (availableRows (uc.Assign now dbNow noFaults o s).2).length := by
      rw [havail]
      have := length_filter_ne_of_nodup (availableRows s) row.ID (availableRows_nodup s hpk)
      simp only [List.length_cons] at hlen
      omega
    obtain ⟨ih1, ih2, ih3, ih4⟩ :=
      assignEach_spec uc rest (uc.Assign now dbNow noFaults o s).2 hpk2 hlen2
    have hids : assignedIds (uc.assignEach s ((o, now, dbNow) :: rest)) =
        row.ID :: assignedIds (uc.assignEach (uc.Assign now dbNow noFaults o s).2 rest) := by
      simp [DeliveryUsecase.assignEach, assignedIds, hrun]
    have hsub : ∀ id ∈ assignedIds (uc.assignEach (uc.Assign now dbNow noFaults o s).2 rest),
        id ∈ (availableRows s).map CourierModel.ID ∧ id ≠ row.ID := by
      intro id hid
      have := ih4 id hid
      rw [havail] at this
      simp only [List.mem_map, List.mem_filter, Bool.not_eq_eq_eq_not, Bool.not_true,
        decide_eq_false_iff_not] at this
      obtain ⟨a, ⟨ha, hne⟩, rfl⟩ := this
      exact ⟨List.mem_map.2 ⟨a, ha, rfl⟩, hne⟩
    refine ⟨?_, ?_, ?_, ?_⟩
    · intro r hr
      simp only [DeliveryUsecase.assignEach, List.mem_cons] at hr
      rcases hr with rfl | hr
      · rw [hrun]
        exact ⟨_, _, rfl⟩
      · exact ih1 r hr
    · rw [hids]
      simp [ih2]
    · rw [hids]
      refine List.nodup_cons.2 ⟨?_, ih3⟩
      intro hmem
      exact (hsub _ hmem).2 rfl
    · rw [hids]
      intro id hid
      rcases List.mem_cons.1 hid with rfl | hid
      · exact List.mem_map.2 ⟨row, hmemA, rfl⟩
      · exact (hsub id hid).1

theorem assignEach_length (uc : DeliveryUsecase) :
    ∀ (calls : List (String × Int × Int)) (s : Store),
      (uc.assignEach s calls).length = calls.length
  | [], _ => rfl
  | (o, now, dbNow) :: rest, s => by
    simp [DeliveryUsecase.assignEach, assignEach_length uc rest]

/-- C4: for every store whose courier ids are unique and that has `N` couriers in status
`available`, and for every series of `k ≤ N` `Assign` calls made one after another with no
statement failure, every call succeeds and the `k` callers receive pairwise distinct courier
ids; and in a store with no courier in status `available`, `Assign` fails with an error that
is `ErrCourierNotFound`. -/
theorem C4_distinct_couriers (uc : DeliveryUsecase) (s : Store)
    (calls : List (String × Int × Int)) (hpk : primaryKey s) :
    (calls.length ≤ (availableRows s).length →
        (uc.assignEach s calls).length = calls.length ∧
          (∀ r ∈ uc.assignEach s calls, ∃ d c, r = (some d, some c, none)) ∧
          (assignedIds (uc.assignEach s calls)).length = calls.length ∧
          (assignedIds (uc.assignEach s calls)).Nodup) ∧
      (availableRows s = [] →
        ∀ (now dbNow : Int) (o : String),
          (uc.Assign now dbNow noFaults o s).1 =
              (none, none,
                some (Err.wrap "get available courier" Err.courierErrCourierNotFound)) ∧
            errorsIs (Err.wrap "get available courier" Err.courierErrCourierNotFound)
              Err.courierErrCourierNotFound = true) := by
  constructor
  · intro hlen
    obtain ⟨h1, h2, h3, -⟩ := assignEach_spec uc calls s hpk hlen
    exact ⟨assignEach_length uc calls s, h1, h2, h3⟩
  · intro h now dbNow o
    exact ⟨Assign_exhausted uc now dbNow o s h, by decide⟩

/-- C4, instantiated: two available couriers, two calls (for the same order id). -/
theorem C4_distinct_couriers_witness :
    (assignedIds (exampleUsecase.assignEach twoCourierStore
        [("o1", 1000, 1001), ("o1", 1002, 1003)])).length = 2 ∧
      (assignedIds (exampleUsecase.assignEach twoCourierStore
        [("o1", 1000, 1001), ("o1", 1002, 1003)])).Nodup :=
  ⟨((C4_distinct_couriers exampleUsecase twoCourierStore
        [("o1", 1000, 1001), ("o1", 1002, 1003)] (by decide)).1 (by decide)).2.2.1,
    ((C4_distinct_couriers exampleUsecase twoCourierStore
        [("o1", 1000, 1001), ("o1", 1002, 1003)] (by decide)).1 (by decide)).2.2.2⟩


theorem eq_of_ID_eq (s : Store) (hpk : primaryKey s) (a b : CourierModel)
    (ha : a ∈ s.couriers) (hb : b ∈ s.couriers) (h : a.ID = b.ID) : a = b :=
  List.inj_on_of_nodup_map hpk ha hb h

theorem mem_markAssignedRows (id : Int) (l : List CourierModel) (r : CourierModel) :
    r ∈ markAssignedRows id l ↔
      ∃ a ∈ l, (a.ID = id ∧ r = assignedRow a) ∨ (a.ID ≠ id ∧ r = a) := by
  unfold markAssignedRows
  simp only [List.mem_map]
  constructor
  · rintro ⟨a, ha, rfl⟩
    by_cases h : a.ID = id
    · exact ⟨a, ha, Or.inl ⟨h, by simp [h]⟩⟩
    · exact ⟨a, ha, Or.inr ⟨h, by simp [h]⟩⟩
  · rintro ⟨a, ha, hcase⟩
    rcases hcase with ⟨h, hr⟩ | ⟨h, hr⟩
    · exact ⟨a, ha, by simp [h, hr]⟩
    · exact ⟨a, ha, by simp [h, hr]⟩

theorem mem_setStatusRows (st : String) (id : Int) (l : List CourierModel) (r : CourierModel) :
    r ∈ setStatusRows st id l ↔
      ∃ a ∈ l, (a.ID = id ∧ r = { a with Status := st }) ∨ (a.ID ≠ id ∧ r = a) := by
  unfold setStatusRows
  simp only [List.mem_map]
  constructor
  · rintro ⟨a, ha, rfl⟩
    by_cases h : a.ID = id
    · exact ⟨a, ha, Or.inl ⟨h, by simp [h]⟩⟩
    · exact ⟨a, ha, Or.inr ⟨h, by simp [h]⟩⟩
  · rintro ⟨a, ha, hcase⟩
    rcases hcase with ⟨h, hr⟩ | ⟨h, hr⟩
    · exact ⟨a, ha, by simp [h, hr]⟩
    · exact ⟨a, ha, by simp [h, hr]⟩

theorem Assign_selects_available (uc : DeliveryUsecase) (now dbNow : Int) (f : Faults)
    (o : String) (s : Store) (hpk : primaryKey s)
    (hok : (uc.Assign now dbNow f o s).1.2.2 = none) :
    ∃ d c, (uc.Assign now dbNow f o s).1 = (some d, some c, none) ∧
      d.CourierId = c.ID ∧ d.OrderId = o ∧
      (∃ row ∈ s.couriers, row.ID = c.ID) ∧
      (∀ row ∈ s.couriers, row.ID = c.ID → row.Status = CourierStatusAvailable) ∧
      (∀ row ∈ s.couriers, row.Status ≠ CourierStatusAvailable → row.ID ≠ c.ID) ∧
      (∃ row ∈ (uc.Assign now dbNow f o s).2.couriers, row.ID = c.ID) ∧
      (∀ row ∈ (uc.Assign now dbNow f o s).2.couriers, row.ID = c.ID →
        row.Status = CourierStatusBusy) := by
  rcases Assign_cases uc now dbNow f o s with ⟨⟨e, he⟩, _⟩ | ⟨_, _, _, _, row, hrow, heq⟩
  · rw [he] at hok
    simp at hok
  · have hmemA := (mem_availableRows s row).1 (firstByLoad_mem _ _ hrow)
    have hall : ∀ r ∈ s.couriers, r.ID = row.ID → r.Status = CourierStatusAvailable := by
      intro r hr hid
      rw [eq_of_ID_eq s hpk r row hr hmemA.1 hid]
      exact hmemA.2
    refine ⟨_, scanCourier row, by rw [heq], rfl, rfl, ⟨row, hmemA.1, rfl⟩, hall, ?_, ?_, ?_⟩
    · intro r hr hst hid
      exact hst (hall r hr hid)
    · rw [heq]
      exact ⟨assignedRow row,
        (mem_markAssignedRows _ _ _).2 ⟨row, hmemA.1, Or.inl ⟨rfl, rfl⟩⟩, rfl⟩
    · rw [heq]
      intro r hr hid
      obtain ⟨a, _, ⟨_, rfl⟩ | ⟨hne, rfl⟩⟩ := (mem_markAssignedRows _ _ _).1 hr
      · rfl
      · exact absurd hid hne

/-! ## Sequences of calls: what one call does to the two tables -/

theorem mem_releasedRows (s : Store) (dbNow : Int) (r : CourierModel) :
    r ∈ releasedRows s dbNow →
      ∃ a ∈ s.couriers, r = { a with Status := CourierStatusAvailable } ∨ r = a := by
  unfold releasedRows
  simp only [List.mem_map]
  rintro ⟨a, ha, hr⟩
  by_cases h : releasable s dbNow a = true
  · exact ⟨a, ha, Or.inl (by simp [h] at hr; exact hr.symm)⟩
  · exact ⟨a, ha, Or.inr (by simp [h] at hr; exact hr.symm)⟩

theorem mem_rowsOfOrder (s : Store) (o : String) (d : DeliveryModel) :
    d ∈ rowsOfOrder s o ↔ d ∈ s.deliveries ∧ d.OrderId = o := by
  simp [rowsOfOrder]

theorem mem_rowsNotOfOrder (s : Store) (o : String) (d : DeliveryModel) :
    d ∈ rowsNotOfOrder s o ↔ d ∈ s.deliveries ∧ d.OrderId ≠ o := by
  simp [rowsNotOfOrder]

/-- One call leaves both tables as they were, or has the effect of its successful run. -/
theorem step_cases (uc : DeliveryUsecase) (s : Store) (c : Call) :
    ((uc.step s c).couriers = s.couriers ∧ (uc.step s c).deliveries = s.deliveries) ∨
      (∃ o row ins, c.op = .assign o ∧ row ∈ s.couriers ∧
        row.Status = CourierStatusAvailable ∧ ins.CourierId = row.ID ∧ ins.OrderId = o ∧
        (uc.step s c).couriers = markAssignedRows row.ID s.couriers ∧
        (uc.step s c).deliveries = s.deliveries ++ [ins]) ∨
      (∃ o d, c.op = .unassign o ∧ d ∈ s.deliveries ∧ d.OrderId = o ∧
        (uc.step s c).couriers = setStatusRows CourierStatusAvailable d.CourierId s.couriers ∧
        (uc.step s c).deliveries = rowsNotOfOrder s o) ∨
      (∃ o cid, c.op = .complete o ∧
        (uc.step s c).couriers = setStatusRows CourierStatusAvailable cid s.couriers ∧
        (uc.step s c).deliveries = s.deliveries) ∨
      (c.op = .releaseExpired ∧ (uc.step s c).couriers = releasedRows s c.dbNow ∧
        (uc.step s c).deliveries = s.deliveries) := by
  unfold DeliveryUsecase.step
  cases hop : c.op with
  | assign o =>
    simp only
    rcases Assign_cases uc c.now c.dbNow c.faults o s with h | ⟨_, _, _, _, row, hrow, heq⟩
    · exact Or.inl h.2
    · have hmem := (mem_availableRows s row).1 (firstByLoad_mem _ _ hrow)
      refine Or.inr (Or.inl ⟨o, row,
        insertedRow s c.dbNow (uc.newDelivery c.now o (scanCourier row)),
        rfl, hmem.1, hmem.2, rfl, rfl, ?_, ?_⟩)
      · rw [heq]
      · rw [heq]
  | unassign o =>
    simp only
    rcases Unassign_cases uc c.faults o s with h | ⟨_, _, _, _, d, rest, hrows, _, heq⟩
    · exact Or.inl h.2
    · have hd : d ∈ rowsOfOrder s o := by rw [hrows]; exact List.mem_cons_self _ _
      have hd2 := (mem_rowsOfOrder s o d).1 hd
      refine Or.inr (Or.inr (Or.inl ⟨o, d, rfl, hd2.1, hd2.2, ?_, ?_⟩))
      · rw [heq]
      · rw [heq]
  | complete o =>
    simp only
    rcases Complete_cases uc c.faults o s with h | ⟨_, _, _, _, d, rest, _, _, heq⟩
    · exact Or.inl h.2
    · refine Or.inr (Or.inr (Or.inr (Or.inl ⟨o, d.CourierId, rfl, ?_, ?_⟩)))
      · rw [heq]
      · rw [heq]
  | releaseExpired =>
    simp only
    obtain ⟨hd, hc | hc⟩ := ProcessExpired_cases uc c.dbNow c.faults s
    · exact Or.inl ⟨hc, hd⟩
    · exact Or.inr (Or.inr (Or.inr (Or.inr ⟨trivial, hc, hd⟩)))

theorem run_cons (uc : DeliveryUsecase) (s : Store) (c : Call) (cs : List Call) :
    uc.run s (c :: cs) = uc.run (uc.step s c) cs := rfl

theorem freshAssigns_cons (uc : DeliveryUsecase) (s : Store) (c : Call) (cs : List Call)
    (h : uc.freshAssigns s (c :: cs) = true) :
    (∀ o, c.op = .assign o → rowsOfOrder s o = []) ∧
      uc.freshAssigns (uc.step s c) cs = true := by
  unfold DeliveryUsecase.freshAssigns at h
  simp only [Bool.and_eq_true] at h
  refine ⟨?_, h.2⟩
  intro o ho
  have h1 := h.1
  rw [ho] at h1
  simpa using h1

/-! ## C6 -/

theorem step_orders (uc : DeliveryUsecase) (s : Store) (c : Call)
    (hfresh : ∀ o, c.op = .assign o → rowsOfOrder s o = [])
    (h : (s.deliveries.map DeliveryModel.OrderId).Nodup) :
    ((uc.step s c).deliveries.map DeliveryModel.OrderId).Nodup := by
  rcases step_cases uc s c with ⟨_, hd⟩ | ⟨o, row, ins, hop, _, _, _, hio, _, hd⟩ |
    ⟨o, d, _, _, _, _, hd⟩ | ⟨o, cid, _, _, hd⟩ | ⟨_, _, hd⟩
  · rw [hd]; exact h
  · rw [hd, List.map_append]
    refine List.nodup_append.2 ⟨h, by simp, ?_⟩
    intro x hx hx2
    simp only [List.map_cons, List.map_nil, List.mem_singleton] at hx2
    obtain ⟨a, ha, rfl⟩ := List.mem_map.1 hx
    have hempty := hfresh o hop
    have : a ∈ rowsOfOrder s o := (mem_rowsOfOrder s o a).2 ⟨ha, by rw [hx2, hio]⟩
    rw [hempty] at this
    simp at this
  · rw [hd]
    exact List.Nodup.sublist (List.Sublist.map _ (List.filter_sublist _)) h
  · rw [hd]; exact h
  · rw [hd]; exact h

theorem run_orders (uc : DeliveryUsecase) :
    ∀ (cs : List Call) (s : Store), (s.deliveries.map DeliveryModel.OrderId).Nodup →
      uc.freshAssigns s cs = true →
        ((uc.run s cs).deliveries.map DeliveryModel.OrderId).Nodup
  | [], _, h, _ => h
  | c :: cs, s, h, hf => by
    obtain ⟨hf1, hf2⟩ := freshAssigns_cons uc s c cs hf
    rw [run_cons]
    exact run_orders uc cs (uc.step s c) (step_orders uc s c hf1 h) hf2

theorem length_rowsOfOrder_le_one (s : Store) (o : String)
    (h : (s.deliveries.map DeliveryModel.OrderId).Nodup) : (rowsOfOrder s o).length ≤ 1 := by
  unfold rowsOfOrder
  generalize s.deliveries = l at h
  induction l with
  | nil => simp
  | cons x xs ih =>
    simp only [List.map_cons, List.nodup_cons, List.mem_map, not_exists, not_and] at h
    by_cases hx : x.OrderId = o
    · have hnone : xs.filter (fun d => decide (d.OrderId = o)) = [] := by
        apply List.filter_eq_nil_iff.2
        intro a ha
        have := h.1 a ha
        simp only [decide_eq_true_eq]
        intro h2
        exact this (h2.trans hx.symm)
      simp [List.filter_cons, hx, hnone]
    · simpa [List.filter_cons, hx] using ih h.2

/-- C6, as stated, fails: from two available couriers and no delivery row, `Assign("o1")`
called twice succeeds twice and leaves two delivery rows for order `o1`. -/
theorem C6_counterexample :
    twoCourierStore.deliveries = [] ∧
      (rowsOfOrder
        (exampleUsecase.run twoCourierStore
          [{ op := .assign "o1", now := 1000, dbNow := 1001, faults := noFaults },
           { op := .assign "o1", now := 1002, dbNow := 1003, faults := noFaults }])
        "o1").length = 2 := by
  decide

/-- C6 (amended): in every state reached from a store with no delivery rows by a sequence of
`Assign`, `Unassign`, `Complete` and `ReleaseExpired` calls (any order ids, any couriers, any
statement failures) in which every `Assign(o)` is issued when the store holds no delivery row
for `o`, there is at most one delivery row per order id. -/
theorem C6_one_row_per_order (uc : DeliveryUsecase) (s : Store) (cs : List Call)
    (hempty : s.deliveries = []) (hfresh : uc.freshAssigns s cs = true) :
    ((uc.run s cs).deliveries.map DeliveryModel.OrderId).Nodup ∧
      ∀ o, (rowsOfOrder (uc.run s cs) o).length ≤ 1 := by
  have h := run_orders uc cs s (by rw [hempty]; exact List.nodup_nil) hfresh
  exact ⟨h, fun o => length_rowsOfOrder_le_one _ o h⟩

/-- C6 (amended), instantiated: assign, complete, unassign and assign again of one order,
with a sweep in between. -/
theorem C6_one_row_per_order_witness :
    ((exampleUsecase.run twoCourierStore
        [{ op := .assign "o1", now := 1000, dbNow := 1001, faults := noFaults },
         { op := .complete "o1", now := 1100, dbNow := 1101, faults := noFaults },
         { op := .releaseExpired, now := 5000, dbNow := 5001, faults := noFaults },
         { op := .unassign "o1", now := 5100, dbNow := 5101, faults := noFaults },
         { op := .assign "o1", now := 5200, dbNow := 5201, faults := noFaults }]).deliveries.map
        DeliveryModel.OrderId).Nodup ∧
      (rowsOfOrder
        (exampleUsecase.run twoCourierStore
          [{ op := .assign "o1", now := 1000, dbNow := 1001, faults := noFaults },
           { op := .complete "o1", now := 1100, dbNow := 1101, faults := noFaults },
           { op := .releaseExpired, now := 5000, dbNow := 5001, faults := noFaults },
           { op := .unassign "o1", now := 5100, dbNow := 5101, faults := noFaults },
           { op := .assign "o1", now := 5200, dbNow := 5201, faults := noFaults }])
        "o1").length ≤ 1 :=
  ⟨(C6_one_row_per_order exampleUsecase twoCourierStore
      [{ op := .assign "o1", now := 1000, dbNow := 1001, faults := noFaults },
       { op := .complete "o1", now := 1100, dbNow := 1101, faults := noFaults },
       { op := .releaseExpired, now := 5000, dbNow := 5001, faults := noFaults },
       { op := .unassign "o1", now := 5100, dbNow := 5101, faults := noFaults },
       { op := .assign "o1", now := 5200, dbNow := 5201, faults := noFaults }]
      (by decide) (by decide)).1,
    (C6_one_row_per_order exampleUsecase twoCourierStore
      [{ op := .assign "o1", now := 1000, dbNow := 1001, faults := noFaults },
       { op := .complete "o1", now := 1100, dbNow := 1101, faults := noFaults },
       { op := .releaseExpired, now := 5000, dbNow := 5001, faults := noFaults },
       { op := .unassign "o1", now := 5100, dbNow := 5101, faults := noFaults },
       { op := .assign "o1", now := 5200, dbNow := 5201, faults := noFaults }]
      (by decide) (by decide)).2 "o1"⟩

/-! ## C7 -/

theorem step_primaryKey (uc : DeliveryUsecase) (s : Store) (c : Call) (hpk : primaryKey s) :
    primaryKey (uc.step s c) := by
  unfold primaryKey at *
  rcases step_cases uc s c with ⟨hc, _⟩ | ⟨o, row, ins, _, _, _, _, _, hc, _⟩ |
    ⟨o, d, _, _, _, hc, _⟩ | ⟨o, cid, _, hc, _⟩ | ⟨_, hc, _⟩
  · rw [hc]; exact hpk
  · rw [hc, markAssignedRows_ID]; exact hpk
  · rw [hc, setStatusRows_ID]; exact hpk
  · rw [hc, setStatusRows_ID]; exact hpk
  · rw [hc, releasedRows_ID]; exact hpk

theorem available_ne_busy : CourierStatusAvailable ≠ CourierStatusBusy := by decide

theorem step_busyOwns (uc : DeliveryUsecase) (s : Store) (c : Call)
    (hord : (s.deliveries.map DeliveryModel.OrderId).Nodup)
    (h : ∀ x ∈ s.couriers, x.Status = CourierStatusBusy →
      ∃ d ∈ s.deliveries, d.CourierId = x.ID) :
    ∀ x ∈ (uc.step s c).couriers, x.Status = CourierStatusBusy →
      ∃ d ∈ (uc.step s c).deliveries, d.CourierId = x.ID := by
  rcases step_cases uc s c with ⟨hc, hd⟩ | ⟨o, row, ins, _, _, _, hic, _, hc, hd⟩ |
    ⟨o, d, _, hdm, hdo, hc, hd⟩ | ⟨o, cid, _, hc, hd⟩ | ⟨_, hc, hd⟩
  · rw [hc, hd]; exact h
  · rw [hc, hd]
    intro x hx hbusy
    obtain ⟨a, ha, ⟨hid, rfl⟩ | ⟨hid, rfl⟩⟩ := (mem_markAssignedRows _ _ _).1 hx
    · exact ⟨ins, by simp, by rw [hic]; exact hid.symm⟩
    · obtain ⟨d, hd1, hd2⟩ := h _ ha hbusy
      exact ⟨d, List.mem_append_left _ hd1, hd2⟩
  · rw [hc, hd]
    intro x hx hbusy
    obtain ⟨a, ha, ⟨hid, rfl⟩ | ⟨hid, rfl⟩⟩ := (mem_setStatusRows _ _ _ _).1 hx
    · exact absurd hbusy available_ne_busy
    · obtain ⟨d1, hd1, hd2⟩ := h _ ha hbusy
      refine ⟨d1, (mem_rowsNotOfOrder s o d1).2 ⟨hd1, ?_⟩, hd2⟩
      intro ho
      have : d1 = d := List.inj_on_of_nodup_map hord hd1 hdm (ho.trans hdo.symm)
      rw [this] at hd2
      exact hid hd2.symm
  · rw [hc, hd]
    intro x hx hbusy
    obtain ⟨a, ha, ⟨hid, rfl⟩ | ⟨hid, rfl⟩⟩ := (mem_setStatusRows _ _ _ _).1 hx
    · exact absurd hbusy available_ne_busy
    · exact h _ ha hbusy
  · rw [hc, hd]
    intro x hx hbusy
    obtain ⟨a, ha, rfl | rfl⟩ := mem_releasedRows s c.dbNow x hx
    · exact absurd hbusy available_ne_busy
    · exact h _ ha hbusy

theorem run_busyOwns (uc : DeliveryUsecase) :
    ∀ (cs : List Call) (s : Store), (s.deliveries.map DeliveryModel.OrderId).Nodup →
      (∀ x ∈ s.couriers, x.Status = CourierStatusBusy →
        ∃ d ∈ s.deliveries, d.CourierId = x.ID) →
      uc.freshAssigns s cs = true →
        ∀ x ∈ (uc.run s cs).couriers, x.Status = CourierStatusBusy →
          ∃ d ∈ (uc.run s cs).deliveries, d.CourierId = x.ID
  | [], _, _, h, _ => h
  | c :: cs, s, hord, h, hf => by
    obtain ⟨hf1, hf2⟩ := freshAssigns_cons uc s c cs hf
    rw [run_cons]
    exact run_busyOwns uc cs (uc.step s c) (step_orders uc s c hf1 hord)
      (step_busyOwns uc s c hord h) hf2

theorem step_ownerBusy (uc : DeliveryUsecase) (s : Store) (c : Call)
    (hop : (∃ o, c.op = .assign o) ∨ (∃ o, c.op = .unassign o))
    (hpk : primaryKey s)
    (hown : (s.deliveries.map DeliveryModel.CourierId).Nodup)
    (h : ∀ d ∈ s.deliveries, ∃ x ∈ s.couriers,
      x.ID = d.CourierId ∧ x.Status = CourierStatusBusy) :
    ((uc.step s c).deliveries.map DeliveryModel.CourierId).Nodup ∧
      ∀ d ∈ (uc.step s c).deliveries, ∃ x ∈ (uc.step s c).couriers,
        x.ID = d.CourierId ∧ x.Status = CourierStatusBusy := by
  rcases step_cases uc s c with ⟨hc, hd⟩ | ⟨o, row, ins, _, hrm, hrs, hic, _, hc, hd⟩ |
    ⟨o, d, _, hdm, hdo, hc, hd⟩ | ⟨o, cid, hop2, _, _⟩ | ⟨hop2, _, _⟩
  · rw [hc, hd]; exact ⟨hown, h⟩
  · have hfree : ∀ d ∈ s.deliveries, d.CourierId ≠ row.ID := by
      intro d hd1 hid
      obtain ⟨x, hx, hxid, hxb⟩ := h d hd1
      have : x = row := eq_of_ID_eq s hpk x row hx hrm (hxid.trans hid)
      rw [this, hrs] at hxb
      exact available_ne_busy hxb
    rw [hc, hd]
    constructor
    · rw [List.map_append]
      refine List.nodup_append.2 ⟨hown, by simp, ?_⟩
      intro y hy hy2
      simp only [List.map_cons, List.map_nil, List.mem_singleton] at hy2
      obtain ⟨a, ha, rfl⟩ := List.mem_map.1 hy
      exact hfree a ha (hy2.trans hic)
    · intro d1 hd1
      rcases List.mem_append.1 hd1 with hd1 | hd1
      · obtain ⟨x, hx, hxid, hxb⟩ := h d1 hd1
        refine ⟨x, (mem_markAssignedRows _ _ _).2 ⟨x, hx, Or.inr ⟨?_, rfl⟩⟩, hxid, hxb⟩
        rw [hxid]
        exact hfree d1 hd1
      · simp only [List.mem_singleton] at hd1
        subst hd1
        exact ⟨assignedRow row,
          (mem_markAssignedRows _ _ _).2 ⟨row, hrm, Or.inl ⟨rfl, rfl⟩⟩, hic.symm, rfl⟩
  · rw [hc, hd]
    constructor
    · exact List.Nodup.sublist (List.Sublist.map _ (List.filter_sublist _)) hown
    · intro d1 hd1
      obtain ⟨hd1m, hd1o⟩ := (mem_rowsNotOfOrder s o d1).1 hd1
      obtain ⟨x, hx, hxid, hxb⟩ := h d1 hd1m
      refine ⟨x, (mem_setStatusRows _ _ _ _).2 ⟨x, hx, Or.inr ⟨?_, rfl⟩⟩, hxid, hxb⟩
      intro hid
      have : d1 = d := List.inj_on_of_nodup_map hown hd1m hdm (hxid.symm.trans hid)
      rw [this] at hd1o
      exact hd1o hdo
  · rcases hop with ⟨o2, h2⟩ | ⟨o2, h2⟩ <;> rw [hop2] at h2 <;> cases h2
  · rcases hop with ⟨o2, h2⟩ | ⟨o2, h2⟩ <;> rw [hop2] at h2 <;> cases h2

theorem onlyAssignUnassign_cons (c : Call) (cs : List Call)
    (h : onlyAssignUnassign (c :: cs) = true) :
    ((∃ o, c.op = .assign o) ∨ (∃ o, c.op = .unassign o)) ∧ onlyAssignUnassign cs = true := by
  unfold onlyAssignUnassign at *
  simp only [List.all_cons, Bool.and_eq_true] at h
  refine ⟨?_, h.2⟩
  have h1 := h.1
  cases hop : c.op with
  | assign o => exact Or.inl ⟨o, rfl⟩
  | unassign o => exact Or.inr ⟨o, rfl⟩
  | complete o => rw [hop] at h1; simp at h1
  | releaseExpired => rw [hop] at h1; simp at h1

theorem run_ownerBusy (uc : DeliveryUsecase) :
    ∀ (cs : List Call) (s : Store), primaryKey s →
      (s.deliveries.map DeliveryModel.CourierId).Nodup →
      (∀ d ∈ s.deliveries, ∃ x ∈ s.couriers,
        x.ID = d.CourierId ∧ x.Status = CourierStatusBusy) →
      onlyAssignUnassign cs = true →
        ∀ d ∈ (uc.run s cs).deliveries, ∃ x ∈ (uc.run s cs).couriers,
          x.ID = d.CourierId ∧ x.Status = CourierStatusBusy
  | [], _, _, _, h, _ => h
  | c :: cs, s, hpk, hown, h, ho => by
    obtain ⟨ho1, ho2⟩ := onlyAssignUnassign_cons c cs ho
    obtain ⟨hown2, h2⟩ := step_ownerBusy uc s c ho1 hpk hown h
    rw [run_cons]
    exact run_ownerBusy uc cs (uc.step s c) (step_primaryKey uc s c hpk) hown2 h2 ho2

/-- C7, as stated, fails in both directions.  After `Assign("o1")` and `Complete("o1")`
the row of `o1` owned by courier 7 exists and courier 7 is `available`; the same holds after
`Assign("o1")` and a sweep made past the deadline; and after `Assign("o1")`, `Assign("o1")`,
`Unassign("o1")` on two couriers no delivery row is left while courier 8 is `busy`. -/
theorem C7_counterexample :
    (oneCourierStore.deliveries = [] ∧
        ∀ c ∈ oneCourierStore.couriers, c.Status ≠ CourierStatusBusy) ∧
      ((exampleUsecase.run oneCourierStore
          [{ op := .assign "o1", now := 1000, dbNow := 1001, faults := noFaults },
           { op := .complete "o1", now := 1100, dbNow := 1101, faults := noFaults }]).deliveries
          = [{ ID := 1, CourierId := 7, OrderId := "o1", AssignedAt := 1001,
               Deadline := 1300 }] ∧
        (exampleUsecase.run oneCourierStore
          [{ op := .assign "o1", now := 1000, dbNow := 1001, faults := noFaults },
           { op := .complete "o1", now := 1100, dbNow := 1101, faults := noFaults }]).couriers
          = [{ alice with Status := CourierStatusAvailable, AssignmentsCount := 1 }]) ∧
      ((exampleUsecase.run oneCourierStore
          [{ op := .assign "o1", now := 1000, dbNow := 1001, faults := noFaults },
           { op := .releaseExpired, now := 5000, dbNow := 5001,
             faults := noFaults }]).deliveries
          = [{ ID := 1, CourierId := 7, OrderId := "o1", AssignedAt := 1001,
               Deadline := 1300 }] ∧
        (exampleUsecase.run oneCourierStore
          [{ op := .assign "o1", now := 1000, dbNow := 1001, faults := noFaults },
           { op := .releaseExpired, now := 5000, dbNow := 5001,
             faults := noFaults }]).couriers
          = [{ alice with Status := CourierStatusAvailable, AssignmentsCount := 1 }]) ∧
      ((twoCourierStore.deliveries = [] ∧
          ∀ c ∈ twoCourierStore.couriers, c.Status ≠ CourierStatusBusy) ∧
        (exampleUsecase.run twoCourierStore
          [{ op := .assign "o1", now := 1000, dbNow := 1001, faults := noFaults },
           { op := .assign "o1", now := 1002, dbNow := 1003, faults := noFaults },
           { op := .unassign "o1", now := 1004, dbNow := 1005, faults := noFaults }]).deliveries
          = [] ∧
        (exampleUsecase.run twoCourierStore
          [{ op := .assign "o1", now := 1000, dbNow := 1001, faults := noFaults },
           { op := .assign "o1", now := 1002, dbNow := 1003, faults := noFaults },
           { op := .unassign "o1", now := 1004, dbNow := 1005, faults := noFaults }]).couriers
          = [{ alice with Status := CourierStatusAvailable, AssignmentsCount := 1 },
             { bob with Status := CourierStatusBusy, AssignmentsCount := 1 }]) := by
  decide

/-- C7 (amended): in every state reached from a store (courier ids unique) with no delivery
rows and no busy couriers by a sequence of `Assign`, `Unassign`, `Complete` and
`ReleaseExpired` calls in which every `Assign(o)` is issued when no delivery row for `o`
exists, every courier in status `busy` owns a delivery row; and when the sequence holds
`Assign` and `Unassign` calls only, conversely the owner of every delivery row exists and is
in status `busy`. -/
theorem C7_busy_and_rows (uc : DeliveryUsecase) (s : Store) (cs : List Call)
    (hpk : primaryKey s) (hempty : s.deliveries = [])
    (hnobusy : ∀ c ∈ s.couriers, c.Status ≠ CourierStatusBusy)
    (hfresh : uc.freshAssigns s cs = true) :
    (∀ c ∈ (uc.run s cs).couriers, c.Status = CourierStatusBusy →
        ∃ d ∈ (uc.run s cs).deliveries, d.CourierId = c.ID) ∧
      (onlyAssignUnassign cs = true →
        ∀ d ∈ (uc.run s cs).deliveries, ∃ c ∈ (uc.run s cs).couriers,
          c.ID = d.CourierId ∧ c.Status = CourierStatusBusy) := by
  constructor
  · exact run_busyOwns uc cs s (by rw [hempty]; exact List.nodup_nil)
      (fun c hc hb => absurd hb (hnobusy c hc)) hfresh
  · intro ho
    exact run_ownerBusy uc cs s hpk (by rw [hempty]; exact List.nodup_nil)
      (by rw [hempty]; intro d hd; simp at hd) ho

/-- C7 (amended), instantiated: two couriers, two orders assigned, one unassigned. -/
theorem C7_busy_and_rows_witness :
    (∀ c ∈ (exampleUsecase.run twoCourierStore
          [{ op := .assign "o1", now := 1000, dbNow := 1001, faults := noFaults },
           { op := .assign "o2", now := 1002, dbNow := 1003, faults := noFaults },
           { op := .unassign "o1", now := 1004, dbNow := 1005, faults := noFaults }]).couriers,
        c.Status = CourierStatusBusy →
          ∃ d ∈ (exampleUsecase.run twoCourierStore
            [{ op := .assign "o1", now := 1000, dbNow := 1001, faults := noFaults },
             { op := .assign "o2", now := 1002, dbNow := 1003, faults := noFaults },
             { op := .unassign "o1", now := 1004, dbNow := 1005,
               faults := noFaults }]).deliveries,
            d.CourierId = c.ID) ∧
      ∀ d ∈ (exampleUsecase.run twoCourierStore
          [{ op := .assign "o1", now := 1000, dbNow := 1001, faults := noFaults },
           { op := .assign "o2", now := 1002, dbNow := 1003, faults := noFaults },
           { op := .unassign "o1", now := 1004, dbNow := 1005, faults := noFaults }]).deliveries,
        ∃ c ∈ (exampleUsecase.run twoCourierStore
            [{ op := .assign "o1", now := 1000, dbNow := 1001, faults := noFaults },
             { op := .assign "o2", now := 1002, dbNow := 1003, faults := noFaults },
             { op := .unassign "o1", now := 1004, dbNow := 1005,
               faults := noFaults }]).couriers,
          c.ID = d.CourierId ∧ c.Status = CourierStatusBusy :=
  ⟨(C7_busy_and_rows exampleUsecase twoCourierStore
      [{ op := .assign "o1", now := 1000, dbNow := 1001, faults := noFaults },
       { op := .assign "o2", now := 1002, dbNow := 1003, faults := noFaults },
       { op := .unassign "o1", now := 1004, dbNow := 1005, faults := noFaults }]
      (by decide) (by decide) (by decide) (by decide)).1,
    (C7_busy_and_rows exampleUsecase twoCourierStore
      [{ op := .assign "o1", now := 1000, dbNow := 1001, faults := noFaults },
       { op := .assign "o2", now := 1002, dbNow := 1003, faults := noFaults },
       { op := .unassign "o1", now := 1004, dbNow := 1005, faults := noFaults }]
      (by decide) (by decide) (by decide) (by decide)).2 (by decide)⟩

/-! ## C5 -/

/-- C5, as stated, fails in its conclusion.  One courier; `Assign("o1")`, `Complete("o1")`,
`Assign("o2")`, `Unassign("o1")`: `Complete` leaves the row of `o1`, so the later
`Unassign("o1")` deletes that row and sets courier 7 `available` although the row of `o2`,
assigned at 1200 with deadline 1500 and neither completed nor unassigned, is still his.
`Assign("o3")` at 1400 then returns courier 7 again, who ends with the rows of `o2` and
`o3`. -/
theorem C5_counterexample :
    (exampleUsecase.run oneCourierStore
        [{ op := .assign "o1", now := 1000, dbNow := 1001, faults := noFaults },
         { op := .complete "o1", now := 1100, dbNow := 1101, faults := noFaults },
         { op := .assign "o2", now := 1200, dbNow := 1201, faults := noFaults },
         { op := .unassign "o1", now := 1300, dbNow := 1301, faults := noFaults }]) =
        { couriers := [{ alice with Status := CourierStatusAvailable, AssignmentsCount := 2 }],
          deliveries := [{ ID := 2, CourierId := 7, OrderId := "o2", AssignedAt := 1201,
                           Deadline := 1500 }],
          deliverySeq := 2 } ∧
      (exampleUsecase.Assign 1400 1401 noFaults "o3"
        (exampleUsecase.run oneCourierStore
          [{ op := .assign "o1", now := 1000, dbNow := 1001, faults := noFaults },
           { op := .complete "o1", now := 1100, dbNow := 1101, faults := noFaults },
           { op := .assign "o2", now := 1200, dbNow := 1201, faults := noFaults },
           { op := .unassign "o1", now := 1300, dbNow := 1301, faults := noFaults }])) =
        ((some { ID := 0, CourierId := 7, OrderId := "o3", AssignedAt := 0, Deadline := 1700 },
          some (scanCourier
            { alice with Status := CourierStatusAvailable, AssignmentsCount := 2 }), none),
          { couriers := [{ alice with Status := CourierStatusBusy, AssignmentsCount := 3 }],
            deliveries := [{ ID := 2, CourierId := 7, OrderId := "o2", AssignedAt := 1201,
                             Deadline := 1500 },
                           { ID := 3, CourierId := 7, OrderId := "o3", AssignedAt := 1401,
                             Deadline := 1700 }],
            deliverySeq := 3 }) := by
  decide

/-- C5 (amended): in every store (courier ids unique) and for every order id, a successful
`Assign` returns a courier whose row had status `available` immediately before the call,
binds the returned delivery to that courier and order, and leaves that courier's row `busy`;
a courier whose status before the call was anything but `available` (busy, paused, ...) is
never the one returned.  And when the store was reached from a store without delivery rows by
`Assign` and `Unassign` calls only, the courier returned owns no delivery row before the
call, and afterwards the one row he owns is the new row of the order: a courier holding an
assignment is not given a second one. -/
theorem C5_only_available_assigned (uc : DeliveryUsecase) (now dbNow : Int) (f : Faults)
    (o : String) (s : Store) (hpk : primaryKey s)
    (hok : (uc.Assign now dbNow f o s).1.2.2 = none) :
    ∃ d c, (uc.Assign now dbNow f o s).1 = (some d, some c, none) ∧
      d.CourierId = c.ID ∧ d.OrderId = o ∧
      (∃ row ∈ s.couriers, row.ID = c.ID) ∧
      (∀ row ∈ s.couriers, row.ID = c.ID → row.Status = CourierStatusAvailable) ∧
      (∀ row ∈ s.couriers, row.Status ≠ CourierStatusAvailable → row.ID ≠ c.ID) ∧
      (∃ row ∈ (uc.Assign now dbNow f o s).2.couriers, row.ID = c.ID) ∧
      (∀ row ∈ (uc.Assign now dbNow f o s).2.couriers, row.ID = c.ID →
        row.Status = CourierStatusBusy) ∧
      (∀ (s0 : Store) (cs : List Call), primaryKey s0 → s0.deliveries = [] →
        onlyAssignUnassign cs = true → uc.run s0 cs = s →
        (∀ row ∈ s.deliveries, row.CourierId ≠ c.ID) ∧
        (uc.Assign now dbNow f o s).2.deliveries.filter (fun row => row.CourierId = c.ID) =
          [insertedRow s dbNow d]) := by
  obtain ⟨d, c, h1, h2, h3, h4, h5, h6, h7, h8⟩ :=
    Assign_selects_available uc now dbNow f o s hpk hok
  refine ⟨d, c, h1, h2, h3, h4, h5, h6, h7, h8, ?_⟩
  intro s0 cs hpk0 hempty honly hrun
  have hown := run_ownerBusy uc cs s0 hpk0 (by rw [hempty]; exact List.nodup_nil)
    (by rw [hempty]; intro d hd; simp at hd) honly
  rw [hrun] at hown
  have hnone : ∀ row ∈ s.deliveries, row.CourierId ≠ c.ID := by
    intro row hrow hid
    obtain ⟨x, hx, hxid, hxbusy⟩ := hown row hrow
    have := h5 x hx (by rw [hxid, hid])
    rw [hxbusy] at this
    exact available_ne_busy this.symm
  refine ⟨hnone, ?_⟩
  rcases Assign_cases uc now dbNow f o s with ⟨⟨e, he⟩, _⟩ | ⟨_, _, _, _, row, _, heq⟩
  · rw [he] at hok
    simp at hok
  · rw [heq] at h1 ⊢
    simp only [Prod.mk.injEq, Option.some.injEq, and_true] at h1
    obtain ⟨hd, hc⟩ := h1
    subst hd
    subst hc
    have hfil : s.deliveries.filter (fun r => r.CourierId = (scanCourier row).ID) = [] := by
      rw [List.filter_eq_nil_iff]
      intro r hr
      simpa using hnone r hr
    simp only [List.filter_append, hfil, List.nil_append]
    have hid : (insertedRow s dbNow (uc.newDelivery now o (scanCourier row))).CourierId =
        (scanCourier row).ID := rfl
    simp [List.filter, hid]

/-- C5 (amended), instantiated: courier 7 is busy with order `o1`, courier 8 is available;
`Assign("o2")` returns courier 8, who owns no row before the call. -/
theorem C5_only_available_assigned_witness :
    ∃ d c, (exampleUsecase.Assign 1000 1001 noFaults "o2" storeWithOrder).1 =
        (some d, some c, none) ∧
      d.CourierId = c.ID ∧ d.OrderId = "o2" ∧
      (∃ row ∈ storeWithOrder.couriers, row.ID = c.ID) ∧
      (∀ row ∈ storeWithOrder.couriers, row.ID = c.ID →
        row.Status = CourierStatusAvailable) ∧
      (∀ row ∈ storeWithOrder.couriers, row.Status ≠ CourierStatusAvailable →
        row.ID ≠ c.ID) ∧
      (∃ row ∈ (exampleUsecase.Assign 1000 1001 noFaults "o2" storeWithOrder).2.couriers,
        row.ID = c.ID) ∧
      (∀ row ∈ (exampleUsecase.Assign 1000 1001 noFaults "o2" storeWithOrder).2.couriers,
        row.ID = c.ID → row.Status = CourierStatusBusy) ∧
      (∀ (s0 : Store) (cs : List Call), primaryKey s0 → s0.deliveries = [] →
        onlyAssignUnassign cs = true → exampleUsecase.run s0 cs = storeWithOrder →
        (∀ row ∈ storeWithOrder.deliveries, row.CourierId ≠ c.ID) ∧
        (exampleUsecase.Assign 1000 1001 noFaults "o2" storeWithOrder).2.deliveries.filter
            (fun row => row.CourierId = c.ID) =
          [insertedRow storeWithOrder 1001 d]) :=
  C5_only_available_assigned exampleUsecase 1000 1001 noFaults "o2" storeWithOrder
    (by decide) (by decide)

/-! ## C8 -/

/-- C8, as stated, fails: with one available courier by car (offset 300) and both clocks
reading 1000, the delivery that `Assign` returns has `Deadline = 1300` and `AssignedAt` zero;
and when the database clock reads 1001 the inserted row has `assigned_at = 1001` and
`deadline = 1300`.  In neither is `Deadline = AssignedAt + 300`. -/
theorem C8_counterexample :
    (exampleUsecase.Assign 1000 1000 noFaults "o1" oneCourierStore).1 =
        (some { ID := 0, CourierId := 7, OrderId := "o1", AssignedAt := 0, Deadline := 1300 },
          some (scanCourier alice), none) ∧
      (exampleUsecase.timeFactory.ForTransport (scanCourier alice).TransportType).duration
        = 300 ∧
      (1300 : Int) ≠ 0 + 300 ∧
      (exampleUsecase.Assign 1000 1001 noFaults "o1" oneCourierStore).2.deliveries =
        [{ ID := 1, CourierId := 7, OrderId := "o1", AssignedAt := 1001, Deadline := 1300 }] ∧
      (1300 : Int) ≠ 1001 + 300 := by
  decide

/-- C8 (amended): for every successful `Assign`, the returned delivery and the inserted row
both have `Deadline = now + offset`, where `now` is the coordinator's clock reading of that
call and `offset` the duration configured for the assigned courier's transport; the returned
delivery's `AssignedAt` is the zero time and the row's `assigned_at` is the database's
`NOW()`, so the row has `deadline = assigned_at + offset` exactly when the two clocks agree. -/
theorem C8_deadline_from_clock (uc : DeliveryUsecase) (now dbNow : Int) (f : Faults)
    (o : String) (s : Store) (hok : (uc.Assign now dbNow f o s).1.2.2 = none) :
    ∃ d c row, (uc.Assign now dbNow f o s).1 = (some d, some c, none) ∧
      (uc.Assign now dbNow f o s).2.deliveries = s.deliveries ++ [row] ∧
      d.Deadline = now + (uc.timeFactory.ForTransport c.TransportType).duration ∧
      d.AssignedAt = 0 ∧
      row.Deadline = now + (uc.timeFactory.ForTransport c.TransportType).duration ∧
      row.AssignedAt = dbNow ∧ row.CourierId = c.ID ∧ row.OrderId = o ∧
      (row.Deadline =
          row.AssignedAt + (uc.timeFactory.ForTransport c.TransportType).duration ↔
        dbNow = now) := by
  rcases Assign_cases uc now dbNow f o s with ⟨⟨e, he⟩, _⟩ | ⟨_, _, _, _, row, hrow, heq⟩
  · rw [he] at hok
    simp at hok
  · refine ⟨_, scanCourier row, _, by rw [heq], by rw [heq], rfl, rfl, rfl, rfl, rfl, rfl, ?_⟩
    simp only [insertedRow, DeliveryUsecase.newDelivery, fixedDurationPolicy.Deadline]
    constructor
    · intro h
      omega
    · intro h
      omega

/-- C8 (amended), instantiated. -/
theorem C8_deadline_from_clock_witness :
    ∃ d c row, (exampleUsecase.Assign 1000 1001 noFaults "o1" oneCourierStore).1 =
        (some d, some c, none) ∧
      (exampleUsecase.Assign 1000 1001 noFaults "o1" oneCourierStore).2.deliveries =
        oneCourierStore.deliveries ++ [row] ∧
      d.Deadline = 1000 + (exampleUsecase.timeFactory.ForTransport c.TransportType).duration ∧
      d.AssignedAt = 0 ∧
      row.Deadline =
        1000 + (exampleUsecase.timeFactory.ForTransport c.TransportType).duration ∧
      row.AssignedAt = 1001 ∧ row.CourierId = c.ID ∧ row.OrderId = "o1" ∧
      (row.Deadline =
          row.AssignedAt + (exampleUsecase.timeFactory.ForTransport c.TransportType).duration ↔
        (1001 : Int) = 1000) :=
  C8_deadline_from_clock exampleUsecase 1000 1001 noFaults "o1" oneCourierStore (by decide)

/-! ## C9 -/

theorem assign_unassign_single (uc : DeliveryUsecase) (now dbNow : Int) (o : String)
    (c : CourierModel) (q : Int) (hst : c.Status = CourierStatusAvailable) :
    (uc.Assign now dbNow noFaults o (soloStore c q)).1.2.2 = none ∧
      (uc.Unassign noFaults o (uc.Assign now dbNow noFaults o (soloStore c q)).2).1.2 = none ∧
      (uc.Unassign noFaults o (uc.Assign now dbNow noFaults o (soloStore c q)).2).2 =
        soloStore { c with AssignmentsCount := c.AssignmentsCount + 1 } (q + 1) := by
  have hrow : firstByLoad (availableRows (soloStore c q)) = some c := by
    simp [soloStore, availableRows, hst, firstByLoad]
  have hrun := Assign_noFaults uc now dbNow o _ c hrow
  have hun := Unassign_run uc noFaults o (uc.Assign now dbNow noFaults o (soloStore c q)).2
    (insertedRow (soloStore c q) dbNow (uc.newDelivery now o (scanCourier c))) []
    rfl rfl rfl rfl rfl
    (by rw [hrun]; simp [soloStore, rowsOfOrder, insertedRow, DeliveryUsecase.newDelivery])
    (by rw [hrun]
        simp [soloStore, markAssignedRows, insertedRow, DeliveryUsecase.newDelivery,
          assignedRow])
  rw [hun, hrun]
  refine ⟨rfl, rfl, ?_⟩
  simp [soloStore, markAssignedRows, setStatusRows, rowsNotOfOrder, insertedRow,
    DeliveryUsecase.newDelivery, assignedRow]
  exact hst.symm

theorem assignUnassignPairs_spec (uc : DeliveryUsecase) :
    ∀ (pairs : List (String × Int × Int)) (c : CourierModel) (q : Int),
      c.Status = CourierStatusAvailable →
        (uc.assignUnassignPairs (soloStore c q) pairs).1 = true ∧
          (uc.assignUnassignPairs (soloStore c q) pairs).2.couriers =
            [{ c with AssignmentsCount := c.AssignmentsCount + (pairs.length : Int) }] ∧
          (uc.assignUnassignPairs (soloStore c q) pairs).2.deliveries = []
  | [], c, q, _ => by simp [DeliveryUsecase.assignUnassignPairs, soloStore]
  | (o, now, dbNow) :: rest, c, q, hst => by
    obtain ⟨h1, h2, h3⟩ := assign_unassign_single uc now dbNow o c q hst
    obtain ⟨i1, i2, i3⟩ := assignUnassignPairs_spec uc rest
      { c with AssignmentsCount := c.AssignmentsCount + 1 } (q + 1) hst
    simp only [DeliveryUsecase.assignUnassignPairs, h1, h2, h3, i1, i2, i3]
    refine ⟨by simp, ?_, trivial⟩
    simp only [List.length_cons, Nat.cast_add, Nat.cast_one]
    have : c.AssignmentsCount + 1 + (rest.length : Int) =
        c.AssignmentsCount + ((rest.length : Int) + 1) := by omega
    rw [this]

/-- C9: for a store holding one courier with status `available` and `assignments_count` 0
and no delivery rows, and for every `k ≥ 0` and every sequence of order ids `o_1..o_k`, after
running `Assign(o_i)` followed by `Unassign(o_i)` for `i = 1..k` with no statement failure,
every call has succeeded, the courier's `assignments_count` equals `k`, its status is
`available`, and no delivery row remains. -/
theorem C9_assign_unassign_pairs (uc : DeliveryUsecase) (c : CourierModel) (q : Int)
    (pairs : List (String × Int × Int)) (hst : c.Status = CourierStatusAvailable)
    (hcnt : c.AssignmentsCount = 0) :
    (uc.assignUnassignPairs (soloStore c q) pairs).1 = true ∧
      (uc.assignUnassignPairs (soloStore c q) pairs).2.couriers =
        [{ c with Status := CourierStatusAvailable,
                  AssignmentsCount := (pairs.length : Int) }] ∧
      (uc.assignUnassignPairs (soloStore c q) pairs).2.deliveries = [] := by
  obtain ⟨h1, h2, h3⟩ := assignUnassignPairs_spec uc pairs c q hst
  refine ⟨h1, ?_, h3⟩
  rw [h2, hcnt, ← hst]
  simp

/-- C9, instantiated: three pairs on the one-courier store. -/
theorem C9_assign_unassign_pairs_witness :
    (exampleUsecase.assignUnassignPairs (soloStore alice 0)
        [("o1", 10, 11), ("o2", 20, 21), ("o1", 30, 31)]).1 = true ∧
      (exampleUsecase.assignUnassignPairs (soloStore alice 0)
        [("o1", 10, 11), ("o2", 20, 21), ("o1", 30, 31)]).2.couriers =
        [{ alice with Status := CourierStatusAvailable, AssignmentsCount := 3 }] ∧
      (exampleUsecase.assignUnassignPairs (soloStore alice 0)
        [("o1", 10, 11), ("o2", 20, 21), ("o1", 30, 31)]).2.deliveries = [] :=
  C9_assign_unassign_pairs exampleUsecase alice 0
    [("o1", 10, 11), ("o2", 20, 21), ("o1", 30, 31)] (by decide) (by decide)


/-! ## C10 -/

theorem GetOneById_setStatus (st : String) (l : List CourierModel) (a : CourierModel)
    (hnd : (l.map CourierModel.ID).Nodup) (ha : a ∈ l) (ds : List DeliveryModel) (q : Int) :
    CourierRepository.GetOneById false a.ID
        { couriers := setStatusRows st a.ID l, deliveries := ds, deliverySeq := q } =
      .ok (scanCourier { a with Status := st }) := by
  have hfind := find_of_nodup l a hnd ha
  have hmap := find_map_of_ID (fun c => if c.ID = a.ID then { c with Status := st } else c)
    (by intro c; by_cases h : c.ID = a.ID <;> simp [h]) a.ID l
  simp only [CourierRepository.GetOneById, setStatusRows, hmap, hfind]
  simp

/-- C10, as stated, fails when the order already has a row: courier 7 is busy on order `o1`;
`Assign("o1")` succeeds with courier 8; `Complete("o1")` then returns courier 7, the owner
of the first row of the order, and courier 8 stays `busy`.  It also fails when a statement
of `Complete` fails: with a failing `COMMIT` an error is returned. -/
theorem C10_counterexample :
    (exampleUsecase.Assign 1000 1001 noFaults "o1" storeWithOrder).1.2 =
        (some (scanCourier bob), none) ∧
      (exampleUsecase.Complete noFaults "o1"
        (exampleUsecase.Assign 1000 1001 noFaults "o1" storeWithOrder).2).1 =
        (some (orderResult "o1" 7), none) ∧
      CourierRepository.GetOneById false 8
        (exampleUsecase.Complete noFaults "o1"
          (exampleUsecase.Assign 1000 1001 noFaults "o1" storeWithOrder).2).2 =
        .ok { scanCourier bob with Status := CourierStatusBusy, AssignmentsCount := 1 } ∧
      (exampleUsecase.Complete { commit := true } "o1"
        (exampleUsecase.Assign 1000 1001 noFaults "o1" oneCourierStore).2).1 =
        (none, some (Err.driver "commit")) := by
  decide

/-- C10 (amended): for every order id `o` and every store (courier ids unique) that holds no
delivery row for `o`: if `Assign(o)` succeeded with courier `c` and `Complete(o)` is then
called and none of its statements fails, `Complete` returns `(o, c.ID)`, `c`'s status becomes
`available`, `c`'s `assignments_count` is unchanged, and table `delivery` is unchanged (the
row for `o` is not deleted, so the courier-of-order lookup for `o` still resolves to `c`). -/
theorem C10_complete_after_assign (uc : DeliveryUsecase) (now dbNow : Int) (f f2 : Faults)
    (o : String) (s : Store) (d : DeliveryModel) (c : CourierModel) (hpk : primaryKey s)
    (hfresh : rowsOfOrder s o = [])
    (hok : (uc.Assign now dbNow f o s).1 = (some d, some c, none))
    (hf2 : f2.acquire = false ∧ f2.begin = false ∧ f2.commit = false ∧ f2.lookup = false ∧
      f2.setStatus = false) :
    (uc.Complete f2 o (uc.Assign now dbNow f o s).2).1 = (some (orderResult o c.ID), none) ∧
      (uc.Complete f2 o (uc.Assign now dbNow f o s).2).2.deliveries =
        (uc.Assign now dbNow f o s).2.deliveries ∧
      CourierRepository.GetOneById false c.ID (uc.Assign now dbNow f o s).2 =
        .ok { c with Status := CourierStatusBusy,
                     AssignmentsCount := c.AssignmentsCount + 1 } ∧
      CourierRepository.GetOneById false c.ID
          (uc.Complete f2 o (uc.Assign now dbNow f o s).2).2 =
        .ok { c with Status := CourierStatusAvailable,
                     AssignmentsCount := c.AssignmentsCount + 1 } ∧
      DeliveryRepository.GetCourierID false o
          (uc.Complete f2 o (uc.Assign now dbNow f o s).2).2 = (c.ID, none) := by
  rcases Assign_cases uc now dbNow f o s with ⟨⟨e, he⟩, _⟩ | ⟨_, _, _, _, row, hrow, heq⟩
  · rw [he] at hok
    simp at hok
  · have hmem : row ∈ s.couriers := ((mem_availableRows s row).1 (firstByLoad_mem _ _ hrow)).1
    rw [heq] at hok
    simp only [Prod.mk.injEq, Option.some.injEq, and_true] at hok
    obtain ⟨-, hc⟩ := hok
    subst hc
    have hrows : rowsOfOrder (uc.Assign now dbNow f o s).2 o =
        [insertedRow s dbNow (uc.newDelivery now o (scanCourier row))] := by
      rw [heq, rowsOfOrder_append s o _ _ _ rfl, hfresh]
      rfl
    have hmem2 : assignedRow row ∈ (uc.Assign now dbNow f o s).2.couriers := by
      rw [heq]
      exact (mem_markAssignedRows _ _ _).2 ⟨row, hmem, Or.inl ⟨rfl, rfl⟩⟩
    have hpk2 : ((uc.Assign now dbNow f o s).2.couriers.map CourierModel.ID).Nodup := by
      rw [heq]
      simp only
      rw [markAssignedRows_ID]
      exact hpk
    have hrun := Complete_run uc f2 o (uc.Assign now dbNow f o s).2 _ [] hf2.1 hf2.2.1
      hf2.2.2.1 hf2.2.2.2.1 hf2.2.2.2.2 hrows ⟨assignedRow row, hmem2, rfl⟩
    have hget1 := (GetOneById_markAssigned s row hpk hmem).2 (s.deliveries ++
      [insertedRow s dbNow (uc.newDelivery now o (scanCourier row))]) (s.deliverySeq + 1)
    have hget2 := GetOneById_setStatus CourierStatusAvailable
      (uc.Assign now dbNow f o s).2.couriers (assignedRow row) hpk2 hmem2
      (uc.Assign now dbNow f o s).2.deliveries (uc.Assign now dbNow f o s).2.deliverySeq
    rw [hrun]
    refine ⟨rfl, rfl, ?_, ?_, ?_⟩
    · rw [heq]
      exact hget1
    · exact hget2
    · simp only [DeliveryRepository.GetCourierID, Bool.false_eq_true, ↓reduceIte]
      have : rowsOfOrder
          { couriers := setStatusRows CourierStatusAvailable
              (insertedRow s dbNow (uc.newDelivery now o (scanCourier row))).CourierId
              (uc.Assign now dbNow f o s).2.couriers
            deliveries := (uc.Assign now dbNow f o s).2.deliveries
            deliverySeq := (uc.Assign now dbNow f o s).2.deliverySeq } o =
          [insertedRow s dbNow (uc.newDelivery now o (scanCourier row))] := hrows
      rw [this]
      rfl

/-- C10 (amended), instantiated on the one-courier store. -/
theorem C10_complete_after_assign_witness :
    (exampleUsecase.Complete noFaults "o1"
        (exampleUsecase.Assign 1000 1001 noFaults "o1" oneCourierStore).2).1 =
        (some (orderResult "o1" 7), none) ∧
      (exampleUsecase.Complete noFaults "o1"
        (exampleUsecase.Assign 1000 1001 noFaults "o1" oneCourierStore).2).2.deliveries =
        (exampleUsecase.Assign 1000 1001 noFaults "o1" oneCourierStore).2.deliveries ∧
      CourierRepository.GetOneById false 7
          (exampleUsecase.Complete noFaults "o1"
            (exampleUsecase.Assign 1000 1001 noFaults "o1" oneCourierStore).2).2 =
        .ok { scanCourier alice with Status := CourierStatusAvailable,
                                     AssignmentsCount := 1 } := by
  have h := C10_complete_after_assign exampleUsecase 1000 1001 noFaults noFaults "o1"
    oneCourierStore
    { ID := 0, CourierId := 7, OrderId := "o1", AssignedAt := 0, Deadline := 1300 }
    (scanCourier alice) (by decide) (by decide) (by decide) (by decide)
  exact ⟨h.1, h.2.1, h.2.2.2.1⟩

/-! ## C11 -/

theorem errorsIs_self : ∀ e : Err, errorsIs e e = true
  | .wrap msg inner => by simp [errorsIs]
  | .courierErrPhoneExists => by simp [errorsIs]
  | .courierErrCourierNotFound => by simp [errorsIs]
  | .courierErrDatabaseInternal => by simp [errorsIs]
  | .courierErrReadingData => by simp [errorsIs]
  | .deliveryErrDeliveryNotFound => by simp [errorsIs]
  | .deliveryErrDeliveryTableMissing => by simp [errorsIs]
  | .deliveryErrDatabaseInternal => by simp [errorsIs]
  | .driver what => by simp [errorsIs]
  | .text what => by simp [errorsIs]
  | .net what timeout => by simp [errorsIs]

theorem errorsIs_wrap (msg : String) (e : Err) : errorsIs (Err.wrap msg e) e = true := by
  simp [errorsIs, errorsIs_self]

theorem Unassign_notFound (uc : DeliveryUsecase) (f : Faults) (o : String) (s : Store)
    (ha : f.acquire = false) (hb : f.begin = false) (hd : f.delete = false)
    (hrows : rowsOfOrder s o = []) :
    uc.Unassign f o s =
      ((none, some (Err.wrap "delete delivery" Err.deliveryErrDeliveryNotFound)), s) := by
  simp [DeliveryUsecase.Unassign, TxManager.WithTx, DeliveryUsecase.unassignBody,
    DeliveryRepository.Delete, ha, hb, hd, hrows, rollback]

/-- C11: for every order id `o` and every store (courier ids unique), no statement failing:
if the store holds exactly one delivery row for `o`, owned by an existing courier `c`,
`Unassign(o)` returns `(o, c)`, removes that row and no other, and sets the status of `c` to
`available`, every other courier row staying as it was; if the store holds no delivery row
for `o`, `Unassign(o)` fails with an error that is `ErrDeliveryNotFound` and the store is
unchanged. -/
theorem C11_Unassign (uc : DeliveryUsecase) (f : Faults) (o : String) (s : Store)
    (hpk : primaryKey s)
    (hf : f.acquire = false ∧ f.begin = false ∧ f.commit = false ∧ f.delete = false ∧
      f.setStatus = false) :
    (∀ d c, rowsOfOrder s o = [d] → c ∈ s.couriers → c.ID = d.CourierId →
        (uc.Unassign f o s).1 = (some (orderResult o c.ID), none) ∧
          (uc.Unassign f o s).2.deliveries =
            s.deliveries.filter (fun r => decide (r ≠ d)) ∧
          (uc.Unassign f o s).2.couriers =
            s.couriers.map (fun x => if x = c then { c with Status := CourierStatusAvailable }
              else x)) ∧
      (rowsOfOrder s o = [] →
        (∃ e, (uc.Unassign f o s).1 = (none, some e) ∧
            errorsIs e Err.deliveryErrDeliveryNotFound = true) ∧
          (uc.Unassign f o s).2 = s) := by
  obtain ⟨ha, hb, hc, hd, hu⟩ := hf
  constructor
  · intro d c hrows hcm hid
    have hrun := Unassign_run uc f o s d [] ha hb hc hd hu hrows ⟨c, hcm, hid⟩
    rw [hrun]
    refine ⟨by rw [hid], ?_, ?_⟩
    · simp only [rowsNotOfOrder]
      apply List.filter_congr
      intro r hr
      by_cases hro : r.OrderId = o
      · have : r ∈ rowsOfOrder s o := (mem_rowsOfOrder s o r).2 ⟨hr, hro⟩
        rw [hrows] at this
        simp only [List.mem_singleton] at this
        subst this
        simp [hro]
      · have hdo : d.OrderId = o :=
          ((mem_rowsOfOrder s o d).1 (by rw [hrows]; exact List.mem_singleton_self d)).2
        have : r ≠ d := by
          intro h
          rw [h] at hro
          exact hro hdo
        simp [hro, this]
    · simp only [setStatusRows]
      apply List.map_congr_left
      intro x hx
      by_cases hxc : x = c
      · subst hxc
        simp [hid]
      · have : x.ID ≠ d.CourierId := by
          intro h
          exact hxc (eq_of_ID_eq s hpk x c hx hcm (h.trans hid.symm))
        simp [hxc, this]
  · intro hrows
    rw [Unassign_notFound uc f o s ha hb hd hrows]
    exact ⟨⟨_, rfl, errorsIs_wrap _ _⟩, rfl⟩

/-- C11, instantiated: courier 7 owns the only row of `o1`; courier 8 is untouched. -/
theorem C11_Unassign_witness :
    (exampleUsecase.Unassign noFaults "o1" storeWithOrder).1 =
        (some (orderResult "o1" 7), none) ∧
      (exampleUsecase.Unassign noFaults "o1" storeWithOrder).2.deliveries = [] ∧
      (exampleUsecase.Unassign noFaults "o1" storeWithOrder).2.couriers =
        [{ alice with AssignmentsCount := 1 }, bob] ∧
      (∃ e, (exampleUsecase.Unassign noFaults "o2" storeWithOrder).1 = (none, some e) ∧
        errorsIs e Err.deliveryErrDeliveryNotFound = true) ∧
      (exampleUsecase.Unassign noFaults "o2" storeWithOrder).2 = storeWithOrder := by
  have h := C11_Unassign exampleUsecase noFaults "o1" storeWithOrder (by decide)
    (by decide)
  have h1 := h.1
    { ID := 1, CourierId := 7, OrderId := "o1", AssignedAt := 901, Deadline := 1200 }
    { alice with Status := CourierStatusBusy, AssignmentsCount := 1 }
    (by decide) (by decide) (by decide)
  have h2 := (C11_Unassign exampleUsecase noFaults "o2" storeWithOrder (by decide)
    (by decide)).2 (by decide)
  refine ⟨h1.1, ?_, ?_, h2.1, h2.2⟩
  · rw [h1.2.1]
    decide
  · rw [h1.2.2]
    decide

/-! ## C12 -/

theorem forall2_map_of (R : CourierModel → CourierModel → Prop) (g : CourierModel → CourierModel)
    (h : ∀ x, R x (g x)) : ∀ l : List CourierModel, List.Forall₂ R l (l.map g)
  | [] => List.Forall₂.nil
  | x :: xs => List.Forall₂.cons (h x) (forall2_map_of R g h xs)

theorem counterKept_refl (x : CourierModel) : counterKept x x := ⟨rfl, le_refl _⟩

theorem counterKept_same (l : List CourierModel) : List.Forall₂ counterKept l l := by
  have := forall2_map_of counterKept id counterKept_refl l
  simpa using this

theorem counterKept_setStatus (st : String) (id : Int) (l : List CourierModel) :
    List.Forall₂ counterKept l (setStatusRows st id l) := by
  apply forall2_map_of
  intro x
  by_cases h : x.ID = id <;> simp [h, counterKept]

theorem counterKept_markAssigned (id : Int) (l : List CourierModel) :
    List.Forall₂ counterKept l (markAssignedRows id l) := by
  apply forall2_map_of
  intro x
  by_cases h : x.ID = id <;> simp [h, counterKept, assignedRow]

theorem counterKept_released (s : Store) (dbNow : Int) :
    List.Forall₂ counterKept s.couriers (releasedRows s dbNow) := by
  apply forall2_map_of
  intro x
  by_cases h : releasable s dbNow x = true <;> simp [h, counterKept]

theorem counterKept_updated (dbNow : Int) (courier : CourierModel) (l : List CourierModel) :
    List.Forall₂ counterKept l (updatedRows dbNow courier l) := by
  apply forall2_map_of
  intro x
  by_cases h : x.ID = courier.ID <;> simp [h, counterKept]

/-- C12: for every store, every call of `Assign`, `Unassign`, `Complete` or `ReleaseExpired`
(whatever statements fail), every `CourierRepository.Update` and every
`CourierRepository.UpdateStatus`: table `couriers` after the operation holds, row by row, the
same couriers (same `id`) and no row's `assignments_count` is smaller than before. -/
theorem C12_counter_never_decreases (uc : DeliveryUsecase) (s : Store) :
    (∀ c : Call, List.Forall₂ counterKept s.couriers (uc.step s c).couriers) ∧
      (∀ (fault : Bool) (dbNow : Int) (courier : CourierModel),
        List.Forall₂ counterKept s.couriers
          (CourierRepository.Update fault dbNow courier s).2.couriers) ∧
      (∀ (fault : Bool) (status : String) (id : Int),
        List.Forall₂ counterKept s.couriers
          (CourierRepository.UpdateStatus fault status id s).2.couriers) := by
  refine ⟨?_, ?_, ?_⟩
  · intro c
    rcases step_cases uc s c with ⟨hc, _⟩ | ⟨o, row, ins, _, _, _, _, _, hc, _⟩ |
      ⟨o, d, _, _, _, hc, _⟩ | ⟨o, cid, _, hc, _⟩ | ⟨_, hc, _⟩
    · rw [hc]; exact counterKept_same _
    · rw [hc]; exact counterKept_markAssigned _ _
    · rw [hc]; exact counterKept_setStatus _ _ _
    · rw [hc]; exact counterKept_setStatus _ _ _
    · rw [hc]; exact counterKept_released _ _
  · intro fault dbNow courier
    unfold CourierRepository.Update
    split
    · exact counterKept_same _
    · split
      · split
        · exact counterKept_same _
        · exact counterKept_updated _ _ _
      · exact counterKept_same _
  · intro fault status id
    unfold CourierRepository.UpdateStatus
    split
    · exact counterKept_same _
    · split
      · exact counterKept_setStatus _ _ _
      · exact counterKept_same _

/-! ## C13 -/

theorem orderedBefore_refl (a : CourierModel) : orderedBefore a a = true := by
  simp [orderedBefore]

theorem orderedBefore_trans (a b c : CourierModel) (h1 : orderedBefore a b = true)
    (h2 : orderedBefore b c = true) : orderedBefore a c = true := by
  simp only [orderedBefore, Bool.or_eq_true, Bool.and_eq_true, decide_eq_true_eq] at *
  omega

theorem orderedBefore_total (a b : CourierModel) (h : ¬ orderedBefore a b = true) :
    orderedBefore b a = true := by
  simp only [orderedBefore, Bool.or_eq_true, Bool.and_eq_true, decide_eq_true_eq] at *
  omega

theorem firstByLoad_min : ∀ (l : List CourierModel) (m : CourierModel),
    firstByLoad l = some m → ∀ x ∈ l, orderedBefore m x = true
  | [], m, h => by simp [firstByLoad] at h
  | y :: ys, m, h => by
    unfold firstByLoad at h
    cases hm : firstByLoad ys with
    | none =>
      rw [hm] at h
      simp only [Option.some.injEq] at h
      subst h
      have hnil := firstByLoad_none ys hm
      subst hnil
      intro x hx
      simp only [List.mem_singleton] at hx
      subst hx
      exact orderedBefore_refl _
    | some m2 =>
      rw [hm] at h
      have ih := firstByLoad_min ys m2 hm
      by_cases ho : orderedBefore y m2 = true
      · simp only [ho, ↓reduceIte, Option.some.injEq] at h
        subst h
        intro x hx
        rcases List.mem_cons.1 hx with rfl | hx
        · exact orderedBefore_refl _
        · exact orderedBefore_trans _ _ _ ho (ih x hx)
      · simp only [ho, Bool.false_eq_true, ↓reduceIte, Option.some.injEq] at h
        subst h
        intro x hx
        rcases List.mem_cons.1 hx with rfl | hx
        · exact orderedBefore_total _ _ ho
        · exact ih x hx

/-- C13: for every courier table and no statement failure,
`GetAvailableLeastDelivered` either returns a courier or fails with `ErrCourierNotFound`; a
returned courier `c` is a row of the table with status `available`, and every courier of
another id with status `available` has `(assignments_count, id)` lexicographically greater than that of
`c`; it fails with `ErrCourierNotFound` if and only if no courier has status `available`. -/
theorem C13_least_loaded (s : Store) :
    (∀ c, CourierRepository.GetAvailableLeastDelivered false s = .ok c →
        c.Status = CourierStatusAvailable ∧
          (∃ row ∈ s.couriers, scanCourier row = c) ∧
          ∀ x ∈ s.couriers, x.Status = CourierStatusAvailable → x.ID ≠ c.ID →
            lighterThan c x) ∧
      ((∃ c, CourierRepository.GetAvailableLeastDelivered false s = .ok c) ∨
        CourierRepository.GetAvailableLeastDelivered false s =
          .error Err.courierErrCourierNotFound) ∧
      (CourierRepository.GetAvailableLeastDelivered false s =
          .error Err.courierErrCourierNotFound ↔
        ∀ x ∈ s.couriers, x.Status ≠ CourierStatusAvailable) := by
  refine ⟨?_, ?_, ?_⟩
  · intro c hc
    obtain ⟨-, row, hrow, rfl⟩ := selector_ok false s c hc
    have hmem := (mem_availableRows s row).1 (firstByLoad_mem _ _ hrow)
    refine ⟨hmem.2, ⟨row, hmem.1, rfl⟩, ?_⟩
    intro x hx hxs hne
    have hle := firstByLoad_min _ _ hrow x ((mem_availableRows s x).2 ⟨hx, hxs⟩)
    simp only [orderedBefore, Bool.or_eq_true, Bool.and_eq_true, decide_eq_true_eq] at hle
    simp only [scanCourier_ID] at hne
    simp only [lighterThan, scanCourier_AssignmentsCount, scanCourier_ID]
    omega
  · unfold CourierRepository.GetAvailableLeastDelivered
    cases hm : firstByLoad (availableRows s) with
    | none => exact Or.inr (by simp)
    | some row => exact Or.inl ⟨scanCourier row, by simp⟩
  · unfold CourierRepository.GetAvailableLeastDelivered
    cases hm : firstByLoad (availableRows s) with
    | none =>
      have hnil := firstByLoad_none _ hm
      simp only [Bool.false_eq_true, ↓reduceIte, true_iff]
      intro x hx hxs
      have : x ∈ availableRows s := (mem_availableRows s x).2 ⟨hx, hxs⟩
      rw [hnil] at this
      simp at this
    | some row =>
      have hmem := (mem_availableRows s row).1 (firstByLoad_mem _ _ hm)
      simp only [Bool.false_eq_true, ↓reduceIte]
      constructor
      · intro h
        cases h
      · intro h
        exact absurd hmem.2 (h row hmem.1)

/-- C13, instantiated: courier 7 is busy with one assignment, courier 8 is available. -/
theorem C13_least_loaded_witness :
    CourierRepository.GetAvailableLeastDelivered false storeWithOrder = .ok (scanCourier bob) ∧
      (scanCourier bob).Status = CourierStatusAvailable ∧
      ∀ x ∈ storeWithOrder.couriers, x.Status = CourierStatusAvailable →
        x.ID ≠ (scanCourier bob).ID → lighterThan (scanCourier bob) x :=
  ⟨by decide,
    ((C13_least_loaded storeWithOrder).1 (scanCourier bob) (by decide)).1,
    ((C13_least_loaded storeWithOrder).1 (scanCourier bob) (by decide)).2.2⟩

/-! ## C14 and C15: the expiry sweep -/

theorem releasable_iff (s : Store) (now : Int) (c : CourierModel) :
    releasable s now c = true ↔ expiredOnly s now c := by
  simp only [releasable, expiredOnly, Bool.and_eq_true, decide_eq_true_eq, List.any_eq_true,
    Bool.not_eq_true', ge_iff_le]
  constructor
  · rintro ⟨⟨hb, d, hd, hid, hlt⟩, hnone⟩
    refine ⟨hb, ⟨d, hd, hid, hlt⟩, ?_⟩
    intro d2 hd2 hid2 hle
    have : (s.deliveries.any fun d => decide (d.CourierId = c.ID) && decide (now ≤ d.Deadline))
        = true := by
      simp only [List.any_eq_true, Bool.and_eq_true, decide_eq_true_eq]
      exact ⟨d2, hd2, hid2, hle⟩
    rw [hnone] at this
    cases this
  · rintro ⟨hb, ⟨d, hd, hid, hlt⟩, hall⟩
    refine ⟨⟨hb, d, hd, hid, hlt⟩, ?_⟩
    cases hany : (s.deliveries.any fun d =>
        decide (d.CourierId = c.ID) && decide (now ≤ d.Deadline)) with
    | false => rfl
    | true =>
      simp only [List.any_eq_true, Bool.and_eq_true, decide_eq_true_eq] at hany
      obtain ⟨d2, hd2, hid2, hle⟩ := hany
      exact absurd hle (hall d2 hd2 hid2)

theorem ProcessExpired_run (uc : DeliveryUsecase) (now : Int) (f : Faults) (s : Store)
    (ha : f.acquire = false) (hb : f.begin = false) (hc : f.commit = false)
    (hr : f.release = none) :
    uc.ProcessExpiredDeliveries now f s =
      ((((s.couriers.filter (releasable s now)).length : Int), none),
        { s with couriers := releasedRows s now }) := by
  simp [DeliveryUsecase.ProcessExpiredDeliveries, TxManager.WithTx,
    DeliveryUsecase.processExpiredBody, DeliveryRepository.ReleaseExpiredCouriers, ha, hb, hc,
    hr]

/-- C14, as stated, fails at the boundary `deadline = now`: the courier of `boundaryStore` is
busy, owns a delivery whose deadline (900) is before `now = 1000` and owns no delivery whose
deadline is after 1000, yet the sweep at 1000 releases nobody, because the other delivery's
deadline equals `now`. -/
theorem C14_counterexample :
    (∀ c ∈ boundaryStore.couriers,
        c.Status = CourierStatusBusy ∧
          (∃ d ∈ boundaryStore.deliveries, d.CourierId = c.ID ∧ d.Deadline < 1000) ∧
          ∀ d ∈ boundaryStore.deliveries, d.CourierId = c.ID → ¬ 1000 < d.Deadline) ∧
      exampleUsecase.ProcessExpiredDeliveries 1000 noFaults boundaryStore =
        ((0, none), boundaryStore) := by
  decide

/-- C14 (amended): for every store and time `now`, when no statement fails, `ReleaseExpired`
sets to `available` exactly the couriers that are busy, own at least one delivery whose
deadline is before `now`, and own no delivery whose deadline is at or after `now`; it
changes no other courier row and no delivery row, and returns the number of couriers it
flipped. -/
theorem C14_release_expired (uc : DeliveryUsecase) (now : Int) (f : Faults) (s : Store)
    (hf : f.acquire = false ∧ f.begin = false ∧ f.commit = false ∧ f.release = none) :
    (uc.ProcessExpiredDeliveries now f s).1 =
        (((s.couriers.filter (fun c => decide (expiredOnly s now c))).length : Int), none) ∧
      (uc.ProcessExpiredDeliveries now f s).2.deliveries = s.deliveries ∧
      List.Forall₂
        (fun x y =>
          (expiredOnly s now x → y = { x with Status := CourierStatusAvailable }) ∧
            (¬ expiredOnly s now x → y = x))
        s.couriers (uc.ProcessExpiredDeliveries now f s).2.couriers := by
  rw [ProcessExpired_run uc now f s hf.1 hf.2.1 hf.2.2.1 hf.2.2.2]
  refine ⟨?_, rfl, ?_⟩
  · have : s.couriers.filter (releasable s now) =
        s.couriers.filter (fun c => decide (expiredOnly s now c)) := by
      apply List.filter_congr
      intro c _
      by_cases h : expiredOnly s now c
      · simp [h, (releasable_iff s now c).2 h]
      · have : releasable s now c = false := by
          cases hr : releasable s now c with
          | false => rfl
          | true => exact absurd ((releasable_iff s now c).1 hr) h
        simp [h, this]
    rw [this]
  · apply forall2_map_of
    intro x
    by_cases h : expiredOnly s now x
    · simp [h, (releasable_iff s now x).2 h]
    · have : releasable s now x = false := by
        cases hr : releasable s now x with
        | false => rfl
        | true => exact absurd ((releasable_iff s now x).1 hr) h
      simp [h, this]

/-- C14 (amended), instantiated: at `now = 1001` both deadlines of `boundaryStore` have
passed and its courier is released. -/
theorem C14_release_expired_witness :
    (exampleUsecase.ProcessExpiredDeliveries 1001 noFaults boundaryStore).1 = (1, none) ∧
      (exampleUsecase.ProcessExpiredDeliveries 1001 noFaults boundaryStore).2.deliveries =
        boundaryStore.deliveries := by
  have h := C14_release_expired exampleUsecase 1001 noFaults boundaryStore (by decide)
  refine ⟨?_, h.2.1⟩
  rw [h.1]
  decide

theorem ProcessExpired_nothing (uc : DeliveryUsecase) (now : Int) (f : Faults) (s : Store)
    (h : ∀ c ∈ s.couriers, releasable s now c = false) :
    (uc.ProcessExpiredDeliveries now f s).1.1 = 0 ∧
      (uc.ProcessExpiredDeliveries now f s).2 = s := by
  have hrows : releasedRows s now = s.couriers := by
    unfold releasedRows
    conv_rhs => rw [← List.map_id s.couriers]
    apply List.map_congr_left
    intro c hc
    simp [h c hc]
  have hcount : s.couriers.filter (releasable s now) = [] := by
    apply List.filter_eq_nil_iff.2
    intro c hc
    simp [h c hc]
  unfold DeliveryUsecase.ProcessExpiredDeliveries TxManager.WithTx
    DeliveryUsecase.processExpiredBody DeliveryRepository.ReleaseExpiredCouriers
  by_cases ha : f.acquire = true
  · simp [ha]
  · by_cases hb : f.begin = true
    · simp [ha, hb]
    · cases hr : f.release with
      | some p => cases p <;> simp [ha, hb, rollback]
      | none =>
        by_cases hc : f.commit = true
        · simp [ha, hb, hc, hrows, hcount, rollback]
        · simp [ha, hb, hc, hrows, hcount]

/-- C15, as stated, fails when a deadline passes between the two calls: the only delivery of
`pendingStore` has deadline 1000; the sweep at `NOW() = 1000` releases nobody and leaves the
store as it is, and the next sweep, at `NOW() = 1001` with no operation in between, releases
one courier. -/
theorem C15_counterexample :
    exampleUsecase.ProcessExpiredDeliveries 1000 noFaults pendingStore =
        ((0, none), pendingStore) ∧
      (exampleUsecase.ProcessExpiredDeliveries 1001 noFaults
        (exampleUsecase.ProcessExpiredDeliveries 1000 noFaults pendingStore).2).1 =
        (1, none) := by
  decide

/-- C15 (amended): for every store, when `ReleaseExpired` is called at clock reading `now1`
with no statement failure and then again at reading `now2` with no operation in between, and
no delivery's deadline lies in `[now1, now2)`, the second call releases zero couriers (returns
0) and leaves the store unchanged; in particular this holds when both calls read the same
`NOW()`. -/
theorem C15_release_idempotent (uc : DeliveryUsecase) (now1 now2 : Int) (f1 f2 : Faults)
    (s : Store)
    (hf : f1.acquire = false ∧ f1.begin = false ∧ f1.commit = false ∧ f1.release = none)
    (hgap : ∀ d ∈ s.deliveries, ¬ (now1 ≤ d.Deadline ∧ d.Deadline < now2)) :
    (uc.ProcessExpiredDeliveries now2 f2 (uc.ProcessExpiredDeliveries now1 f1 s).2).1.1 = 0 ∧
      (uc.ProcessExpiredDeliveries now2 f2 (uc.ProcessExpiredDeliveries now1 f1 s).2).2 =
        (uc.ProcessExpiredDeliveries now1 f1 s).2 := by
  apply ProcessExpired_nothing
  rw [ProcessExpired_run uc now1 f1 s hf.1 hf.2.1 hf.2.2.1 hf.2.2.2]
  intro c hc
  cases hrel : releasable { s with couriers := releasedRows s now1 } now2 c with
  | false => rfl
  | true =>
    exfalso
    obtain ⟨hbusy, ⟨d, hd, hid, hlt⟩, hall⟩ := (releasable_iff _ now2 c).1 hrel
    simp only at hd hall
    obtain ⟨a, ha, hca | hca⟩ := mem_releasedRows s now1 c hc
    · rw [hca] at hbusy
      exact available_ne_busy hbusy
    · subst hca
      have hnot : ¬ expiredOnly s now1 c := by
        intro h1
        have h2 := (releasable_iff s now1 c).2 h1
        have hmem : c ∈ releasedRows s now1 := hc
        unfold releasedRows at hmem
        obtain ⟨b, hb, hbc⟩ := List.mem_map.1 hmem
        by_cases hrb : releasable s now1 b = true
        · simp only [hrb, ↓reduceIte] at hbc
          rw [← hbc] at hbusy
          exact available_ne_busy hbusy
        · simp only [hrb, Bool.false_eq_true, ↓reduceIte] at hbc
          subst hbc
          exact hrb h2
      unfold expiredOnly at hnot
      by_cases hex : ∃ d1 ∈ s.deliveries, d1.CourierId = c.ID ∧ d1.Deadline < now1
      · have : ¬ ∀ d1 ∈ s.deliveries, d1.CourierId = c.ID → ¬ now1 ≤ d1.Deadline :=
          fun h => hnot ⟨hbusy, hex, h⟩
        push_neg at this
        obtain ⟨d1, hd1, hid1, hle1⟩ := this
        have hlt1 : d1.Deadline < now2 := by
          have := hall d1 hd1 hid1
          omega
        exact hgap d1 hd1 ⟨hle1, hlt1⟩
      · have hge : now1 ≤ d.Deadline := by
          by_contra hcon
          exact hex ⟨d, hd, hid, by omega⟩
        exact hgap d hd ⟨hge, hlt⟩

/-- C15 (amended), instantiated: two sweeps of `boundaryStore` at the same reading 1001. -/
theorem C15_release_idempotent_witness :
    (exampleUsecase.ProcessExpiredDeliveries 1001 noFaults
        (exampleUsecase.ProcessExpiredDeliveries 1001 noFaults boundaryStore).2).1.1 = 0 ∧
      (exampleUsecase.ProcessExpiredDeliveries 1001 noFaults
        (exampleUsecase.ProcessExpiredDeliveries 1001 noFaults boundaryStore).2).2 =
        (exampleUsecase.ProcessExpiredDeliveries 1001 noFaults boundaryStore).2 :=
  C15_release_idempotent exampleUsecase 1001 1001 noFaults noFaults boundaryStore
    (by decide) (by intro d _ h; omega)

/-! ## C16 -/

theorem WithTxOver_store {β : Type} (f : Faults) (s : Store) (init : β)
    (fn : Store → (Option Err × β) × Store) :
    TxManager.WithTxOver rollback f s init fn = TxManager.WithTx f s init fn := by
  unfold TxManager.WithTxOver TxManager.WithTx
  rcases fn s with ⟨⟨e, v⟩, s1⟩
  cases e <;> rfl

theorem assignOver_store (uc : DeliveryUsecase) (now dbNow : Int) (f : Faults) (o : String)
    (s : Store) :
    uc.assignOver (storeRepositories f dbNow) now o s = uc.assignBody now dbNow f o s := by
  unfold DeliveryUsecase.assignOver DeliveryUsecase.assignBody storeRepositories
  simp only
  cases CourierRepository.GetAvailableLeastDelivered f.selector s with
  | error e => rfl
  | ok c =>
    simp only
    rcases DeliveryRepository.Create f.insert dbNow (uc.newDelivery now o c) s with ⟨e1, s1⟩
    cases e1 with
    | some err => rfl
    | none =>
      simp only
      rcases CourierRepository.MarkAssigned f.markAssigned c.ID s1 with ⟨e2, s2⟩
      cases e2 <;> rfl

theorem unassignOver_store (f : Faults) (dbNow : Int) (o : String) (s : Store) :
    DeliveryUsecase.unassignOver (storeRepositories f dbNow) o s =
      DeliveryUsecase.unassignBody f o s := by
  unfold DeliveryUsecase.unassignOver DeliveryUsecase.unassignBody storeRepositories
  simp only
  rcases DeliveryRepository.Delete f.delete o s with ⟨⟨cid, e⟩, s1⟩
  cases e with
  | some err => rfl
  | none =>
    simp only
    rcases CourierRepository.UpdateStatus f.setStatus CourierStatusAvailable cid s1 with
      ⟨e2, s2⟩
    cases e2 <;> rfl

theorem completeOver_store (f : Faults) (dbNow : Int) (o : String) (s : Store) :
    DeliveryUsecase.completeOver (storeRepositories f dbNow) o s =
      DeliveryUsecase.completeBody f o s := by
  unfold DeliveryUsecase.completeOver DeliveryUsecase.completeBody storeRepositories
  simp only
  rcases DeliveryRepository.GetCourierID f.lookup o s with ⟨cid, e⟩
  cases e with
  | some err => rfl
  | none =>
    simp only
    rcases CourierRepository.UpdateStatus f.setStatus CourierStatusAvailable cid s with
      ⟨e2, s2⟩
    cases e2 <;> rfl

/-- The interface-level coordinator, run on the repositories of the store, is the
coordinator of the store. -/
theorem Over_store (uc : DeliveryUsecase) (now dbNow : Int) (f : Faults) (o : String)
    (s : Store) :
    uc.AssignOver (storeRepositories f dbNow) rollback now f o s = uc.Assign now dbNow f o s ∧
      uc.UnassignOver (storeRepositories f dbNow) rollback f o s = uc.Unassign f o s ∧
      uc.CompleteOver (storeRepositories f dbNow) rollback f o s = uc.Complete f o s := by
  have h1 : uc.assignOver (storeRepositories f dbNow) now o = uc.assignBody now dbNow f o :=
    funext (assignOver_store uc now dbNow f o)
  have h2 : DeliveryUsecase.unassignOver (storeRepositories f dbNow) o =
      DeliveryUsecase.unassignBody f o := funext (unassignOver_store f dbNow o)
  have h3 : DeliveryUsecase.completeOver (storeRepositories f dbNow) o =
      DeliveryUsecase.completeBody f o := funext (completeOver_store f dbNow o)
  refine ⟨?_, ?_, ?_⟩
  · unfold DeliveryUsecase.AssignOver DeliveryUsecase.Assign
    rw [WithTxOver_store, h1]
    rcases TxManager.WithTx f s (none, none) (uc.assignBody now dbNow f o) with
      ⟨⟨e, v1, v2⟩, s1⟩
    cases e <;> rfl
  · unfold DeliveryUsecase.UnassignOver DeliveryUsecase.Unassign
    rw [WithTxOver_store, h2]
    rcases TxManager.WithTx f s 0 (DeliveryUsecase.unassignBody f o) with ⟨⟨e, v⟩, s1⟩
    cases e <;> rfl
  · unfold DeliveryUsecase.CompleteOver DeliveryUsecase.Complete
    rw [WithTxOver_store, h3]
    rcases TxManager.WithTx f s 0 (DeliveryUsecase.completeBody f o) with ⟨⟨e, v⟩, s1⟩
    cases e <;> rfl

/-- Logging does not change what `Assign`, `Unassign` and `Complete` return or do to the
state. -/
theorem Over_logged {σ : Type} (uc : DeliveryUsecase) (r : Repositories σ)
    (restore : σ → σ → σ) (now : Int) (f : Faults) (o : String) (s : σ)
    (l : List StoreCall) :
    ((uc.AssignOver r.logged (loggedRestore restore) now f o (s, l)).1 =
          (uc.AssignOver r restore now f o s).1 ∧
        (uc.AssignOver r.logged (loggedRestore restore) now f o (s, l)).2.1 =
          (uc.AssignOver r restore now f o s).2) ∧
      ((uc.UnassignOver r.logged (loggedRestore restore) f o (s, l)).1 =
          (uc.UnassignOver r restore f o s).1 ∧
        (uc.UnassignOver r.logged (loggedRestore restore) f o (s, l)).2.1 =
          (uc.UnassignOver r restore f o s).2) ∧
      ((uc.CompleteOver r.logged (loggedRestore restore) f o (s, l)).1 =
          (uc.CompleteOver r restore f o s).1 ∧
        (uc.CompleteOver r.logged (loggedRestore restore) f o (s, l)).2.1 =
          (uc.CompleteOver r restore f o s).2) := by
  refine ⟨?_, ?_, ?_⟩
  · unfold DeliveryUsecase.AssignOver TxManager.WithTxOver DeliveryUsecase.assignOver
      Repositories.logged loggedRestore
    by_cases ha : f.acquire = true
    · simp [ha]
    · by_cases hb : f.begin = true
      · simp [ha, hb]
      · simp only [ha, hb, Bool.false_eq_true, ↓reduceIte]
        rcases r.GetAvailableLeastDelivered s with ⟨g, s0⟩
        cases g with
        | error e => simp
        | ok c =>
          simp only
          rcases r.Create (uc.newDelivery now o c) s0 with ⟨e1, s1⟩
          cases e1 with
          | some err => simp
          | none =>
            simp only
            rcases r.MarkAssigned c.ID s1 with ⟨e2, s2⟩
            cases e2 with
            | some err => simp
            | none => by_cases hc : f.commit = true <;> simp [hc]
  · unfold DeliveryUsecase.UnassignOver TxManager.WithTxOver DeliveryUsecase.unassignOver
      Repositories.logged loggedRestore
    by_cases ha : f.acquire = true
    · simp [ha]
    · by_cases hb : f.begin = true
      · simp [ha, hb]
      · simp only [ha, hb, Bool.false_eq_true, ↓reduceIte]
        rcases r.Delete o s with ⟨⟨cid, e⟩, s1⟩
        cases e with
        | some err => simp
        | none =>
          simp only
          rcases r.UpdateStatus CourierStatusAvailable cid s1 with ⟨e2, s2⟩
          cases e2 with
          | some err => simp
          | none => by_cases hc : f.commit = true <;> simp [hc]
  · unfold DeliveryUsecase.CompleteOver TxManager.WithTxOver DeliveryUsecase.completeOver
      Repositories.logged loggedRestore
    by_cases ha : f.acquire = true
    · simp [ha]
    · by_cases hb : f.begin = true
      · simp [ha, hb]
      · simp only [ha, hb, Bool.false_eq_true, ↓reduceIte]
        rcases r.GetCourierID o s with ⟨⟨cid, e⟩, s1⟩
        cases e with
        | some err => simp
        | none =>
          simp only
          rcases r.UpdateStatus CourierStatusAvailable cid s1 with ⟨e2, s2⟩
          cases e2 with
          | some err => simp
          | none => by_cases hc : f.commit = true <;> simp [hc]

/-- C16: for every implementation of the store interfaces and every error `e` returned by
a store step inside the transaction, `Assign` returns `(nil, nil, err)` and `Unassign` and
`Complete` return `(nil, err)` with `errors.Is(err, e)`, and the calls made on the store are
exactly the steps up to the failing one (no later step is invoked); in particular, on the
store with no available courier, `ErrCourierNotFound` from the selector comes back through
`Assign` with its identity. -/
theorem C16_error_identity {σ : Type} (uc : DeliveryUsecase) (r : Repositories σ)
    (restore : σ → σ → σ) (now : Int) (f : Faults) (o : String) (s : σ) (e : Err)
    (hf : f.acquire = false ∧ f.begin = false) :
    ((r.GetAvailableLeastDelivered s).1 = .error e →
        ∃ err, (uc.AssignOver r.logged (loggedRestore restore) now f o (s, [])).1 =
            (none, none, some err) ∧ errorsIs err e = true ∧
          (uc.AssignOver r.logged (loggedRestore restore) now f o (s, [])).2.2 =
            [.GetAvailableLeastDelivered]) ∧
      (∀ c s0, r.GetAvailableLeastDelivered s = (.ok c, s0) →
        (r.Create (uc.newDelivery now o c) s0).1 = some e →
        ∃ err, (uc.AssignOver r.logged (loggedRestore restore) now f o (s, [])).1 =
            (none, none, some err) ∧ errorsIs err e = true ∧
          (uc.AssignOver r.logged (loggedRestore restore) now f o (s, [])).2.2 =
            [.GetAvailableLeastDelivered, .Create (uc.newDelivery now o c)]) ∧
      (∀ c s0 s1, r.GetAvailableLeastDelivered s = (.ok c, s0) →
        r.Create (uc.newDelivery now o c) s0 = (none, s1) →
        (r.MarkAssigned c.ID s1).1 = some e →
        ∃ err, (uc.AssignOver r.logged (loggedRestore restore) now f o (s, [])).1 =
            (none, none, some err) ∧ errorsIs err e = true ∧
          (uc.AssignOver r.logged (loggedRestore restore) now f o (s, [])).2.2 =
            [.GetAvailableLeastDelivered, .Create (uc.newDelivery now o c),
              .MarkAssigned c.ID]) ∧
      (∀ cid s1, r.Delete o s = ((cid, some e), s1) →
        ∃ err, (uc.UnassignOver r.logged (loggedRestore restore) f o (s, [])).1 =
            (none, some err) ∧ errorsIs err e = true ∧
          (uc.UnassignOver r.logged (loggedRestore restore) f o (s, [])).2.2 =
            [.Delete o]) ∧
      (∀ cid s1, r.Delete o s = ((cid, none), s1) →
        (r.UpdateStatus CourierStatusAvailable cid s1).1 = some e →
        ∃ err, (uc.UnassignOver r.logged (loggedRestore restore) f o (s, [])).1 =
            (none, some err) ∧ errorsIs err e = true ∧
          (uc.UnassignOver r.logged (loggedRestore restore) f o (s, [])).2.2 =
            [.Delete o, .UpdateStatus CourierStatusAvailable cid]) ∧
      (∀ cid s1, r.GetCourierID o s = ((cid, some e), s1) →
        ∃ err, (uc.CompleteOver r.logged (loggedRestore restore) f o (s, [])).1 =
            (none, some err) ∧ errorsIs err e = true ∧
          (uc.CompleteOver r.logged (loggedRestore restore) f o (s, [])).2.2 =
            [.GetCourierID o]) ∧
      (∀ cid s1, r.GetCourierID o s = ((cid, none), s1) →
        (r.UpdateStatus CourierStatusAvailable cid s1).1 = some e →
        ∃ err, (uc.CompleteOver r.logged (loggedRestore restore) f o (s, [])).1 =
            (none, some err) ∧ errorsIs err e = true ∧
          (uc.CompleteOver r.logged (loggedRestore restore) f o (s, [])).2.2 =
            [.GetCourierID o, .UpdateStatus CourierStatusAvailable cid]) ∧
      (∀ (st : Store) (dbNow : Int), availableRows st = [] →
        ∃ err, (uc.AssignOver (storeRepositories noFaults dbNow) rollback now noFaults o
            st).1 = (none, none, some err) ∧
          errorsIs err Err.courierErrCourierNotFound = true) := by
  obtain ⟨ha, hb⟩ := hf
  refine ⟨?_, ?_, ?_, ?_, ?_, ?_, ?_, ?_⟩
  · intro h
    refine ⟨Err.wrap "get available courier" e, ?_, errorsIs_wrap _ _, ?_⟩ <;>
      simp [DeliveryUsecase.AssignOver, TxManager.WithTxOver, DeliveryUsecase.assignOver,
        Repositories.logged, loggedRestore, ha, hb, h]
  · intro c s0 h0 h1
    refine ⟨Err.wrap "create delivery" e, ?_, errorsIs_wrap _ _, ?_⟩ <;>
      simp [DeliveryUsecase.AssignOver, TxManager.WithTxOver, DeliveryUsecase.assignOver,
        Repositories.logged, loggedRestore, ha, hb, h0, h1]
  · intro c s0 s1 h0 h1 h2
    refine ⟨Err.wrap "mark courier assigned" e, ?_, errorsIs_wrap _ _, ?_⟩ <;>
      simp [DeliveryUsecase.AssignOver, TxManager.WithTxOver, DeliveryUsecase.assignOver,
        Repositories.logged, loggedRestore, ha, hb, h0, h1, h2]
  · intro cid s1 h
    refine ⟨Err.wrap "delete delivery" e, ?_, errorsIs_wrap _ _, ?_⟩ <;>
      simp [DeliveryUsecase.UnassignOver, TxManager.WithTxOver, DeliveryUsecase.unassignOver,
        Repositories.logged, loggedRestore, ha, hb, h]
  · intro cid s1 h0 h1
    refine ⟨Err.wrap "update courier status" e, ?_, errorsIs_wrap _ _, ?_⟩ <;>
      simp [DeliveryUsecase.UnassignOver, TxManager.WithTxOver, DeliveryUsecase.unassignOver,
        Repositories.logged, loggedRestore, ha, hb, h0, h1]
  · intro cid s1 h
    refine ⟨Err.wrap "get delivery courier" e, ?_, errorsIs_wrap _ _, ?_⟩ <;>
      simp [DeliveryUsecase.CompleteOver, TxManager.WithTxOver, DeliveryUsecase.completeOver,
        Repositories.logged, loggedRestore, ha, hb, h]
  · intro cid s1 h0 h1
    refine ⟨Err.wrap "update courier status" e, ?_, errorsIs_wrap _ _, ?_⟩ <;>
      simp [DeliveryUsecase.CompleteOver, TxManager.WithTxOver, DeliveryUsecase.completeOver,
        Repositories.logged, loggedRestore, ha, hb, h0, h1]
  · intro st dbNow h
    rw [(Over_store uc now dbNow noFaults o st).1, Assign_exhausted uc now dbNow o st h]
    exact ⟨_, rfl, errorsIs_wrap _ _⟩

/-- C16, instantiated: the store repositories with a failing insert; `MarkAssigned` is not
called. -/
theorem C16_error_identity_witness :
    ∃ err,
      (exampleUsecase.AssignOver (storeRepositories insertFails 1001).logged
          (loggedRestore rollback) 1000 insertFails "o1" (oneCourierStore, [])).1 =
          (none, none, some err) ∧
        errorsIs err Err.deliveryErrDatabaseInternal = true ∧
        (exampleUsecase.AssignOver (storeRepositories insertFails 1001).logged
          (loggedRestore rollback) 1000 insertFails "o1" (oneCourierStore, [])).2.2 =
          [.GetAvailableLeastDelivered,
            .Create (exampleUsecase.newDelivery 1000 "o1" (scanCourier alice))] :=
  (C16_error_identity exampleUsecase (storeRepositories insertFails 1001) rollback 1000
    insertFails "o1" oneCourierStore Err.deliveryErrDatabaseInternal ⟨rfl, rfl⟩).2.1
    (scanCourier alice) oneCourierStore (by decide) (by decide)

/-! ## The event processor: blank fields and the log of a handler -/

theorem all_of_dropWhile (p : Char → Bool) : ∀ l : List Char,
    (∀ x ∈ l.dropWhile p, p x = true) → ∀ x ∈ l, p x = true
  | [], _ => by simp
  | a :: t, h => by
    by_cases ha : p a = true
    · have ht : ∀ x ∈ t.dropWhile p, p x = true := by
        intro x hx
        apply h
        simpa [List.dropWhile_cons, ha] using hx
      intro x hx
      rcases List.mem_cons.1 hx with rfl | hx
      · exact ha
      · exact all_of_dropWhile p t ht x hx
    · exfalso
      apply ha
      apply h
      simp [List.dropWhile_cons, ha]

theorem TrimSpace_eq_empty_iff (s : String) : TrimSpace s = "" ↔ blank s := by
  unfold TrimSpace blank
  have hmk : ∀ l : List Char, String.mk l = "" ↔ l = [] := by
    intro l
    constructor
    · intro h
      have := congrArg String.data h
      simpa using this
    · intro h
      rw [h]
  rw [hmk, List.reverse_eq_nil_iff, List.dropWhile_eq_nil_iff]
  constructor
  · intro h
    apply all_of_dropWhile
    intro x hx
    exact h x (List.mem_reverse.2 hx)
  · intro h x hx
    have hx2 : x ∈ s.data.dropWhile isSpace := List.mem_reverse.1 hx
    exact h x ((List.dropWhile_sublist isSpace).subset hx2)

/-- The coordinator call a handler makes. -/
theorem Handle_logged {σ : Type} (h : Handler) (p : EventPorts σ) (event : OrderStatusEvent)
    (s : σ) (l : List PortCall) :
    h.Handle p.logged event (s, l) =
      ((h.Handle p event s).1,
        ((h.Handle p event s).2,
          l ++ [match h with
            | .createdHandler => PortCall.Assign event.OrderID
            | .cancelledHandler => PortCall.Unassign event.OrderID
            | .completedHandler => PortCall.Complete event.OrderID])) := by
  cases h
  · unfold Handler.Handle EventPorts.logged
    simp only
    rcases p.Assign event.OrderID s with ⟨⟨d, c, e⟩, s1⟩
    cases e <;> rfl
  · unfold Handler.Handle EventPorts.logged
    simp only
    rcases p.Unassign event.OrderID s with ⟨⟨d, e⟩, s1⟩
    cases e <;> rfl
  · unfold Handler.Handle EventPorts.logged
    simp only
    rcases p.Complete event.OrderID s with ⟨⟨d, e⟩, s1⟩
    cases e <;> rfl

/-! ## C17 -/

theorem Handle_mismatch {σ : Type} (t : CaseTables) (p : Processor)
    (ports : EventPorts σ) (event : OrderStatusEvent) (s s1 : σ) (status : String)
    (hid : ¬ blank event.OrderID) (hst : ¬ blank event.Status)
    (hgw : ports.GetOrderStatus event.OrderID s = ((status, none), s1))
    (hdiff : sameStatus t status event.Status = false) :
    p.Handle t ports.logged event (s, []) =
      (none, (s1, [PortCall.GetOrderStatus event.OrderID])) := by
  have h1 : ¬ TrimSpace event.OrderID = "" := fun h => hid ((TrimSpace_eq_empty_iff _).1 h)
  have h2 : ¬ TrimSpace event.Status = "" := fun h => hst ((TrimSpace_eq_empty_iff _).1 h)
  simp [Processor.Handle, EventPorts.logged, h1, h2, hgw, hdiff]

/-- C17: for every event with non-blank order id and status, every implementation of the
gateway and of the coordinator and every handler factory: if the gateway returns a status
that differs from the event status (both trimmed, compared with `strings.EqualFold`),
`Processor.Handle` calls the gateway once and none of `Assign`, `Unassign`, `Complete`, leaves
the state as the gateway call left it, and returns nil. -/
theorem C17_reconciliation_skip {σ : Type} (t : CaseTables) (p : Processor)
    (ports : EventPorts σ) (event : OrderStatusEvent) (s s1 : σ) (status : String)
    (hid : ¬ blank event.OrderID) (hst : ¬ blank event.Status)
    (hgw : ports.GetOrderStatus event.OrderID s = ((status, none), s1))
    (hdiff : sameStatus t status event.Status = false) :
    p.Handle t ports.logged event (s, []) =
      (none, (s1, [PortCall.GetOrderStatus event.OrderID])) :=
  Handle_mismatch t p ports event s s1 status hid hst hgw hdiff

/-- C17, instantiated (scenario S5): the event says `created`, the gateway `delivered`; the
coordinator of the store is not called and the store is untouched. -/
theorem C17_reconciliation_skip_witness :
    exampleProcessor.Handle asciiTables
        (storePorts exampleUsecase 1000 1001 noFaults (fun _ => ("delivered", none))).logged
        { OrderID := "o9", Status := "created", CreatedAt := 0 } (oneCourierStore, []) =
      (none, (oneCourierStore, [PortCall.GetOrderStatus "o9"])) :=
  C17_reconciliation_skip asciiTables exampleProcessor
    (storePorts exampleUsecase 1000 1001 noFaults (fun _ => ("delivered", none)))
    { OrderID := "o9", Status := "created", CreatedAt := 0 } oneCourierStore oneCourierStore
    "delivered" (by decide) (by decide) rfl (by decide)

/-! ## C18 -/

theorem Handle_eq {σ : Type} (p : EventPorts σ) (event : OrderStatusEvent) (s : σ) :
    Handler.createdHandler.Handle p event s =
        ((p.Assign event.OrderID s).1.2.2.map (Err.wrap "assign courier"),
          (p.Assign event.OrderID s).2) ∧
      Handler.cancelledHandler.Handle p event s =
        ((p.Unassign event.OrderID s).1.2.map (Err.wrap "unassign courier"),
          (p.Unassign event.OrderID s).2) ∧
      Handler.completedHandler.Handle p event s =
        ((p.Complete event.OrderID s).1.2.map (Err.wrap "complete delivery"),
          (p.Complete event.OrderID s).2) := by
  refine ⟨?_, ?_, ?_⟩
  · unfold Handler.Handle
    simp only
    rcases p.Assign event.OrderID s with ⟨⟨d, c, e⟩, s1⟩
    cases e <;> rfl
  · unfold Handler.Handle
    simp only
    rcases p.Unassign event.OrderID s with ⟨⟨d, e⟩, s1⟩
    cases e <;> rfl
  · unfold Handler.Handle
    simp only
    rcases p.Complete event.OrderID s with ⟨⟨d, e⟩, s1⟩
    cases e <;> rfl

theorem Handle_matched {σ : Type} (t : CaseTables) (p : Processor) (ports : EventPorts σ)
    (event : OrderStatusEvent) (s s1 : σ) (status : String)
    (hid : ¬ blank event.OrderID) (hst : ¬ blank event.Status)
    (hgw : ports.GetOrderStatus event.OrderID s = ((status, none), s1))
    (hsame : sameStatus t status event.Status = true) :
    p.Handle t ports.logged event (s, []) =
      match HandlerFactory.Handler t p.factory event.Status with
      | none => (none, (s1, [PortCall.GetOrderStatus event.OrderID]))
      | some handler =>
        handler.Handle ports.logged event (s1, [PortCall.GetOrderStatus event.OrderID]) := by
  have h1 : ¬ TrimSpace event.OrderID = "" := fun h => hid ((TrimSpace_eq_empty_iff _).1 h)
  have h2 : ¬ TrimSpace event.Status = "" := fun h => hst ((TrimSpace_eq_empty_iff _).1 h)
  simp only [Processor.Handle, h1, h2, or_self, ↓reduceIte]
  have hg : ports.logged.GetOrderStatus event.OrderID (s, []) =
      ((status, none), (s1, [PortCall.GetOrderStatus event.OrderID])) := by
    simp [EventPorts.logged, hgw]
  rw [hg]
  simp only [hsame, Bool.not_true, Bool.false_eq_true, ↓reduceIte]

/-- C18: for every event with non-blank order id and status whose status matches the status
the gateway returns, the processor built with `NewHandlerFactory` calls, after the gateway,
exactly one coordinator operation, with the event's order id, chosen by the trimmed,
lower-cased event status: `created` gives `Assign`, `cancelled` or `canceled` gives
`Unassign`, `completed` or `delivered` gives `Complete`, and it returns that operation's
error, wrapped, or nil; for any other status it calls no coordinator operation and returns
nil. -/
theorem C18_dispatch {σ : Type} (t : CaseTables) (ports : EventPorts σ)
    (event : OrderStatusEvent) (s s1 : σ) (status : String)
    (hid : ¬ blank event.OrderID) (hst : ¬ blank event.Status)
    (hgw : ports.GetOrderStatus event.OrderID s = ((status, none), s1))
    (hsame : sameStatus t status event.Status = true) :
    (t.ToLower (TrimSpace event.Status) = "created" →
        exampleProcessor.Handle t ports.logged event (s, []) =
          ((ports.Assign event.OrderID s1).1.2.2.map (Err.wrap "assign courier"),
            ((ports.Assign event.OrderID s1).2,
              [PortCall.GetOrderStatus event.OrderID, PortCall.Assign event.OrderID]))) ∧
      ((t.ToLower (TrimSpace event.Status) = "cancelled" ∨
          t.ToLower (TrimSpace event.Status) = "canceled") →
        exampleProcessor.Handle t ports.logged event (s, []) =
          ((ports.Unassign event.OrderID s1).1.2.map (Err.wrap "unassign courier"),
            ((ports.Unassign event.OrderID s1).2,
              [PortCall.GetOrderStatus event.OrderID, PortCall.Unassign event.OrderID]))) ∧
      ((t.ToLower (TrimSpace event.Status) = "completed" ∨
          t.ToLower (TrimSpace event.Status) = "delivered") →
        exampleProcessor.Handle t ports.logged event (s, []) =
          ((ports.Complete event.OrderID s1).1.2.map (Err.wrap "complete delivery"),
            ((ports.Complete event.OrderID s1).2,
              [PortCall.GetOrderStatus event.OrderID, PortCall.Complete event.OrderID]))) ∧
      ((t.ToLower (TrimSpace event.Status) ≠ "created" ∧
          t.ToLower (TrimSpace event.Status) ≠ "cancelled" ∧
          t.ToLower (TrimSpace event.Status) ≠ "canceled" ∧
          t.ToLower (TrimSpace event.Status) ≠ "completed" ∧
          t.ToLower (TrimSpace event.Status) ≠ "delivered") →
        exampleProcessor.Handle t ports.logged event (s, []) =
          (none, (s1, [PortCall.GetOrderStatus event.OrderID]))) := by
  have hm := Handle_matched t exampleProcessor ports event s s1 status hid hst hgw hsame
  obtain ⟨ha, hu, hc⟩ := Handle_eq ports event s1
  refine ⟨?_, ?_, ?_, ?_⟩
  · intro hk
    have hl : HandlerFactory.Handler t exampleProcessor.factory event.Status =
        some .createdHandler := by
      simp [HandlerFactory.Handler, exampleProcessor, NewHandlerFactory, hk, List.lookup,
        statusCreated]
    rw [hm, hl]
    simp only
    rw [Handle_logged, ha]
    rfl
  · intro hk
    have hl : HandlerFactory.Handler t exampleProcessor.factory event.Status =
        some .cancelledHandler := by
      rcases hk with hk | hk <;>
        simp [HandlerFactory.Handler, exampleProcessor, NewHandlerFactory, hk, List.lookup,
          statusCreated, statusCancelled, statusCanceled]
    rw [hm, hl]
    simp only
    rw [Handle_logged, hu]
    rfl
  · intro hk
    have hl : HandlerFactory.Handler t exampleProcessor.factory event.Status =
        some .completedHandler := by
      rcases hk with hk | hk <;>
        simp [HandlerFactory.Handler, exampleProcessor, NewHandlerFactory, hk, List.lookup,
          statusCreated, statusCancelled, statusCanceled, statusCompleted, statusDelivered]
    rw [hm, hl]
    simp only
    rw [Handle_logged, hc]
    rfl
  · rintro ⟨k1, k2, k3, k4, k5⟩
    have e1 : (t.ToLower (TrimSpace event.Status) == "created") = false := by simpa using k1
    have e2 : (t.ToLower (TrimSpace event.Status) == "cancelled") = false := by simpa using k2
    have e3 : (t.ToLower (TrimSpace event.Status) == "canceled") = false := by simpa using k3
    have e4 : (t.ToLower (TrimSpace event.Status) == "completed") = false := by simpa using k4
    have e5 : (t.ToLower (TrimSpace event.Status) == "delivered") = false := by simpa using k5
    have hl : HandlerFactory.Handler t exampleProcessor.factory event.Status = none := by
      simp [HandlerFactory.Handler, exampleProcessor, NewHandlerFactory, List.lookup,
        statusCreated, statusCancelled, statusCanceled, statusCompleted, statusDelivered,
        e1, e2, e3, e4, e5]
    rw [hm, hl]

/-- C18, instantiated: event and gateway agree on `Created`/`created`; the coordinator of
the store assigns courier 7 to the order. -/
theorem C18_dispatch_witness :
    exampleProcessor.Handle asciiTables
        (storePorts exampleUsecase 1000 1001 noFaults (fun _ => ("created", none))).logged
        { OrderID := "o9", Status := " Created ", CreatedAt := 0 } (oneCourierStore, []) =
      (none,
        ((exampleUsecase.Assign 1000 1001 noFaults "o9" oneCourierStore).2,
          [PortCall.GetOrderStatus "o9", PortCall.Assign "o9"])) :=
  (C18_dispatch asciiTables
    (storePorts exampleUsecase 1000 1001 noFaults (fun _ => ("created", none)))
    { OrderID := "o9", Status := " Created ", CreatedAt := 0 } oneCourierStore oneCourierStore
    "created" (by decide) (by decide) rfl (by decide)).1 (by decide)

/-! ## C19 -/

/-- C19: for every event, every processor and every implementation of the gateway and the
coordinator: when `orderId` or `status` is blank (empty or white space only)
`Processor.Handle` returns the error `invalid order event payload` without calling the
gateway or any coordinator operation; and it returns an error with no call made if and only
if `orderId` or `status` is blank. -/
theorem C19_reject_blank {σ : Type} (t : CaseTables) (p : Processor) (ports : EventPorts σ)
    (event : OrderStatusEvent) (s : σ) :
    ((blank event.OrderID ∨ blank event.Status) →
        p.Handle t ports.logged event (s, []) =
          (some (Err.text "invalid order event payload"), (s, []))) ∧
      (((p.Handle t ports.logged event (s, [])).1 ≠ none ∧
          (p.Handle t ports.logged event (s, [])).2.2 = []) ↔
        (blank event.OrderID ∨ blank event.Status)) := by
  have hblank : (blank event.OrderID ∨ blank event.Status) →
      p.Handle t ports.logged event (s, []) =
        (some (Err.text "invalid order event payload"), (s, [])) := by
    intro h
    have h' : TrimSpace event.OrderID = "" ∨ TrimSpace event.Status = "" := by
      rcases h with h | h
      · exact Or.inl ((TrimSpace_eq_empty_iff _).2 h)
      · exact Or.inr ((TrimSpace_eq_empty_iff _).2 h)
    simp [Processor.Handle, h']
  refine ⟨hblank, ?_, ?_⟩
  · rintro ⟨-, hlog⟩
    by_contra hnb
    have hid : ¬ blank event.OrderID := fun h => hnb (Or.inl h)
    have hst : ¬ blank event.Status := fun h => hnb (Or.inr h)
    have h1 : ¬ TrimSpace event.OrderID = "" := fun h => hid ((TrimSpace_eq_empty_iff _).1 h)
    have h2 : ¬ TrimSpace event.Status = "" := fun h => hst ((TrimSpace_eq_empty_iff _).1 h)
    rcases hg : ports.GetOrderStatus event.OrderID s with ⟨⟨status, e⟩, s1⟩
    cases e with
    | some err =>
      simp [Processor.Handle, EventPorts.logged, h1, h2, hg] at hlog
    | none =>
      by_cases hsame : sameStatus t status event.Status = true
      · rw [Handle_matched t p ports event s s1 status hid hst hg hsame] at hlog
        cases hh : HandlerFactory.Handler t p.factory event.Status with
        | none => simp [hh] at hlog
        | some handler =>
          rw [hh] at hlog
          simp only [Handle_logged] at hlog
          simp at hlog
      · have hdiff : sameStatus t status event.Status = false := by
          simpa using hsame
        rw [Handle_mismatch t p ports event s s1 status hid hst hg hdiff] at hlog
        simp at hlog
  · intro h
    rw [hblank h]
    simp

/-! ## C20 -/

/-- C20, as stated, fails for response codes above 599: a response with status code 600 is
classified retryable, although 600 is neither 408, nor 429, nor in 500-599. -/
theorem C20_counterexample :
    fetchStatus (.response 600 (.ok "delivered")) =
        ("", 600, some (Err.text "order service status 600")) ∧
      shouldRetry (Err.text "order service status 600") 600 = true ∧
      ¬ ((600 : Int) = 408 ∨ (600 : Int) = 429 ∨ ((500 : Int) ≤ 600 ∧ (600 : Int) ≤ 599)) := by
  decide

/-- C20 (amended): for every response code `c` other than 200 the failed attempt is retryable
if and only if `c` is 408, 429, or at least 500; a 200 response that fails to decode or
carries an empty (white-space-only) status is not retryable; a transport error without a
response is retryable if and only if it is a network error whose timeout predicate reports
true. -/
theorem C20_retry_classification :
    (∀ (c : Int) (body : Except Err String), c ≠ 200 →
        ∃ e, fetchStatus (.response c body) = ("", c, some e) ∧
          (shouldRetry e c = true ↔ (c = 408 ∨ c = 429 ∨ 500 ≤ c))) ∧
      (∀ err : Err, ∃ e, fetchStatus (.response 200 (.error err)) = ("", 200, some e) ∧
        shouldRetry e 200 = false) ∧
      (∀ status : String, blank status →
        ∃ e, fetchStatus (.response 200 (.ok status)) = ("", 200, some e) ∧
          shouldRetry e 200 = false) ∧
      (∀ err : Err, fetchStatus (.transportError err) = ("", 0, some err) ∧
        (shouldRetry err 0 = true ↔ asNetError err = some true)) := by
  refine ⟨?_, ?_, ?_, ?_⟩
  · intro c body hc
    refine ⟨Err.text ("order service status " ++ toString c), by simp [fetchStatus, hc], ?_⟩
    by_cases h0 : c = 0
    · subst h0
      simp [shouldRetry, shouldRetryError, asNetError]
    · simp only [shouldRetry, shouldRetryStatus, h0, ne_eq, not_false_eq_true, ↓reduceIte,
        ge_iff_le]
      by_cases h1 : c = 429 ∨ c = 408
      · simp only [h1, ↓reduceIte, true_iff]
        rcases h1 with h | h
        · exact Or.inr (Or.inl h)
        · exact Or.inl h
      · simp only [h1, ↓reduceIte, decide_eq_true_eq]
        constructor
        · intro h
          exact Or.inr (Or.inr h)
        · rintro (h | h | h)
          · exact absurd (Or.inr h) h1
          · exact absurd (Or.inl h) h1
          · exact h
  · intro err
    exact ⟨Err.wrap "decode order response" err, by simp [fetchStatus],
      by simp [shouldRetry, shouldRetryStatus]⟩
  · intro status hb
    have := (TrimSpace_eq_empty_iff status).2 hb
    exact ⟨Err.text "order status is empty", by simp [fetchStatus, this],
      by simp [shouldRetry, shouldRetryStatus]⟩
  · intro err
    refine ⟨rfl, ?_⟩
    simp only [shouldRetry, ne_eq, not_true_eq_false, ↓reduceIte, shouldRetryError]
    cases asNetError err with
    | none => simp
    | some b => simp

/-- C20 (amended), instantiated: 429 and 503 are retryable, 404 and a 200 with an empty
status are not, a client timeout is. -/
theorem C20_retry_classification_witness :
    shouldRetry (Err.text "order service status 429") 429 = true ∧
      shouldRetry (Err.text "order service status 503") 503 = true ∧
      shouldRetry (Err.text "order service status 404") 404 = false ∧
      (∃ e, fetchStatus (.response 200 (.ok "  ")) = ("", 200, some e) ∧
        shouldRetry e 200 = false) ∧
      (shouldRetry (Err.net "Get" true) 0 = true ↔
        asNetError (Err.net "Get" true) = some true) :=
  ⟨by decide, by decide, by decide,
    C20_retry_classification.2.2.1 "  " (by decide),
    (C20_retry_classification.2.2.2 (Err.net "Get" true)).2⟩

/-! ## C30 -/

/-- C30: for every implementation of the gateway and of the coordinator, every non-blank
order id and every case table that tells the two spellings of a pair apart (as
`strings.EqualFold` does): when the event says `cancelled` and the gateway `canceled`, or
the event `canceled` and the gateway `cancelled`, or `completed` against `delivered` in
either direction, `Processor.Handle` calls the gateway once and no coordinator operation and
returns nil; when the gateway returns the event's own spelling, both spellings of a pair
reach the same operation (`Unassign` for `cancelled` and `canceled`, `Complete` for
`completed` and `delivered`). -/
theorem C30_synonyms_not_collapsed {σ : Type} (t : CaseTables) (ports : EventPorts σ)
    (orderID : String) (createdAt : Int) (s s1 : σ) (ev auth : String)
    (hid : ¬ blank orderID)
    (hpair : (ev = "cancelled" ∧ auth = "canceled") ∨ (ev = "canceled" ∧ auth = "cancelled") ∨
      (ev = "completed" ∧ auth = "delivered") ∨ (ev = "delivered" ∧ auth = "completed"))
    (hfold : t.EqualFold auth ev = false) (hrefl : t.EqualFold ev ev = true)
    (hlow : t.ToLower ev = ev) :
    (ports.GetOrderStatus orderID s = ((auth, none), s1) →
        exampleProcessor.Handle t ports.logged
            { OrderID := orderID, Status := ev, CreatedAt := createdAt } (s, []) =
          (none, (s1, [PortCall.GetOrderStatus orderID]))) ∧
      (ports.GetOrderStatus orderID s = ((ev, none), s1) →
        (exampleProcessor.Handle t ports.logged
            { OrderID := orderID, Status := ev, CreatedAt := createdAt } (s, [])).2.2 =
          [PortCall.GetOrderStatus orderID,
            if ev = "cancelled" ∨ ev = "canceled" then PortCall.Unassign orderID
            else PortCall.Complete orderID]) := by
  have htrim : TrimSpace ev = ev ∧ TrimSpace auth = auth ∧ ¬ blank ev := by
    rcases hpair with ⟨h1, h2⟩ | ⟨h1, h2⟩ | ⟨h1, h2⟩ | ⟨h1, h2⟩ <;> subst h1 <;> subst h2 <;>
      decide
  obtain ⟨hte, hta, hst⟩ := htrim
  constructor
  · intro hgw
    exact Handle_mismatch t exampleProcessor ports
      { OrderID := orderID, Status := ev, CreatedAt := createdAt } s s1 auth hid hst hgw
      (by simp [sameStatus, hte, hta, hfold])
  · intro hgw
    have hm := Handle_matched t exampleProcessor ports
      { OrderID := orderID, Status := ev, CreatedAt := createdAt } s s1 ev hid hst hgw
      (by simp [sameStatus, hte, hrefl])
    rw [hm]
    rcases hpair with ⟨h1, _⟩ | ⟨h1, _⟩ | ⟨h1, _⟩ | ⟨h1, _⟩ <;> subst h1 <;>
      simp [HandlerFactory.Handler, exampleProcessor, NewHandlerFactory, hte, hlow, List.lookup,
        statusCreated, statusCancelled, statusCanceled, statusCompleted, statusDelivered,
        Handle_logged]

/-- C30, instantiated: the event says `cancelled`, the gateway `canceled`; the coordinator of
the store is not called, although order `o1` holds courier 7. -/
theorem C30_synonyms_not_collapsed_witness :
    exampleProcessor.Handle asciiTables
        (storePorts exampleUsecase 1000 1001 noFaults (fun _ => ("canceled", none))).logged
        { OrderID := "o1", Status := "cancelled", CreatedAt := 0 } (storeWithOrder, []) =
      (none, (storeWithOrder, [PortCall.GetOrderStatus "o1"])) :=
  (C30_synonyms_not_collapsed asciiTables
    (storePorts exampleUsecase 1000 1001 noFaults (fun _ => ("canceled", none)))
    "o1" 0 storeWithOrder storeWithOrder "cancelled" "canceled" (by decide)
    (Or.inl ⟨rfl, rfl⟩) (by decide) (by decide) (by decide)).1 rfl

/-! ## C21 -/

theorem retryLoop_spec (g : OrderGateway) (w : Upstream) (hw : uncancelled w) :
    ∀ (remaining attempt : Nat) (lastErr : Option Err) (made : Nat) (waits : List Int),
      (attempt : Int) + remaining = g.maxAttempts + 1 → 0 < remaining →
      (∀ j, attempt ≤ j → j < attempt + remaining →
        (∀ i, attempt ≤ i → i < j → settles (w.exchange i) = false) →
        settles (w.exchange j) = true →
        (g.retryLoop w remaining attempt lastErr made waits).attempts = made + (j + 1 - attempt) ∧
        (g.retryLoop w remaining attempt lastErr made waits).status =
          (fetchStatus (w.exchange j)).1 ∧
        (g.retryLoop w remaining attempt lastErr made waits).err =
          (fetchStatus (w.exchange j)).2.2.map (Err.wrap "request order status")) ∧
      ((∀ i, attempt ≤ i → i < attempt + remaining → settles (w.exchange i) = false) →
        (g.retryLoop w remaining attempt lastErr made waits).attempts = made + remaining ∧
        (g.retryLoop w remaining attempt lastErr made waits).status = "" ∧
        (g.retryLoop w remaining attempt lastErr made waits).err =
          (fetchStatus (w.exchange (attempt + remaining - 1))).2.2.map
            (Err.wrap "request order status")) := by
  intro remaining
  induction remaining with
  | zero => intro _ _ _ _ _ h; exact absurd h (lt_irrefl _)
  | succ n ih =>
    intro attempt lastErr made waits hsum _
    have hctx := hw.1 attempt
    rcases hf : fetchStatus (w.exchange attempt) with ⟨status, code, e⟩
    cases e with
    | none =>
      have hs : settles (w.exchange attempt) = true := by simp [settles, hf]
      have hr : g.retryLoop w (n + 1) attempt lastErr made waits =
          { status := status, err := none, attempts := made + 1, waits := waits } := by
        simp [OrderGateway.retryLoop, hctx, hf]
      constructor
      · intro j hj1 _ hbefore hsj
        have hja : j = attempt := by
          by_contra hne
          have := hbefore attempt (le_refl _) (lt_of_le_of_ne hj1 (Ne.symm hne))
          rw [hs] at this
          exact absurd this (by decide)
        subst hja
        rw [hr, hf]
        simp
      · intro hall
        have := hall attempt (le_refl _) (by omega)
        rw [hs] at this
        exact absurd this (by decide)
    | some err =>
      by_cases hretry : shouldRetry err code = true
      · have hs : settles (w.exchange attempt) = false := by simp [settles, hf, hretry]
        by_cases hlast : (attempt : Int) = g.maxAttempts
        · have hn : n = 0 := by omega
          subst hn
          have hr : g.retryLoop w (0 + 1) attempt lastErr made waits =
              { status := "", err := some (.wrap "request order status" err),
                attempts := made + 1, waits := waits } := by
            simp [OrderGateway.retryLoop, hctx, hf, hlast]
          constructor
          · intro j hj1 hj2 _ hsj
            have hja : j = attempt := by omega
            subst hja
            rw [hs] at hsj
            exact absurd hsj (by decide)
          · intro _
            rw [hr]
            have : attempt + (0 + 1) - 1 = attempt := by omega
            rw [this, hf]
            simp
        · have hn : 0 < n := by omega
          have hwait := hw.2 attempt (retryDelay g.baseDelay attempt)
          have hr : g.retryLoop w (n + 1) attempt lastErr made waits =
              g.retryLoop w n (attempt + 1) (some err) (made + 1)
                (waits ++ [retryDelay g.baseDelay attempt]) := by
            simp [OrderGateway.retryLoop, hctx, hf, hretry, hlast, hwait]
          obtain ⟨ih1, ih2⟩ := ih (attempt + 1) (some err) (made + 1)
            (waits ++ [retryDelay g.baseDelay attempt]) (by push_cast; omega) hn
          rw [hr]
          constructor
          · intro j hj1 hj2 hbefore hsj
            have hja : attempt ≠ j := by
              intro h
              subst h
              rw [hs] at hsj
              exact absurd hsj (by decide)
            have := ih1 j (by omega) (by omega)
              (fun i hi1 hi2 => hbefore i (by omega) hi2) hsj
            have e1 : made + 1 + (j + 1 - (attempt + 1)) = made + (j + 1 - attempt) := by omega
            rw [e1] at this
            exact this
          · intro hall
            have := ih2 (fun i hi1 hi2 => hall i (by omega) (by omega))
            have e1 : made + 1 + n = made + (n + 1) := by omega
            have e2 : attempt + 1 + n - 1 = attempt + (n + 1) - 1 := by omega
            rw [e1, e2] at this
            exact this
      · have hretry' : shouldRetry err code = false := by simpa using hretry
        have hs : settles (w.exchange attempt) = true := by simp [settles, hf, hretry']
        have hr : g.retryLoop w (n + 1) attempt lastErr made waits =
            { status := "", err := some (.wrap "request order status" err),
              attempts := made + 1, waits := waits } := by
          simp [OrderGateway.retryLoop, hctx, hf, hretry']
        have hst : status = "" := by
          have := hf
          unfold fetchStatus at this
          split at this
          · simp at this; exact this.1.symm
          · simp at this; exact this.1.symm
          · split at this
            · simp at this; exact this.1.symm
            · split at this
              · simp at this; exact this.1.symm
              · split at this
                · simp at this; exact this.1.symm
                · simp at this
        constructor
        · intro j hj1 _ hbefore hsj
          have hja : j = attempt := by
            by_contra hne
            have := hbefore attempt (le_refl _) (lt_of_le_of_ne hj1 (Ne.symm hne))
            rw [hs] at this
            exact absurd this (by decide)
          subst hja
          rw [hr, hf]
          simp [hst]
        · intro hall
          have := hall attempt (le_refl _) (by omega)
          rw [hs] at this
          exact absurd this (by decide)

theorem settles_false_err (x : Exchange) (h : settles x = false) :
    ∃ e, (fetchStatus x).2.2 = some e := by
  unfold settles at h
  rcases hf : fetchStatus x with ⟨status, code, e⟩
  cases e with
  | none => simp [hf] at h
  | some err => exact ⟨err, rfl⟩

/-- C21: for every non-empty order id, every gateway with `maxAttempts >= 1`, an uncancelled
context and every sequence of upstream outcomes: if `j` is the first attempt whose outcome
is a success or a failure that is not retryable, `GetOrderStatus` makes exactly
`min(maxAttempts, j)` attempts; when `j <= maxAttempts` it returns the trimmed status of a
successful attempt `j`, or the failure of attempt `j` wrapped; a 4xx other than 408 and 429
on the first attempt gives exactly one attempt; and when every attempt up to `maxAttempts`
fails retryably it makes exactly `maxAttempts` attempts and returns the failure of the last
one wrapped. -/
theorem C21_retry_attempts (g : OrderGateway) (w : Upstream) (orderID : String)
    (hid : orderID ≠ "") (hmax : 1 ≤ g.maxAttempts) (hw : uncancelled w) :
    (∀ j : Nat, 1 ≤ j → (∀ i : Nat, 1 ≤ i → i < j → settles (w.exchange i) = false) →
        settles (w.exchange j) = true →
        (g.GetOrderStatus w orderID).attempts = min g.maxAttempts.toNat j ∧
        ((j : Int) ≤ g.maxAttempts →
          (∀ raw, w.exchange j = .response 200 (.ok raw) → ¬ blank raw →
            (g.GetOrderStatus w orderID).status = TrimSpace raw ∧
              (g.GetOrderStatus w orderID).err = none) ∧
          (∀ e, (fetchStatus (w.exchange j)).2.2 = some e →
            (g.GetOrderStatus w orderID).status = "" ∧
              (g.GetOrderStatus w orderID).err =
                some (Err.wrap "request order status" e)))) ∧
      (∀ (code : Int) (body : Except Err String), 400 ≤ code → code ≤ 499 → code ≠ 408 →
        code ≠ 429 → w.exchange 1 = .response code body →
        (g.GetOrderStatus w orderID).attempts = 1 ∧
          (g.GetOrderStatus w orderID).err =
            some (Err.wrap "request order status"
              (Err.text ("order service status " ++ toString code)))) ∧
      ((∀ i : Nat, 1 ≤ i → (i : Int) ≤ g.maxAttempts → settles (w.exchange i) = false) →
        (g.GetOrderStatus w orderID).attempts = g.maxAttempts.toNat ∧
          (g.GetOrderStatus w orderID).status = "" ∧
          ∃ e, (fetchStatus (w.exchange g.maxAttempts.toNat)).2.2 = some e ∧
            (g.GetOrderStatus w orderID).err =
              some (Err.wrap "request order status" e)) := by
  have hG : g.GetOrderStatus w orderID = g.retryLoop w g.maxAttempts.toNat 1 none 0 [] := by
    simp [OrderGateway.GetOrderStatus, hid]
  have hM : (g.maxAttempts.toNat : Int) = g.maxAttempts := Int.toNat_of_nonneg (by omega)
  have hpos : 0 < g.maxAttempts.toNat := by omega
  obtain ⟨h1, h2⟩ := retryLoop_spec g w hw g.maxAttempts.toNat 1 none 0 []
    (by rw [hM]; push_cast; omega) hpos
  have hall : (∀ i : Nat, 1 ≤ i → (i : Int) ≤ g.maxAttempts → settles (w.exchange i) = false) →
      (g.GetOrderStatus w orderID).attempts = g.maxAttempts.toNat ∧
        (g.GetOrderStatus w orderID).status = "" ∧
        ∃ e, (fetchStatus (w.exchange g.maxAttempts.toNat)).2.2 = some e ∧
          (g.GetOrderStatus w orderID).err = some (Err.wrap "request order status" e) := by
    intro hno
    obtain ⟨a1, a2, a3⟩ := h2 (fun i hi1 hi2 => hno i hi1 (by omega))
    have e1 : 1 + g.maxAttempts.toNat - 1 = g.maxAttempts.toNat := by omega
    rw [e1] at a3
    obtain ⟨e, he⟩ := settles_false_err _ (hno g.maxAttempts.toNat hpos (by omega))
    rw [hG]
    refine ⟨by omega, a2, e, he, ?_⟩
    rw [a3, he]
    rfl
  have hfirst : ∀ j : Nat, 1 ≤ j → (j : Int) ≤ g.maxAttempts →
      (∀ i : Nat, 1 ≤ i → i < j → settles (w.exchange i) = false) →
      settles (w.exchange j) = true →
      (g.GetOrderStatus w orderID).attempts = j ∧
        (g.GetOrderStatus w orderID).status = (fetchStatus (w.exchange j)).1 ∧
        (g.GetOrderStatus w orderID).err =
          (fetchStatus (w.exchange j)).2.2.map (Err.wrap "request order status") := by
    intro j hj1 hj2 hbefore hsj
    obtain ⟨a1, a2, a3⟩ := h1 j hj1 (by omega) hbefore hsj
    rw [hG]
    exact ⟨by omega, a2, a3⟩
  refine ⟨?_, ?_, hall⟩
  · intro j hj1 hbefore hsj
    by_cases hj2 : (j : Int) ≤ g.maxAttempts
    · obtain ⟨a1, a2, a3⟩ := hfirst j hj1 hj2 hbefore hsj
      refine ⟨by rw [a1]; omega, fun _ => ⟨?_, ?_⟩⟩
      · intro raw hx hnb
        have hne : ¬ TrimSpace raw = "" := fun h => hnb ((TrimSpace_eq_empty_iff _).1 h)
        rw [a2, a3, hx]
        simp [fetchStatus, hne]
      · intro e he
        have hsj' := hsj
        unfold settles at hsj'
        rcases hf : fetchStatus (w.exchange j) with ⟨status, code, e2⟩
        rw [hf] at he hsj'
        simp only at he
        subst he
        have hst : status = "" := by
          have := hf
          unfold fetchStatus at this
          split at this
          · simp at this; exact this.1.symm
          · simp at this; exact this.1.symm
          · split at this
            · simp at this; exact this.1.symm
            · split at this
              · simp at this; exact this.1.symm
              · split at this
                · simp at this; exact this.1.symm
                · simp at this
        rw [a2, a3, hf]
        simp [hst]
    · obtain ⟨a1, _, _⟩ := hall (fun i hi1 hi2 => hbefore i hi1 (by omega))
      exact ⟨by rw [a1]; omega, fun h => absurd h hj2⟩
  · intro code body h400 h499 h408 h429 hx
    have hne : code ≠ 200 := by omega
    have hf : fetchStatus (w.exchange 1) =
        ("", code, some (Err.text ("order service status " ++ toString code))) := by
      rw [hx]
      simp [fetchStatus, hne]
    have hc0 : code ≠ 0 := by omega
    have hsr : shouldRetry (Err.text ("order service status " ++ toString code)) code = false := by
      have h5 : ¬ code ≥ 500 := by omega
      simp [shouldRetry, shouldRetryStatus, hc0, h408, h429, h5]
    have hs : settles (w.exchange 1) = true := by
      simp [settles, hf, hsr]
    obtain ⟨a1, _, a3⟩ := hfirst 1 (le_refl _) (by simpa using hmax)
      (fun i hi1 hi2 => absurd hi1 (by omega)) hs
    refine ⟨a1, ?_⟩
    rw [a3, hf]
    rfl

/-- C21, instantiated (`TestOrderGatewayRetriesOn429`): with `maxAttempts = 3` and the
outcomes 429, 429, 200 the gateway returns `delivered` after exactly 3 attempts. -/
theorem C21_retry_attempts_witness :
    (testGateway.GetOrderStatus
        (scripted [.response 429 (.error (.text "EOF")), .response 429 (.error (.text "EOF")),
          .response 200 (.ok "delivered")]) "order-1").attempts = min (3 : Int).toNat 3 ∧
      testGateway.GetOrderStatus
        (scripted [.response 429 (.error (.text "EOF")), .response 429 (.error (.text "EOF")),
          .response 200 (.ok "delivered")]) "order-1" =
        { status := "delivered", err := none, attempts := 3, waits := [0, 0] } :=
  ⟨((C21_retry_attempts testGateway
      (scripted [.response 429 (.error (.text "EOF")), .response 429 (.error (.text "EOF")),
        .response 200 (.ok "delivered")]) "order-1" (by decide) (by decide)
      ⟨fun _ => rfl, fun _ _ => rfl⟩).1 3 (by decide)
      (fun i h1 h2 => by interval_cases i <;> decide) (by decide)).1, by decide⟩

/-! ## C25 and C26: the watermark of the order poller -/

theorem assignBatch_logged {σ : Type} (ports : PollerPorts σ) :
    ∀ (orders : List Order) (m : Int) (s : σ) (log : List PollerCall),
      assignBatch ports.logged orders m (s, log) =
        ((assignBatch ports orders m s).1,
          ((assignBatch ports orders m s).2, log ++ orders.map (fun o => PollerCall.Assign o.ID)))
  | [], m, s, log => by simp [assignBatch]
  | ord :: rest, m, s, log => by
    simp only [assignBatch]
    have : (ports.logged.Assign ord.ID (s, log)).2 =
        ((ports.Assign ord.ID s).2, log ++ [PollerCall.Assign ord.ID]) := rfl
    rw [this, assignBatch_logged ports rest]
    simp

theorem assignBatch_max {σ : Type} (ports : PollerPorts σ) :
    ∀ (orders : List Order) (m : Int) (s : σ),
      m ≤ (assignBatch ports orders m s).1 ∧
        (∀ o ∈ orders, o.CreatedAt ≤ (assignBatch ports orders m s).1) ∧
        ((assignBatch ports orders m s).1 = m ∨
          ∃ o ∈ orders, o.CreatedAt = (assignBatch ports orders m s).1)
  | [], m, s => by simp [assignBatch]
  | ord :: rest, m, s => by
    simp only [assignBatch]
    by_cases hc : ord.CreatedAt > m
    · obtain ⟨h1, h2, h3⟩ := assignBatch_max ports rest ord.CreatedAt (ports.Assign ord.ID s).2
      simp only [hc, ↓reduceIte]
      refine ⟨by omega, ?_, ?_⟩
      · intro o ho
        rcases List.mem_cons.1 ho with rfl | ho
        · exact h1
        · exact h2 o ho
      · rcases h3 with h3 | ⟨o, ho, h3⟩
        · exact Or.inr ⟨ord, List.mem_cons_self _ _, h3.symm⟩
        · exact Or.inr ⟨o, List.mem_cons_of_mem _ ho, h3⟩
    · obtain ⟨h1, h2, h3⟩ := assignBatch_max ports rest m (ports.Assign ord.ID s).2
      simp only [hc, ↓reduceIte]
      refine ⟨h1, ?_, ?_⟩
      · intro o ho
        rcases List.mem_cons.1 ho with rfl | ho
        · omega
        · exact h2 o ho
      · rcases h3 with h3 | ⟨o, ho, h3⟩
        · exact Or.inl h3
        · exact Or.inr ⟨o, List.mem_cons_of_mem _ ho, h3⟩

theorem queryCursor_eq (w : OrderAssigner) (now : Int) :
    w.queryCursor now = max w.cursor (now - fiveSeconds) := by
  unfold OrderAssigner.queryCursor
  split_ifs with h
  · exact (max_eq_right (le_of_lt h)).symm
  · exact (max_eq_left (not_lt.1 h)).symm

theorem processTick_ok {σ : Type} (w : OrderAssigner) (ports : PollerPorts σ) (now : Int)
    (s s1 : σ) (orders : List Order)
    (hfetch : ports.GetOrders (w.queryCursor now) s = (.ok orders, s1)) :
    w.processTick ports now s =
      ({ cursor := if orders = [] then now - fiveSeconds
                   else (assignBatch ports orders (w.queryCursor now) s1).1 },
        (assignBatch ports orders (w.queryCursor now) s1).2) := by
  unfold OrderAssigner.processTick
  rw [hfetch]
  cases orders with
  | nil => simp
  | cons o rest => simp

/-- C25, as stated, fails when every order of the batch is older than the cursor sent: the
watermark is 95 s, the tick is at 105 s, so the cursor is 100 s; the gateway returns one
order created at 98 s, and the watermark afterwards is 100 s, not 98 s. -/
theorem C25_counterexample :
    (NewOrderAssigner 100000000000).cursor = 95000000000 ∧
      ((NewOrderAssigner 100000000000).processTick
        (storePollerPorts exampleUsecase 1000 1001 noFaults
          (fun _ => .ok [{ ID := "o1", CreatedAt := 98000000000 }])).logged
        105000000000 (oneCourierStore, [])).2.2 =
        [PollerCall.GetOrders 100000000000, PollerCall.Assign "o1"] ∧
      ((NewOrderAssigner 100000000000).processTick
        (storePollerPorts exampleUsecase 1000 1001 noFaults
          (fun _ => .ok [{ ID := "o1", CreatedAt := 98000000000 }])).logged
        105000000000 (oneCourierStore, [])).1.cursor = 100000000000 := by
  decide

/-- C25 (amended): for every tick at time `now` with watermark `w` whose fetch succeeds, for
every implementation of the gateway and of the coordinator: the gateway is queried once,
with the cursor `max(w, now - 5s)`, and then `Assign` is called for each order of the batch
in turn; afterwards the watermark is `now - 5s` if the batch is empty, and otherwise the
larger of the cursor and the maximum `created_at` of the batch, which is that maximum
whenever some order of the batch is not older than the cursor. -/
theorem C25_tick_watermark {σ : Type} (w : OrderAssigner) (ports : PollerPorts σ) (now : Int)
    (s s1 : σ) (orders : List Order)
    (hfetch : ports.GetOrders (max w.cursor (now - fiveSeconds)) s = (.ok orders, s1)) :
    (w.processTick ports.logged now (s, [])).2.2 =
        PollerCall.GetOrders (max w.cursor (now - fiveSeconds)) ::
          orders.map (fun o => PollerCall.Assign o.ID) ∧
      (orders = [] → (w.processTick ports.logged now (s, [])).1.cursor = now - fiveSeconds) ∧
      (orders ≠ [] →
        max w.cursor (now - fiveSeconds) ≤ (w.processTick ports.logged now (s, [])).1.cursor ∧
        (∀ o ∈ orders, o.CreatedAt ≤ (w.processTick ports.logged now (s, [])).1.cursor) ∧
        ((w.processTick ports.logged now (s, [])).1.cursor = max w.cursor (now - fiveSeconds) ∨
          ∃ o ∈ orders, o.CreatedAt = (w.processTick ports.logged now (s, [])).1.cursor)) ∧
      (orders ≠ [] → (∃ o ∈ orders, max w.cursor (now - fiveSeconds) ≤ o.CreatedAt) →
        (∀ o ∈ orders, o.CreatedAt ≤ (w.processTick ports.logged now (s, [])).1.cursor) ∧
        ∃ o ∈ orders, o.CreatedAt = (w.processTick ports.logged now (s, [])).1.cursor) := by
  rw [← queryCursor_eq] at hfetch ⊢
  have hl : ports.logged.GetOrders (w.queryCursor now) (s, []) =
      (.ok orders, (s1, [PollerCall.GetOrders (w.queryCursor now)])) := by
    simp [PollerPorts.logged, hfetch]
  rw [processTick_ok w ports.logged now (s, []) _ orders hl, assignBatch_logged]
  obtain ⟨h1, h2, h3⟩ := assignBatch_max ports orders (w.queryCursor now) s1
  refine ⟨by simp, ?_, ?_, ?_⟩
  · intro h
    simp [h]
  · intro h
    simp only [h, ↓reduceIte]
    exact ⟨h1, h2, h3⟩
  · intro h ⟨o, ho, hle⟩
    simp only [h, ↓reduceIte]
    refine ⟨h2, ?_⟩
    rcases h3 with h3 | h3
    · exact ⟨o, ho, le_antisymm (h2 o ho) (by rw [h3]; exact hle)⟩
    · exact h3

/-- C25 (amended), instantiated: watermark 95 s, tick at 105 s, the gateway returns orders
created at 101 s and 103 s; the coordinator of the store is called for both and the
watermark afterwards is 103 s. -/
theorem C25_tick_watermark_witness :
    ((NewOrderAssigner 100000000000).processTick
        (storePollerPorts exampleUsecase 1000 1001 noFaults
          (fun _ => .ok [{ ID := "o1", CreatedAt := 101000000000 },
            { ID := "o2", CreatedAt := 103000000000 }])).logged
        105000000000 (twoCourierStore, [])).2.2 =
        [PollerCall.GetOrders 100000000000, PollerCall.Assign "o1", PollerCall.Assign "o2"] ∧
      ((NewOrderAssigner 100000000000).processTick
        (storePollerPorts exampleUsecase 1000 1001 noFaults
          (fun _ => .ok [{ ID := "o1", CreatedAt := 101000000000 },
            { ID := "o2", CreatedAt := 103000000000 }])).logged
        105000000000 (twoCourierStore, [])).1.cursor = 103000000000 :=
  ⟨(C25_tick_watermark (NewOrderAssigner 100000000000)
      (storePollerPorts exampleUsecase 1000 1001 noFaults
        (fun _ => .ok [{ ID := "o1", CreatedAt := 101000000000 },
          { ID := "o2", CreatedAt := 103000000000 }]))
      105000000000 twoCourierStore twoCourierStore
      [{ ID := "o1", CreatedAt := 101000000000 }, { ID := "o2", CreatedAt := 103000000000 }]
      rfl).1, by decide⟩

theorem tick_monotone_iff {σ : Type} (w : OrderAssigner) (ports : PollerPorts σ) (now : Int)
    (s : σ) :
    w.cursor ≤ (w.processTick ports now s).1.cursor ↔
      ¬ ((ports.GetOrders (w.queryCursor now) s).1 = .ok [] ∧ now - fiveSeconds < w.cursor) := by
  rcases hf : ports.GetOrders (w.queryCursor now) s with ⟨r, s1⟩
  cases r with
  | error e =>
    simp [OrderAssigner.processTick, hf]
  | ok orders =>
    rw [processTick_ok w ports now s s1 orders hf]
    cases orders with
    | nil => simp
    | cons o rest =>
      obtain ⟨h1, _, _⟩ := assignBatch_max ports (o :: rest) (w.queryCursor now) s1
      have h2 : w.cursor ≤ w.queryCursor now := by
        rw [queryCursor_eq]
        exact le_max_left _ _
      simp
      omega

theorem ticks_monotone_iff {σ : Type} (ports : PollerPorts σ) :
    ∀ (nows : List Int) (w : OrderAssigner) (s : σ), ∀ r ∈ w.ticks ports nows s,
      (r.before ≤ r.after ↔ ¬ (r.fetched = .ok [] ∧ r.now - fiveSeconds < r.before)) ∧
        (r.fetched = .ok [] → r.after = r.now - fiveSeconds)
  | [], w, s => by simp [OrderAssigner.ticks]
  | now :: rest, w, s => by
    intro r hr
    simp only [OrderAssigner.ticks, List.mem_cons] at hr
    rcases hr with rfl | hr
    · refine ⟨tick_monotone_iff w ports now s, ?_⟩
      intro hf
      simp only at hf
      rcases hg : ports.GetOrders (w.queryCursor now) s with ⟨x, s1⟩
      rw [hg] at hf
      simp only at hf
      subst hf
      rw [processTick_ok w ports now s s1 [] hg]
      simp
    · exact ticks_monotone_iff ports rest _ _ r hr

/-- C26, as stated, fails: the watermark starts at 95 s; a tick at 108 s (cursor 103 s)
fetches one order created at 107 s, so the watermark becomes 107 s; the next tick, at 110 s,
fetches an empty batch and sets the watermark to 105 s, below 107 s.  The tick times are
non-decreasing. -/
theorem C26_counterexample :
    (NewOrderAssigner 100000000000).ticks
        (storePollerPorts exampleUsecase 1000 1001 noFaults
          (batchUpTo 103000000000 [{ ID := "o1", CreatedAt := 107000000000 }]))
        [108000000000, 110000000000] oneCourierStore =
      [{ before := 95000000000, now := 108000000000,
          fetched := .ok [{ ID := "o1", CreatedAt := 107000000000 }], after := 107000000000 },
        { before := 107000000000, now := 110000000000, fetched := .ok [],
          after := 105000000000 }] ∧
      (105000000000 : Int) < 107000000000 := by
  decide

/-- C26 (amended): for every sequence of ticks (any tick times, any gateway batches, any
coordinator) and every tick of it, the watermark after the tick is greater than or equal to
the watermark before it, unless the fetch succeeds with an empty batch while the watermark
is later than `now - 5s`; exactly on such a tick the watermark decreases (to `now - 5s`). -/
theorem C26_watermark_monotone {σ : Type} (ports : PollerPorts σ) (nows : List Int)
    (w : OrderAssigner) (s : σ) (r : TickRecord) (hr : r ∈ w.ticks ports nows s) :
    (r.before ≤ r.after ↔ ¬ (r.fetched = .ok [] ∧ r.now - fiveSeconds < r.before)) ∧
      (r.fetched = .ok [] → r.after = r.now - fiveSeconds) :=
  ticks_monotone_iff ports nows w s r hr

/-- C26 (amended), instantiated on the two ticks above: the first tick raises the watermark
from 95 s to 107 s. -/
theorem C26_watermark_monotone_witness :
    (95000000000 : Int) ≤ 107000000000 ↔
      ¬ ((Except.ok [{ ID := "o1", CreatedAt := 107000000000 }] : Except Err (List Order)) =
          .ok [] ∧
        (108000000000 : Int) - fiveSeconds < 95000000000) :=
  (C26_watermark_monotone
    (storePollerPorts exampleUsecase 1000 1001 noFaults
      (batchUpTo 103000000000 [{ ID := "o1", CreatedAt := 107000000000 }]))
    [108000000000, 110000000000] (NewOrderAssigner 100000000000) oneCourierStore
    { before := 95000000000, now := 108000000000,
      fetched := .ok [{ ID := "o1", CreatedAt := 107000000000 }], after := 107000000000 }
    (by decide)).1

/-! ## C27 -/

theorem mem_repeatRests_range (lo hi : Char) :
    ∀ (max min : Nat) (s rest : List Char),
      rest ∈ repeatRests (fun t => (Regex.range lo hi).rests t) min max s ↔
        ∃ k, min ≤ k ∧ k ≤ max ∧ k ≤ s.length ∧ (∀ c ∈ s.take k, lo ≤ c ∧ c ≤ hi) ∧
          rest = s.drop k := by
  intro max
  induction max with
  | zero =>
    intro min s rest
    simp only [repeatRests]
    constructor
    · intro h
      by_cases hm : min = 0
      · simp only [hm, ↓reduceIte, List.mem_singleton] at h
        exact ⟨0, by omega, le_refl _, Nat.zero_le _, by simp, by simp [h]⟩
      · simp [hm] at h
    · rintro ⟨k, h1, h2, _, _, h5⟩
      have hk : k = 0 := by omega
      subst hk
      have hm : min = 0 := by omega
      simp [hm, h5]
  | succ n ih =>
    intro min s rest
    simp only [repeatRests, List.mem_append, List.mem_flatMap]
    constructor
    · rintro (h | ⟨t, ht, hrest⟩)
      · by_cases hm : min = 0
        · simp only [hm, ↓reduceIte, List.mem_singleton] at h
          exact ⟨0, by omega, Nat.zero_le _, Nat.zero_le _, by simp, by simp [h]⟩
        · simp [hm] at h
      · cases s with
        | nil => simp [Regex.rests] at ht
        | cons x xs =>
          by_cases hx : lo ≤ x ∧ x ≤ hi
          · simp only [Regex.rests, hx, and_self, ↓reduceIte, List.mem_singleton] at ht
            subst ht
            obtain ⟨k, h1, h2, h3, h4, h5⟩ := (ih (min - 1) t rest).1 hrest
            refine ⟨k + 1, by omega, by omega, by simp; omega, ?_, by simp [h5]⟩
            intro c hc
            simp only [List.take_succ_cons, List.mem_cons] at hc
            rcases hc with rfl | hc
            · exact hx
            · exact h4 c hc
          · simp [Regex.rests, hx] at ht
    · rintro ⟨k, h1, h2, h3, h4, h5⟩
      cases k with
      | zero =>
        left
        have hm : min = 0 := by omega
        simp [hm, h5]
      | succ k =>
        right
        cases s with
        | nil => simp at h3
        | cons x xs =>
          have hx : lo ≤ x ∧ x ≤ hi := h4 x (by simp)
          refine ⟨xs, by simp [Regex.rests, hx], ?_⟩
          refine (ih (min - 1) xs rest).2 ⟨k, by omega, by omega, by simpa using h3, ?_, ?_⟩
          · intro c hc
            exact h4 c (by simp [hc])
          · simpa using h5

theorem digits_match (s : List Char) :
    [] ∈ (Regex.rep 10 15 (.range '0' '9')).rests s ↔
      10 ≤ s.length ∧ s.length ≤ 15 ∧ ∀ c ∈ s, '0' ≤ c ∧ c ≤ '9' := by
  have hu : (Regex.rep 10 15 (.range '0' '9')).rests s =
      repeatRests (fun t => (Regex.range '0' '9').rests t) 10 15 s := rfl
  rw [hu, mem_repeatRests_range]
  constructor
  · rintro ⟨k, h1, h2, h3, h4, h5⟩
    have hk : s.length ≤ k := by
      have := congrArg List.length h5
      simp at this
      omega
    have hk2 : k = s.length := le_antisymm h3 hk
    subst hk2
    simp only [List.take_length] at h4
    exact ⟨h1, h2, h4⟩
  · rintro ⟨h1, h2, h3⟩
    exact ⟨s.length, h1, h2, le_refl _, by simpa using h3, by simp⟩

theorem validatePhone_iff (phone : String) : validatePhone phone = true ↔ phoneShape phone := by
  unfold validatePhone Regex.MatchString phonePattern phoneShape
  simp only [List.any_eq_true, List.isEmpty_iff]
  constructor
  · rintro ⟨x, hx, rfl⟩
    simp only [Regex.rests, List.mem_flatMap, List.mem_append, List.mem_singleton] at hx
    obtain ⟨t, ht, hrest⟩ := hx
    have hd := (digits_match t).1 (by simpa [Regex.rests] using hrest)
    rcases ht with ht | ht
    · cases hp : phone.data with
      | nil => simp [hp] at ht
      | cons y ys =>
        rw [hp] at ht
        by_cases hy : y = '+'
        · simp only [hy, ↓reduceIte, List.mem_singleton] at ht
          subst ht
          exact ⟨t, Or.inr (by rw [hy]), hd⟩
        · simp [hy] at ht
    · subst ht
      exact ⟨phone.data, Or.inl rfl, hd⟩
  · rintro ⟨digits, hshape, hd⟩
    have hm := (digits_match digits).2 hd
    refine ⟨[], ?_, rfl⟩
    simp only [Regex.rests, List.mem_flatMap, List.mem_append, List.mem_singleton]
    refine ⟨digits, ?_, by simpa [Regex.rests] using hm⟩
    rcases hshape with h | h
    · exact Or.inr h.symm
    · left
      rw [h]
      simp

theorem Create_valid {σ : Type} (repo : CourierPorts σ) (req : CourierModel) (s : σ)
    (hname : req.Name ≠ "") (hphone : validatePhone req.Phone = true) :
    (CourierUsecase.Create repo.logged req (s, [])).1.2 ≠ some ErrInvalidPhone ∧
      (CourierUsecase.Create repo.logged req (s, [])).2.2 = [CourierCall.Create req] := by
  unfold CourierUsecase.Create
  simp only [hname, hphone, ↓reduceIte, Bool.not_true, Bool.false_eq_true]
  have hl : repo.logged.Create req (s, []) =
      ((repo.Create req s).1, ((repo.Create req s).2, [CourierCall.Create req])) := rfl
  rw [hl]
  rcases repo.Create req s with ⟨⟨id, e⟩, s1⟩
  cases e with
  | none => simp
  | some err =>
    by_cases h : errorsIs err .courierErrPhoneExists = true
    · simp [h, ErrInvalidPhone]
    · simp [h, ErrInvalidPhone]

theorem Update_valid {σ : Type} (repo : CourierPorts σ) (req : CourierModel) (s : σ)
    (hid : 0 < req.ID) (hname : req.Name ≠ "") (hphone : validatePhone req.Phone = true) :
    (CourierUsecase.Update repo.logged req (s, [])).1 ≠ some ErrInvalidPhone ∧
      (CourierUsecase.Update repo.logged req (s, [])).2.2 = [CourierCall.Update req] := by
  unfold CourierUsecase.Update
  have hid' : ¬ req.ID ≤ 0 := by omega
  simp only [hid', hname, hphone, ↓reduceIte, Bool.not_true, Bool.false_eq_true]
  have hl : repo.logged.Update req (s, []) =
      ((repo.Update req s).1, ((repo.Update req s).2, [CourierCall.Update req])) := rfl
  rw [hl]
  rcases repo.Update req s with ⟨e, s1⟩
  cases e with
  | none => simp
  | some err =>
    by_cases h : errorsIs err .courierErrCourierNotFound = true
    · simp [h, ErrInvalidPhone]
    · by_cases h2 : errorsIs err .courierErrPhoneExists = true
      · simp [h, h2, ErrInvalidPhone]
      · simp [h, h2, ErrInvalidPhone]

/-- C27: for every implementation of the repository, every request and every id:
`CourierUsecase.Create` returns `ErrInvalidName` if the name is empty, and otherwise
`ErrInvalidPhone` if and only if the phone is not an optional leading `+` followed by 10 to
15 decimal digits and nothing else; `Update` returns `ErrInvalidID` if the id is not
positive, then applies the same name and phone checks in that order; `GetOneById` returns
`ErrInvalidID` if the id is not positive; whenever one of these checks fails the repository
is not called, and when the checks of `Create` or `Update` pass it is called exactly once. -/
theorem C27_courier_validation {σ : Type} (repo : CourierPorts σ) (req : CourierModel)
    (id : Int) (s : σ) :
    (req.Name = "" →
        CourierUsecase.Create repo.logged req (s, []) = ((0, some ErrInvalidName), (s, []))) ∧
      (req.Name ≠ "" →
        ((CourierUsecase.Create repo.logged req (s, [])).1.2 = some ErrInvalidPhone ↔
          ¬ phoneShape req.Phone) ∧
        (¬ phoneShape req.Phone →
          CourierUsecase.Create repo.logged req (s, []) =
            ((0, some ErrInvalidPhone), (s, []))) ∧
        (phoneShape req.Phone →
          (CourierUsecase.Create repo.logged req (s, [])).2.2 = [CourierCall.Create req])) ∧
      (req.ID ≤ 0 →
        CourierUsecase.Update repo.logged req (s, []) = (some ErrInvalidID, (s, []))) ∧
      (0 < req.ID → req.Name = "" →
        CourierUsecase.Update repo.logged req (s, []) = (some ErrInvalidName, (s, []))) ∧
      (0 < req.ID → req.Name ≠ "" →
        ((CourierUsecase.Update repo.logged req (s, [])).1 = some ErrInvalidPhone ↔
          ¬ phoneShape req.Phone) ∧
        (¬ phoneShape req.Phone →
          CourierUsecase.Update repo.logged req (s, []) = (some ErrInvalidPhone, (s, []))) ∧
        (phoneShape req.Phone →
          (CourierUsecase.Update repo.logged req (s, [])).2.2 = [CourierCall.Update req])) ∧
      (id ≤ 0 →
        CourierUsecase.GetOneById repo.logged id (s, []) =
          ((none, some ErrInvalidID), (s, []))) := by
  have hbad : ¬ phoneShape req.Phone → validatePhone req.Phone = false := by
    intro h
    cases hv : validatePhone req.Phone with
    | false => rfl
    | true => exact absurd ((validatePhone_iff _).1 hv) h
  refine ⟨?_, ?_, ?_, ?_, ?_, ?_⟩
  · intro h
    simp [CourierUsecase.Create, h]
  · intro hname
    have hinv : ¬ phoneShape req.Phone →
        CourierUsecase.Create repo.logged req (s, []) =
          ((0, some ErrInvalidPhone), (s, [])) := by
      intro h
      simp [CourierUsecase.Create, hname, hbad h]
    refine ⟨⟨?_, fun h => by rw [hinv h]⟩, hinv, ?_⟩
    · intro h hshape
      exact (Create_valid repo req s hname ((validatePhone_iff _).2 hshape)).1 h
    · intro hshape
      exact (Create_valid repo req s hname ((validatePhone_iff _).2 hshape)).2
  · intro h
    simp [CourierUsecase.Update, h]
  · intro hid h
    have hid' : ¬ req.ID ≤ 0 := by omega
    simp [CourierUsecase.Update, hid', h]
  · intro hid hname
    have hid' : ¬ req.ID ≤ 0 := by omega
    have hinv : ¬ phoneShape req.Phone →
        CourierUsecase.Update repo.logged req (s, []) = (some ErrInvalidPhone, (s, [])) := by
      intro h
      simp [CourierUsecase.Update, hid', hname, hbad h]
    refine ⟨⟨?_, fun h => by rw [hinv h]⟩, hinv, ?_⟩
    · intro h hshape
      exact (Update_valid repo req s hid hname ((validatePhone_iff _).2 hshape)).1 h
    · intro hshape
      exact (Update_valid repo req s hid hname ((validatePhone_iff _).2 hshape)).2
  · intro h
    simp [CourierUsecase.GetOneById, h]

/-- C27, instantiated (`TestCourierUsecase_Create`, "invalid phone"): the phone `123` is
refused without a call of the repository, and `+71234567890` passes `validatePhone`. -/
theorem C27_courier_validation_witness :
    CourierUsecase.Create (storeCourierPorts noFaults 1000).logged
        { alice with Name := "Alice", Phone := "123" } (oneCourierStore, []) =
        ((0, some ErrInvalidPhone), (oneCourierStore, [])) ∧
      validatePhone "+71234567890" = true :=
  ⟨((C27_courier_validation (storeCourierPorts noFaults 1000)
      { alice with Name := "Alice", Phone := "123" } 0 oneCourierStore).2.1
      (by decide)).2.1 (fun h => absurd ((validatePhone_iff _).2 h) (by decide)),
    by decide⟩

/-! ## C28 -/

/-- C28, as stated, fails on the body: with no rows in `couriers` the handler over the real
coordinator replies 404, and the body carries the text of the error `Assign` returns, which
is the selector's error wrapped: `get available courier: courier not found`. -/
theorem C28_counterexample :
    emptyStore.couriers = [] ∧
      (DeliveryHandler.Assign (Err.text "bad request")
        (storeDeliveryPorts exampleUsecase 1000 1001 noFaults) (.ok "o1") emptyStore).1 =
        some { code := 404, body := .error "get available courier: courier not found" } ∧
      ResponseBody.error "get available courier: courier not found" ≠
        ResponseBody.error "courier not found" := by
  decide

/-- C28 (amended): with no rows in `couriers`, the assign handler over the real coordinator,
called with any non-empty `order_id` on a store whose transaction begins and whose selector
statement runs (and so fails with `ErrCourierNotFound`), replies with HTTP status 404 and the
JSON body `error: "get available courier: courier not found"`; both tables are left as
they were. -/
theorem C28_no_courier_reply (ErrBadRequest : Err) (uc : DeliveryUsecase) (now dbNow : Int)
    (f : Faults) (orderId : String) (s : Store)
    (hid : orderId ≠ "") (hrows : s.couriers = [])
    (ha : f.acquire = false) (hb : f.begin = false) (hs : f.selector = false) :
    (DeliveryHandler.Assign ErrBadRequest (storeDeliveryPorts uc now dbNow f) (.ok orderId)
        s).1 =
        some { code := 404, body := .error "get available courier: courier not found" } ∧
      (DeliveryHandler.Assign ErrBadRequest (storeDeliveryPorts uc now dbNow f) (.ok orderId)
        s).2.couriers = s.couriers ∧
      (DeliveryHandler.Assign ErrBadRequest (storeDeliveryPorts uc now dbNow f) (.ok orderId)
        s).2.deliveries = s.deliveries := by
  have hav : availableRows s = [] := by simp [availableRows, hrows]
  have hA : uc.Assign now dbNow f orderId s =
      ((none, none, some (Err.wrap "get available courier" Err.courierErrCourierNotFound)),
        rollback s s) := by
    simp [DeliveryUsecase.Assign, TxManager.WithTx, DeliveryUsecase.assignBody,
      CourierRepository.GetAvailableLeastDelivered, ha, hb, hs, hav, firstByLoad]
  have hH : DeliveryHandler.Assign ErrBadRequest (storeDeliveryPorts uc now dbNow f)
      (.ok orderId) s =
      (some { code := 404, body := .error "get available courier: courier not found" },
        rollback s s) := by
    have h1 : (errorsIs (Err.wrap "get available courier" Err.courierErrCourierNotFound)
        Err.courierErrCourierNotFound ||
      errorsIs (Err.wrap "get available courier" Err.courierErrCourierNotFound)
        Err.deliveryErrDeliveryNotFound) = true := by decide
    have h2 : (Err.wrap "get available courier" Err.courierErrCourierNotFound).Error =
        "get available courier: courier not found" := by decide
    simp only [DeliveryHandler.Assign, hid, ↓reduceIte, storeDeliveryPorts, hA, h1, h2]
  rw [hH]
  exact ⟨rfl, rfl, rfl⟩

/-- C28 (amended), instantiated (scenario S2): no courier, order `o1`. -/
theorem C28_no_courier_reply_witness :
    (DeliveryHandler.Assign (Err.text "bad request")
        (storeDeliveryPorts exampleUsecase 1000 1001 noFaults) (.ok "o1") emptyStore).1 =
        some { code := 404, body := .error "get available courier: courier not found" } :=
  (C28_no_courier_reply (Err.text "bad request") exampleUsecase 1000 1001 noFaults "o1"
    emptyStore (by decide) rfl rfl rfl rfl).1

/-! ## Rounding to `float64` -/

theorem pow2_eq (k : Int) : pow2 k = (2 : ℚ) ^ k := by
  unfold pow2
  split_ifs with h
  · obtain ⟨n, rfl⟩ := Int.eq_ofNat_of_zero_le h
    simp
  · have hk : 0 ≤ -k := by omega
    obtain ⟨n, hn⟩ := Int.eq_ofNat_of_zero_le hk
    have : k = -(n : Int) := by omega
    subst this
    simp

theorem pow2_pos (k : Int) : 0 < pow2 k := by
  rw [pow2_eq]
  positivity

theorem pow2_add (a b : Int) : pow2 (a + b) = pow2 a * pow2 b := by
  simp only [pow2_eq]
  exact zpow_add₀ (by norm_num) a b

theorem pow2_le (a b : Int) (h : a ≤ b) : pow2 a ≤ pow2 b := by
  simp only [pow2_eq]
  exact zpow_le_zpow_right₀ (by norm_num) h

theorem pow2_lt (a b : Int) (h : a < b) : pow2 a < pow2 b := by
  simp only [pow2_eq]
  exact zpow_lt_zpow_right₀ (by norm_num) h

theorem log2Fuel_eq : ∀ (fuel n : Nat), n ≤ fuel → log2Fuel fuel n = Nat.log2 n
  | 0, n, h => by
    have : n = 0 := by omega
    subst this
    rw [Nat.log2]
    simp [log2Fuel]
  | fuel + 1, n, h => by
    rw [Nat.log2, log2Fuel]
    by_cases h2 : 2 ≤ n
    · simp only [h2, ↓reduceIte, ge_iff_le]
      rw [log2Fuel_eq fuel (n / 2) (by omega)]
    · simp [h2]

theorem log2_eq (n : Nat) : log2 n = Nat.log2 n :=
  log2Fuel_eq n n (le_refl n)

theorem log2_bounds (x : ℚ) (hx : 0 < x) :
    pow2 ((Nat.log2 x.num.natAbs : Int) - (Nat.log2 x.den : Int) - 1) ≤ x ∧
      x < pow2 ((Nat.log2 x.num.natAbs : Int) - (Nat.log2 x.den : Int) + 1) := by
  have hnum : 0 < x.num := Rat.num_pos.2 hx
  have ha0 : x.num.natAbs ≠ 0 := by omega
  have hb0 : x.den ≠ 0 := x.den_nz
  have hA1 : 2 ^ Nat.log2 x.num.natAbs ≤ x.num.natAbs := by
    rw [Nat.log2_eq_log_two]
    exact Nat.pow_log_le_self 2 ha0
  have hA2 : x.num.natAbs < 2 ^ (Nat.log2 x.num.natAbs + 1) := by
    rw [Nat.log2_eq_log_two]
    exact Nat.lt_pow_succ_log_self (by norm_num) _
  have hB1 : 2 ^ Nat.log2 x.den ≤ x.den := by
    rw [Nat.log2_eq_log_two]
    exact Nat.pow_log_le_self 2 hb0
  have hB2 : x.den < 2 ^ (Nat.log2 x.den + 1) := by
    rw [Nat.log2_eq_log_two]
    exact Nat.lt_pow_succ_log_self (by norm_num) _
  have hx' : x = (x.num.natAbs : ℚ) / (x.den : ℚ) := by
    have h1 : ((x.num.natAbs : Nat) : ℚ) = (x.num : ℚ) := by
      rw [Nat.cast_natAbs, abs_of_pos hnum]
    rw [h1]
    exact (Rat.num_div_den x).symm
  generalize hla : Nat.log2 x.num.natAbs = la at hA1 hA2 ⊢
  generalize hlb : Nat.log2 x.den = lb at hB1 hB2 ⊢
  have qA1 : (2 : ℚ) ^ la ≤ (x.num.natAbs : ℚ) := by exact_mod_cast hA1
  have qA2 : (x.num.natAbs : ℚ) < 2 * (2 : ℚ) ^ la := by
    have : ((x.num.natAbs : Nat) : ℚ) < ((2 ^ (la + 1) : Nat) : ℚ) := by exact_mod_cast hA2
    rw [pow_succ] at this
    push_cast at this
    linarith
  have qB1 : (2 : ℚ) ^ lb ≤ (x.den : ℚ) := by exact_mod_cast hB1
  have qB2 : (x.den : ℚ) < 2 * (2 : ℚ) ^ lb := by
    have : ((x.den : Nat) : ℚ) < ((2 ^ (lb + 1) : Nat) : ℚ) := by exact_mod_cast hB2
    rw [pow_succ] at this
    push_cast at this
    linarith
  have pA : (0 : ℚ) < (2 : ℚ) ^ la := by positivity
  have pB : (0 : ℚ) < (2 : ℚ) ^ lb := by positivity
  have pb : (0 : ℚ) < (x.den : ℚ) := by linarith
  have e1 : pow2 ((la : Int) - (lb : Int) - 1) = (2 : ℚ) ^ la / (2 * (2 : ℚ) ^ lb) := by
    rw [pow2_eq, zpow_sub₀ (by norm_num), zpow_sub₀ (by norm_num)]
    simp only [zpow_natCast, zpow_one]
    field_simp
    ring
  have e2 : pow2 ((la : Int) - (lb : Int) + 1) = 2 * (2 : ℚ) ^ la / (2 : ℚ) ^ lb := by
    rw [pow2_eq, zpow_add₀ (by norm_num), zpow_sub₀ (by norm_num)]
    simp only [zpow_natCast, zpow_one]
    field_simp
    ring
  rw [e1, e2]
  constructor
  · rw [hx', div_le_div_iff₀ (by positivity) pb]
    nlinarith
  · rw [hx', div_lt_div_iff₀ pb pB]
    nlinarith

theorem ulpExponent_spec (x : ℚ) (hx : 0 < x) :
    -1074 ≤ ulpExponent x ∧ x < pow2 (ulpExponent x + 53) ∧
      (-1074 < ulpExponent x → pow2 (ulpExponent x + 52) ≤ x) := by
  obtain ⟨h1, h2⟩ := log2_bounds x hx
  unfold ulpExponent
  simp only [log2_eq]
  generalize (Nat.log2 x.num.natAbs : Int) - (Nat.log2 x.den : Int) = L at h1 h2 ⊢
  refine ⟨le_max_right _ _, ?_, ?_⟩
  · by_cases hc : x < pow2 L
    · simp only [hc, ↓reduceIte]
      refine lt_of_lt_of_le hc (pow2_le _ _ ?_)
      have := le_max_left (L - 53) (-1074)
      omega
    · simp only [hc, ↓reduceIte]
      refine lt_of_lt_of_le h2 (pow2_le _ _ ?_)
      have := le_max_left (L - 52) (-1074)
      omega
  · by_cases hc : x < pow2 L
    · simp only [hc, ↓reduceIte]
      intro hk
      have : max (L - 53) (-1074) = L - 53 := by
        rcases max_cases (L - 53) (-1074) with ⟨h, _⟩ | ⟨h, _⟩
        · exact h
        · rw [h] at hk
          exact absurd hk (lt_irrefl _)
      rw [this]
      have e : L - 53 + 52 = L - 1 := by ring
      rw [e]
      exact h1
    · simp only [hc, ↓reduceIte]
      intro hk
      have : max (L - 52) (-1074) = L - 52 := by
        rcases max_cases (L - 52) (-1074) with ⟨h, _⟩ | ⟨h, _⟩
        · exact h
        · rw [h] at hk
          exact absurd hk (lt_irrefl _)
      rw [this]
      have e : L - 52 + 52 = L := by ring
      rw [e]
      exact not_lt.1 hc

theorem roundHalfEven_spec (y : ℚ) :
    |(roundHalfEven y : ℚ) - y| ≤ 1 / 2 ∧
      (∀ n : Int, (n : ℚ) ≤ y → n ≤ roundHalfEven y) ∧
      (∀ n : Int, y ≤ (n : ℚ) → roundHalfEven y ≤ n) := by
  have h1 : ((⌊y⌋ : Int) : ℚ) ≤ y := Int.floor_le y
  have h2 : y < ((⌊y⌋ : Int) : ℚ) + 1 := Int.lt_floor_add_one y
  have hfl : ∀ n : Int, (n : ℚ) ≤ y → n ≤ ⌊y⌋ := fun n hn => Int.le_floor.2 hn
  have hup : ∀ n : Int, y ≤ (n : ℚ) → ((⌊y⌋ : Int) : ℚ) < y → ⌊y⌋ + 1 ≤ n := by
    intro n hn hlt
    have : ((⌊y⌋ : Int) : ℚ) < (n : ℚ) := lt_of_lt_of_le hlt hn
    have : ⌊y⌋ < n := by exact_mod_cast this
    omega
  have hle : ∀ n : Int, y ≤ (n : ℚ) → ⌊y⌋ ≤ n := by
    intro n hn
    have : ((⌊y⌋ : Int) : ℚ) ≤ (n : ℚ) := le_trans h1 hn
    exact_mod_cast this
  unfold roundHalfEven
  by_cases c1 : y - ⌊y⌋ < 1 / 2
  · simp only [c1, ↓reduceIte]
    refine ⟨?_, hfl, hle⟩
    rw [abs_le]
    constructor <;> linarith
  · simp only [c1, ↓reduceIte]
    by_cases c2 : 1 / 2 < y - ⌊y⌋
    · simp only [c2, ↓reduceIte]
      refine ⟨?_, fun n hn => le_trans (hfl n hn) (by omega), fun n hn => hup n hn (by linarith)⟩
      rw [abs_le]
      push_cast
      constructor <;> linarith
    · simp only [c2, ↓reduceIte]
      have heq : y - ⌊y⌋ = 1 / 2 := le_antisymm (not_lt.1 c2) (not_lt.1 c1)
      by_cases c3 : ⌊y⌋ % 2 = 0
      · simp only [c3, ↓reduceIte]
        refine ⟨?_, hfl, hle⟩
        rw [abs_le]
        constructor <;> linarith
      · simp only [c3, ↓reduceIte]
        refine ⟨?_, fun n hn => le_trans (hfl n hn) (by omega),
          fun n hn => hup n hn (by linarith)⟩
        rw [abs_le]
        push_cast
        constructor <;> linarith

/-- The finite value that rounding a positive rational produces, before the overflow test. -/
theorem nearest_spec (x : ℚ) (hx : 0 < x) :
    0 ≤ (roundHalfEven (x / pow2 (ulpExponent x)) : ℚ) * pow2 (ulpExponent x) ∧
      (∀ a, representable a → a ≤ x →
        a ≤ (roundHalfEven (x / pow2 (ulpExponent x)) : ℚ) * pow2 (ulpExponent x)) ∧
      (∀ a, representable a → x ≤ a →
        (roundHalfEven (x / pow2 (ulpExponent x)) : ℚ) * pow2 (ulpExponent x) ≤ a) ∧
      ((roundHalfEven (x / pow2 (ulpExponent x)) : ℚ) * pow2 (ulpExponent x) < pow2 1024 →
        representable
          ((roundHalfEven (x / pow2 (ulpExponent x)) : ℚ) * pow2 (ulpExponent x))) ∧
      |(roundHalfEven (x / pow2 (ulpExponent x)) : ℚ) * pow2 (ulpExponent x) - x| ≤
        x * pow2 (-53) + pow2 (-1075) ∧
      (pow2 (-1022) ≤ x →
        |(roundHalfEven (x / pow2 (ulpExponent x)) : ℚ) * pow2 (ulpExponent x) - x| ≤
          x * pow2 (-53)) := by
  obtain ⟨k1, k3, k2⟩ := ulpExponent_spec x hx
  generalize ulpExponent x = k at k1 k2 k3 ⊢
  obtain ⟨r1, r2, r3⟩ := roundHalfEven_spec (x / pow2 k)
  generalize hn : roundHalfEven (x / pow2 k) = n at r1 r2 r3 ⊢
  have pk : 0 < pow2 k := pow2_pos k
  have hn0 : 0 ≤ n := r2 0 (by
    push_cast
    exact div_nonneg (le_of_lt hx) (le_of_lt pk))
  have hn0q : (0 : ℚ) ≤ (n : ℚ) := by exact_mod_cast hn0
  have P53 : pow2 (k + 53) = (2 : ℚ) ^ 53 * pow2 k := by
    rw [add_comm, pow2_add]
    congr 1
  have P52 : pow2 (k + 52) = (2 : ℚ) ^ 52 * pow2 k := by
    rw [add_comm, pow2_add]
    congr 1
  have c53 : (((2 : Int) ^ 53 : Int) : ℚ) = (2 : ℚ) ^ 53 := by norm_num
  have c52 : (((2 : Int) ^ 52 : Int) : ℚ) = (2 : ℚ) ^ 52 := by norm_num
  have hn53 : n ≤ 2 ^ 53 := r3 (2 ^ 53) (by
    rw [c53, div_le_iff₀ pk]
    linarith)
  have hn52 : -1074 < k → (2 : Int) ^ 52 ≤ n := by
    intro hk
    refine r2 (2 ^ 52) ?_
    rw [c52, le_div_iff₀ pk]
    have := k2 hk
    linarith
  -- a representable number above the grid step is a multiple of it
  have hmult : ∀ (m e : Int), k ≤ e →
      ∃ N : Int, (N : ℚ) = (m : ℚ) * (2 : ℚ) ^ e / pow2 k := by
    intro m e hke
    obtain ⟨j, hj⟩ := Int.eq_ofNat_of_zero_le (show 0 ≤ e - k by omega)
    refine ⟨m * 2 ^ j, ?_⟩
    have he : e = k + (j : Int) := by omega
    rw [he, pow2_eq, zpow_add₀ (by norm_num)]
    push_cast
    field_simp
    ring
  -- a positive representable number below the grid step is below 2^(k+52)
  have hsmall : ∀ (m e : Int), |m| < 2 ^ 53 → e < k →
      (m : ℚ) * (2 : ℚ) ^ e < pow2 (k + 52) := by
    intro m e hm hek
    have hm' : (m : ℚ) < 2 ^ 53 := by
      have : m < 2 ^ 53 := lt_of_le_of_lt (le_abs_self m) hm
      exact_mod_cast this
    have pe : (0 : ℚ) < (2 : ℚ) ^ e := by positivity
    calc (m : ℚ) * (2 : ℚ) ^ e < 2 ^ 53 * (2 : ℚ) ^ e := by nlinarith
      _ = pow2 (53 + e) := by
        rw [pow2_add]
        simp only [pow2_eq]
        norm_num
      _ ≤ pow2 (k + 52) := pow2_le _ _ (by omega)
  have hsplit : (n : ℚ) * pow2 k - x = ((n : ℚ) - x / pow2 k) * pow2 k := by
    field_simp
  have hhalf : |(n : ℚ) * pow2 k - x| ≤ 1 / 2 * pow2 k := by
    rw [hsplit, abs_mul, abs_of_pos pk]
    exact mul_le_mul_of_nonneg_right r1 (le_of_lt pk)
  have hnormal : pow2 (k + 52) ≤ x → 1 / 2 * pow2 k ≤ x * pow2 (-53) := by
    intro h
    rw [P52] at h
    have e53 : pow2 (-53) = 1 / 2 ^ 53 := by rw [pow2_eq]; norm_num
    rw [e53]
    have h2 : (2 : ℚ) ^ 53 = 2 * 2 ^ 52 := by norm_num
    rw [h2]
    field_simp
    rw [div_le_div_iff₀ (by norm_num) (by norm_num)]
    nlinarith
  refine ⟨mul_nonneg hn0q (le_of_lt pk), ?_, ?_, ?_, ?_, ?_⟩
  · rintro a ⟨m, e, hm, he1, _, rfl⟩ hax
    by_cases hke : k ≤ e
    · obtain ⟨N, hN⟩ := hmult m e hke
      have : N ≤ n := r2 N (by
        rw [hN]
        exact div_le_div_of_nonneg_right hax (le_of_lt pk))
      have hq : (N : ℚ) ≤ (n : ℚ) := by exact_mod_cast this
      have : (m : ℚ) * (2 : ℚ) ^ e = (N : ℚ) * pow2 k := by
        rw [hN]
        field_simp
      rw [this]
      exact mul_le_mul_of_nonneg_right hq (le_of_lt pk)
    · have hek : e < k := not_le.1 hke
      have hk : -1074 < k := by omega
      have h52 : ((2 : Int) ^ 52 : ℚ) ≤ (n : ℚ) := by exact_mod_cast hn52 hk
      have : pow2 (k + 52) ≤ (n : ℚ) * pow2 k := by
        rw [add_comm, pow2_add]
        have e52 : pow2 52 = 2 ^ 52 := by rw [pow2_eq]; norm_num
        rw [e52]
        push_cast at h52
        exact mul_le_mul_of_nonneg_right h52 (le_of_lt pk)
      exact le_trans (le_of_lt (hsmall m e hm hek)) this
  · rintro a ⟨m, e, hm, he1, _, rfl⟩ hxa
    by_cases hke : k ≤ e
    · obtain ⟨N, hN⟩ := hmult m e hke
      have : n ≤ N := r3 N (by
        rw [hN]
        exact div_le_div_of_nonneg_right hxa (le_of_lt pk))
      have hq : (n : ℚ) ≤ (N : ℚ) := by exact_mod_cast this
      have : (m : ℚ) * (2 : ℚ) ^ e = (N : ℚ) * pow2 k := by
        rw [hN]
        field_simp
      rw [this]
      exact mul_le_mul_of_nonneg_right hq (le_of_lt pk)
    · have hek : e < k := not_le.1 hke
      have hk : -1074 < k := by omega
      have := hsmall m e hm hek
      have := k2 hk
      linarith
  · intro hlt
    by_cases h53 : n = 2 ^ 53
    · subst h53
      have hk : k + 53 < 1024 := by
        by_contra hge
        have := pow2_le 1024 (k + 53) (by omega)
        rw [add_comm k 53, pow2_add] at this
        have e53 : pow2 53 = 2 ^ 53 := by rw [pow2_eq]; norm_num
        rw [e53] at this
        push_cast at hlt
        linarith
      refine ⟨2 ^ 52, k + 1, by norm_num, by omega, by omega, ?_⟩
      rw [zpow_add₀ (by norm_num), pow2_eq]
      push_cast
      ring
    · have hlt53 : n < 2 ^ 53 := lt_of_le_of_ne hn53 h53
      have hk : k ≤ 971 := by
        by_contra hgt
        have hk' : -1074 < k := by omega
        have h52 : ((2 : Int) ^ 52 : ℚ) ≤ (n : ℚ) := by exact_mod_cast hn52 hk'
        have h1 := pow2_le 1024 (k + 52) (by omega)
        rw [add_comm k 52, pow2_add] at h1
        have e52 : pow2 52 = 2 ^ 52 := by rw [pow2_eq]; norm_num
        rw [e52] at h1
        push_cast at h52
        have := mul_le_mul_of_nonneg_right h52 (le_of_lt pk)
        linarith
      refine ⟨n, k, ?_, k1, hk, by rw [pow2_eq]⟩
      rw [abs_of_nonneg hn0]
      exact hlt53
  · refine le_trans hhalf ?_
    by_cases hk : -1074 < k
    · have := hnormal (k2 hk)
      have p := pow2_pos (-1075)
      linarith
    · have hk' : k = -1074 := by omega
      subst hk'
      have e : (1 : ℚ) / 2 * pow2 (-1074) = pow2 (-1075) := by
        have := pow2_add (-1) (-1074)
        have e1 : pow2 (-1) = 1 / 2 := by rw [pow2_eq]; norm_num
        rw [e1] at this
        rw [← this]
        norm_num
      rw [e]
      have := mul_nonneg (le_of_lt hx) (le_of_lt (pow2_pos (-53)))
      linarith
  · intro hx22
    refine le_trans hhalf (hnormal ?_)
    by_cases hk : -1074 < k
    · exact k2 hk
    · have hk' : k = -1074 := by omega
      subst hk'
      exact hx22

theorem representable_lt (a : ℚ) (h : representable a) : a < pow2 1024 := by
  obtain ⟨m, e, hm, _, he, rfl⟩ := h
  have hm' : (m : ℚ) < 2 ^ 53 := by
    have : m < 2 ^ 53 := lt_of_le_of_lt (le_abs_self m) hm
    exact_mod_cast this
  have pe : (0 : ℚ) < (2 : ℚ) ^ e := by positivity
  have h1 : (2 : ℚ) ^ e ≤ (2 : ℚ) ^ (971 : Int) := zpow_le_zpow_right₀ (by norm_num) he
  have h2 : pow2 1024 = 2 ^ 53 * (2 : ℚ) ^ (971 : Int) := by
    rw [pow2_eq, ← zpow_natCast, ← zpow_add₀ (by norm_num)]
    norm_num
  rw [h2]
  have p971 : (0 : ℚ) < (2 : ℚ) ^ (971 : Int) := by positivity
  nlinarith

theorem representable_int (n : Int) (h : |n| ≤ 2 ^ 53) : representable (n : ℚ) := by
  by_cases h1 : |n| < 2 ^ 53
  · exact ⟨n, 0, h1, by norm_num, by norm_num, by simp⟩
  · have h2 : |n| = 2 ^ 53 := le_antisymm h (not_lt.1 h1)
    rcases abs_cases n with ⟨h3, _⟩ | ⟨h3, _⟩
    · refine ⟨2 ^ 52, 1, by norm_num, by norm_num, by norm_num, ?_⟩
      have : n = 2 ^ 53 := by omega
      subst this
      norm_num
    · refine ⟨-2 ^ 52, 1, by norm_num, by norm_num, by norm_num, ?_⟩
      have : n = -2 ^ 53 := by omega
      subst this
      norm_num

theorem representable_zero : representable 0 := by
  simpa using representable_int 0 (by norm_num)

theorem representable_one : representable 1 := by
  simpa using representable_int 1 (by norm_num)

/-- Rounding a rational that is not negative: the result is positive infinity, and then the
rational is above every `float64`, or it is a finite `float64` that is not on the other side
of any `float64` than the rational, and is within the rounding error of it. -/
theorem round_nonneg (x : ℚ) (hx : 0 ≤ x) :
    (Float64.round x = .inf false ∧ ∀ a, representable a → a < x) ∨
      ∃ r, Float64.round x = .finite r ∧ 0 ≤ r ∧ representable r ∧
        (∀ a, representable a → a ≤ x → a ≤ r) ∧ (∀ a, representable a → x ≤ a → r ≤ a) ∧
        |r - x| ≤ x * pow2 (-53) + pow2 (-1075) ∧
        (pow2 (-1022) ≤ x → |r - x| ≤ x * pow2 (-53)) := by
  by_cases h0 : x = 0
  · subst h0
    right
    refine ⟨0, by simp [Float64.round], le_refl _, representable_zero, fun a _ h => h,
      fun a _ h => h, ?_, ?_⟩
    · simp only [sub_zero, abs_zero, zero_mul, zero_add]
      exact le_of_lt (pow2_pos _)
    · simp
  · have hpos : 0 < x := lt_of_le_of_ne hx (Ne.symm h0)
    obtain ⟨n1, n2, n3, n4, n5, n6⟩ := nearest_spec x hpos
    have hnl : ¬ x < 0 := not_lt.2 hx
    unfold Float64.round
    simp only [h0, ↓reduceIte, abs_of_pos hpos, hnl, decide_False]
    generalize (roundHalfEven (x / pow2 (ulpExponent x)) : ℚ) * pow2 (ulpExponent x) = r
      at n1 n2 n3 n4 n5 n6 ⊢
    by_cases hov : pow2 1024 ≤ r
    · left
      simp only [hov, ↓reduceIte, true_and]
      intro a ha
      by_contra hle
      have := n3 a ha (not_lt.1 hle)
      have := representable_lt a ha
      linarith
    · right
      simp only [hov, ↓reduceIte]
      exact ⟨r, rfl, n1, n4 (not_le.1 hov), n2, n3, n5, n6⟩

theorem round_exact (x : ℚ) (hx : 0 ≤ x) (h : representable x) :
    Float64.round x = .finite x := by
  rcases round_nonneg x hx with ⟨_, hall⟩ | ⟨r, hr, _, _, lo, hi, _, _⟩
  · exact absurd (hall x h) (lt_irrefl _)
  · rw [hr, le_antisymm (hi x h (le_refl _)) (lo x h (le_refl _))]

theorem round_isNonneg (x : ℚ) (hx : 0 ≤ x) : (Float64.round x).nonneg := by
  rcases round_nonneg x hx with ⟨h, _⟩ | ⟨r, hr, h0, hrep, _⟩
  · exact Or.inl h
  · exact Or.inr ⟨r, hr, h0, hrep⟩

/-- Rounding keeps a rational on its side of a `float64`. -/
theorem round_ge (x a : ℚ) (hx : 0 ≤ x) (ha : representable a) (h : a ≤ x) :
    (Float64.finite a).le (Float64.round x) = true := by
  rcases round_nonneg x hx with ⟨hr, _⟩ | ⟨r, hr, _, _, lo, _⟩
  · rw [hr]
    rfl
  · rw [hr]
    simpa [Float64.le] using lo a ha h

theorem round_le (x a : ℚ) (hx : 0 ≤ x) (ha : representable a) (h : x ≤ a) :
    (Float64.round x).le (Float64.finite a) = true := by
  rcases round_nonneg x hx with ⟨_, hall⟩ | ⟨r, hr, _, _, _, hi, _⟩
  · exact absurd (hall a ha) (not_lt.2 h)
  · rw [hr]
    simpa [Float64.le] using hi a ha h

/-! ## Order and arithmetic of `float64` values that are not negative -/

theorem Float64.nonneg_le_refl (x : Float64) (hx : x.nonneg) : x.le x = true := by
  rcases hx with rfl | ⟨q, rfl, _, _⟩
  · rfl
  · simp [Float64.le]

theorem Float64.nonneg_zero_le (x : Float64) (hx : x.nonneg) :
    (Float64.finite 0).le x = true := by
  rcases hx with rfl | ⟨q, rfl, h, _⟩
  · rfl
  · simpa [Float64.le] using h

theorem Float64.nonneg_of_le (x y : Float64) (hx : x.nonneg) (h : x.le y = true)
    (hy : y = .inf false ∨ ∃ q, y = .finite q ∧ representable q) : y.nonneg := by
  rcases hy with rfl | ⟨q, rfl, hq⟩
  · exact Or.inl rfl
  · rcases hx with rfl | ⟨p, rfl, hp, _⟩
    · simp [Float64.le] at h
    · simp only [Float64.le, decide_eq_true_eq] at h
      exact Or.inr ⟨q, rfl, le_trans hp h, hq⟩

theorem Float64.nonneg_le_trans (x y z : Float64) (hx : x.nonneg) (hy : y.nonneg)
    (hz : z.nonneg) (h1 : x.le y = true) (h2 : y.le z = true) : x.le z = true := by
  rcases hx with rfl | ⟨a, rfl, _, _⟩ <;> rcases hy with rfl | ⟨b, rfl, _, _⟩ <;>
    rcases hz with rfl | ⟨c, rfl, _, _⟩ <;> simp [Float64.le] at h1 h2 ⊢
  exact le_trans h1 h2

theorem Float64.nonneg_not_lt (x y : Float64) (hx : x.nonneg) (hy : y.nonneg)
    (h : x.lt y = false) : y.le x = true := by
  rcases hx with rfl | ⟨a, rfl, _, _⟩ <;> rcases hy with rfl | ⟨b, rfl, _, _⟩ <;>
    simp [Float64.le, Float64.lt] at h ⊢
  exact h

theorem Float64.nonneg_lt_le (x y : Float64) (hx : x.nonneg) (hy : y.nonneg)
    (h : x.lt y = true) : x.le y = true := by
  rcases hx with rfl | ⟨a, rfl, _, _⟩ <;> rcases hy with rfl | ⟨b, rfl, _, _⟩ <;>
    simp [Float64.le, Float64.lt] at h ⊢
  exact le_of_lt h

theorem Float64.add_nonneg (t p : Float64) (ht : t.nonneg) (hp : p.nonneg) :
    (t.add p).nonneg ∧ t.le (t.add p) = true ∧ p.le (t.add p) = true := by
  rcases ht with rfl | ⟨a, rfl, ha, hra⟩ <;> rcases hp with rfl | ⟨b, rfl, hb, hrb⟩
  · exact ⟨Or.inl rfl, rfl, rfl⟩
  · exact ⟨Or.inl rfl, rfl, rfl⟩
  · exact ⟨Or.inl rfl, rfl, rfl⟩
  · simp only [Float64.add]
    exact ⟨round_isNonneg _ (by linarith), round_ge _ a (by linarith) hra (by linarith),
      round_ge _ b (by linarith) hrb (by linarith)⟩

theorem Float64.sub_one_nonneg (t : Float64) (ht : t.nonneg)
    (h1 : (Float64.finite 1).le t = true) :
    (t.sub (.finite 1)).nonneg ∧ (t.sub (.finite 1)).le t = true := by
  rcases ht with rfl | ⟨a, rfl, ha, hra⟩
  · exact ⟨Or.inl rfl, rfl⟩
  · simp only [Float64.le, decide_eq_true_eq] at h1
    simp only [Float64.sub]
    exact ⟨round_isNonneg _ (by linarith), round_le _ a (by linarith) hra (by linarith)⟩

theorem Float64.mul_pos_nonneg (ev : ℚ) (rate : Float64) (hev : 0 < ev)
    (hrate : (Float64.finite 0).lt rate = true) :
    ((Float64.finite ev).mul rate).nonneg := by
  cases rate with
  | nan => simp [Float64.lt] at hrate
  | inf b =>
    cases b with
    | true => simp [Float64.lt] at hrate
    | false =>
      have h1 : ¬ ev = 0 := ne_of_gt hev
      have h2 : ¬ ev < 0 := not_lt.2 (le_of_lt hev)
      simp [Float64.mul, h1, h2, Float64.nonneg]
  | finite r =>
    simp only [Float64.lt, decide_eq_true_eq] at hrate
    simp only [Float64.mul]
    exact round_isNonneg _ (le_of_lt (mul_pos hev hrate))

theorem Float64.Min_nonneg (c s : Float64) (hc : c.nonneg) (hs : s.nonneg) :
    (Float64.Min c s).nonneg ∧ (Float64.Min c s).le c = true ∧
      (Float64.Min c s).le s = true ∧
      (∀ t : Float64, t.le c = true → t.le s = true → t.le (Float64.Min c s) = true) := by
  have hc1 : c ≠ .inf true ∧ c ≠ .nan := by
    rcases hc with rfl | ⟨a, rfl, _, _⟩ <;> simp
  have hs1 : s ≠ .inf true ∧ s ≠ .nan := by
    rcases hs with rfl | ⟨a, rfl, _, _⟩ <;> simp
  unfold Float64.Min
  simp only [hc1.1, hs1.1, hc1.2, hs1.2, or_self, ↓reduceIte]
  by_cases hlt : c.lt s = true
  · simp only [hlt, ↓reduceIte]
    exact ⟨hc, Float64.nonneg_le_refl c hc, Float64.nonneg_lt_le c s hc hs hlt,
      fun t h1 _ => h1⟩
  · have hlt' : c.lt s = false := by simpa using hlt
    simp only [hlt', Bool.false_eq_true, ↓reduceIte]
    exact ⟨hs, Float64.nonneg_not_lt c s hc hs hlt', Float64.nonneg_le_refl s hs,
      fun t _ h2 => h2⟩

/-! ## The rate limiter: what one `Allow` does -/

theorem cleanupLocked_fields (l : TokenBucketLimiter) (now : Int) :
    (l.cleanupLocked now).rate = l.rate ∧ (l.cleanupLocked now).capacity = l.capacity ∧
      (l.cleanupLocked now).ttl = l.ttl ∧
      (l.cleanupLocked now).cleanupInterval = l.cleanupInterval := by
  unfold TokenBucketLimiter.cleanupLocked
  split_ifs <;> exact ⟨rfl, rfl, rfl, rfl⟩

theorem cleanupLocked_some (l : TokenBucketLimiter) (now : Int) (key : String) (e : bucket)
    (h : (l.cleanupLocked now).buckets key = some e) :
    l.buckets key = some e ∧
      (now + wrapInt64 (-l.ttl) ≤ e.lastSeen ∨ l.lastCleanup = 0 ∨
        timeSub now l.lastCleanup < l.cleanupInterval) := by
  unfold TokenBucketLimiter.cleanupLocked at h
  split_ifs at h with h1 h2
  · exact ⟨h, Or.inr (Or.inl h1)⟩
  · exact ⟨h, Or.inr (Or.inr h2)⟩
  · simp only at h
    cases hb : l.buckets key with
    | none => simp [hb] at h
    | some e2 =>
      rw [hb] at h
      simp only at h
      split_ifs at h with h3
      simp only [Option.some.injEq] at h
      subst h
      exact ⟨rfl, Or.inl (not_lt.1 h3)⟩

theorem cleanupLocked_keep (l : TokenBucketLimiter) (now : Int) (key : String) (e : bucket)
    (h : l.buckets key = some e) (hk : now + wrapInt64 (-l.ttl) ≤ e.lastSeen) :
    (l.cleanupLocked now).buckets key = some e := by
  unfold TokenBucketLimiter.cleanupLocked
  split_ifs with h1 h2
  · exact h
  · exact h
  · simp only [h]
    simp [not_lt.2 hk]

theorem cleanupLocked_none (l : TokenBucketLimiter) (now : Int) (key : String)
    (h : l.buckets key = none) : (l.cleanupLocked now).buckets key = none := by
  unfold TokenBucketLimiter.cleanupLocked
  split_ifs with h1 h2
  · exact h
  · exact h
  · simp [h]

theorem refillLocked_cleanup (l : TokenBucketLimiter) (t now : Int) (e : bucket) :
    (l.cleanupLocked t).refillLocked e now = l.refillLocked e now := by
  obtain ⟨h1, h2, _, _⟩ := cleanupLocked_fields l t
  unfold TokenBucketLimiter.refillLocked
  rw [h1, h2]

theorem Allow_fields (l : TokenBucketLimiter) (now : Int) (key : String) :
    (l.Allow now key).2.rate = l.rate ∧ (l.Allow now key).2.capacity = l.capacity ∧
      (l.Allow now key).2.ttl = l.ttl ∧
      (l.Allow now key).2.cleanupInterval = l.cleanupInterval := by
  obtain ⟨h1, h2, h3, h4⟩ := cleanupLocked_fields l now
  unfold TokenBucketLimiter.Allow
  cases (l.cleanupLocked now).buckets key with
  | none => exact ⟨h1, h2, h3, h4⟩
  | some e =>
    simp only
    split_ifs <;> exact ⟨h1, h2, h3, h4⟩

theorem Allow_other (l : TokenBucketLimiter) (now : Int) (key k : String) (hk : k ≠ key) :
    (l.Allow now key).2.buckets k = (l.cleanupLocked now).buckets k := by
  unfold TokenBucketLimiter.Allow
  cases (l.cleanupLocked now).buckets key with
  | none => simp [TokenBucketLimiter.store, hk]
  | some e =>
    simp only
    split_ifs <;> simp [TokenBucketLimiter.store, hk]

theorem Allow_absent (l : TokenBucketLimiter) (now : Int) (key : String)
    (h : (l.cleanupLocked now).buckets key = none) :
    (l.Allow now key).1 = true ∧
      (l.Allow now key).2.buckets key =
        some { tokens := l.capacity.sub (.finite 1), last := now, lastSeen := now } ∧
      (l.Allow now key).2.lastCleanup = (l.cleanupLocked now).lastCleanup := by
  obtain ⟨_, h2, _, _⟩ := cleanupLocked_fields l now
  unfold TokenBucketLimiter.Allow
  rw [h]
  simp [TokenBucketLimiter.store, h2]

theorem Allow_present (l : TokenBucketLimiter) (now : Int) (key : String) (e : bucket)
    (h : (l.cleanupLocked now).buckets key = some e) :
    ((l.refillLocked e now).tokens.lt (.finite 1) = true →
        (l.Allow now key).1 = false ∧
          (l.Allow now key).2.buckets key =
            some { l.refillLocked e now with lastSeen := now }) ∧
      ((l.refillLocked e now).tokens.lt (.finite 1) = false →
        (l.Allow now key).1 = true ∧
          (l.Allow now key).2.buckets key =
            some { l.refillLocked e now with
                   tokens := (l.refillLocked e now).tokens.sub (.finite 1),
                   lastSeen := now }) ∧
      (l.Allow now key).2.lastCleanup = (l.cleanupLocked now).lastCleanup := by
  unfold TokenBucketLimiter.Allow
  rw [h]
  simp only [refillLocked_cleanup]
  refine ⟨?_, ?_, ?_⟩
  · intro hlt
    simp [hlt, TokenBucketLimiter.store]
  · intro hge
    simp [hge, TokenBucketLimiter.store]
  · split_ifs <;> rfl

/-! ## Durations in seconds -/

theorem timeSub_pos (t u : Int) (h : u < t) :
    0 < timeSub t u ∧ timeSub t u ≤ maxDuration ∧ timeSub t u ≤ t - u := by
  unfold timeSub maxDuration minDuration
  split_ifs <;> omega

theorem pow2_neg53_bounds : 0 < pow2 (-53) ∧ pow2 (-53) < 1 := by
  refine ⟨pow2_pos _, ?_⟩
  have := pow2_lt (-53) 0 (by norm_num)
  rwa [show pow2 0 = 1 by rw [pow2_eq]; norm_num] at this

theorem durationSeconds_spec (d : Int) (h0 : 0 < d) (h1 : d ≤ maxDuration) :
    ∃ ev, durationSeconds d = .finite ev ∧ 0 < ev ∧ representable ev ∧
      exactSeconds d * (1 - pow2 (-53)) ^ 2 ≤ ev ∧
      ev ≤ exactSeconds d * (1 + pow2 (-53)) ^ 2 := by
  obtain ⟨u0, u1⟩ := pow2_neg53_bounds
  generalize hu : pow2 (-53) = u at u0 u1 ⊢
  have hs : d.tdiv 1000000000 = d / 1000000000 :=
    Int.tdiv_eq_ediv (by omega) (by norm_num)
  have hn : d.tmod 1000000000 = d % 1000000000 :=
    Int.tmod_eq_emod (by omega) (by norm_num)
  have hd : d = 1000000000 * (d / 1000000000) + d % 1000000000 :=
    (Int.ediv_add_emod d 1000000000).symm
  have hn0 : 0 ≤ d % 1000000000 := Int.emod_nonneg _ (by norm_num)
  have hn1 : d % 1000000000 < 1000000000 := Int.emod_lt_of_pos _ (by norm_num)
  unfold maxDuration at h1
  have hs0 : 0 ≤ d / 1000000000 := by omega
  have hs1 : d / 1000000000 ≤ 9223372036 := by omega
  unfold durationSeconds
  rw [hs, hn]
  generalize d / 1000000000 = s at hd hs0 hs1 ⊢
  generalize d % 1000000000 = n at hd hn0 hn1 ⊢
  have hsq : (0 : ℚ) ≤ (s : ℚ) := by exact_mod_cast hs0
  have hnq : (0 : ℚ) ≤ (n : ℚ) := by exact_mod_cast hn0
  have hnq1 : (n : ℚ) < 1000000000 := by exact_mod_cast hn1
  have hsq1 : (s : ℚ) ≤ 9223372036 := by exact_mod_cast hs1
  have es : Float64.ofInt s = .finite (s : ℚ) :=
    round_exact _ hsq (representable_int s (by rw [abs_of_nonneg hs0]; omega))
  have en : Float64.ofInt n = .finite (n : ℚ) :=
    round_exact _ hnq (representable_int n (by rw [abs_of_nonneg hn0]; omega))
  rw [es, en]
  have hx0 : (0 : ℚ) ≤ (n : ℚ) / 1000000000 := by positivity
  have hx1 : (n : ℚ) / 1000000000 ≤ 1 := by
    rw [div_le_one (by norm_num)]
    linarith
  have ediv : (Float64.finite (n : ℚ)).div (.finite 1000000000) =
      Float64.round ((n : ℚ) / 1000000000) := by
    simp [Float64.div]
  rw [ediv]
  have hp30 : pow2 (-30) ≤ 1 / 1000000000 := by
    rw [pow2_eq]
    norm_num
  have hrep30 : representable (pow2 (-30)) :=
    ⟨1, -30, by norm_num, by norm_num, by norm_num, by rw [pow2_eq]; norm_num⟩
  have hsub : pow2 (-1022) ≤ pow2 (-30) := pow2_le _ _ (by norm_num)
  have hexact : exactSeconds d = (s : ℚ) + (n : ℚ) / 1000000000 := by
    unfold exactSeconds
    rw [hd]
    push_cast
    field_simp
    ring
  have hdq : (0 : ℚ) < (d : ℚ) := by exact_mod_cast h0
  have hpos : (0 : ℚ) < (s : ℚ) + (n : ℚ) / 1000000000 := by
    rw [← hexact]
    unfold exactSeconds
    positivity
  rw [hexact]
  generalize hx : (n : ℚ) / 1000000000 = x at hx0 hx1 hpos ⊢
  have hxn : 1 ≤ n → pow2 (-30) ≤ x := by
    intro hn
    have : (1 : ℚ) ≤ (n : ℚ) := by exact_mod_cast hn
    rw [← hx]
    refine le_trans hp30 ?_
    exact div_le_div_of_nonneg_right this (by norm_num)
  rcases round_nonneg x hx0 with ⟨_, hinf⟩ | ⟨q, eq, q0, qrep, qlo, qhi, _, qerr⟩
  · exact absurd (hinf 1 representable_one) (not_lt.2 hx1)
  · rw [eq]
    have hq1 : q ≤ 1 := qhi 1 representable_one hx1
    have hqerr : |q - x| ≤ x * u := by
      by_cases hn : 1 ≤ n
      · rw [← hu]
        exact qerr (le_trans hsub (hxn hn))
      · have hn' : n = 0 := by omega
        have hx' : x = 0 := by rw [← hx, hn']; norm_num
        have : q = 0 := le_antisymm (by rw [hx'] at qhi; exact qhi 0 representable_zero le_rfl) q0
        rw [this, hx']
        norm_num
    have hqpos : 1 ≤ n → pow2 (-30) ≤ q := fun hn => qlo _ hrep30 (hxn hn)
    have eadd : (Float64.finite (s : ℚ)).add (.finite q) = Float64.round ((s : ℚ) + q) := rfl
    rw [eadd]
    have hsq0 : (0 : ℚ) ≤ (s : ℚ) + q := by linarith
    rcases round_nonneg ((s : ℚ) + q) hsq0 with ⟨_, hinf⟩ | ⟨ev, eev, ev0, evrep, _, _, _, everr⟩
    · have hrep : representable ((9223372037 : Int) : ℚ) :=
        representable_int 9223372037 (by norm_num)
      have := hinf _ hrep
      push_cast at this
      linarith
    · have hbig : pow2 (-1022) ≤ (s : ℚ) + q := by
        by_cases hn : 1 ≤ n
        · have := hqpos hn
          linarith
        · have hs1' : 1 ≤ s := by omega
          have h1s : (1 : ℚ) ≤ (s : ℚ) := by exact_mod_cast hs1'
          have : pow2 (-1022) ≤ 1 := by
            have := pow2_le (-1022) 0 (by norm_num)
            rwa [show pow2 0 = 1 by rw [pow2_eq]; norm_num] at this
          linarith
      have he := everr hbig
      rw [hu] at he
      have a1 := abs_le.1 hqerr
      have a2 := abs_le.1 he
      have lo : ((s : ℚ) + x) * (1 - u) ^ 2 ≤ ev := by
        have h1 : ((s : ℚ) + q) * (1 - u) ≤ ev := by linarith [a2.1]
        have h2 : x * (1 - u) ≤ q := by linarith [a1.1]
        have h3 : ((s : ℚ) + x * (1 - u)) * (1 - u) ≤ ((s : ℚ) + q) * (1 - u) :=
          mul_le_mul_of_nonneg_right (by linarith) (by linarith)
        have h4 : ((s : ℚ) + x) * (1 - u) ^ 2 ≤ ((s : ℚ) + x * (1 - u)) * (1 - u) := by
          have : 0 ≤ (s : ℚ) * u * (1 - u) := by
            apply mul_nonneg (mul_nonneg hsq (le_of_lt u0))
            linarith
          nlinarith
        linarith
      have hi : ev ≤ ((s : ℚ) + x) * (1 + u) ^ 2 := by
        have h1 : ev ≤ ((s : ℚ) + q) * (1 + u) := by linarith [a2.2]
        have h2 : q ≤ x * (1 + u) := by linarith [a1.2]
        have h3 : ((s : ℚ) + q) * (1 + u) ≤ ((s : ℚ) + x * (1 + u)) * (1 + u) :=
          mul_le_mul_of_nonneg_right (by linarith) (by linarith)
        have h4 : ((s : ℚ) + x * (1 + u)) * (1 + u) ≤ ((s : ℚ) + x) * (1 + u) ^ 2 := by
          have : 0 ≤ (s : ℚ) * u * (1 + u) := by
            apply mul_nonneg (mul_nonneg hsq (le_of_lt u0))
            linarith
          nlinarith
        linarith
      refine ⟨ev, eev, ?_, evrep, lo, hi⟩
      have : 0 < ((s : ℚ) + x) * (1 - u) ^ 2 := by
        apply mul_pos hpos
        apply pow_pos
        linarith
      linarith

/-! ## The rate limiter: the tokens of a bucket stay between 0 and the capacity -/

theorem one_isNonneg : (Float64.finite 1).nonneg :=
  Or.inr ⟨1, rfl, by norm_num, representable_one⟩

theorem capacity_nonneg (burst : Int) (h : 1 ≤ burst) :
    (Float64.ofInt burst).nonneg ∧ (Float64.finite 1).le (Float64.ofInt burst) = true := by
  have hq : (1 : ℚ) ≤ (burst : ℚ) := by exact_mod_cast h
  exact ⟨round_isNonneg _ (by linarith), round_ge _ 1 (by linarith) representable_one hq⟩

theorem refillLocked_tokens (l : TokenBucketLimiter) (e : bucket) (now : Int)
    (hrate : (Float64.finite 0).lt l.rate = true) (hcap : l.capacity.nonneg)
    (h0 : e.tokens.nonneg) (h1 : e.tokens.le l.capacity = true) :
    (l.refillLocked e now).tokens.nonneg ∧
      e.tokens.le (l.refillLocked e now).tokens = true ∧
      (l.refillLocked e now).tokens.le l.capacity = true := by
  unfold TokenBucketLimiter.refillLocked
  by_cases h : now > e.last
  · simp only [h, not_true_eq_false, ↓reduceIte]
    obtain ⟨d0, d1, _⟩ := timeSub_pos now e.last h
    obtain ⟨ev, eev, ev0, _, _, _⟩ := durationSeconds_spec _ d0 d1
    rw [eev]
    have hp := Float64.mul_pos_nonneg ev l.rate ev0 hrate
    obtain ⟨s0, s1, _⟩ := Float64.add_nonneg e.tokens _ h0 hp
    obtain ⟨m0, m1, _, m3⟩ := Float64.Min_nonneg l.capacity _ hcap s0
    exact ⟨m0, m3 _ h1 s1, m1⟩
  · simp only [h, not_false_eq_true, ↓reduceIte]
    exact ⟨h0, Float64.nonneg_le_refl _ h0, h1⟩

theorem Allow_bounded (l : TokenBucketLimiter) (now : Int) (key : String)
    (hrate : (Float64.finite 0).lt l.rate = true) (hcap : l.capacity.nonneg)
    (hcap1 : (Float64.finite 1).le l.capacity = true)
    (hb : ∀ k b, l.buckets k = some b → b.tokens.nonneg ∧ b.tokens.le l.capacity = true) :
    ∀ k b, (l.Allow now key).2.buckets k = some b →
      b.tokens.nonneg ∧ b.tokens.le l.capacity = true := by
  intro k b hkb
  by_cases hk : k = key
  · subst hk
    cases hc : (l.cleanupLocked now).buckets k with
    | none =>
      obtain ⟨_, h2, _⟩ := Allow_absent l now k hc
      rw [h2] at hkb
      simp only [Option.some.injEq] at hkb
      subst hkb
      exact Float64.sub_one_nonneg _ hcap hcap1
    | some e =>
      obtain ⟨he, _⟩ := cleanupLocked_some l now k e hc
      obtain ⟨h0, h1⟩ := hb k e he
      obtain ⟨r0, r1, r2⟩ := refillLocked_tokens l e now hrate hcap h0 h1
      obtain ⟨p1, p2, _⟩ := Allow_present l now k e hc
      cases hlt : (l.refillLocked e now).tokens.lt (.finite 1) with
      | true =>
        rw [(p1 hlt).2] at hkb
        simp only [Option.some.injEq] at hkb
        subst hkb
        exact ⟨r0, r2⟩
      | false =>
        rw [(p2 hlt).2] at hkb
        simp only [Option.some.injEq] at hkb
        subst hkb
        simp only
        have hge := Float64.nonneg_not_lt _ _ r0 one_isNonneg hlt
        obtain ⟨s0, s1⟩ := Float64.sub_one_nonneg _ r0 hge
        exact ⟨s0, Float64.nonneg_le_trans _ _ _ s0 r0 hcap s1 r2⟩
  · rw [Allow_other l now key k hk] at hkb
    exact hb k b (cleanupLocked_some l now k b hkb).1

theorem run_invariant :
    ∀ (calls : List (Int × String)) (l : TokenBucketLimiter),
      (Float64.finite 0).lt l.rate = true → l.capacity.nonneg →
      (Float64.finite 1).le l.capacity = true →
      (∀ k b, l.buckets k = some b → b.tokens.nonneg ∧ b.tokens.le l.capacity = true) →
      ((l.run calls).2.rate = l.rate ∧ (l.run calls).2.capacity = l.capacity ∧
        (l.run calls).2.ttl = l.ttl ∧ (l.run calls).2.cleanupInterval = l.cleanupInterval) ∧
      ∀ k b, (l.run calls).2.buckets k = some b →
        b.tokens.nonneg ∧ b.tokens.le l.capacity = true
  | [], l, _, _, _, hb => ⟨⟨rfl, rfl, rfl, rfl⟩, hb⟩
  | (now, key) :: rest, l, hrate, hcap, hcap1, hb => by
    obtain ⟨f1, f2, f3, f4⟩ := Allow_fields l now key
    have hb2 := Allow_bounded l now key hrate hcap hcap1 hb
    rw [← f2] at hb2
    obtain ⟨⟨g1, g2, g3, g4⟩, g5⟩ := run_invariant rest (l.Allow now key).2
      (by rw [f1]; exact hrate) (by rw [f2]; exact hcap) (by rw [f2]; exact hcap1) hb2
    simp only [TokenBucketLimiter.run]
    refine ⟨⟨by rw [g1, f1], by rw [g2, f2], by rw [g3, f3], by rw [g4, f4]⟩, ?_⟩
    intro k b h
    rw [← f2]
    exact g5 k b h

theorem newLimiter_invariant (rate : Float64) (burst ttl : Int)
    (hrate : (Float64.finite 0).lt rate = true) (hburst : 1 ≤ burst)
    (calls : List (Int × String)) :
    (((newTokenBucketLimiter rate burst ttl).run calls).2.rate = rate ∧
        ((newTokenBucketLimiter rate burst ttl).run calls).2.capacity = Float64.ofInt burst ∧
        ((newTokenBucketLimiter rate burst ttl).run calls).2.ttl = ttl ∧
        ((newTokenBucketLimiter rate burst ttl).run calls).2.cleanupInterval = ttl) ∧
      ∀ k b, ((newTokenBucketLimiter rate burst ttl).run calls).2.buckets k = some b →
        b.tokens.nonneg ∧ b.tokens.le (Float64.ofInt burst) = true := by
  obtain ⟨c0, c1⟩ := capacity_nonneg burst hburst
  exact run_invariant calls (newTokenBucketLimiter rate burst ttl) hrate c0 c1
    (fun k b h => by simp [newTokenBucketLimiter] at h)

/-! ## C29 -/

/-- C29: for every limiter built with `rate > 0` (a `float64`, positive infinity included) and
`burst >= 1` (any `ttl`) and every sequence of `Allow` calls with arbitrary keys and arbitrary
clock readings, monotone or not: the capacity is `float64(burst)` and every bucket of the map
has `0 <= tokens <= capacity` in `float64`; and a further `Allow(key)` that is denied finds a
bucket for the key and leaves it with the token count the refill gave it, which is not below
the count before the call and is below 1: no token is consumed. -/
theorem C29_token_bounds (rate : Float64) (burst ttl : Int)
    (hrate : (Float64.finite 0).lt rate = true) (hburst : 1 ≤ burst)
    (calls : List (Int × String)) (now : Int) (key : String) :
    ((newTokenBucketLimiter rate burst ttl).run calls).2.capacity = Float64.ofInt burst ∧
      (∀ k b, ((newTokenBucketLimiter rate burst ttl).run calls).2.buckets k = some b →
        (Float64.finite 0).le b.tokens = true ∧ b.tokens.le (Float64.ofInt burst) = true) ∧
      ((((newTokenBucketLimiter rate burst ttl).run calls).2.Allow now key).1 = false →
        ∃ b b2, ((newTokenBucketLimiter rate burst ttl).run calls).2.buckets key = some b ∧
          (((newTokenBucketLimiter rate burst ttl).run calls).2.Allow now key).2.buckets key =
            some b2 ∧
          b2.tokens =
            (((newTokenBucketLimiter rate burst ttl).run calls).2.refillLocked b now).tokens ∧
          b.tokens.le b2.tokens = true ∧ b2.tokens.lt (.finite 1) = true) := by
  obtain ⟨⟨f1, f2, _, _⟩, hb⟩ := newLimiter_invariant rate burst ttl hrate hburst calls
  obtain ⟨c0, _⟩ := capacity_nonneg burst hburst
  refine ⟨f2, fun k b h => ⟨Float64.nonneg_zero_le _ (hb k b h).1, (hb k b h).2⟩, ?_⟩
  generalize ((newTokenBucketLimiter rate burst ttl).run calls).2 = l at f1 f2 hb ⊢
  intro hdeny
  cases hc : (l.cleanupLocked now).buckets key with
  | none =>
    rw [(Allow_absent l now key hc).1] at hdeny
    exact absurd hdeny (by decide)
  | some e =>
    obtain ⟨he, _⟩ := cleanupLocked_some l now key e hc
    obtain ⟨h0, h1⟩ := hb key e he
    obtain ⟨_, r1, _⟩ := refillLocked_tokens l e now (by rw [f1]; exact hrate)
      (by rw [f2]; exact c0) h0 (by rw [f2]; exact h1)
    obtain ⟨p1, p2, _⟩ := Allow_present l now key e hc
    cases hlt : (l.refillLocked e now).tokens.lt (.finite 1) with
    | true => exact ⟨e, _, he, (p1 hlt).2, rfl, r1, hlt⟩
    | false =>
      rw [(p2 hlt).1] at hdeny
      exact absurd hdeny (by decide)

/-- C29, instantiated (`TestTokenBucketLimiterAllow`): rate 1, burst 2; after two calls at
the same instant the bucket of the key holds 0 tokens, within the bounds. -/
theorem C29_token_bounds_witness :
    ((newTokenBucketLimiter (.finite 1) 2 timeMinute).run
        [(5, "client"), (5, "client")]).2.buckets "client" =
        some { tokens := .finite 0, last := 5, lastSeen := 5 } ∧
      (Float64.finite 0).le (.finite 0) = true ∧
      (Float64.finite 0).le (Float64.ofInt 2) = true :=
  ⟨by decide!,
    (C29_token_bounds (.finite 1) 2 timeMinute (by decide!) (by decide)
      [(5, "client"), (5, "client")] 5 "client").2.1 "client"
      { tokens := .finite 0, last := 5, lastSeen := 5 } (by decide!)⟩

/-! ## The rate limiter: a clock that does not advance -/

theorem wrapInt64_neg (ttl : Int) (h0 : 0 < ttl) (h1 : ttl ≤ maxDuration) :
    wrapInt64 (-ttl) = -ttl := by
  unfold maxDuration at h1
  unfold wrapInt64
  omega

theorem Float64.pos_not_le (x : Float64) (h : (Float64.finite 0).lt x = true) :
    x.le (.finite 0) = false := by
  cases x with
  | nan => simp [Float64.lt] at h
  | inf b =>
    simp only [Float64.lt, Bool.not_eq_true'] at h
    simp [Float64.le, h]
  | finite q =>
    simp only [Float64.lt, decide_eq_true_eq] at h
    simp [Float64.le, h]

theorem NewTokenBucketLimiter_eq (rate : Float64) (burst ttl : Int)
    (hrate : (Float64.finite 0).lt rate = true) (hburst : 1 ≤ burst) :
    NewTokenBucketLimiter rate burst ttl =
      newTokenBucketLimiter rate burst (if ttl ≤ 0 then timeMinute else ttl) := by
  have h2 : ¬ burst ≤ 0 := by omega
  simp [NewTokenBucketLimiter, Float64.pos_not_le rate hrate, h2]

theorem clamped_ttl_pos (ttl : Int) (h : ttl ≤ maxDuration) :
    0 < (if ttl ≤ 0 then timeMinute else ttl) ∧
      (if ttl ≤ 0 then timeMinute else ttl) ≤ maxDuration := by
  split_ifs with h0
  · exact ⟨by decide, by decide⟩
  · exact ⟨by omega, h⟩

theorem refillLocked_idle (l : TokenBucketLimiter) (e : bucket) (now : Int)
    (h : ¬ now > e.last) : l.refillLocked e now = e := by
  simp [TokenBucketLimiter.refillLocked, h]

theorem representable_sub_one (q : ℚ) (h : representable q) (h1 : 1 ≤ q) (h2 : q ≤ 2 ^ 53) :
    representable (q - 1) := by
  obtain ⟨m, e, hm, he1, he2, rfl⟩ := h
  by_cases he : 0 ≤ e
  · obtain ⟨k, rfl⟩ := Int.eq_ofNat_of_zero_le he
    have hq : (m : ℚ) * (2 : ℚ) ^ (k : Int) = ((m * 2 ^ k : Int) : ℚ) := by
      push_cast
      rw [zpow_natCast]
    rw [hq] at h1 h2 ⊢
    have h1' : (1 : Int) ≤ m * 2 ^ k := by exact_mod_cast h1
    have h2' : m * 2 ^ k ≤ (2 : Int) ^ 53 := by exact_mod_cast h2
    generalize m * 2 ^ k = N at h1' h2' ⊢
    have := representable_int (N - 1) (by rw [abs_of_nonneg (by omega)]; omega)
    push_cast at this ⊢
    exact this
  · obtain ⟨k, hk⟩ : ∃ k : Nat, e = -(k : Int) := ⟨(-e).toNat, by omega⟩
    subst hk
    have hpk : (0 : ℚ) < (2 : ℚ) ^ k := by positivity
    have hz : (2 : ℚ) ^ (-(k : Int)) = 1 / (2 : ℚ) ^ k := by
      rw [zpow_neg, zpow_natCast, one_div]
    rw [hz] at h1 ⊢
    have hmk : (2 : ℚ) ^ k ≤ (m : ℚ) := by
      rw [mul_one_div, le_div_iff₀ hpk] at h1
      linarith
    have hmk' : (2 : Int) ^ k ≤ m := by exact_mod_cast hmk
    refine ⟨m - 2 ^ k, -(k : Int), ?_, he1, he2, ?_⟩
    · have hp : (0 : Int) < 2 ^ k := by positivity
      generalize (2 : Int) ^ k = P at hmk' hp
      rw [abs_lt] at hm ⊢
      constructor <;> omega
    · rw [hz]
      push_cast
      field_simp

theorem Float64.sub_one_exact (q : ℚ) (h : representable q) (h1 : 1 ≤ q) (h2 : q ≤ 2 ^ 53) :
    (Float64.finite q).sub (.finite 1) = .finite (q - 1) :=
  round_exact (q - 1) (by linarith) (representable_sub_one q h h1 h2)

theorem representable_nat (n : Nat) (h : n ≤ 2 ^ 53) : representable (n : ℚ) := by
  have := representable_int (n : Int) (by rw [abs_of_nonneg (by positivity)]; exact_mod_cast h)
  exact_mod_cast this

theorem run_fixed_clock (now : Int) (key : String) :
    ∀ (n : Nat) (l : TokenBucketLimiter) (e : bucket), n ≤ 2 ^ 53 →
      wrapInt64 (-l.ttl) ≤ 0 → l.buckets key = some e → e.tokens = .finite (n : ℚ) →
      ¬ now > e.last → now ≤ e.lastSeen →
      (l.run (List.replicate (n + 1) (now, key))).1 = List.replicate n true ++ [false] := by
  intro n
  induction n with
  | zero =>
    intro l e _ httl he ht hlast hseen
    have hc := cleanupLocked_keep l now key e he (by omega)
    obtain ⟨p1, _, _⟩ := Allow_present l now key e hc
    rw [refillLocked_idle l e now hlast] at p1
    have hlt : e.tokens.lt (.finite 1) = true := by
      rw [ht]
      simp [Float64.lt]
    simp [TokenBucketLimiter.run, (p1 hlt).1]
  | succ n ih =>
    intro l e hn httl he ht hlast hseen
    have hc := cleanupLocked_keep l now key e he (by omega)
    obtain ⟨_, p2, _⟩ := Allow_present l now key e hc
    rw [refillLocked_idle l e now hlast] at p2
    have hq1 : (1 : ℚ) ≤ ((n + 1 : Nat) : ℚ) := by
      push_cast
      have : (0 : ℚ) ≤ (n : ℚ) := Nat.cast_nonneg n
      linarith
    have hge : e.tokens.lt (.finite 1) = false := by
      rw [ht]
      simp only [Float64.lt, decide_eq_false_iff_not, not_lt]
      exact hq1
    have hsub : e.tokens.sub (.finite 1) = .finite (n : ℚ) := by
      rw [ht, Float64.sub_one_exact _ (representable_nat _ hn) hq1 (by exact_mod_cast hn)]
      push_cast
      congr 1
      ring
    obtain ⟨q1, q2⟩ := p2 hge
    obtain ⟨_, _, f3, _⟩ := Allow_fields l now key
    have := ih (l.Allow now key).2 { e with tokens := e.tokens.sub (.finite 1), lastSeen := now }
      (by omega) (by rw [f3]; exact httl) q2 hsub hlast (le_refl _)
    rw [List.replicate_succ, TokenBucketLimiter.run, q1, this]
    rfl

theorem run_fresh_fixed_clock (l : TokenBucketLimiter) (now : Int) (key : String) (b : Nat)
    (hb : 1 ≤ b) (hb53 : b ≤ 2 ^ 53) (hcap : l.capacity = .finite (b : ℚ))
    (httl : wrapInt64 (-l.ttl) ≤ 0) (hkey : l.buckets key = none) :
    (l.Allow now key).2.buckets key =
        some { tokens := .finite ((b : ℚ) - 1), last := now, lastSeen := now } ∧
      (l.run (List.replicate (b + 1) (now, key))).1 = List.replicate b true ++ [false] := by
  obtain ⟨n, rfl⟩ : ∃ n, b = n + 1 := ⟨b - 1, by omega⟩
  obtain ⟨a1, a2, _⟩ := Allow_absent l now key (cleanupLocked_none l now key hkey)
  have hq1 : (1 : ℚ) ≤ ((n + 1 : Nat) : ℚ) := by
    push_cast
    have : (0 : ℚ) ≤ (n : ℚ) := Nat.cast_nonneg n
    linarith
  have hn : ((n + 1 : Nat) : ℚ) - 1 = (n : ℚ) := by
    push_cast
    ring
  have hsub : l.capacity.sub (.finite 1) = .finite (n : ℚ) := by
    rw [hcap, Float64.sub_one_exact _ (representable_nat _ hb53) hq1 (by exact_mod_cast hb53),
      hn]
  rw [hsub] at a2
  rw [hn]
  refine ⟨a2, ?_⟩
  obtain ⟨_, _, g3, _⟩ := Allow_fields l now key
  have := run_fixed_clock now key n (l.Allow now key).2
    { tokens := .finite (n : ℚ), last := now, lastSeen := now }
    (by omega) (by rw [g3]; exact httl) a2 rfl (by simp) (le_refl _)
  rw [List.replicate_succ, TokenBucketLimiter.run, a1, this]
  rfl

/-! ## C22 -/

/-- C22, as stated, fails for a burst that is not a `float64`: with `burst = 2^53 + 1` the
capacity `float64(burst)` is `2^53`, so of the calls at one clock reading, for a key without
a bucket, the first `2^53` return true and call number `2^53 + 1 = burst`, which the claim
says returns true, returns false. -/
theorem C22_counterexample :
    (NewTokenBucketLimiter (.finite 1) (2 ^ 53 + 1) timeMinute).capacity = .finite (2 ^ 53) ∧
      (NewTokenBucketLimiter (.finite 1) (2 ^ 53 + 1) timeMinute).buckets "client" = none ∧
      ((NewTokenBucketLimiter (.finite 1) (2 ^ 53 + 1) timeMinute).run
        (List.replicate (2 ^ 53 + 1) (5, "client"))).1 =
        List.replicate (2 ^ 53) true ++ [false] := by
  have hcap : (NewTokenBucketLimiter (.finite 1) (2 ^ 53 + 1) timeMinute).capacity =
      .finite (2 ^ 53) := by decide!
  refine ⟨hcap, rfl, ?_⟩
  refine (run_fresh_fixed_clock _ 5 "client" (2 ^ 53) (by norm_num) (le_refl _) ?_
    (by decide) rfl).2
  rw [hcap]
  norm_num

/-- C22 (amended): for every limiter built by `NewTokenBucketLimiter` with `rate > 0` and an
integer `burst = b` with `1 <= b <= 2^53` (and a `ttl` that is a `time.Duration`), every
state it reaches by `Allow` calls, every key that has no bucket there and a clock that stays
at one reading: the first of `b + 1` consecutive `Allow(key)` calls creates the bucket with
`tokens = capacity - 1` (and `capacity = b`), the first `b` calls return true and the last
returns false. -/
theorem C22_burst_then_deny (rate : Float64) (b : Nat) (ttl : Int)
    (hrate : (Float64.finite 0).lt rate = true) (hb : 1 ≤ b) (hb53 : b ≤ 2 ^ 53)
    (httl : ttl ≤ maxDuration) (calls : List (Int × String)) (now : Int) (key : String)
    (hkey : ((NewTokenBucketLimiter rate (b : Int) ttl).run calls).2.buckets key = none) :
    ((NewTokenBucketLimiter rate (b : Int) ttl).run calls).2.capacity = .finite (b : ℚ) ∧
      (((NewTokenBucketLimiter rate (b : Int) ttl).run calls).2.Allow now key).2.buckets key =
        some { tokens := .finite ((b : ℚ) - 1), last := now, lastSeen := now } ∧
      (((NewTokenBucketLimiter rate (b : Int) ttl).run calls).2.run
        (List.replicate (b + 1) (now, key))).1 = List.replicate b true ++ [false] := by
  have hbi : (1 : Int) ≤ (b : Int) := by exact_mod_cast hb
  rw [NewTokenBucketLimiter_eq rate b ttl hrate hbi] at hkey ⊢
  obtain ⟨⟨_, f2, f3, _⟩, _⟩ := newLimiter_invariant rate (b : Int)
    (if ttl ≤ 0 then timeMinute else ttl) hrate hbi calls
  obtain ⟨t0, t1⟩ := clamped_ttl_pos ttl httl
  generalize ((newTokenBucketLimiter rate (b : Int)
    (if ttl ≤ 0 then timeMinute else ttl)).run calls).2 = l at f2 f3 hkey ⊢
  have hcap : l.capacity = .finite (b : ℚ) := by
    rw [f2]
    have := round_exact ((b : Int) : ℚ) (by positivity)
      (representable_int (b : Int) (by rw [abs_of_nonneg (by positivity)]; exact_mod_cast hb53))
    rw [Float64.ofInt, this]
    norm_num
  have hw : wrapInt64 (-l.ttl) ≤ 0 := by
    rw [f3, wrapInt64_neg _ t0 t1]
    omega
  obtain ⟨a, r⟩ := run_fresh_fixed_clock l now key b hb hb53 hcap hw hkey
  exact ⟨hcap, a, r⟩

/-- C22 (amended), instantiated (`TestTokenBucketLimiterAllow`): rate 1, burst 2, a fresh
limiter and a clock that stays at one reading: true, true, false. -/
theorem C22_burst_then_deny_witness :
    ((NewTokenBucketLimiter (.finite 1) ((2 : Nat) : Int) timeMinute).run []).2.buckets
        "client" = none ∧
      (((NewTokenBucketLimiter (.finite 1) ((2 : Nat) : Int) timeMinute).run []).2.run
        (List.replicate (2 + 1) (5, "client"))).1 = List.replicate 2 true ++ [false] :=
  ⟨rfl, (C22_burst_then_deny (.finite 1) 2 timeMinute (by decide!) (by decide) (by decide)
    (by decide) [] 5 "client" rfl).2.2⟩

/-! ## The rate limiter: refill and progress -/

theorem Allow_last_le (l : TokenBucketLimiter) (t now : Int) (key : String) (ht : t ≤ now)
    (hl : ∀ k b, l.buckets k = some b → b.last ≤ now) :
    ∀ k b, (l.Allow t key).2.buckets k = some b → b.last ≤ now := by
  intro k b hkb
  by_cases hk : k = key
  · subst hk
    cases hc : (l.cleanupLocked t).buckets k with
    | none =>
      rw [(Allow_absent l t k hc).2.1] at hkb
      simp only [Option.some.injEq] at hkb
      subst hkb
      exact ht
    | some e =>
      have he := hl k e (cleanupLocked_some l t k e hc).1
      have hr : (l.refillLocked e t).last ≤ now := by
        unfold TokenBucketLimiter.refillLocked
        split_ifs
        · exact ht
        · exact he
      obtain ⟨p1, p2, _⟩ := Allow_present l t k e hc
      cases hlt : (l.refillLocked e t).tokens.lt (.finite 1) with
      | true =>
        rw [(p1 hlt).2] at hkb
        simp only [Option.some.injEq] at hkb
        subst hkb
        exact hr
      | false =>
        rw [(p2 hlt).2] at hkb
        simp only [Option.some.injEq] at hkb
        subst hkb
        exact hr
  · rw [Allow_other l t key k hk] at hkb
    exact hl k b (cleanupLocked_some l t k b hkb).1

theorem run_last_le (now : Int) :
    ∀ (calls : List (Int × String)) (l : TokenBucketLimiter),
      (∀ k b, l.buckets k = some b → b.last ≤ now) → (∀ c ∈ calls, c.1 ≤ now) →
      ∀ k b, (l.run calls).2.buckets k = some b → b.last ≤ now
  | [], _, hl, _ => hl
  | (t, key) :: rest, l, hl, hc => by
    simp only [TokenBucketLimiter.run]
    exact run_last_le now rest (l.Allow t key).2
      (Allow_last_le l t now key (hc (t, key) (List.mem_cons_self _ _)) hl)
      (fun c h => hc c (List.mem_cons_of_mem _ h))

theorem Float64.le_not_lt (x y : Float64) (h : x.le y = true) : y.lt x = false := by
  cases x with
  | nan => simp [Float64.le] at h
  | inf a =>
    cases y with
    | nan => simp [Float64.le] at h
    | inf b =>
      simp only [Float64.le, Bool.or_eq_true, Bool.not_eq_true'] at h
      rcases h with h | h <;> simp [Float64.lt, h]
    | finite q =>
      simp only [Float64.le] at h
      simp [Float64.lt, h]
  | finite p =>
    cases y with
    | nan => simp [Float64.le] at h
    | inf b =>
      simp only [Float64.le, Bool.not_eq_true'] at h
      simp [Float64.lt, h]
    | finite q =>
      simp only [Float64.le, decide_eq_true_eq] at h
      simp [Float64.lt, h]

theorem Float64.Min_of_le (c t : Float64) (hc : c.nonneg) (ht : t.nonneg)
    (h : t.le c = true) : Float64.Min c t = t := by
  have hlt := Float64.le_not_lt t c h
  have c1 : c ≠ .inf true := by
    rcases hc with rfl | ⟨q, rfl, _, _⟩ <;> simp
  have c2 : c ≠ .nan := by
    rcases hc with rfl | ⟨q, rfl, _, _⟩ <;> simp
  have t1 : t ≠ .inf true := by
    rcases ht with rfl | ⟨q, rfl, _, _⟩ <;> simp
  have t2 : t ≠ .nan := by
    rcases ht with rfl | ⟨q, rfl, _, _⟩ <;> simp
  simp [Float64.Min, c1, c2, t1, t2, hlt]

theorem Float64.add_zero_nonneg (t : Float64) (ht : t.nonneg) : t.add (.finite 0) = t := by
  rcases ht with rfl | ⟨q, rfl, q0, qrep⟩
  · rfl
  · show Float64.round (q + 0) = .finite q
    rw [add_zero]
    exact round_exact q q0 qrep

theorem durationSeconds_zero : durationSeconds 0 = .finite 0 := by
  decide!

theorem timeSub_self (t : Int) : timeSub t t = 0 := by
  unfold timeSub maxDuration minDuration
  simp

theorem timeSub_pos_iff (t u : Int) (h : 0 < timeSub t u) : u < t := by
  unfold timeSub maxDuration minDuration at h
  split_ifs at h <;> omega

theorem refillLocked_formula (l : TokenBucketLimiter) (e : bucket) (now : Int)
    (hcap : l.capacity.nonneg) (h0 : e.tokens.nonneg) (h1 : e.tokens.le l.capacity = true)
    (hlast : e.last ≤ now) (h : e.last < now ∨ ∃ r, l.rate = .finite r) :
    (l.refillLocked e now).tokens = refilledTokens l.capacity l.rate e now := by
  unfold TokenBucketLimiter.refillLocked refilledTokens
  by_cases hgt : now > e.last
  · simp [hgt]
  · have heq : e.last = now := by omega
    rcases h with h | ⟨r, hr⟩
    · omega
    · simp only [hgt, not_false_eq_true, ↓reduceIte]
      rw [heq, timeSub_self, durationSeconds_zero, hr]
      have hm : (Float64.finite 0).mul (.finite r) = .finite 0 := by
        simp [Float64.mul, Float64.round]
      rw [hm, Float64.add_zero_nonneg _ h0, Float64.Min_of_le _ _ hcap h0 h1]

theorem product_progress (l : TokenBucketLimiter) (e : bucket) (now : Int)
    (hrate : (Float64.finite 0).lt l.rate = true) (hcap : l.capacity.nonneg)
    (hcap1 : (Float64.finite 1).le l.capacity = true) (h0 : e.tokens.nonneg)
    (hlast : e.last ≤ now)
    (hp : (Float64.finite 1).le ((durationSeconds (timeSub now e.last)).mul l.rate) = true) :
    (l.refillLocked e now).tokens.lt (.finite 1) = false := by
  apply Float64.le_not_lt
  unfold TokenBucketLimiter.refillLocked
  by_cases hgt : now > e.last
  · simp only [hgt, not_true_eq_false, ↓reduceIte]
    obtain ⟨d0, d1, _⟩ := timeSub_pos now e.last hgt
    obtain ⟨ev, eev, ev0, _, _, _⟩ := durationSeconds_spec _ d0 d1
    rw [eev] at hp ⊢
    have hpn := Float64.mul_pos_nonneg ev l.rate ev0 hrate
    obtain ⟨s0, _, s2⟩ := Float64.add_nonneg e.tokens _ h0 hpn
    obtain ⟨_, _, _, m3⟩ := Float64.Min_nonneg l.capacity _ hcap s0
    exact m3 _ hcap1 (Float64.nonneg_le_trans _ _ _ one_isNonneg hpn s0 hp s2)
  · exfalso
    have heq : e.last = now := by omega
    rw [heq, timeSub_self, durationSeconds_zero] at hp
    cases hr : l.rate with
    | nan => rw [hr] at hrate; simp [Float64.lt] at hrate
    | inf b =>
      rw [hr] at hp
      simp [Float64.mul, Float64.le] at hp
    | finite r =>
      rw [hr] at hp
      simp only [Float64.mul, zero_mul, Float64.round, ↓reduceIte, Float64.le,
        decide_eq_true_eq] at hp
      linarith

theorem margin_bound : (1 : ℚ) ≤ (1 + pow2 (-50)) * (1 - pow2 (-53)) ^ 2 := by
  rw [pow2_eq, pow2_eq]
  norm_num

theorem exact_progress (r : ℚ) (d : Int) (hr : 0 < r) (hd : d ≤ maxDuration)
    (h : 1 + pow2 (-50) ≤ exactSeconds d * r) :
    (Float64.finite 1).le ((durationSeconds d).mul (.finite r)) = true := by
  have hd0 : 0 < d := by
    by_contra hn
    have : (d : ℚ) ≤ 0 := by exact_mod_cast not_lt.1 hn
    have : exactSeconds d ≤ 0 := by
      unfold exactSeconds
      exact div_nonpos_of_nonpos_of_nonneg this (by norm_num)
    have := mul_nonpos_of_nonpos_of_nonneg this (le_of_lt hr)
    have := pow2_pos (-50)
    linarith
  obtain ⟨ev, eev, ev0, _, lo, _⟩ := durationSeconds_spec d hd0 hd
  rw [eev]
  show (Float64.finite 1).le (Float64.round (ev * r)) = true
  have hevr : 0 ≤ ev * r := le_of_lt (mul_pos ev0 hr)
  apply round_ge _ 1 hevr representable_one
  have hu : 0 ≤ (1 - pow2 (-53)) ^ 2 := sq_nonneg _
  calc (1 : ℚ) ≤ (1 + pow2 (-50)) * (1 - pow2 (-53)) ^ 2 := margin_bound
    _ ≤ (exactSeconds d * r) * (1 - pow2 (-53)) ^ 2 := mul_le_mul_of_nonneg_right h hu
    _ = (exactSeconds d * (1 - pow2 (-53)) ^ 2) * r := by ring
    _ ≤ ev * r := mul_le_mul_of_nonneg_right lo (le_of_lt hr)

theorem timeSub_le (t u : Int) : timeSub t u ≤ maxDuration := by
  unfold timeSub maxDuration minDuration
  split_ifs <;> omega

theorem ofInt_exact (burst : Int) (h1 : 1 ≤ burst) (h2 : burst ≤ 2 ^ 53) :
    Float64.ofInt burst = .finite (burst : ℚ) :=
  round_exact (burst : ℚ) (by have : (1 : ℚ) ≤ (burst : ℚ) := by exact_mod_cast h1
                              linarith)
    (representable_int burst (by rw [abs_of_nonneg (by omega)]; exact h2))

/-! ## C24 -/

/-- C24, as stated, fails in three ways.  Rounding: with `rate = 15873015.873015873` and an
empty bucket last refilled at 5 ns, at 68 ns at least `1/rate` seconds have passed, but the
`float64` product of the elapsed seconds and the rate is `1 - 2^-53` and the call is denied.
Saturation: with `rate = 2^-34`, a `ttl` of `2^63 - 1` ns and an empty bucket last refilled
at 5 ns, `2^34` seconds later `1/rate` seconds have passed, but `Time.Sub` gives `2^63 - 1`
ns and the call is denied.  Absorption: with `burst = 2^54` the bucket holds `2^54` tokens,
a call is allowed and the bucket still holds `2^54` tokens: no token is consumed. -/
theorem C24_counterexample :
    (((NewTokenBucketLimiter (.finite (2130440126984127 / 134217728)) 1 timeMinute).run
          [(5, "client")]).2.buckets "client" =
          some { tokens := .finite 0, last := 5, lastSeen := 5 } ∧
        (1 : ℚ) / (2130440126984127 / 134217728) ≤ exactSeconds (68 - 5) ∧
        (durationSeconds (timeSub 68 5)).mul (.finite (2130440126984127 / 134217728)) =
          .finite (9007199254740991 / 9007199254740992) ∧
        (((NewTokenBucketLimiter (.finite (2130440126984127 / 134217728)) 1 timeMinute).run
          [(5, "client")]).2.Allow 68 "client").1 = false) ∧
      (((NewTokenBucketLimiter (.finite (1 / 17179869184)) 1 maxDuration).run
          [(5, "a"), (5 + maxDuration, "b")]).2.buckets "a" =
          some { tokens := .finite 0, last := 5, lastSeen := 5 } ∧
        (1 : ℚ) / (1 / 17179869184) ≤ exactSeconds (17179869184000000005 - 5) ∧
        timeSub 17179869184000000005 5 = maxDuration ∧
        (((NewTokenBucketLimiter (.finite (1 / 17179869184)) 1 maxDuration).run
          [(5, "a"), (5 + maxDuration, "b")]).2.Allow 17179869184000000005 "a").1 = false) ∧
      (((NewTokenBucketLimiter (.finite 1) (2 ^ 54) timeMinute).run
          [(5, "client")]).2.buckets "client" =
          some { tokens := .finite (2 ^ 54), last := 5, lastSeen := 5 } ∧
        (((NewTokenBucketLimiter (.finite 1) (2 ^ 54) timeMinute).run
          [(5, "client")]).2.Allow 5 "client").1 = true ∧
        (((NewTokenBucketLimiter (.finite 1) (2 ^ 54) timeMinute).run
          [(5, "client")]).2.Allow 5 "client").2.buckets "client" =
          some { tokens := .finite (2 ^ 54), last := 5, lastSeen := 5 }) := by
  decide!

/-- C24 (amended): for every limiter built by `NewTokenBucketLimiter` with `rate > 0` and
`burst >= 1`, every state it reaches by `Allow` calls, every key and every clock reading
`now` not earlier than the readings of those calls.  `Allow(key)` returns true if the key has
no bucket, or if the `float64` product of the seconds since the last refill of its bucket
(`Time.Sub`, which stops at `2^63 - 1` ns, then `Duration.Seconds`) and the rate is at least
1; for a finite rate that product is at least 1 whenever those seconds times the rate are at
least `1 + 2^-50` in exact arithmetic.  On a bucket that is there when `Allow` looks the key
up (refilled before `now`, or with a finite rate), `Allow` first sets
`tokens = min(capacity, tokens + elapsed * rate)` in `float64`, which is at least 1 or below
1; if it is at least 1, `Allow` returns true and subtracts 1 in `float64`, which takes
exactly one token when `burst <= 2^53`; if it is below 1, `Allow` returns false and takes
none. -/
theorem C24_refill_progress (rate : Float64) (burst ttl : Int)
    (hrate : (Float64.finite 0).lt rate = true) (hburst : 1 ≤ burst)
    (calls : List (Int × String)) (now : Int) (key : String)
    (hclock : ∀ c ∈ calls, c.1 ≤ now) :
    (((NewTokenBucketLimiter rate burst ttl).run calls).2.buckets key = none →
        (((NewTokenBucketLimiter rate burst ttl).run calls).2.Allow now key).1 = true) ∧
      (∀ e, ((NewTokenBucketLimiter rate burst ttl).run calls).2.buckets key = some e →
        (Float64.finite 1).le ((durationSeconds (timeSub now e.last)).mul rate) = true →
        (((NewTokenBucketLimiter rate burst ttl).run calls).2.Allow now key).1 = true) ∧
      (∀ e r, ((NewTokenBucketLimiter rate burst ttl).run calls).2.buckets key = some e →
        rate = .finite r → 1 + pow2 (-50) ≤ exactSeconds (timeSub now e.last) * r →
        (((NewTokenBucketLimiter rate burst ttl).run calls).2.Allow now key).1 = true) ∧
      (∀ e, (((NewTokenBucketLimiter rate burst ttl).run calls).2.cleanupLocked now).buckets
          key = some e →
        (e.last < now ∨ ∃ r, rate = .finite r) →
        ((Float64.finite 1).le (refilledTokens (Float64.ofInt burst) rate e now) = true ∨
          (refilledTokens (Float64.ofInt burst) rate e now).lt (.finite 1) = true) ∧
        ((Float64.finite 1).le (refilledTokens (Float64.ofInt burst) rate e now) = true →
          (((NewTokenBucketLimiter rate burst ttl).run calls).2.Allow now key).1 = true ∧
          ∃ e2, (((NewTokenBucketLimiter rate burst ttl).run calls).2.Allow now key).2.buckets
              key = some e2 ∧
            e2.tokens = (refilledTokens (Float64.ofInt burst) rate e now).sub (.finite 1) ∧
            (burst ≤ 2 ^ 53 →
              ∃ q, refilledTokens (Float64.ofInt burst) rate e now = .finite q ∧
                e2.tokens = .finite (q - 1))) ∧
        ((refilledTokens (Float64.ofInt burst) rate e now).lt (.finite 1) = true →
          (((NewTokenBucketLimiter rate burst ttl).run calls).2.Allow now key).1 = false ∧
          ∃ e2, (((NewTokenBucketLimiter rate burst ttl).run calls).2.Allow now key).2.buckets
              key = some e2 ∧
            e2.tokens = refilledTokens (Float64.ofInt burst) rate e now)) := by
  rw [NewTokenBucketLimiter_eq rate burst ttl hrate hburst]
  obtain ⟨⟨f1, f2, _, _⟩, hb⟩ := newLimiter_invariant rate burst
    (if ttl ≤ 0 then timeMinute else ttl) hrate hburst calls
  have hl := run_last_le now calls
    (newTokenBucketLimiter rate burst (if ttl ≤ 0 then timeMinute else ttl))
    (fun k b h => by simp [newTokenBucketLimiter] at h) hclock
  obtain ⟨c0, c1⟩ := capacity_nonneg burst hburst
  generalize ((newTokenBucketLimiter rate burst
    (if ttl ≤ 0 then timeMinute else ttl)).run calls).2 = l at f1 f2 hb hl ⊢
  have hrate2 : (Float64.finite 0).lt l.rate = true := by rw [f1]; exact hrate
  have hcap : l.capacity.nonneg := by rw [f2]; exact c0
  have hcap1 : (Float64.finite 1).le l.capacity = true := by rw [f2]; exact c1
  have hprod : ∀ e, l.buckets key = some e →
      (Float64.finite 1).le ((durationSeconds (timeSub now e.last)).mul rate) = true →
      (l.Allow now key).1 = true := by
    intro e he hp
    cases hc : (l.cleanupLocked now).buckets key with
    | none => exact (Allow_absent l now key hc).1
    | some e2 =>
      have he2 := (cleanupLocked_some l now key e2 hc).1
      rw [he] at he2
      simp only [Option.some.injEq] at he2
      subst he2
      obtain ⟨_, p2, _⟩ := Allow_present l now key e hc
      exact (p2 (product_progress l e now hrate2 hcap hcap1 (hb key e he).1 (hl key e he)
        (by rw [f1]; exact hp))).1
  refine ⟨?_, hprod, ?_, ?_⟩
  · intro h
    exact (Allow_absent l now key (cleanupLocked_none l now key h)).1
  · intro e r he hr hex
    refine hprod e he ?_
    rw [hr]
    have hr0 : 0 < r := by
      rw [hr] at hrate
      simpa [Float64.lt] using hrate
    exact exact_progress r _ hr0 (timeSub_le _ _) hex
  · intro e hc hfin
    have he := (cleanupLocked_some l now key e hc).1
    obtain ⟨h0, h1⟩ := hb key e he
    have hform := refillLocked_formula l e now hcap h0 (by rw [f2]; exact h1) (hl key e he)
      (by rw [f1]; exact hfin)
    rw [f1, f2] at hform
    obtain ⟨r0, _, r2⟩ := refillLocked_tokens l e now hrate2 hcap h0 (by rw [f2]; exact h1)
    rw [hform] at r0
    rw [hform, f2] at r2
    obtain ⟨p1, p2, _⟩ := Allow_present l now key e hc
    rw [hform] at p1 p2
    generalize refilledTokens (Float64.ofInt burst) rate e now = F at hform r0 r2 p1 p2 ⊢
    refine ⟨?_, ?_, ?_⟩
    · cases hlt : F.lt (.finite 1) with
      | true => exact Or.inr rfl
      | false => exact Or.inl (Float64.nonneg_not_lt _ _ r0 one_isNonneg hlt)
    · intro hge
      obtain ⟨q1, q2⟩ := p2 (Float64.le_not_lt _ _ hge)
      refine ⟨q1, _, q2, rfl, ?_⟩
      intro h53
      rw [ofInt_exact burst hburst h53] at r2
      rcases r0 with rfl | ⟨q, rfl, q0, qrep⟩
      · simp [Float64.le] at r2
      · simp only [Float64.le, decide_eq_true_eq] at r2 hge
        have hq53 : q ≤ 2 ^ 53 := by
          have : (burst : ℚ) ≤ 2 ^ 53 := by exact_mod_cast h53
          linarith
        exact ⟨q, rfl, Float64.sub_one_exact q qrep hge hq53⟩
    · intro hlt
      obtain ⟨q1, q2⟩ := p1 hlt
      exact ⟨q1, _, q2, hform⟩

/-- C24 (amended), instantiated (`TestTokenBucketLimiterAllow`, refill after a second): rate
1, burst 2; after three calls at one instant the bucket is empty, and one second later the
product of the elapsed seconds and the rate is 1 and `Allow` returns true. -/
theorem C24_refill_progress_witness :
    ((NewTokenBucketLimiter (.finite 1) 2 timeMinute).run
        [(5, "client"), (5, "client"), (5, "client")]).2.buckets "client" =
        some { tokens := .finite 0, last := 5, lastSeen := 5 } ∧
      (((NewTokenBucketLimiter (.finite 1) 2 timeMinute).run
        [(5, "client"), (5, "client"), (5, "client")]).2.Allow 1000000005 "client").1 = true :=
  ⟨by decide!,
    (C24_refill_progress (.finite 1) 2 timeMinute (by decide!) (by decide)
      [(5, "client"), (5, "client"), (5, "client")] 1000000005 "client"
      (by decide)).2.1 { tokens := .finite 0, last := 5, lastSeen := 5 } (by decide!)
      (by decide!)⟩

/-! ## The rate limiter: the number of allowed calls -/

theorem finite_of_bounded (t : Float64) (c : ℚ) (h0 : t.nonneg)
    (h1 : t.le (.finite c) = true) :
    ∃ q, t = .finite q ∧ 0 ≤ q ∧ q ≤ c ∧ representable q := by
  rcases h0 with rfl | ⟨q, rfl, q0, qrep⟩
  · simp [Float64.le] at h1
  · exact ⟨q, rfl, q0, by simpa [Float64.le] using h1, qrep⟩

theorem conforms_facts (l : TokenBucketLimiter) (r c : ℚ) (ttl : Int) (hr : 0 < r)
    (hc1 : 1 ≤ c) (hcrep : representable c) (h : l.conforms r c ttl) :
    (Float64.finite 0).lt l.rate = true ∧ l.capacity.nonneg ∧
      (Float64.finite 1).le l.capacity = true ∧
      ∀ k b, l.buckets k = some b → b.tokens.nonneg ∧ b.tokens.le l.capacity = true := by
  obtain ⟨h1, h2, _, h4⟩ := h
  rw [h1, h2]
  refine ⟨by simp [Float64.lt, hr], Or.inr ⟨c, rfl, by linarith, hcrep⟩,
    by simp [Float64.le, hc1], ?_⟩
  intro k b hb
  obtain ⟨q, hq, q0, qc, qrep⟩ := h4 k b hb
  rw [hq]
  exact ⟨Or.inr ⟨q, rfl, q0, qrep⟩, by simp [Float64.le, qc]⟩

theorem conforms_Allow (l : TokenBucketLimiter) (r c : ℚ) (ttl : Int) (hr : 0 < r)
    (hc1 : 1 ≤ c) (hcrep : representable c) (h : l.conforms r c ttl) (now : Int)
    (key : String) : (l.Allow now key).2.conforms r c ttl := by
  obtain ⟨g1, g2, g3, g4⟩ := conforms_facts l r c ttl hr hc1 hcrep h
  obtain ⟨h1, h2, h3, _⟩ := h
  obtain ⟨f1, f2, f3, _⟩ := Allow_fields l now key
  refine ⟨by rw [f1, h1], by rw [f2, h2], by rw [f3, h3], ?_⟩
  intro k b hb
  obtain ⟨b0, b1⟩ := Allow_bounded l now key g1 g2 g3 g4 k b hb
  rw [h2] at b1
  exact finite_of_bounded _ c b0 b1

theorem conforms_reachable (r : ℚ) (burst ttl : Int) (hr : 0 < r) (hburst : 1 ≤ burst)
    (h53 : burst ≤ 2 ^ 53) (httl : 0 < ttl) (calls : List (Int × String)) :
    ((NewTokenBucketLimiter (.finite r) burst ttl).run calls).2.conforms r (burst : ℚ) ttl := by
  have hrate : (Float64.finite 0).lt (.finite r) = true := by simp [Float64.lt, hr]
  rw [NewTokenBucketLimiter_eq _ burst ttl hrate hburst]
  have h0 : ¬ ttl ≤ 0 := by omega
  simp only [h0, ↓reduceIte]
  obtain ⟨⟨f1, f2, f3, _⟩, hb⟩ := newLimiter_invariant (.finite r) burst ttl hrate hburst calls
  rw [ofInt_exact burst hburst h53] at f2 hb
  exact ⟨f1, f2, f3, fun k b h => finite_of_bounded _ _ (hb k b h).1 (hb k b h).2⟩

theorem cleanupLocked_evicted (l : TokenBucketLimiter) (now : Int) (key : String) (e : bucket)
    (h : l.buckets key = some e) (hc : (l.cleanupLocked now).buckets key = none) :
    e.lastSeen < now + wrapInt64 (-l.ttl) := by
  by_contra hn
  rw [cleanupLocked_keep l now key e h (not_lt.1 hn)] at hc
  exact absurd hc (by simp)

theorem exactSeconds_mono (a b : Int) (h : a ≤ b) : exactSeconds a ≤ exactSeconds b := by
  unfold exactSeconds
  apply div_le_div_of_nonneg_right _ (by norm_num)
  exact_mod_cast h

theorem exactSeconds_sub (a b c : Int) :
    exactSeconds (c - a) = exactSeconds (c - b) + exactSeconds (b - a) := by
  unfold exactSeconds
  push_cast
  ring

theorem exactSeconds_nonneg (a : Int) (h : 0 ≤ a) : 0 ≤ exactSeconds a := by
  unfold exactSeconds
  have : (0 : ℚ) ≤ (a : ℚ) := by exact_mod_cast h
  positivity

theorem allowedCount_cons (a : Bool) (rest : List Bool) :
    allowedCount (a :: rest) = allowedCount [a] + allowedCount rest := by
  cases a <;> simp [allowedCount, List.count_cons]
  ring

theorem allowedCount_nonneg (answers : List Bool) : 0 ≤ allowedCount answers := by
  unfold allowedCount
  positivity

theorem Allow_absent_count (l : TokenBucketLimiter) (now : Int) (key : String) (c : ℚ)
    (hcap : l.capacity = .finite c) (hc1 : 1 ≤ c) (hc53 : c ≤ 2 ^ 53)
    (hcrep : representable c) (hc : (l.cleanupLocked now).buckets key = none) :
    ∃ e2 q2, (l.Allow now key).2.buckets key = some e2 ∧ e2.tokens = .finite q2 ∧
      e2.lastSeen = now ∧ now ≤ e2.last ∧ allowedCount [(l.Allow now key).1] + q2 = c := by
  obtain ⟨a1, a2, _⟩ := Allow_absent l now key hc
  rw [hcap, Float64.sub_one_exact c hcrep hc1 hc53] at a2
  refine ⟨_, c - 1, a2, rfl, rfl, le_refl _, ?_⟩
  simp [allowedCount, a1]

theorem Allow_present_count (l : TokenBucketLimiter) (now : Int) (key : String) (e : bucket)
    (hc : (l.cleanupLocked now).buckets key = some e) (q1 : ℚ)
    (hq1 : (l.refillLocked e now).tokens = .finite q1) (h53 : q1 ≤ 2 ^ 53)
    (hrep : representable q1) :
    ∃ e2 q2, (l.Allow now key).2.buckets key = some e2 ∧ e2.tokens = .finite q2 ∧
      e2.lastSeen = now ∧ e2.last = (l.refillLocked e now).last ∧
      allowedCount [(l.Allow now key).1] + q2 = q1 := by
  obtain ⟨p1, p2, _⟩ := Allow_present l now key e hc
  cases hlt : (l.refillLocked e now).tokens.lt (.finite 1) with
  | true =>
    obtain ⟨a1, a2⟩ := p1 hlt
    refine ⟨_, q1, a2, hq1, rfl, rfl, ?_⟩
    simp [allowedCount, a1]
  | false =>
    obtain ⟨a1, a2⟩ := p2 hlt
    have hge : 1 ≤ q1 := by
      rw [hq1] at hlt
      simpa [Float64.lt] using hlt
    rw [hq1, Float64.sub_one_exact q1 hrep hge h53] at a2
    refine ⟨_, q1 - 1, a2, rfl, rfl, rfl, ?_⟩
    simp [allowedCount, a1]

theorem refillLocked_last (l : TokenBucketLimiter) (e : bucket) (now : Int) :
    now ≤ (l.refillLocked e now).last := by
  unfold TokenBucketLimiter.refillLocked
  by_cases hgt : now > e.last
  · simp [hgt]
  · simp only [hgt, not_false_eq_true, ↓reduceIte]
    omega

/-- The first call of a sequence: whatever the bucket was, the call leaves a bucket seen and
refilled no earlier than `now`, and the token it may have granted plus the tokens left are
at most the capacity. -/
theorem first_call (l : TokenBucketLimiter) (r c : ℚ) (ttl : Int) (hr : 0 < r) (hc1 : 1 ≤ c)
    (hc53 : c ≤ 2 ^ 53) (hcrep : representable c) (h : l.conforms r c ttl) (now : Int)
    (key : String) :
    ∃ e2 q2, (l.Allow now key).2.buckets key = some e2 ∧ e2.tokens = .finite q2 ∧
      e2.lastSeen = now ∧ now ≤ e2.last ∧ allowedCount [(l.Allow now key).1] + q2 ≤ c := by
  obtain ⟨g1, g2, g3, g4⟩ := conforms_facts l r c ttl hr hc1 hcrep h
  obtain ⟨h1, h2, h3, h4⟩ := h
  cases hc : (l.cleanupLocked now).buckets key with
  | none =>
    obtain ⟨e2, q2, a1, a2, a3, a4, a5⟩ := Allow_absent_count l now key c h2 hc1 hc53 hcrep hc
    exact ⟨e2, q2, a1, a2, a3, a4, le_of_eq a5⟩
  | some e =>
    have he := (cleanupLocked_some l now key e hc).1
    obtain ⟨t0, t1⟩ := g4 key e he
    obtain ⟨r0, _, r2⟩ := refillLocked_tokens l e now g1 g2 t0 t1
    rw [h2] at r2
    obtain ⟨q1, hq1, _, q1c, q1rep⟩ := finite_of_bounded _ c r0 r2
    obtain ⟨e2, q2, a1, a2, a3, a4, a5⟩ := Allow_present_count l now key e hc q1 hq1
      (by linarith) q1rep
    refine ⟨e2, q2, a1, a2, a3, ?_, by linarith⟩
    rw [a4]
    exact refillLocked_last l e now

theorem refill_upper (q ev r c : ℚ) (hq : 0 ≤ q) (hev : 0 < ev) (hr : 0 < r)
    (hc : representable c) (q2 : ℚ)
    (h : Float64.Min (.finite c)
      ((Float64.finite q).add ((Float64.finite ev).mul (.finite r))) = .finite q2) :
    q2 ≤ (q + (ev * r * (1 + pow2 (-53)) + pow2 (-1075))) * (1 + pow2 (-53)) +
      pow2 (-1075) := by
  have hu := pow2_neg53_bounds.1
  have hη := pow2_pos (-1075)
  generalize hudef : pow2 (-53) = u at hu ⊢
  generalize hηdef : pow2 (-1075) = η at hη ⊢
  have hx : 0 ≤ ev * r := le_of_lt (mul_pos hev hr)
  have hmul : (Float64.finite ev).mul (.finite r) = Float64.round (ev * r) := rfl
  have hminf : Float64.Min (.finite c) (.inf false) = .finite c := by
    simp [Float64.Min, Float64.lt]
  rw [hmul] at h
  generalize ev * r = X at hx h ⊢
  have hXu : 0 ≤ X * u := mul_nonneg hx (le_of_lt hu)
  have hbase : q + X ≤ (q + (X * (1 + u) + η)) * (1 + u) + η := by
    have h1 : 0 ≤ (q + (X * (1 + u) + η)) * u :=
      mul_nonneg (by nlinarith) (le_of_lt hu)
    nlinarith
  rcases round_nonneg X hx with ⟨e1, hinf⟩ | ⟨p, e1, p0, _, _, _, perr, _⟩
  · rw [e1] at h
    have hadd : (Float64.finite q).add (.inf false) = .inf false := rfl
    rw [hadd, hminf] at h
    simp only [Float64.finite.injEq] at h
    subst h
    have := hinf c hc
    linarith
  · rw [e1] at h
    have hadd : (Float64.finite q).add (.finite p) = Float64.round (q + p) := rfl
    rw [hadd] at h
    rw [hηdef, hudef] at perr
    have hp : p ≤ X * (1 + u) + η := by
      have := (abs_le.1 perr).2
      linarith
    have hqp : 0 ≤ q + p := by linarith
    rcases round_nonneg (q + p) hqp with ⟨e2, hinf⟩ | ⟨s, e2, s0, _, _, _, serr, _⟩
    · rw [e2, hminf] at h
      simp only [Float64.finite.injEq] at h
      subst h
      have := hinf c hc
      have h1 : 0 ≤ (q + (X * (1 + u) + η)) * u :=
        mul_nonneg (by nlinarith) (le_of_lt hu)
      nlinarith
    · rw [e2] at h
      rw [hηdef, hudef] at serr
      have hs : s ≤ (q + p) * (1 + u) + η := by
        have := (abs_le.1 serr).2
        linarith
      have hmono : (q + p) * (1 + u) ≤ (q + (X * (1 + u) + η)) * (1 + u) :=
        mul_le_mul_of_nonneg_right (by linarith) (by linarith)
      have hq2 : q2 ≤ s := by
        have hm : Float64.Min (.finite c) (.finite s) =
            if c < s then .finite c else .finite s := by
          simp [Float64.Min, Float64.lt]
        rw [hm] at h
        split_ifs at h with h3
        · simp only [Float64.finite.injEq] at h
          subst h
          exact le_of_lt h3
        · simp only [Float64.finite.injEq] at h
          subst h
          exact le_refl _
      linarith

theorem pow2_neg1074 : pow2 (-1074) = 2 * pow2 (-1075) := by
  have h : pow2 (-1074) = pow2 (-1075) * pow2 1 := by
    rw [← pow2_add]
    norm_num
  have h1 : pow2 1 = 2 := by
    rw [pow2_eq]
    norm_num
  rw [h, h1]
  ring

/-- A later call of the sequence, `t1` after a call at `t0`: the token it may grant plus the
tokens left are at most the tokens held before plus `rate` times the seconds between the two
calls, up to the rounding of the refill, provided an eviction cannot give more than a refill
(`capacity <= rate * ttl`) or cannot happen (the calls are at most `ttl` apart). -/
theorem next_call (l : TokenBucketLimiter) (r c : ℚ) (ttl : Int) (hr : 0 < r) (hc1 : 1 ≤ c)
    (hc53 : c ≤ 2 ^ 53) (hcrep : representable c) (httl0 : 0 < ttl)
    (httl1 : ttl ≤ maxDuration) (h : l.conforms r c ttl) (t0 t1 : Int) (key : String)
    (e : bucket) (q : ℚ) (he : l.buckets key = some e) (hq : e.tokens = .finite q)
    (hseen : e.lastSeen = t0) (hlast : t0 ≤ e.last) (hle : t0 ≤ t1)
    (hsafe : c ≤ r * exactSeconds ttl ∨ t1 - t0 ≤ ttl) :
    ∃ e2 q2, (l.Allow t1 key).2.buckets key = some e2 ∧ e2.tokens = .finite q2 ∧
      e2.lastSeen = t1 ∧ t1 ≤ e2.last ∧
      allowedCount [(l.Allow t1 key).1] + q2 ≤
        (1 + pow2 (-53)) *
          (q + r * (1 + pow2 (-53)) ^ 3 * exactSeconds (t1 - t0) + pow2 (-1074)) := by
  obtain ⟨g1, g2, g3, g4⟩ := conforms_facts l r c ttl hr hc1 hcrep h
  obtain ⟨h1, h2, h3, h4⟩ := h
  have hu := pow2_neg53_bounds.1
  have hη := pow2_pos (-1075)
  rw [pow2_neg1074]
  have hq0 : 0 ≤ q := by
    obtain ⟨q', e1, q0, _, _⟩ := h4 key e he
    rw [hq] at e1
    simp only [Float64.finite.injEq] at e1
    rw [e1]
    exact q0
  have hδ : 0 ≤ exactSeconds (t1 - t0) := exactSeconds_nonneg _ (by omega)
  generalize hudef : pow2 (-53) = u at hu ⊢
  generalize hηdef : pow2 (-1075) = η at hη ⊢
  have hu3 : 1 ≤ (1 + u) ^ 3 := one_le_pow₀ (by linarith)
  have hR : r * exactSeconds (t1 - t0) ≤ r * (1 + u) ^ 3 * exactSeconds (t1 - t0) := by
    have := mul_le_mul_of_nonneg_left hu3 (mul_nonneg (le_of_lt hr) hδ)
    nlinarith
  have hRδ : 0 ≤ r * (1 + u) ^ 3 * exactSeconds (t1 - t0) := by positivity
  have hgrow : ∀ y, 0 ≤ y → y ≤ (1 + u) * y := by
    intro y hy
    have := mul_nonneg (le_of_lt hu) hy
    linarith
  cases hc : (l.cleanupLocked t1).buckets key with
  | none =>
    have hev := cleanupLocked_evicted l t1 key e he hc
    rw [h3, hseen, wrapInt64_neg ttl httl0 httl1] at hev
    obtain ⟨e2, q2, a1, a2, a3, a4, a5⟩ := Allow_absent_count l t1 key c h2 hc1 hc53 hcrep hc
    refine ⟨e2, q2, a1, a2, a3, a4, ?_⟩
    rw [a5]
    rcases hsafe with hs | hs
    · have hm := mul_le_mul_of_nonneg_left (exactSeconds_mono ttl (t1 - t0) (by omega))
        (le_of_lt hr)
      have := hgrow (q + r * (1 + u) ^ 3 * exactSeconds (t1 - t0) + 2 * η) (by linarith)
      linarith
    · omega
  | some e2 =>
    have he2 := (cleanupLocked_some l t1 key e2 hc).1
    rw [he] at he2
    simp only [Option.some.injEq] at he2
    subst he2
    obtain ⟨t0', t1'⟩ := g4 key e he
    obtain ⟨r0, _, r2⟩ := refillLocked_tokens l e t1 g1 g2 t0' t1'
    rw [h2] at r2
    obtain ⟨q1, hq1, _, q1c, q1rep⟩ := finite_of_bounded _ c r0 r2
    obtain ⟨e2, q2, a1, a2, a3, a4, a5⟩ := Allow_present_count l t1 key e hc q1 hq1
      (by linarith) q1rep
    refine ⟨e2, q2, a1, a2, a3, by rw [a4]; exact refillLocked_last l e t1, ?_⟩
    rw [a5]
    by_cases hgt : t1 > e.last
    · have hform : (l.refillLocked e t1).tokens =
          Float64.Min l.capacity
            (e.tokens.add ((durationSeconds (timeSub t1 e.last)).mul l.rate)) := by
        simp [TokenBucketLimiter.refillLocked, hgt]
      obtain ⟨d0, d1, d2⟩ := timeSub_pos t1 e.last hgt
      obtain ⟨ev, eev, ev0, _, _, evhi⟩ := durationSeconds_spec _ d0 d1
      rw [hq1, h1, h2, hq, eev] at hform
      have hup := refill_upper q ev r c hq0 ev0 hr hcrep q1 hform.symm
      rw [hudef, hηdef] at hup
      rw [hudef] at evhi
      have hd : exactSeconds (timeSub t1 e.last) ≤ exactSeconds (t1 - t0) :=
        exactSeconds_mono _ _ (by omega)
      have hev : ev * r * (1 + u) ≤ r * (1 + u) ^ 3 * exactSeconds (t1 - t0) := by
        have h1u : 0 ≤ r * (1 + u) := by positivity
        have hA : ev * (r * (1 + u)) ≤
            (exactSeconds (timeSub t1 e.last) * (1 + u) ^ 2) * (r * (1 + u)) :=
          mul_le_mul_of_nonneg_right evhi h1u
        have h3u : 0 ≤ (1 + u) ^ 2 * (r * (1 + u)) := by positivity
        have hB := mul_le_mul_of_nonneg_right hd h3u
        nlinarith
      have hmono : (q + (ev * r * (1 + u) + η)) * (1 + u) ≤
          (q + (r * (1 + u) ^ 3 * exactSeconds (t1 - t0) + η)) * (1 + u) :=
        mul_le_mul_of_nonneg_right (by linarith) (by linarith)
      have := mul_pos hu hη
      nlinarith
    · have hidle : (l.refillLocked e t1).tokens = e.tokens := by
        rw [refillLocked_idle l e t1 hgt]
      rw [hq1, hq] at hidle
      simp only [Float64.finite.injEq] at hidle
      rw [hidle]
      have := hgrow (q + r * (1 + u) ^ 3 * exactSeconds (t1 - t0) + 2 * η) (by linarith)
      linarith

theorem later_calls (r c : ℚ) (ttl : Int) (hr : 0 < r) (hc1 : 1 ≤ c) (hc53 : c ≤ 2 ^ 53)
    (hcrep : representable c) (httl0 : 0 < ttl) (httl1 : ttl ≤ maxDuration) (key : String) :
    ∀ (times : List Int) (l : TokenBucketLimiter) (e : bucket) (q : ℚ) (t0 : Int) (D : ℚ),
      l.conforms r c ttl → l.buckets key = some e → e.tokens = .finite q → 0 ≤ q →
      e.lastSeen = t0 → t0 ≤ e.last →
      List.Chain (fun a b => a ≤ b ∧ (c ≤ r * exactSeconds ttl ∨ b - a ≤ ttl)) t0 times →
      0 ≤ D → (∀ t ∈ times, exactSeconds (t - t0) ≤ D) →
      allowedCount (l.run (times.map (fun t => (t, key)))).1 ≤
        (1 + pow2 (-53)) ^ times.length *
          (q + r * (1 + pow2 (-53)) ^ 3 * D + (times.length : ℚ) * pow2 (-1074))
  | [], l, e, q, t0, D, _, _, _, hq0, _, _, _, hD, _ => by
    have hu := pow2_neg53_bounds.1
    have : 0 ≤ r * (1 + pow2 (-53)) ^ 3 * D := by positivity
    simp [TokenBucketLimiter.run, allowedCount]
    linarith
  | t1 :: rest, l, e, q, t0, D, h, he, hq, hq0, hseen, hlast, hchain, hD, hwin => by
    obtain ⟨⟨hle, hsafe⟩, hchain2⟩ := List.chain_cons.1 hchain
    obtain ⟨e2, q2, b1, b2, b3, b4, b5⟩ := next_call l r c ttl hr hc1 hc53 hcrep httl0 httl1 h
      t0 t1 key e q he hq hseen hlast hle hsafe
    have hconf := conforms_Allow l r c ttl hr hc1 hcrep h t1 key
    have hq20 : 0 ≤ q2 := by
      obtain ⟨q', e1, q0, _, _⟩ := hconf.2.2.2 key e2 b1
      rw [b2] at e1
      simp only [Float64.finite.injEq] at e1
      rw [e1]
      exact q0
    have hD1 := hwin t1 (List.mem_cons_self _ _)
    have ih := later_calls r c ttl hr hc1 hc53 hcrep httl0 httl1 key rest (l.Allow t1 key).2
      e2 q2 t1 (D - exactSeconds (t1 - t0)) hconf b1 b2 hq20 b3 b4 hchain2 (by linarith)
      (fun t ht => by
        have := hwin t (List.mem_cons_of_mem _ ht)
        rw [exactSeconds_sub t0 t1 t] at this
        linarith)
    simp only [List.map_cons, TokenBucketLimiter.run, List.length_cons]
    rw [allowedCount_cons, pow_succ]
    push_cast
    have hu := pow2_neg53_bounds.1
    have hη := pow2_pos (-1074)
    have ha := allowedCount_nonneg [(l.Allow t1 key).1]
    generalize allowedCount [(l.Allow t1 key).1] = a at b5 ha ⊢
    generalize allowedCount ((l.Allow t1 key).2.run (rest.map (fun t => (t, key)))).1 = cnt
      at ih ⊢
    generalize exactSeconds (t1 - t0) = δ at b5 ih hD1
    generalize pow2 (-53) = u at hu b5 ih ⊢
    generalize pow2 (-1074) = η at hη b5 ih ⊢
    have hn : (0 : ℚ) ≤ (rest.length : ℚ) := Nat.cast_nonneg _
    generalize (rest.length : ℚ) = n at hn ih ⊢
    have hK : 1 ≤ (1 + u) ^ rest.length := one_le_pow₀ (by linarith)
    generalize (1 + u) ^ rest.length = K at hK ih ⊢
    have hR : 0 ≤ r * (1 + u) ^ 3 := by positivity
    generalize r * (1 + u) ^ 3 = R at hR b5 ih ⊢
    have hY : 0 ≤ R * (D - δ) + n * η := by
      have := mul_nonneg hR (by linarith : 0 ≤ D - δ)
      have := mul_nonneg hn (le_of_lt hη)
      linarith
    have s1 : a + cnt ≤ K * (a + q2 + (R * (D - δ) + n * η)) := by
      have := mul_nonneg (by linarith : 0 ≤ K - 1) ha
      nlinarith
    have s2 : a + q2 + (R * (D - δ) + n * η) ≤
        (1 + u) * (q + R * D + (n + 1) * η) := by
      have := mul_nonneg (le_of_lt hu) hY
      nlinarith
    have s3 := mul_le_mul_of_nonneg_left s2 (by linarith : 0 ≤ K)
    calc a + cnt ≤ K * (a + q2 + (R * (D - δ) + n * η)) := s1
      _ ≤ K * ((1 + u) * (q + R * D + (n + 1) * η)) := s3
      _ = K * (1 + u) * (q + R * D + (n + 1) * η) := by ring

theorem run_absorbing (now : Int) (key : String) (t : Float64)
    (ht1 : t.lt (.finite 1) = false) (hts : t.sub (.finite 1) = t) :
    ∀ (n : Nat) (l : TokenBucketLimiter) (e : bucket), wrapInt64 (-l.ttl) ≤ 0 →
      l.buckets key = some e → e.tokens = t → ¬ now > e.last → now ≤ e.lastSeen →
      (l.run (List.replicate n (now, key))).1 = List.replicate n true := by
  intro n
  induction n with
  | zero =>
    intro l e _ _ _ _ _
    rfl
  | succ n ih =>
    intro l e httl he ht hlast hseen
    have hc := cleanupLocked_keep l now key e he (by omega)
    obtain ⟨_, p2, _⟩ := Allow_present l now key e hc
    rw [refillLocked_idle l e now hlast, ht] at p2
    obtain ⟨q1, q2⟩ := p2 ht1
    obtain ⟨_, _, f3, _⟩ := Allow_fields l now key
    rw [hts] at q2
    have := ih (l.Allow now key).2 { e with tokens := t, lastSeen := now }
      (by rw [f3]; exact httl) q2 rfl hlast (le_refl _)
    rw [List.replicate_succ, TokenBucketLimiter.run, q1, this]
    rfl

theorem run_fresh_absorbing (l : TokenBucketLimiter) (now : Int) (key : String)
    (t : Float64) (hcap : l.capacity.sub (.finite 1) = t) (ht1 : t.lt (.finite 1) = false)
    (hts : t.sub (.finite 1) = t) (httl : wrapInt64 (-l.ttl) ≤ 0)
    (hkey : l.buckets key = none) (n : Nat) :
    (l.run (List.replicate (n + 1) (now, key))).1 = List.replicate (n + 1) true := by
  obtain ⟨a1, a2, _⟩ := Allow_absent l now key (cleanupLocked_none l now key hkey)
  rw [hcap] at a2
  obtain ⟨_, _, g3, _⟩ := Allow_fields l now key
  have := run_absorbing now key t ht1 hts n (l.Allow now key).2
    { tokens := t, last := now, lastSeen := now } (by rw [g3]; exact httl) a2 rfl (by simp)
    (le_refl _)
  rw [List.replicate_succ, TokenBucketLimiter.run, a1, this]
  rfl

/-! ## C23 -/

/-- C23, as stated, fails in three ways.  Eviction: rate 1 token/s, burst 2, ttl 1 s; two
calls at 10 s are allowed and empty the bucket; at 11.5 s the bucket, idle for more than
`ttl`, is evicted and created anew, so two more calls are allowed: 4 calls within 1.5 s,
above `burst + rate * T = 3.5`.  Rounding: rate `float64(1/3)`, which is below 1/3, burst 1;
a call at 5 ns empties the bucket and 3 s later the `float64` product of 3 and the rate is
1, so the call is allowed: 2 calls within 3 s, above `burst + rate * T = 2 - 2^-54`.
Absorption: burst `2^54`, rate 1; the new bucket holds `2^54` tokens and subtracting 1 in
`float64` leaves `2^54`, so all of `2^54 + 1` calls at one clock reading are allowed, above
`burst + rate * 0`. -/
theorem C23_counterexample :
    (((NewTokenBucketLimiter (.finite 1) 2 1000000000).run
          [(10000000000, "client"), (10000000000, "client"), (11500000000, "client"),
            (11500000000, "client")]).1 = [true, true, true, true] ∧
        exactSeconds (11500000000 - 10000000000) = 3 / 2 ∧
        ¬ allowedCount [true, true, true, true] ≤ ((2 : Int) : ℚ) + 1 * (3 / 2)) ∧
      (((NewTokenBucketLimiter (.finite (6004799503160661 / 18014398509481984)) 1
          timeMinute).run [(5, "client"), (3000000005, "client")]).1 = [true, true] ∧
        Float64.round (1 / 3) = .finite (6004799503160661 / 18014398509481984) ∧
        exactSeconds (3000000005 - 5) = 3 ∧
        ¬ allowedCount [true, true] ≤
          ((1 : Int) : ℚ) + 6004799503160661 / 18014398509481984 * 3) ∧
      (allowedCount ((NewTokenBucketLimiter (.finite 1) (2 ^ 54) timeMinute).run
          (List.replicate (2 ^ 54 + 1) (5, "client"))).1 = 2 ^ 54 + 1 ∧
        exactSeconds (5 - 5) = 0 ∧
        ¬ ((2 : ℚ) ^ 54 + 1 ≤ (((2 : Int) ^ 54 : Int) : ℚ) + 1 * 0)) := by
  refine ⟨by decide!, by decide!, ?_, by decide!, by norm_num⟩
  rw [run_fresh_absorbing (NewTokenBucketLimiter (.finite 1) (2 ^ 54) timeMinute) 5 "client"
    (.finite (2 ^ 54)) (by decide!) (by decide!) (by decide!) (by decide) rfl (2 ^ 54)]
  unfold allowedCount
  rw [List.count_replicate_self]
  norm_num

/-- C23 (amended): for every limiter built by `NewTokenBucketLimiter` with a finite
`rate > 0` (any positive rational, in particular any positive finite `float64`), a burst
with `1 <= burst <= 2^53` and a `ttl > 0` that is a `time.Duration`, every state it reaches
by `Allow` calls, every key and every sequence of `n` calls `Allow(key)` whose timestamps
are non-decreasing and lie within a window of `T` seconds, the number of calls that return
true is at most `(1 + 2^-53)^(n+2) * (burst + rate * T + n * 2^-1074)`, provided that
`burst <= rate * ttl` (`ttl` in seconds) or no two consecutive calls of the sequence are
more than `ttl` apart.  `burst`, `rate * T` and `rate * ttl` are exact rational numbers; the
limiter computes in `float64`. -/
theorem C23_allowed_bound (r : ℚ) (burst ttl : Int) (hrate : 0 < r) (hburst : 1 ≤ burst)
    (h53 : burst ≤ 2 ^ 53) (httl : 0 < ttl) (httl1 : ttl ≤ maxDuration)
    (calls : List (Int × String)) (key : String) (times : List Int) (T : ℚ) (hT : 0 ≤ T)
    (hsteps : List.Chain'
      (fun a b => a ≤ b ∧ ((burst : ℚ) ≤ r * exactSeconds ttl ∨ b - a ≤ ttl)) times)
    (hwin : ∀ a ∈ times, ∀ b ∈ times, exactSeconds (b - a) ≤ T) :
    allowedCount (((NewTokenBucketLimiter (.finite r) burst ttl).run calls).2.run
        (times.map (fun t => (t, key)))).1 ≤
      (1 + pow2 (-53)) ^ (times.length + 2) *
        ((burst : ℚ) + r * T + (times.length : ℚ) * pow2 (-1074)) := by
  have hc := conforms_reachable r burst ttl hrate hburst h53 httl calls
  generalize ((NewTokenBucketLimiter (.finite r) burst ttl).run calls).2 = l at hc ⊢
  have hc1 : (1 : ℚ) ≤ (burst : ℚ) := by exact_mod_cast hburst
  have hc53 : (burst : ℚ) ≤ 2 ^ 53 := by exact_mod_cast h53
  have hcrep : representable (burst : ℚ) :=
    representable_int burst (by rw [abs_of_nonneg (by omega)]; exact h53)
  have hu := pow2_neg53_bounds.1
  have hη := pow2_pos (-1074)
  cases times with
  | nil =>
    have h0 : allowedCount (l.run (([] : List Int).map (fun t => (t, key)))).1 = 0 := by
      simp [TokenBucketLimiter.run, allowedCount]
    rw [h0]
    exact mul_nonneg (pow_nonneg (by linarith) _)
      (add_nonneg (add_nonneg (by linarith) (mul_nonneg (le_of_lt hrate) hT))
        (mul_nonneg (Nat.cast_nonneg _) (le_of_lt hη)))
  | cons t1 rest =>
    obtain ⟨e2, q2, b1, b2, b3, b4, b5⟩ := first_call l r (burst : ℚ) ttl hrate hc1 hc53
      hcrep hc t1 key
    have hconf := conforms_Allow l r (burst : ℚ) ttl hrate hc1 hcrep hc t1 key
    have hq20 : 0 ≤ q2 := by
      obtain ⟨q', e1, q0, _, _⟩ := hconf.2.2.2 key e2 b1
      rw [b2] at e1
      simp only [Float64.finite.injEq] at e1
      rw [e1]
      exact q0
    have hl := later_calls r (burst : ℚ) ttl hrate hc1 hc53 hcrep httl httl1 key rest
      (l.Allow t1 key).2 e2 q2 t1 T hconf b1 b2 hq20 b3 b4 hsteps hT
      (fun t ht => hwin t1 (List.mem_cons_self _ _) t (List.mem_cons_of_mem _ ht))
    simp only [List.map_cons, TokenBucketLimiter.run, List.length_cons]
    rw [allowedCount_cons]
    push_cast
    have ha := allowedCount_nonneg [(l.Allow t1 key).1]
    generalize allowedCount [(l.Allow t1 key).1] = a at b5 ha ⊢
    generalize allowedCount ((l.Allow t1 key).2.run (rest.map (fun t => (t, key)))).1 = cnt
      at hl ⊢
    have hn : (0 : ℚ) ≤ (rest.length : ℚ) := Nat.cast_nonneg _
    have hsplit : (1 + pow2 (-53)) ^ (rest.length + 1 + 2) =
        (1 + pow2 (-53)) ^ rest.length * (1 + pow2 (-53)) ^ 3 := by
      rw [show rest.length + 1 + 2 = rest.length + 3 by ring, pow_add]
    rw [hsplit]
    generalize pow2 (-53) = u at hu hl ⊢
    generalize pow2 (-1074) = η at hη hl ⊢
    generalize (rest.length : ℚ) = n at hn hl ⊢
    have hK : 1 ≤ (1 + u) ^ rest.length := one_le_pow₀ (by linarith)
    generalize (1 + u) ^ rest.length = K at hK hl ⊢
    have hV : 1 ≤ (1 + u) ^ 3 := one_le_pow₀ (by linarith)
    generalize (1 + u) ^ 3 = V at hV hl ⊢
    have hrT : 0 ≤ r * T := mul_nonneg (le_of_lt hrate) hT
    have hnη : 0 ≤ n * η := mul_nonneg hn (le_of_lt hη)
    have s1 : a + cnt ≤ K * (a + q2 + r * V * T + n * η) := by
      have := mul_nonneg (by linarith : 0 ≤ K - 1) ha
      nlinarith
    have s2 : a + q2 + r * V * T + n * η ≤ V * ((burst : ℚ) + r * T + (n + 1) * η) := by
      have h1 := mul_nonneg (by linarith : 0 ≤ V - 1) (by linarith : 0 ≤ (burst : ℚ))
      have h2 := mul_nonneg (by linarith : 0 ≤ V - 1) hnη
      have h3 := mul_nonneg (by linarith : 0 ≤ V) (le_of_lt hη)
      nlinarith
    have s3 := mul_le_mul_of_nonneg_left s2 (by linarith : 0 ≤ K)
    calc a + cnt ≤ K * (a + q2 + r * V * T + n * η) := s1
      _ ≤ K * (V * ((burst : ℚ) + r * T + (n + 1) * η)) := s3
      _ = K * V * ((burst : ℚ) + r * T + (n + 1) * η) := by ring

/-- C23 (amended), instantiated on the limiter of the service (5 tokens/s, burst 5, ttl one
minute): of the calls at 5 ns, 5 ns and 1 s + 5 ns, within a window of 1 s, at most
`(1 + 2^-53)^5 * (5 + 5 * 1 + 3 * 2^-1074)` are allowed. -/
theorem C23_allowed_bound_witness :
    allowedCount (((NewTokenBucketLimiter (.finite 5) 5 timeMinute).run []).2.run
        ([5, 5, 1000000005].map (fun t => (t, "client")))).1 ≤
      (1 + pow2 (-53)) ^ ([5, 5, 1000000005].length + 2) *
        (((5 : Int) : ℚ) + 5 * 1 + (([5, 5, 1000000005] : List Int).length : ℚ) *
          pow2 (-1074)) :=
  C23_allowed_bound 5 5 timeMinute (by norm_num) (by norm_num) (by norm_num) (by decide)
    (by decide) [] "client" [5, 5, 1000000005] 1 (by norm_num)
    (by norm_num [List.Chain', exactSeconds, timeMinute])
    (by
      intro a ha b hb
      simp only [List.mem_cons, List.mem_singleton, List.not_mem_nil, or_false] at ha hb
      rcases ha with rfl | rfl | rfl <;> rcases hb with rfl | rfl | rfl <;>
        norm_num [exactSeconds])

end CourierService
